import Mathlib

/-!
Transport router: catalogue, route graph builder and route planner

A shallow embedding of `transport_catalogue.{h,cpp}`, `transport_router.{h,cpp}` and
`ParseRoute` of `json_reader.cpp`, followed by the properties proved about them.

Conventions of the embedding.

* A `StopPtr` is the address of an element of the catalogue's `stops_` deque, or `nullptr`.
  The deque never relocates its elements, so the address of the `k`-th stop is modelled by
  `some k` and `nullptr` by `none`.  `BusPtr` is modelled in the same way.
* `double` values are modelled by rational numbers: the statements are about exact arithmetic,
  except where they name the operations of `double`, whose rounding is modelled in the
  namespace `double`.
* `size_t` is unbounded.  `int` is unbounded too, except in `GetRouteInfo`, where the sum of
  two `int` outside the range of 32 bits has no defined behaviour.
* `std::unordered_map` is modelled by an association list; `m[k] = v` puts the pair in front and
  a lookup returns the first pair with the key, so the last assignment wins.
* A C++ exception or an operation without defined behaviour ends the computation with an `Error`.
* `graph.h` and `router.h` are not among the sources.  The graph and the router are modelled
  from the specification (§3, §4.1, §4.2); every such definition says so.  The specification
  has the router for weights that are not negative only.
* A velocity of zero is outside the model: the rationals give `x / 0 = 0` where `double` gives
  an infinity or a NaN.
-/

namespace tc

/-- The ways in which the embedded code fails to return. -/
inductive Error where
  /-- `std::out_of_range`, thrown by a checked `.at()`. -/
  | out_of_range
  /-- An operation without defined behaviour (dereferencing `end()`, an iterator past the end,
  an overflow of `int`). -/
  | undefined_behaviour
  /-- `std::length_error`, thrown by `reserve` for a size above `max_size()`. -/
  | length_error
  deriving DecidableEq, Repr

/-- `geo::Coordinates`. -/
structure Coordinates where
  lat : ℚ
  lng : ℚ
  deriving DecidableEq, Repr

/-- `tc::Stop` of `domain.h`. -/
structure Stop where
  name : String
  coordinates : Coordinates
  deriving DecidableEq, Repr

/-- `tc::StopPtr`: `some k` is the address of the `k`-th element of `stops_`, `none` is `nullptr`. -/
abbrev StopPtr := Option Nat

/-- `tc::Bus` of `domain.h`. -/
structure Bus where
  name : String
  stops : List StopPtr
  end_stop_ptr : StopPtr
  is_roundtrip : Bool
  deriving DecidableEq, Repr

/-- `tc::BusPtr`: `some k` is the address of the `k`-th element of `buses_`, `none` is `nullptr`. -/
abbrev BusPtr := Option Nat

/-- `tc::TransportCatalogue`: the private members of the class. -/
structure TransportCatalogue where
  stops_ : List Stop := []
  stopname_to_stop_ : List (String × StopPtr) := []
  buses_ : List Bus := []
  busname_to_bus_ : List (String × BusPtr) := []
  stop_to_buses_ : List (StopPtr × List BusPtr) := []
  distances_ : List ((StopPtr × StopPtr) × Int) := []
  deriving DecidableEq, Repr

namespace TransportCatalogue

/-- `TransportCatalogue::AddStop`. -/
def AddStop (self : TransportCatalogue) (name : String) (coordinates : Coordinates) :
    TransportCatalogue :=
  let stop_ptr : StopPtr := some self.stops_.length
  { self with
    stops_ := self.stops_ ++ [⟨name, coordinates⟩]
    stopname_to_stop_ := (name, stop_ptr) :: self.stopname_to_stop_
    stop_to_buses_ := (stop_ptr, []) :: self.stop_to_buses_ }

/-- The loop of `TransportCatalogue::AddBus`: `stop_to_buses_.at(stop).insert(&bus)` for every
stop of the bus; `.at` throws for a stop that is not a key of the map. -/
def AddBus.loop (bus_ptr : BusPtr) :
    List StopPtr → List (StopPtr × List BusPtr) → Except Error (List (StopPtr × List BusPtr))
  | [], m => .ok m
  | stop :: rest, m =>
    match m.lookup stop with
    | none => .error .out_of_range
    | some buses =>
      AddBus.loop bus_ptr rest
        ((stop, if bus_ptr ∈ buses then buses else bus_ptr :: buses) :: m)

/-- `TransportCatalogue::AddBus`. -/
def AddBus (self : TransportCatalogue) (name : String) (stops : List StopPtr)
    (end_stop_ptr : StopPtr) (is_roundtrip : Bool) : Except Error TransportCatalogue :=
  let bus_ptr : BusPtr := some self.buses_.length
  match AddBus.loop bus_ptr stops self.stop_to_buses_ with
  | .error e => .error e
  | .ok m =>
    .ok { self with
          buses_ := self.buses_ ++ [⟨name, stops, end_stop_ptr, is_roundtrip⟩]
          busname_to_bus_ := (name, bus_ptr) :: self.busname_to_bus_
          stop_to_buses_ := m }

/-- `TransportCatalogue::SetDistance`. -/
def SetDistance (self : TransportCatalogue) (stop_from_ptr stop_to_ptr : StopPtr)
    (distance : Int) : TransportCatalogue :=
  { self with distances_ := ((stop_from_ptr, stop_to_ptr), distance) :: self.distances_ }

/-- `TransportCatalogue::GetDistance`: the entry of the pair, else the entry of the reversed
pair; with neither, the code dereferences `distances_.end()`. -/
def GetDistance (self : TransportCatalogue) (stop_from_ptr stop_to_ptr : StopPtr) :
    Except Error Int :=
  match self.distances_.lookup (stop_from_ptr, stop_to_ptr) with
  | some d => .ok d
  | none =>
    match self.distances_.lookup (stop_to_ptr, stop_from_ptr) with
    | some d => .ok d
    | none => .error .undefined_behaviour

/-- `TransportCatalogue::GetAllStops`. -/
def GetAllStops (self : TransportCatalogue) : List Stop := self.stops_

/-- `TransportCatalogue::GetAllBuses`. -/
def GetAllBuses (self : TransportCatalogue) : List Bus := self.buses_

/-- `TransportCatalogue::GetStop`. -/
def GetStop (self : TransportCatalogue) (name : String) : StopPtr :=
  match self.stopname_to_stop_.lookup name with
  | none => none
  | some p => p

/-- `TransportCatalogue::GetBus`. -/
def GetBus (self : TransportCatalogue) (name : String) : BusPtr :=
  match self.busname_to_bus_.lookup name with
  | none => none
  | some p => p

end TransportCatalogue

/-- `ParseRoute` of `json_reader.cpp`, on the list of stop names of the request: the names, and
for a route that is not a round trip the names again backwards without the last one.  For an
empty list that is not a round trip, `result.reserve(stops.size() * 2 - 1)` asks for
`SIZE_MAX` elements and throws `std::length_error`, before `std::next(stops.crbegin())` is
reached. -/
def ParseRoute (stops : List String) (is_roundtrip : Bool) : Except Error (List String) :=
  if is_roundtrip then .ok stops
  else
    match stops.reverse with
    | [] => .error .length_error
    | _ :: back => .ok (stops ++ back)

end tc

namespace graph

/-- Modelled from the spec: `graph::Edge` of `graph.h`, which is not among the sources
(§3 "Graph edge: `{from_vertex, to_vertex, weight}`"). -/
structure Edge where
  from_vertex : Nat
  to_vertex : Nat
  weight : ℚ
  deriving DecidableEq, Repr

/-- Modelled from the spec: `graph::DirectedWeightedGraph` of `graph.h`, which is not among the
sources (§3, §4.1): vertices are the indices below `vertex_count`, edges are kept in insertion
order and the id of an edge is its position. -/
structure DirectedWeightedGraph where
  vertex_count : Nat
  edges_ : List Edge := []
  deriving DecidableEq, Repr

namespace DirectedWeightedGraph

/-- Modelled from the spec: `AddEdge` of the absent `graph.h` (§4.1): "monotonically increasing
ids starting at 0, no validation beyond vertex indices being in range (fails with
`OutOfRangeError` otherwise)". -/
def AddEdge (self : DirectedWeightedGraph) (edge : Edge) :
    Except tc.Error (DirectedWeightedGraph × Nat) :=
  if edge.from_vertex < self.vertex_count ∧ edge.to_vertex < self.vertex_count then
    .ok ({ self with edges_ := self.edges_ ++ [edge] }, self.edges_.length)
  else .error .out_of_range

/-- Modelled from the spec: `VertexCount()` of the absent `graph.h` (§4.1). -/
def GetVertexCount (self : DirectedWeightedGraph) : Nat := self.vertex_count

/-- Modelled from the spec: `EdgeCount()` of the absent `graph.h` (§4.1). -/
def GetEdgeCount (self : DirectedWeightedGraph) : Nat := self.edges_.length

/-- Modelled from the spec: `IncidentEdges(vertex)` of the absent `graph.h` (§4.1): the ids of
the edges leaving the vertex. -/
def GetIncidentEdges (self : DirectedWeightedGraph) (vertex : Nat) : List Nat :=
  (List.range self.edges_.length).filter
    (fun id => (self.edges_[id]?).any (fun e => e.from_vertex = vertex))

end DirectedWeightedGraph

/-- Modelled from the spec: `graph::Router` of `router.h`, which is not among the sources
(§4.2: "Built once from a finished graph"): a router keeps the graph it was built from, and
`BuildRoute` searches this graph. -/
structure Router where
  graph : DirectedWeightedGraph
  deriving DecidableEq, Repr

/-- Modelled from the spec: `Router::RouteInfo` of `router.h`, which is not among the sources
(§4.2: `BuildRoute(from_vertex, to_vertex) -> optional {weight, ordered edge_id sequence}`). -/
structure RouteInfo where
  weight : ℚ
  edges : List Nat
  deriving DecidableEq, Repr

/-- Modelled from the spec: the bookkeeping of the absent `router.h` for one reached vertex
(§4.2): the least total weight found so far and the "parent edge", the last edge of a route of
that weight (`none` at the source). -/
structure RouteInternalData where
  weight : ℚ
  prev_edge : Option Nat
  deriving DecidableEq, Repr

namespace Router

/-- Modelled from the spec: the state of the search of the absent `router.h` from one source
(§4.2): the bookkeeping per reached vertex, as a map from the vertex, and the vertices not yet
settled.  The frontier is made of the vertices of `unsettled` that have been reached. -/
structure SearchState where
  data : List (Nat × RouteInternalData)
  unsettled : List Nat
  deriving DecidableEq, Repr

/-- Modelled from the spec: the min-priority choice of the absent `router.h` (§4.2): a reached
vertex of the list with the least weight, together with that weight. -/
def extractMin (data : List (Nat × RouteInternalData)) : List Nat → Option (Nat × ℚ)
  | [] => none
  | v :: vs =>
    match data.lookup v, extractMin data vs with
    | none, r => r
    | some d, none => some (v, d.weight)
    | some d, some (u, w) => if d.weight ≤ w then some (v, d.weight) else some (u, w)

/-- Modelled from the spec: the relaxation of one edge leaving a vertex settled with weight
`weight_from` in the absent `router.h` (§4.2, "weight relaxation", "parent-edge bookkeeping per
vertex during relaxation"): a target that is not settled takes the weight through this edge
when that is the first or a smaller one. -/
def relaxEdge (g : DirectedWeightedGraph) (unsettled : List Nat) (weight_from : ℚ)
    (data : List (Nat × RouteInternalData)) (edge_id : Nat) : List (Nat × RouteInternalData) :=
  match g.edges_[edge_id]? with
  | none => data
  | some edge =>
    if edge.to_vertex ∈ unsettled then
      match data.lookup edge.to_vertex with
      | none => (edge.to_vertex, ⟨weight_from + edge.weight, some edge_id⟩) :: data
      | some d =>
        if weight_from + edge.weight < d.weight then
          (edge.to_vertex, ⟨weight_from + edge.weight, some edge_id⟩) :: data
        else data
    else data

/-- Modelled from the spec: one round of the search of the absent `router.h` (§4.2): settle the
vertex of the frontier with the least weight and relax the edges that leave it; nothing when
the frontier is empty. -/
def settle (g : DirectedWeightedGraph) (st : SearchState) : Option SearchState :=
  match extractMin st.data st.unsettled with
  | none => none
  | some (u, weight_from) =>
    some
      { data := (g.GetIncidentEdges u).foldl
          (relaxEdge g (st.unsettled.erase u) weight_from) st.data
        unsettled := st.unsettled.erase u }

/-- Modelled from the spec: the search of the absent `router.h` (§4.2, "classic single-source
shortest path by weight relaxation with a min-priority frontier"): rounds of `settle` until the
frontier is empty.  Every round settles one vertex, so `fuel` rounds are enough when `fuel` is
the number of vertices. -/
def search (g : DirectedWeightedGraph) : Nat → SearchState → SearchState
  | 0, st => st
  | fuel + 1, st =>
    match settle g st with
    | none => st
    | some st' => search g fuel st'

/-- Modelled from the spec: the state in which the search of the absent `router.h` starts: the
source is reached with weight 0 and no parent edge, no vertex is settled. -/
def initial (g : DirectedWeightedGraph) (source : Nat) : SearchState :=
  { data := [(source, ⟨0, none⟩)]
    unsettled := List.range g.vertex_count }

/-- Modelled from the spec: the bookkeeping of the absent `router.h` for a source after the
search (§4.2, "run (or cached) per distinct source vertex"). -/
def routes_internal_data (g : DirectedWeightedGraph) (source : Nat) :
    List (Nat × RouteInternalData) :=
  (search g g.vertex_count (initial g source)).data

/-- Modelled from the spec: the reconstruction of the absent `router.h` (§4.2): follow the
parent edges from the target back to the source, collecting them in traversal order. -/
def reconstruct (g : DirectedWeightedGraph) (data : List (Nat × RouteInternalData)) :
    Nat → Nat → List Nat → Option (List Nat)
  | 0, _, _ => none
  | fuel + 1, v, acc =>
    match data.lookup v with
    | none => none
    | some d =>
      match d.prev_edge with
      | none => some acc
      | some edge_id =>
        match g.edges_[edge_id]? with
        | none => none
        | some edge => reconstruct g data fuel edge.from_vertex (edge_id :: acc)

/-- Modelled from the spec: `Router::BuildRoute` of the absent `router.h` (§4.2): the least
total weight and the edges of a route of that weight, or nothing when the target is not
reached from the source. -/
def BuildRoute (g : DirectedWeightedGraph) (from_vertex to_vertex : Nat) : Option RouteInfo :=
  match (routes_internal_data g from_vertex).lookup to_vertex with
  | none => none
  | some d =>
    match reconstruct g (routes_internal_data g from_vertex) (g.vertex_count + 1) to_vertex []
      with
    | none => none
    | some edges => some ⟨d.weight, edges⟩

/-- Modelled from the spec: the constructor of `Router` of the absent `router.h` (§4.2: "Built
once from a finished graph"), which the specification gives no way to fail.  The
specification has the router for weights that are not negative only. -/
def new (graph : DirectedWeightedGraph) : Router := { graph := graph }

end Router

end graph

/-! ## The rounding of `double`

The operations of `double` (IEEE 754 binary64, rounding to nearest, ties to even) on values
in the normal range: the result is the exact result rounded to 53 significant bits.
Infinities, NaN, subnormal values and overflow are outside this model, and so is a division
by zero. -/

namespace double

/-- The power of two with the exponent `e`. -/
def pow2 (e : Int) : ℚ :=
  if 0 ≤ e then ((2 ^ e.toNat : Nat) : ℚ) else 1 / ((2 ^ (-e).toNat : Nat) : ℚ)

/-- The number of times that `n` can be halved before it is below 2, which is the greatest `k`
with `2 ^ k ≤ n` when `n` is not zero; `fuel` bounds the number of halvings, and `n` itself is
enough. -/
def log2 : Nat → Nat → Nat
  | 0, _ => 0
  | fuel + 1, n => if n < 2 then 0 else log2 fuel (n / 2) + 1

/-- The binary exponent of a value that is not zero: the `e` with `2 ^ e ≤ |x| < 2 ^ (e + 1)`.
The difference of the exponents of the numerator and the denominator is `e` or `e + 1`. -/
def exponent (x : ℚ) : Int :=
  let e : Int := (log2 x.num.natAbs x.num.natAbs : Int) - (log2 x.den x.den : Int)
  if pow2 e ≤ |x| then e else e - 1

/-- The value of `double` nearest to `x`: `|x|` is a multiple `q` of the unit in the last
place, with `2 ^ 52 ≤ q < 2 ^ 53`; `q` is rounded to the nearest integer, and to the even one
of the two when it is halfway between them. -/
def round (x : ℚ) : ℚ :=
  if x = 0 then 0
  else
    let ulp := pow2 (exponent x - 52)
    let q := |x| / ulp
    let n : Int := q.num / q.den
    let m : Int :=
      if q - n < 1 / 2 then n
      else if 1 / 2 < q - n then n + 1
      else if n % 2 = 0 then n
      else n + 1
    (if x < 0 then -1 else 1) * (m : ℚ) * ulp

/-- `lhs + rhs` for two `double`. -/
def add (lhs rhs : ℚ) : ℚ := round (lhs + rhs)

/-- `lhs * rhs` for two `double`. -/
def mul (lhs rhs : ℚ) : ℚ := round (lhs * rhs)

/-- `lhs / rhs` for two `double`, `rhs` not being zero. -/
def div (lhs rhs : ℚ) : ℚ := round (lhs / rhs)

end double

namespace tc.router

open graph

/-- `RoutingSettings` of `transport_router.h`. -/
structure RoutingSettings where
  bus_wait_time : Int := 6
  bus_velocity : ℚ := 40
  deriving DecidableEq, Repr

/-- `RouteType` of `transport_router.h`. -/
inductive RouteType where
  | WAIT
  | BUS
  deriving DecidableEq, Repr

/-- `RouteStat` of `transport_router.h` with its two derived structures `WaitRouteStat` and
`BusRouteStat`. -/
inductive RouteStat where
  | WaitRouteStat (stop_name : String) (time : ℚ)
  | BusRouteStat (bus_name : String) (time : ℚ) (span_count : Int)
  deriving DecidableEq, Repr

/-- `RouteStat::time`. -/
def RouteStat.time : RouteStat → ℚ
  | .WaitRouteStat _ t => t
  | .BusRouteStat _ t _ => t

/-- `RouteStat::GetType`. -/
def RouteStat.GetType : RouteStat → RouteType
  | .WaitRouteStat _ _ => .WAIT
  | .BusRouteStat _ _ _ => .BUS

/-- `Route` of `transport_router.h`. -/
structure Route where
  total_time : ℚ := 0
  items : List RouteStat := []
  deriving DecidableEq, Repr

/-- `TransportRouter`: the data members of the class, in the order of their declarations.
While the constructor runs, `graph_` holds the graph under construction (the local `graph` of
`ConstructGraph`, which is moved into `graph_` when it returns), and `router_`, which is
initialised last, holds the router of the graph without vertices until then. -/
structure TransportRouter where
  transport_catalogue_ : TransportCatalogue
  settings_ : RoutingSettings
  stop_vertices_ : List (StopPtr × (Nat × Nat)) := []
  edge_stats_ : List (Nat × RouteStat) := []
  graph_ : DirectedWeightedGraph
  router_ : Router := { graph := { vertex_count := 0 } }
  deriving DecidableEq, Repr

/-- `velocity_coefficient` of `SetRouteEdges`: `60.0 / 1000.0`. -/
def velocity_coefficient : ℚ := 60 / 1000

namespace TransportRouter

/-- The loop of `TransportRouter::AddStopsToGraph`, on the stops that remain; `k` is the
position of the first of them in the deque, so that `some k` is its address. -/
def AddStopsToGraph.loop :
    List Stop → Nat → Nat → TransportRouter → Except Error TransportRouter
  | [], _, _, self => .ok self
  | stop :: rest, k, vertex_counter, self =>
    let stop_ptr : StopPtr := some k
    let hub_vertex_id := vertex_counter
    let terminal_vertex_id := vertex_counter + 1
    let stop_vertices := (stop_ptr, (hub_vertex_id, terminal_vertex_id)) :: self.stop_vertices_
    match self.graph_.AddEdge
        ⟨hub_vertex_id, terminal_vertex_id, (self.settings_.bus_wait_time : ℚ)⟩ with
    | .error e => .error e
    | .ok (g, edge_id) =>
      AddStopsToGraph.loop rest (k + 1) (vertex_counter + 2)
        { self with
          stop_vertices_ := stop_vertices
          edge_stats_ :=
            (edge_id, .WaitRouteStat stop.name (self.settings_.bus_wait_time : ℚ))
              :: self.edge_stats_
          graph_ := g }

/-- `TransportRouter::AddStopsToGraph`. -/
def AddStopsToGraph (self : TransportRouter) : Except Error TransportRouter :=
  AddStopsToGraph.loop self.transport_catalogue_.GetAllStops 0 0 self

/-- `stop_vertices_.at(stop)`. -/
def stop_vertices_at (self : TransportRouter) (stop : StopPtr) : Except Error (Nat × Nat) :=
  match self.stop_vertices_.lookup stop with
  | none => .error .out_of_range
  | some p => .ok p

/-- The inner loop of `TransportRouter::SetRouteEdges` for one `from_it`: `prev` is `*(to_it-1)`
and the list holds the stops from `to_it` to `stop_ptr_end`. -/
def SetRouteEdges.inner (bus_name : String) (stop_from : StopPtr)
    (terminal_stop_from_index : Nat) :
    StopPtr → List StopPtr → ℚ → Int → TransportRouter → Except Error TransportRouter
  | _, [], _, _, self => .ok self
  | prev, stop_to :: rest, time, span_count, self =>
    if stop_from = stop_to then
      SetRouteEdges.inner bus_name stop_from terminal_stop_from_index stop_to rest time
        span_count self
    else
      match self.transport_catalogue_.GetDistance prev stop_to with
      | .error e => .error e
      | .ok distance =>
        let time := time + (distance : ℚ) / self.settings_.bus_velocity * velocity_coefficient
        match self.stop_vertices_at stop_to with
        | .error e => .error e
        | .ok (hub_stop_to_index, _) =>
          match self.graph_.AddEdge ⟨terminal_stop_from_index, hub_stop_to_index, time⟩ with
          | .error e => .error e
          | .ok (g, edge_id) =>
            SetRouteEdges.inner bus_name stop_from terminal_stop_from_index stop_to rest time
              (span_count + 1)
              { self with
                edge_stats_ :=
                  (edge_id, .BusRouteStat bus_name time (span_count + 1)) :: self.edge_stats_
                graph_ := g }

/-- `TransportRouter::SetRouteEdges` on the stops from `stop_ptr_begin` to `stop_ptr_end`. -/
def SetRouteEdges (bus_name : String) :
    List StopPtr → TransportRouter → Except Error TransportRouter
  | [], self => .ok self
  | stop_from :: rest, self =>
    match self.stop_vertices_at stop_from with
    | .error e => .error e
    | .ok (_, terminal_stop_from_index) =>
      match SetRouteEdges.inner bus_name stop_from terminal_stop_from_index stop_from rest 0 0
          self with
      | .error e => .error e
      | .ok self => SetRouteEdges bus_name rest self

/-- The values of `time` that the inner loop of `TransportRouter::SetRouteEdges` passes to
`AddEdge` one after the other when the statement
`time += GetDistance(*(to_it-1), *to_it) / settings_.bus_velocity * velocity_coefficient`
is run with the operations of `double`: `distances` holds what `GetDistance` returns for the
stops that remain, none of which is `*from_it`, and `time` is the value before.  The `int` is
converted to `double` without rounding, and `velocity_coefficient` is the `double` nearest to
`60.0 / 1000.0`. -/
def SetRouteEdges.double_times (bus_velocity : ℚ) : List Int → ℚ → List ℚ
  | [], _ => []
  | distance :: rest, time =>
    let time :=
      double.add time (double.mul (double.div (distance : ℚ) bus_velocity) (double.div 60 1000))
    time :: SetRouteEdges.double_times bus_velocity rest time

/-- The first range of a bus that is not a round trip: `cbegin()` to `end_stop_ptr_it + 1`. -/
def outbound (bus : Bus) : List StopPtr := bus.stops.take (bus.stops.length / 2 + 1)

/-- The second range of a bus that is not a round trip: `end_stop_ptr_it` to `cend()`. -/
def inbound (bus : Bus) : List StopPtr := bus.stops.drop (bus.stops.length / 2)

/-- The body of the loop of `TransportRouter::AddBussesToGraph` for one bus.  For a bus without
stops that is not a round trip, `end_stop_ptr_it + 1` is past the end of the vector. -/
def AddBussesToGraph.body (bus : Bus) (self : TransportRouter) : Except Error TransportRouter :=
  if bus.is_roundtrip then SetRouteEdges bus.name bus.stops self
  else if bus.stops.length / 2 + 1 ≤ bus.stops.length then
    match SetRouteEdges bus.name (outbound bus) self with
    | .error e => .error e
    | .ok self => SetRouteEdges bus.name (inbound bus) self
  else .error .undefined_behaviour

/-- The loop of `TransportRouter::AddBussesToGraph`, on the buses that remain. -/
def AddBussesToGraph.loop : List Bus → TransportRouter → Except Error TransportRouter
  | [], self => .ok self
  | bus :: rest, self =>
    match AddBussesToGraph.body bus self with
    | .error e => .error e
    | .ok self => AddBussesToGraph.loop rest self

/-- `TransportRouter::AddBussesToGraph`. -/
def AddBussesToGraph (self : TransportRouter) : Except Error TransportRouter :=
  AddBussesToGraph.loop self.transport_catalogue_.GetAllBuses self

/-- `TransportRouter::ConstructGraph`. -/
def ConstructGraph (self : TransportRouter) : Except Error TransportRouter :=
  let self := { self with graph_ := { vertex_count := self.transport_catalogue_.GetAllStops.length * 2 } }
  match AddStopsToGraph self with
  | .error e => .error e
  | .ok self => AddBussesToGraph self

/-- The constructor of `TransportRouter`.  The members are initialised in the order of their
declarations: `transport_catalogue_`, `settings_`, the two empty maps, `graph_` with the graph
that `ConstructGraph` returns, and `router_` with the router of `graph_`. -/
def new (transport_catalogue : TransportCatalogue) (settings : RoutingSettings) :
    Except Error TransportRouter :=
  match ConstructGraph
      { transport_catalogue_ := transport_catalogue
        settings_ := settings
        graph_ := { vertex_count := 0 } } with
  | .error e => .error e
  | .ok self => .ok { self with router_ := Router.new self.graph_ }

/-- `edge_stats_.at(i)`. -/
def edge_stats_at (self : TransportRouter) (edge_id : Nat) : Except Error RouteStat :=
  match self.edge_stats_.lookup edge_id with
  | none => .error .out_of_range
  | some stat => .ok stat

/-- The loop of `TransportRouter::FindRoute` over the edges of the route found. -/
def FindRoute.items (self : TransportRouter) : List Nat → Except Error (List RouteStat)
  | [] => .ok []
  | i :: rest =>
    match self.edge_stats_at i with
    | .error e => .error e
    | .ok stat =>
      match FindRoute.items self rest with
      | .error e => .error e
      | .ok stats => .ok (stat :: stats)

/-- `TransportRouter::FindRoute`; `router_.BuildRoute` searches the graph of `router_`. -/
def FindRoute (self : TransportRouter) (stop_from stop_to : StopPtr) :
    Except Error (Option Route) :=
  match self.stop_vertices_at stop_from with
  | .error e => .error e
  | .ok (hub_stop_from_index, _) =>
    match self.stop_vertices_at stop_to with
    | .error e => .error e
    | .ok (hub_stop_to_index, _) =>
      match Router.BuildRoute self.router_.graph hub_stop_from_index hub_stop_to_index with
      | none => .ok none
      | some route_info =>
        match FindRoute.items self route_info.edges with
        | .error e => .error e
        | .ok items => .ok (some ⟨route_info.weight, items⟩)

/-- The time `SetRouteEdges` adds for a road of `distance` metres:
`distance / settings_.bus_velocity * velocity_coefficient`. -/
def leg_time (settings : RoutingSettings) (distance : Int) : ℚ :=
  (distance : ℚ) / settings.bus_velocity * velocity_coefficient

/-- One pass through the body of the inner loop of `SetRouteEdges` that reaches `AddEdge`: the
state after it is the state before it with one more edge, from the terminal vertex of
`stop_from` to the hub vertex of another stop `stop_to`, and the descriptor of that edge.  The
weight is the sum of the times of the distances `dists` read from the catalogue so far. -/
inductive RideStep : TransportRouter → TransportRouter → Prop
  | step (self : TransportRouter) (bus_name : String) (stop_from stop_to : StopPtr)
      (hub_from terminal_from hub_to terminal_to : Nat) (dists : List Int) (time : ℚ)
      (span_count : Int)
      (hne : stop_from ≠ stop_to)
      (hfrom : self.stop_vertices_.lookup stop_from = some (hub_from, terminal_from))
      (hto : self.stop_vertices_.lookup stop_to = some (hub_to, terminal_to))
      (hdists : ∀ d ∈ dists, ∃ p q, self.transport_catalogue_.GetDistance p q = .ok d)
      (htime : time = (dists.map (leg_time self.settings_)).sum)
      (hfrom_range : terminal_from < self.graph_.vertex_count)
      (hto_range : hub_to < self.graph_.vertex_count) :
      RideStep self
        { self with
          edge_stats_ :=
            (self.graph_.edges_.length, .BusRouteStat bus_name time span_count)
              :: self.edge_stats_
          graph_ :=
            { self.graph_ with edges_ := self.graph_.edges_ ++ [⟨terminal_from, hub_to, time⟩] } }

/-- The ranges of stops that `AddBussesToGraph` passes to `SetRouteEdges` for a bus: all the
stops of a round trip, else the outbound and the inbound half. -/
def traversed (bus : Bus) (sub_path : List StopPtr) : Prop :=
  if bus.is_roundtrip then sub_path = bus.stops
  else sub_path = outbound bus ∨ sub_path = inbound bus

instance (bus : Bus) (sub_path : List StopPtr) : Decidable (traversed bus sub_path) := by
  unfold traversed
  exact inferInstance

/-- What construction establishes and keeps, for a catalogue of `n` stops: the graph has `2 * n`
vertices, the `k`-th stop has the vertices `2 * k` and `2 * k + 1`, the first `n` edges are the
wait edges with their descriptors, and every later edge goes from the terminal vertex of a
stop to the hub vertex of another stop and has the descriptor of a ride with the time of the
edge. -/
structure Built (router : TransportRouter) : Prop where
  vertex_count : router.graph_.vertex_count = 2 * router.transport_catalogue_.stops_.length
  lookup_none : router.stop_vertices_.lookup none = none
  lookup_some : ∀ k, router.stop_vertices_.lookup (some k) =
    if k < router.transport_catalogue_.stops_.length then some (2 * k, 2 * k + 1) else none
  wait_count : router.transport_catalogue_.stops_.length ≤ router.graph_.edges_.length
  wait_edge : ∀ k stop, router.transport_catalogue_.stops_[k]? = some stop →
    router.graph_.edges_[k]? = some ⟨2 * k, 2 * k + 1, (router.settings_.bus_wait_time : ℚ)⟩ ∧
    router.edge_stats_.lookup k =
      some (.WaitRouteStat stop.name (router.settings_.bus_wait_time : ℚ))
  ride_edge : ∀ id edge, router.transport_catalogue_.stops_.length ≤ id →
    router.graph_.edges_[id]? = some edge →
    ∃ a b, a < router.transport_catalogue_.stops_.length ∧
      b < router.transport_catalogue_.stops_.length ∧ a ≠ b ∧
      edge.from_vertex = 2 * a + 1 ∧ edge.to_vertex = 2 * b ∧
      ∃ bus_name span_count,
        router.edge_stats_.lookup id = some (.BusRouteStat bus_name edge.weight span_count)

/-- The graph has a ride edge of the bus from the terminal vertex of `stop_from` to the hub
vertex of `stop_to`: an edge between the two vertices whose descriptor is a `BusRouteStat` with
the name of the bus. -/
def has_ride (self : TransportRouter) (bus_name : String) (stop_from stop_to : StopPtr) : Prop :=
  ∃ id edge hub_from terminal_from hub_to terminal_to time span_count,
    self.graph_.edges_[id]? = some edge ∧
    self.stop_vertices_.lookup stop_from = some (hub_from, terminal_from) ∧
    self.stop_vertices_.lookup stop_to = some (hub_to, terminal_to) ∧
    edge.from_vertex = terminal_from ∧ edge.to_vertex = hub_to ∧
    self.edge_stats_.lookup id = some (.BusRouteStat bus_name time span_count)

/-- The edges with the given ids and their descriptors come in pairs of a wait and a ride: the
first edge of a pair is the wait edge of a stop of the catalogue, from its hub vertex to its
terminal vertex, with the descriptor `WaitRouteStat` of that stop; the second one is an edge
that leaves the terminal vertex of the same stop, with a descriptor `BusRouteStat` that has
the weight of the edge as time. -/
def wait_ride_pairs (self : TransportRouter) : List Nat → List RouteStat → Prop
  | [], [] => True
  | wait_id :: ride_id :: ids, wait_stat :: ride_stat :: stats =>
    (∃ (k : Nat) (stop : Stop) (hub terminal : Nat) (ride : Edge) (bus_name : String)
        (span_count : Int),
      self.transport_catalogue_.GetAllStops[k]? = some stop ∧
      self.stop_vertices_at (some k) = .ok (hub, terminal) ∧
      self.graph_.edges_[wait_id]? =
        some ⟨hub, terminal, (self.settings_.bus_wait_time : ℚ)⟩ ∧
      wait_stat = .WaitRouteStat stop.name (self.settings_.bus_wait_time : ℚ) ∧
      self.graph_.edges_[ride_id]? = some ride ∧ ride.from_vertex = terminal ∧
      ride_stat = .BusRouteStat bus_name ride.weight span_count) ∧
    wait_ride_pairs self ids stats
  | _, _ => False

/-- `SetRouteEdges` on the range `sub_path` reads the road distance from `stop_prev` to
`stop_to`: for a position `i` and a later position `k` that holds another stop than position
`i`, the inner loop passes the `continue` and calls `GetDistance(*(to_it - 1), *to_it)` with
the stops at the positions `k - 1` and `k`. -/
def range_reads (sub_path : List StopPtr) (stop_prev stop_to : StopPtr) : Prop :=
  ∃ (i k : Nat) (stop_i : StopPtr), i < k ∧ sub_path[i]? = some stop_i ∧
    sub_path[k]? = some stop_to ∧ stop_to ≠ stop_i ∧ sub_path[k - 1]? = some stop_prev

/-- The builder reads the road distance from `stop_prev` to `stop_to` of the catalogue:
`SetRouteEdges` reads it on a range of a bus of the catalogue. -/
def reads_distance (c : TransportCatalogue) (stop_prev stop_to : StopPtr) : Prop :=
  ∃ bus ∈ c.GetAllBuses, ∃ sub_path, traversed bus sub_path ∧
    range_reads sub_path stop_prev stop_to

/-- The range `sub_path` has `stop_from` at a position before a position of `stop_to`. -/
def range_visits (sub_path : List StopPtr) (stop_from stop_to : StopPtr) : Prop :=
  ∃ (i j : Nat), i < j ∧ sub_path[i]? = some stop_from ∧ sub_path[j]? = some stop_to

/-- A bus of the catalogue has a range of stops that `AddBussesToGraph` passes to
`SetRouteEdges` with `stop_from` at a position before a position of `stop_to`. -/
def bus_visits (c : TransportCatalogue) (stop_from stop_to : StopPtr) : Prop :=
  ∃ bus ∈ c.GetAllBuses, ∃ sub_path, traversed bus sub_path ∧
    range_visits sub_path stop_from stop_to

/-- The pairs of positions `i < j` of a range of `m` stops, in the order in which the two loops
of `SetRouteEdges` come to them. -/
def position_pairs : Nat → List (Nat × Nat)
  | 0 => []
  | m + 1 =>
    (List.range m).map (fun t => (0, t + 1)) ++
      (position_pairs m).map (fun p => (p.1 + 1, p.2 + 1))

/-- The road distances between the consecutive stops of a range, `dist` being the distance
from a stop to a stop. -/
def consecutive_distances (dist : StopPtr → StopPtr → Int) (sub_path : List StopPtr) :
    List Int :=
  List.zipWith dist sub_path sub_path.tail

/-- The sum of the consecutive road distances of a range from position `i` to position `j`. -/
def road_between (dist : StopPtr → StopPtr → Int) (sub_path : List StopPtr) (i j : Nat) : Int :=
  (((consecutive_distances dist sub_path).drop i).take (j - i)).sum

/-- The time that the inner loop of `SetRouteEdges` has accumulated when it inserts the edge
for position `t` of its range `rest`: the time it starts with and the times of the distances
read so far, `prev` being the stop before the range. -/
def time_after (settings : RoutingSettings) (dist : StopPtr → StopPtr → Int) (prev : StopPtr)
    (rest : List StopPtr) (time : ℚ) (t : Nat) : ℚ :=
  time + (((List.zipWith dist (prev :: rest) rest).take (t + 1)).map (leg_time settings)).sum

end TransportRouter

end tc.router

/-! ## Routes in a graph and what the search maintains -/

namespace graph

namespace DirectedWeightedGraph

/-- The weight of the edge with the given id, 0 when there is no such edge. -/
def edge_weight (g : DirectedWeightedGraph) (id : Nat) : ℚ :=
  match g.edges_[id]? with
  | none => 0
  | some edge => edge.weight

/-- The edges with the given ids are consecutive and lead from `u` to `v`: a directed path of
the graph, in traversal order. -/
def IsRoute (g : DirectedWeightedGraph) : Nat → Nat → List Nat → Prop
  | u, v, [] => u = v
  | u, v, id :: rest =>
    match g.edges_[id]? with
    | none => False
    | some edge => edge.from_vertex = u ∧ IsRoute g edge.to_vertex v rest

/-- Whether edge ids form a directed path can be computed. -/
def IsRoute.decide (g : DirectedWeightedGraph) :
    ∀ (ids : List Nat) (u v : Nat), Decidable (IsRoute g u v ids)
  | [], u, v => by
    unfold IsRoute
    exact inferInstance
  | id :: rest, u, v => by
    unfold IsRoute
    cases g.edges_[id]? with
    | none => exact isFalse (fun h => h)
    | some edge =>
      have := IsRoute.decide g rest edge.to_vertex v
      exact inferInstance

instance (g : DirectedWeightedGraph) (u v : Nat) (ids : List Nat) :
    Decidable (IsRoute g u v ids) :=
  IsRoute.decide g ids u v

/-- The sum of the weights of the edges with the given ids. -/
def route_weight (g : DirectedWeightedGraph) (ids : List Nat) : ℚ :=
  (ids.map g.edge_weight).sum

end DirectedWeightedGraph

namespace Router

/-- The bookkeeping of a reached vertex `v` is backed by a route: following the parent edges
from `v` leads through settled vertices back to the source, the edges met are `ids` in
traversal order, and the weight recorded at `v` is `weight`, the weight of its parent's record
plus the weight of the parent edge. -/
inductive Chain (g : DirectedWeightedGraph) (source : Nat) (data : List (Nat × RouteInternalData))
    (unsettled : List Nat) : Nat → List Nat → ℚ → Prop
  | source : data.lookup source = some ⟨0, none⟩ → Chain g source data unsettled source [] 0
  | step (u v : Nat) (ids : List Nat) (weight : ℚ) (id : Nat) (edge : Edge) :
      Chain g source data unsettled u ids weight → u ∉ unsettled →
      g.edges_[id]? = some edge → edge.from_vertex = u → edge.to_vertex = v →
      data.lookup v = some ⟨weight + edge.weight, some id⟩ →
      Chain g source data unsettled v (ids ++ [id]) (weight + edge.weight)

/-- What every round of the search keeps, whatever the weights: the source keeps weight 0 and
no parent edge, and the record of every reached vertex is backed by a route of at most `n`
edges. -/
structure PathInv (g : DirectedWeightedGraph) (source : Nat) (n : Nat) (st : SearchState) :
    Prop where
  nodup : st.unsettled.Nodup
  source_data : st.data.lookup source = some ⟨0, none⟩
  source_first : source ∈ st.unsettled → ∀ v d, st.data.lookup v = some d → v = source
  chains : ∀ v d, st.data.lookup v = some d →
    ∃ ids, Chain g source st.data st.unsettled v ids d.weight ∧ ids.length ≤ n

/-- What every round of the search keeps when no weight is negative and the targets of the
edges are vertices of the graph: settled vertices are reached, their weights are at most those
of the frontier, and every edge that leaves a settled vertex has been relaxed. -/
structure OptInv (g : DirectedWeightedGraph) (st : SearchState) : Prop where
  in_range : ∀ x ∈ st.unsettled, x < g.vertex_count
  settled_reached : ∀ x, x < g.vertex_count → x ∉ st.unsettled →
    ∃ d, st.data.lookup x = some d
  settled_least : ∀ (x y : Nat) (dx dy : RouteInternalData),
    x ∉ st.unsettled → y ∈ st.unsettled →
    st.data.lookup x = some dx → st.data.lookup y = some dy → dx.weight ≤ dy.weight
  relaxed : ∀ (id : Nat) (edge : Edge) (du : RouteInternalData),
    g.edges_[id]? = some edge → edge.from_vertex ∉ st.unsettled →
    st.data.lookup edge.from_vertex = some du →
    ∃ dv, st.data.lookup edge.to_vertex = some dv ∧ dv.weight ≤ du.weight + edge.weight

end Router

end graph

/-! ## Catalogues used as concrete inputs -/

namespace tc.router

/-- A catalogue of three stops: a ring bus `297` through all of them and a bus `635` that is not
a round trip, stored as `ParseRoute` stores the stops `[0, 1, 2]`. -/
def demo_catalogue : TransportCatalogue :=
  match
    (((({} : TransportCatalogue).AddStop "Tolstopaltsevo" ⟨55611087 / 1000000, 3720829 / 100000⟩
      ).AddStop "Marushkino" ⟨55595884 / 1000000, 37209755 / 1000000⟩
      ).AddStop "Rasskazovka" ⟨55632761 / 1000000, 37333324 / 1000000⟩
      ).AddBus "297" [some 0, some 1, some 2, some 0] (some 0) true with
  | .error _ => {}
  | .ok c =>
    match c.AddBus "635" [some 0, some 1, some 2, some 1, some 0] (some 2) false with
    | .error _ => {}
    | .ok c =>
      (((c.SetDistance (some 0) (some 1) 3900).SetDistance (some 1) (some 2) 9900
        ).SetDistance (some 1) (some 0) 4100).SetDistance (some 2) (some 0) 12000

/-- The settings of the example of the specification: wait 6 minutes, 40 km/h. -/
def demo_settings : RoutingSettings := { bus_wait_time := 6, bus_velocity := 40 }

/-- A catalogue whose ring bus comes back to its first stop in the middle of the route. -/
def loop_catalogue : TransportCatalogue :=
  match
    (((({} : TransportCatalogue).AddStop "A" ⟨0, 0⟩).AddStop "B" ⟨0, 1⟩).AddStop "C" ⟨1, 0⟩
      ).AddBus "8" [some 0, some 1, some 0, some 2, some 0] (some 0) true with
  | .error _ => {}
  | .ok c =>
    ((c.SetDistance (some 0) (some 1) 1000).SetDistance (some 1) (some 0) 2000
      ).SetDistance (some 0) (some 2) 3000

/-- Settings with 60 km/h, so that a metre takes a thousandth of a minute. -/
def loop_settings : RoutingSettings := { bus_wait_time := 6, bus_velocity := 60 }

/-- A catalogue with a registered road distance that is negative: three stops, the ring bus `1`
between the first two, the bus `2` from the first to the third and the bus `3` from the third to
the second stop, on a road of -6000 metres. -/
def neg_catalogue : TransportCatalogue :=
  match
    (((({} : TransportCatalogue).AddStop "A" ⟨0, 0⟩).AddStop "B" ⟨0, 1⟩).AddStop "C" ⟨1, 0⟩
      ).AddBus "1" [some 0, some 1, some 0] (some 0) true with
  | .error _ => {}
  | .ok c =>
    match c.AddBus "2" [some 0, some 2] (some 2) true with
    | .error _ => {}
    | .ok c =>
      match c.AddBus "3" [some 2, some 1] (some 1) true with
      | .error _ => {}
      | .ok c =>
        (((c.SetDistance (some 0) (some 1) 1000).SetDistance (some 1) (some 0) 0
          ).SetDistance (some 0) (some 2) 2000).SetDistance (some 2) (some 1) (-6000)

/-- Settings with a wait of one minute and 60 km/h. -/
def neg_settings : RoutingSettings := { bus_wait_time := 1, bus_velocity := 60 }

/-- The planner constructed for `neg_catalogue` with `neg_settings`. -/
def neg_router : TransportRouter :=
  match TransportRouter.new neg_catalogue neg_settings with
  | .ok tr => tr
  | .error _ => { transport_catalogue_ := {}, settings_ := {}, graph_ := { vertex_count := 0 } }

/-- The graph of `neg_router`: the wait edges 0, 1, 2 and the ride edges 3 to 6. -/
def neg_graph : graph.DirectedWeightedGraph :=
  { vertex_count := 6
    edges_ := [⟨0, 1, 1⟩, ⟨2, 3, 1⟩, ⟨4, 5, 1⟩, ⟨1, 2, 1⟩, ⟨3, 0, 0⟩, ⟨1, 4, 2⟩, ⟨5, 2, -6⟩] }

/-- The planner constructed for `demo_catalogue` with `demo_settings`. -/
def demo_router : TransportRouter :=
  match TransportRouter.new demo_catalogue demo_settings with
  | .ok tr => tr
  | .error _ => { transport_catalogue_ := {}, settings_ := {}, graph_ := { vertex_count := 0 } }

/-- The planner constructed for `loop_catalogue` with `loop_settings`. -/
def loop_router : TransportRouter :=
  match TransportRouter.new loop_catalogue loop_settings with
  | .ok tr => tr
  | .error _ => { transport_catalogue_ := {}, settings_ := {}, graph_ := { vertex_count := 0 } }

/-- A catalogue in which the third stop is served by no bus: the ring bus `1` runs between the
first two stops. -/
def island_catalogue : TransportCatalogue :=
  match
    (((({} : TransportCatalogue).AddStop "A" ⟨0, 0⟩).AddStop "B" ⟨0, 1⟩).AddStop "C" ⟨1, 0⟩
      ).AddBus "1" [some 0, some 1, some 0] (some 0) true with
  | .error _ => {}
  | .ok c => c.SetDistance (some 0) (some 1) 1000

/-- The planner constructed for `island_catalogue` with `loop_settings`. -/
def island_router : TransportRouter :=
  match TransportRouter.new island_catalogue loop_settings with
  | .ok tr => tr
  | .error _ => { transport_catalogue_ := {}, settings_ := {}, graph_ := { vertex_count := 0 } }

/-- The network of the example of the specification: two stops and the ring bus `297` from the
first stop to the second one and back, the road being 3900 metres long in both directions. -/
def pair_catalogue : TransportCatalogue :=
  match
    ((({} : TransportCatalogue).AddStop "Tolstopaltsevo" ⟨55611087 / 1000000, 3720829 / 100000⟩
      ).AddStop "Marushkino" ⟨55595884 / 1000000, 37209755 / 1000000⟩
      ).AddBus "297" [some 0, some 1, some 0] (some 0) true with
  | .error _ => {}
  | .ok c => (c.SetDistance (some 0) (some 1) 3900).SetDistance (some 1) (some 0) 3900

/-- A catalogue with three stops, the roads of 100 and 200 metres between them and the ring bus
`1` through the three of them. -/
def hop_catalogue : TransportCatalogue :=
  match
    (((({} : TransportCatalogue).AddStop "A" ⟨0, 0⟩).AddStop "B" ⟨0, 1⟩).AddStop "C" ⟨1, 0⟩
      ).AddBus "1" [some 0, some 1, some 2] (some 0) true with
  | .error _ => {}
  | .ok c => (c.SetDistance (some 0) (some 1) 100).SetDistance (some 1) (some 2) 200

/-- Settings with 30 km/h. -/
def hop_settings : RoutingSettings := { bus_wait_time := 6, bus_velocity := 30 }

/-- A catalogue with a road of 2000000000 metres: two stops and the ring bus `1` from the first
stop to the second one and back. -/
def far_catalogue : TransportCatalogue :=
  match ((({} : TransportCatalogue).AddStop "A" ⟨0, 0⟩).AddStop "B" ⟨0, 1⟩).AddBus "1"
      [some 0, some 1, some 0] (some 0) true with
  | .error _ => {}
  | .ok c => c.SetDistance (some 0) (some 1) 2000000000

/-- A catalogue with two stops of the same name: the stops `A`, `B` and `A` again. -/
def twin_catalogue : TransportCatalogue :=
  ((({} : TransportCatalogue).AddStop "A" ⟨0, 0⟩).AddStop "B" ⟨0, 1⟩).AddStop "A" ⟨1, 0⟩

end tc.router

/-! ## The queries of the catalogue and the requests that fill it -/

namespace tc

/-- The least value of an `int` of 32 bits. -/
def INT_MIN : Int := -2147483648

/-- The greatest value of an `int` of 32 bits. -/
def INT_MAX : Int := 2147483647

/-- `tc::RouteInfo` of `domain.h`; `RouteInfo info{}` sets every field to zero.  `distance` is
an `int`: the operations on it keep it between `INT_MIN` and `INT_MAX`. -/
structure RouteInfo where
  stops_count : Nat := 0
  unique_stops_count : Nat := 0
  distance : Int := 0
  curvature : ℚ := 0
  deriving DecidableEq, Repr

namespace TransportCatalogue

/-- `TransportCatalogue::GetBusesAtStop`: `stop_to_buses_.at(stop_ptr)`, which throws for a
pointer that is not a key of the map.  The `unordered_set` is the list of its elements. -/
def GetBusesAtStop (self : TransportCatalogue) (stop_ptr : StopPtr) :
    Except Error (List BusPtr) :=
  match self.stop_to_buses_.lookup stop_ptr with
  | none => .error .out_of_range
  | some buses => .ok buses

/-- `*stop_ptr`: the stop of the deque at the address; there is none for `nullptr` and for an
address past the end. -/
def stop_at (self : TransportCatalogue) (stop_ptr : StopPtr) : Except Error Stop :=
  match stop_ptr with
  | none => .error .undefined_behaviour
  | some k =>
    match self.stops_[k]? with
    | none => .error .undefined_behaviour
    | some stop => .ok stop

/-- `*bus_ptr`: the bus of the deque at the address; there is none for `nullptr` and for an
address past the end. -/
def bus_at (self : TransportCatalogue) (bus_ptr : BusPtr) : Except Error Bus :=
  match bus_ptr with
  | none => .error .undefined_behaviour
  | some k =>
    match self.buses_[k]? with
    | none => .error .undefined_behaviour
    | some bus => .ok bus

/-- The loop `while (++pos != stops.end())` of `TransportCatalogue::GetRouteInfo`: `prev` is
`*prev_pos` and the list holds the stops from `pos` to the end; `unique_stops` is the
`unordered_set` as the list of its elements.  `info.distance += GetDistance(...)` adds two
`int`; a sum outside the range of `int` has no defined behaviour.  `ComputeDistance` stands
for `geo::ComputeDistance` of `geo.h`, which is not among the sources. -/
def GetRouteInfo.loop (ComputeDistance : Coordinates → Coordinates → ℚ)
    (self : TransportCatalogue) :
    StopPtr → List StopPtr → List StopPtr → Int → ℚ → Except Error (List StopPtr × Int × ℚ)
  | _, [], unique_stops, distance, stright_distance =>
    .ok (unique_stops, distance, stright_distance)
  | prev, pos :: rest, unique_stops, distance, stright_distance =>
    let unique_stops := if pos ∈ unique_stops then unique_stops else pos :: unique_stops
    match self.GetDistance prev pos with
    | .error e => .error e
    | .ok d =>
      if INT_MIN ≤ distance + d ∧ distance + d ≤ INT_MAX then
        match self.stop_at prev with
        | .error e => .error e
        | .ok stop_prev =>
          match self.stop_at pos with
          | .error e => .error e
          | .ok stop_pos =>
            GetRouteInfo.loop ComputeDistance self pos rest unique_stops (distance + d)
              (stright_distance + ComputeDistance stop_prev.coordinates stop_pos.coordinates)
      else .error .undefined_behaviour

/-- `TransportCatalogue::GetRouteInfo`.  `ComputeDistance` stands for `geo::ComputeDistance`
of `geo.h`, which is not among the sources.  `size_t` is unbounded here; the `int` in
`distance` is bounded, see `GetRouteInfo.loop`. -/
def GetRouteInfo (ComputeDistance : Coordinates → Coordinates → ℚ)
    (self : TransportCatalogue) (bus_ptr : BusPtr) : Except Error RouteInfo :=
  match self.bus_at bus_ptr with
  | .error e => .error e
  | .ok bus =>
    let info : RouteInfo :=
      { stops_count := bus.stops.length, unique_stops_count := bus.stops.length }
    if bus.stops.length < 2 then .ok info
    else
      match bus.stops with
      | [] => .ok info
      | first :: rest =>
        match GetRouteInfo.loop ComputeDistance self first rest [first] 0 0 with
        | .error e => .error e
        | .ok (unique_stops, distance, stright_distance) =>
          .ok { info with
                unique_stops_count := unique_stops.length
                distance := distance
                curvature := (distance : ℚ) / stright_distance }

end TransportCatalogue

/-- An element of the array `base_requests` that `JsonReader::ApplyCommands` reads: a request
of type `Stop` with its name, coordinates and the entries of `road_distances` in the order of
the dictionary, a request of type `Bus` with its name, the names of `stops` and
`is_roundtrip`, or a request of another type. -/
inductive BaseRequest where
  | Stop (name : String) (coordinates : Coordinates) (road_distances : List (String × Int))
  | Bus (name : String) (stops : List String) (is_roundtrip : Bool)
  | Other
  deriving DecidableEq, Repr

/-- The test `request_dict.at("type").AsString() == "Stop"` of `JsonReader::ApplyCommands`. -/
def BaseRequest.is_stop : BaseRequest → Bool
  | .Stop _ _ _ => true
  | _ => false

/-- The test `request_dict.at("type").AsString() == "Bus"` of `JsonReader::ApplyCommands`. -/
def BaseRequest.is_bus : BaseRequest → Bool
  | .Bus _ _ _ => true
  | _ => false

/-- The first loop of `JsonReader::ApplyCommands`: `AddStop` for every request of type
`Stop`. -/
def ApplyCommands.stops : List BaseRequest → TransportCatalogue → TransportCatalogue
  | [], catalogue => catalogue
  | .Stop name coordinates _ :: rest, catalogue =>
    ApplyCommands.stops rest (catalogue.AddStop name coordinates)
  | .Bus _ _ _ :: rest, catalogue => ApplyCommands.stops rest catalogue
  | .Other :: rest, catalogue => ApplyCommands.stops rest catalogue

/-- The body of the second loop of `JsonReader::ApplyCommands` for a request of type `Bus`:
`ParseRoute`, `GetStop` for every name, `*(stops.rbegin())`, which has no defined behaviour for
an empty array, and `AddBus`. -/
def ApplyCommands.bus (catalogue : TransportCatalogue) (name : String) (stops : List String)
    (is_roundtrip : Bool) : Except Error TransportCatalogue :=
  match ParseRoute stops is_roundtrip with
  | .error e => .error e
  | .ok names =>
    let stop_ptrs := names.map catalogue.GetStop
    match stops.getLast? with
    | none => .error .undefined_behaviour
    | some end_stop_name =>
      catalogue.AddBus name stop_ptrs (catalogue.GetStop end_stop_name) is_roundtrip

/-- The second loop of `JsonReader::ApplyCommands`, over the requests of type `Bus`. -/
def ApplyCommands.buses : List BaseRequest → TransportCatalogue → Except Error TransportCatalogue
  | [], catalogue => .ok catalogue
  | .Bus name stops is_roundtrip :: rest, catalogue =>
    match ApplyCommands.bus catalogue name stops is_roundtrip with
    | .error e => .error e
    | .ok catalogue => ApplyCommands.buses rest catalogue
  | .Stop _ _ _ :: rest, catalogue => ApplyCommands.buses rest catalogue
  | .Other :: rest, catalogue => ApplyCommands.buses rest catalogue

/-- The inner loop of the third loop of `JsonReader::ApplyCommands`: `SetDistance` for every
entry of `road_distances`. -/
def ApplyCommands.road_distances (stop_from_ptr : StopPtr) :
    List (String × Int) → TransportCatalogue → TransportCatalogue
  | [], catalogue => catalogue
  | distance_pair :: rest, catalogue =>
    ApplyCommands.road_distances stop_from_ptr rest
      (catalogue.SetDistance stop_from_ptr (catalogue.GetStop distance_pair.1) distance_pair.2)

/-- The third loop of `JsonReader::ApplyCommands`, over the requests of type `Stop`. -/
def ApplyCommands.distances : List BaseRequest → TransportCatalogue → TransportCatalogue
  | [], catalogue => catalogue
  | .Stop name _ road_distances :: rest, catalogue =>
    ApplyCommands.distances rest
      (ApplyCommands.road_distances (catalogue.GetStop name) road_distances catalogue)
  | .Bus _ _ _ :: rest, catalogue => ApplyCommands.distances rest catalogue
  | .Other :: rest, catalogue => ApplyCommands.distances rest catalogue

/-- `JsonReader::ApplyCommands` on the array `base_requests`: the stops, then the buses, then
the distances. -/
def ApplyCommands (requests : List BaseRequest) (catalogue : TransportCatalogue) :
    Except Error TransportCatalogue :=
  match ApplyCommands.buses requests (ApplyCommands.stops requests catalogue) with
  | .error e => .error e
  | .ok catalogue => .ok (ApplyCommands.distances requests catalogue)

/-- A call of one of the three operations that change a catalogue. -/
inductive Call where
  | AddStop (name : String) (coordinates : Coordinates)
  | AddBus (name : String) (stops : List StopPtr) (end_stop_ptr : StopPtr) (is_roundtrip : Bool)
  | SetDistance (stop_from_ptr stop_to_ptr : StopPtr) (distance : Int)
  deriving DecidableEq, Repr

/-- The catalogue after a call, when the call returns. -/
def Call.run (catalogue : TransportCatalogue) : Call → Except Error TransportCatalogue
  | .AddStop name coordinates => .ok (catalogue.AddStop name coordinates)
  | .AddBus name stops end_stop_ptr is_roundtrip =>
    catalogue.AddBus name stops end_stop_ptr is_roundtrip
  | .SetDistance stop_from_ptr stop_to_ptr distance =>
    .ok (catalogue.SetDistance stop_from_ptr stop_to_ptr distance)

/-- The catalogue after a sequence of calls, when all of them return. -/
def populate : List Call → TransportCatalogue → Except Error TransportCatalogue
  | [], catalogue => .ok catalogue
  | call :: rest, catalogue =>
    match call.run catalogue with
    | .error e => .error e
    | .ok catalogue => populate rest catalogue

/-- The order of registration that the specification gives for `ApplyCommands`, first part:
a call of `AddStop` for every request of type `Stop`, in the order of the array. -/
def registration.stop_calls : List BaseRequest → List Call
  | [] => []
  | .Stop name coordinates _ :: rest => .AddStop name coordinates :: registration.stop_calls rest
  | .Bus _ _ _ :: rest => registration.stop_calls rest
  | .Other :: rest => registration.stop_calls rest

/-- The order of registration that the specification gives for `ApplyCommands`, second part:
a call of `AddBus` for every request of type `Bus`, in the order of the array.  The stops of
the call are what `GetStop` returns in `registered`, the catalogue with all the stops, for the
names of the request, followed for a bus that is not a round trip by the names backwards
without the last one; the end stop is the stop of the last name of the request. -/
def registration.bus_calls (registered : TransportCatalogue) : List BaseRequest → List Call
  | [] => []
  | .Bus name stops is_roundtrip :: rest =>
    .AddBus name
        ((if is_roundtrip then stops else stops ++ stops.reverse.tail).map registered.GetStop)
        (registered.GetStop (stops.getLast?.getD "")) is_roundtrip
      :: registration.bus_calls registered rest
  | .Stop _ _ _ :: rest => registration.bus_calls registered rest
  | .Other :: rest => registration.bus_calls registered rest

/-- The order of registration that the specification gives for `ApplyCommands`, third part:
a call of `SetDistance` for every entry of `road_distances` of every request of type `Stop`,
in the order of the array, between the stops that `GetStop` returns in `registered` for the
two names. -/
def registration.distance_calls (registered : TransportCatalogue) :
    List BaseRequest → List Call
  | [] => []
  | .Stop name _ road_distances :: rest =>
    road_distances.map
        (fun distance_pair =>
          Call.SetDistance (registered.GetStop name) (registered.GetStop distance_pair.1)
            distance_pair.2)
      ++ registration.distance_calls registered rest
  | .Bus _ _ _ :: rest => registration.distance_calls registered rest
  | .Other :: rest => registration.distance_calls registered rest

/-- What the calls establish for `stop_to_buses_`: its keys are the addresses of the stops, the
stops of every bus are among them, and the set of a stop holds, once each, the addresses of
the buses that have the stop among their stops. -/
structure TransportCatalogue.Served (catalogue : TransportCatalogue) : Prop where
  lookup_none : catalogue.stop_to_buses_.lookup none = none
  lookup_late : ∀ k, catalogue.stops_.length ≤ k →
    catalogue.stop_to_buses_.lookup (some k) = none
  bus_stops : ∀ bus ∈ catalogue.buses_, ∀ p ∈ bus.stops,
    ∃ k, k < catalogue.stops_.length ∧ p = some k
  lookup_some : ∀ k, k < catalogue.stops_.length →
    ∃ buses, catalogue.stop_to_buses_.lookup (some k) = some buses ∧ buses.Nodup ∧
      ∀ b, b ∈ buses ↔
        ∃ j bus, b = some j ∧ catalogue.buses_[j]? = some bus ∧ some k ∈ bus.stops

/-- What the calls establish for a map from names to addresses (`stopname_to_stop_` for the
stops, `busname_to_bus_` for the buses): a name without an entry is the name of no item of the
deque, and the entry of a name is the address of the last item of the deque with that name. -/
structure NameIndex {α : Type} (key : α → String) (items : List α)
    (m : List (String × Option Nat)) : Prop where
  absent : ∀ name, m.lookup name = none → ∀ x ∈ items, key x ≠ name
  found : ∀ name p, m.lookup name = some p →
    ∃ k x, p = some k ∧ items[k]? = some x ∧ key x = name ∧
      ∀ k' x', k < k' → items[k']? = some x' → key x' ≠ name

/-- The stop that a call adds to the catalogue, for a call of `AddStop`. -/
def Call.stop : Call → Option Stop
  | .AddStop name coordinates => some ⟨name, coordinates⟩
  | _ => none

/-- The bus that a call adds to the catalogue when it returns, for a call of `AddBus`. -/
def Call.bus : Call → Option Bus
  | .AddBus name stops end_stop_ptr is_roundtrip => some ⟨name, stops, end_stop_ptr, is_roundtrip⟩
  | _ => none

end tc

/-! ## The documents of `json.h`: their text and the loading of it -/

namespace json

/-- `json::Node`: the alternatives of the variant.  An `Array` is the list of its elements, a
`Dict` (a `std::map`) is the list of its entries in the ascending order of the keys, a
`double` is a rational number. -/
inductive Node where
  | nullptr
  | Array (value : List Node)
  | Dict (value : List (String × Node))
  | bool (value : Bool)
  | int (value : Int)
  | double (value : ℚ)
  | string (value : String)

/-- `operator<` of `std::string`: the order of the texts, character by character. -/
def string_less (lhs rhs : String) : Bool := decide (lhs.data < rhs.data)

/-- `Dict::find`: the node of the entry with the key, `none` for `end()`. -/
def Dict.find (dict : List (String × Node)) (key : String) : Option Node :=
  dict.lookup key

/-- `Dict::emplace`: the entry is put at its place in the order of the keys; a map that has
the key is left as it is. -/
def Dict.emplace : List (String × Node) → String → Node → List (String × Node)
  | [], key, node => [(key, node)]
  | (k, v) :: rest, key, node =>
    if string_less key k then (key, node) :: (k, v) :: rest
    else if key = k then (k, v) :: rest
    else (k, v) :: Dict.emplace rest key node

/-- `PrintContext` without the stream: the text is the value of the printing functions. -/
structure PrintContext where
  indent_step : Nat := 4
  indent : Nat := 0

/-- `PrintContext::PrintIndent`. -/
def PrintContext.PrintIndent (ctx : PrintContext) : List Char :=
  List.replicate ctx.indent ' '

/-- `PrintContext::Indented`. -/
def PrintContext.Indented (ctx : PrintContext) : PrintContext :=
  { indent_step := ctx.indent_step, indent := ctx.indent_step + ctx.indent }

/-- The loop of `PrintValue(std::string, ...)`: the text of the characters of the string. -/
def PrintValue.string.loop : List Char → List Char
  | [] => []
  | c :: str =>
    (if c = '\n' then ['\\', 'n']
     else if c = '\r' then ['\\', 'r']
     else if c = '"' then ['\\', '"']
     else if c = '\t' then ['\\', 't']
     else if c = '\\' then ['\\', '\\']
     else [c]) ++ PrintValue.string.loop str

/-- `PrintValue(std::string, ...)`. -/
def PrintValue.string (str : String) : List Char :=
  '"' :: PrintValue.string.loop str.data ++ ['"']

/-- `PrintValue(bool, ...)`. -/
def PrintValue.bool (value : Bool) : List Char :=
  if value then ['t', 'r', 'u', 'e'] else ['f', 'a', 'l', 's', 'e']

/-- `PrintValue(std::nullptr_t, ...)`. -/
def PrintValue.nullptr : List Char := ['n', 'u', 'l', 'l']

/-- The template `PrintValue` for an `int`: `ctx.out << value` writes the decimal digits of
the value, after a minus sign for a negative one. -/
def PrintValue.int (value : Int) : List Char :=
  if value < 0 then '-' :: Nat.toDigits 10 value.natAbs else Nat.toDigits 10 value.natAbs

mutual
/-- `PrintNode`, with the bodies of `PrintValue(const Array&, ...)` and of
`PrintValue(const Dict&, ...)` around their loops.  `print_double` is the text that
`ctx.out << value` writes for a `double`. -/
def PrintNode (print_double : ℚ → List Char) : Node → PrintContext → List Char
  | .nullptr, _ => PrintValue.nullptr
  | .Array value, ctx =>
    '[' :: PrintValue.Array.loop print_double value true ctx.Indented
      ++ '\n' :: ctx.PrintIndent ++ [']']
  | .Dict value, ctx =>
    '{' :: PrintValue.Dict.loop print_double value true ctx.Indented
      ++ '\n' :: ctx.PrintIndent ++ ['}']
  | .bool value, _ => PrintValue.bool value
  | .int value, _ => PrintValue.int value
  | .double value, _ => print_double value
  | .string value, _ => PrintValue.string value
/-- The loop of `PrintValue(const Array&, ...)`; `indented` is the context of the elements. -/
def PrintValue.Array.loop (print_double : ℚ → List Char) :
    List Node → Bool → PrintContext → List Char
  | [], _, _ => []
  | node :: rest, is_first, indented =>
    (if is_first then [] else [',']) ++ '\n' :: indented.PrintIndent
      ++ PrintNode print_double node indented
      ++ PrintValue.Array.loop print_double rest false indented
/-- The loop of `PrintValue(const Dict&, ...)`; the key is written as it is. -/
def PrintValue.Dict.loop (print_double : ℚ → List Char) :
    List (String × Node) → Bool → PrintContext → List Char
  | [], _, _ => []
  | (key, node) :: rest, is_first, indented =>
    (if is_first then [] else [',']) ++ '\n' :: indented.PrintIndent
      ++ '"' :: key.data ++ ['"', ':', ' ']
      ++ PrintNode print_double node indented
      ++ PrintValue.Dict.loop print_double rest false indented
end

/-- `json::Print`: the text written to the stream. -/
def Print (print_double : ℚ → List Char) (root : Node) : List Char :=
  PrintNode print_double root { indent_step := 4, indent := 0 }

/-- `std::isspace` in the default locale: what `input >> c` skips. -/
def isspace (c : Char) : Bool := c.toNat = 32 || (9 ≤ c.toNat && c.toNat ≤ 13)

/-- `std::isalpha` in the default locale. -/
def isalpha (c : Char) : Bool :=
  (65 ≤ c.toNat && c.toNat ≤ 90) || (97 ≤ c.toNat && c.toNat ≤ 122)

/-- `std::isdigit`. -/
def isdigit (c : Char) : Bool := 48 ≤ c.toNat && c.toNat ≤ 57

/-- What a loading function leaves: a value and the rest of the stream, or the exception
`ParsingError`; `out_of_fuel` is the answer of the model when the bound on the depth of the
calls is used up. -/
inductive Loaded (α : Type) where
  | ok (value : α) (input : List Char)
  | ParsingError
  | out_of_fuel

/-- `LoadLiteral`: the letters at the front of the stream, and the rest of the stream. -/
def LoadLiteral (input : List Char) : List Char × List Char :=
  (input.takeWhile isalpha, input.dropWhile isalpha)

/-- The loop of `LoadString`; `s` holds the characters read so far. -/
def LoadString.loop : List Char → List Char → Loaded String
  | [], _ => .ParsingError
  | ch :: rest, s =>
    if ch = '"' then .ok (String.mk s) rest
    else if ch = '\\' then
      match rest with
      | [] => .ParsingError
      | escaped_char :: rest =>
        if escaped_char = 'n' then LoadString.loop rest (s ++ ['\n'])
        else if escaped_char = 't' then LoadString.loop rest (s ++ ['\t'])
        else if escaped_char = 'r' then LoadString.loop rest (s ++ ['\r'])
        else if escaped_char = '"' then LoadString.loop rest (s ++ ['"'])
        else if escaped_char = '\\' then LoadString.loop rest (s ++ ['\\'])
        else .ParsingError
    else if ch = '\n' ∨ ch = '\r' then .ParsingError
    else LoadString.loop rest (s ++ [ch])

/-- `LoadString`: the stream is past the opening quote. -/
def LoadString (input : List Char) : Loaded String :=
  LoadString.loop input []

/-- `LoadBool`. -/
def LoadBool (input : List Char) : Loaded Node :=
  let (s, input) := LoadLiteral input
  if s = ['t', 'r', 'u', 'e'] then .ok (.bool true) input
  else if s = ['f', 'a', 'l', 's', 'e'] then .ok (.bool false) input
  else .ParsingError

/-- `LoadNull`. -/
def LoadNull (input : List Char) : Loaded Node :=
  let (literal, input) := LoadLiteral input
  if literal = ['n', 'u', 'l', 'l'] then .ok .nullptr input else .ParsingError

/-- The value of a text of decimal digits. -/
def stoi.value (digits : List Char) : Nat :=
  digits.foldl (fun value c => value * 10 + (c.toNat - 48)) 0

/-- `std::stoi` on a text of `LoadNumber` that has digits only, after an optional minus sign:
the number, `none` (the exception `std::out_of_range`) when it is not a value of `int`. -/
def stoi (str : List Char) : Option Int :=
  let value : Int :=
    if str.head? = some '-' then -(stoi.value str.tail : Int) else (stoi.value str : Int)
  if -2147483648 ≤ value ∧ value ≤ 2147483647 then some value else none

/-- `read_digits` of `LoadNumber`: one digit or more goes from the stream to `parsed_num`;
`none` is the `ParsingError` for a stream that does not start with a digit. -/
def LoadNumber.read_digits (parsed_num input : List Char) : Option (List Char × List Char) :=
  match input with
  | [] => none
  | c :: _ =>
    if isdigit c then some (parsed_num ++ input.takeWhile isdigit, input.dropWhile isdigit)
    else none

/-- The sign of `LoadNumber`. -/
def LoadNumber.sign (input : List Char) : List Char × List Char :=
  if input.head? = some '-' then (['-'], input.tail) else ([], input)

/-- The integer part of `LoadNumber`: a single `0`, or digits. -/
def LoadNumber.integer (parsed_num input : List Char) : Option (List Char × List Char) :=
  if input.head? = some '0' then some (parsed_num ++ ['0'], input.tail)
  else LoadNumber.read_digits parsed_num input

/-- The fraction of `LoadNumber`; the flag is `is_int`. -/
def LoadNumber.fraction (parsed_num input : List Char) :
    Option ((List Char × List Char) × Bool) :=
  if input.head? = some '.' then
    (LoadNumber.read_digits (parsed_num ++ ['.']) input.tail).map (fun r => (r, false))
  else some ((parsed_num, input), true)

/-- The exponent of `LoadNumber`; the flag is `is_int`. -/
def LoadNumber.exponent (parsed_num input : List Char) ( is_int : Bool) :
    Option ((List Char × List Char) × Bool) :=
  match input with
  | [] => some ((parsed_num, input), is_int)
  | ch :: rest =>
    if ch = 'e' ∨ ch = 'E' then
      (match rest with
       | [] => LoadNumber.read_digits (parsed_num ++ [ch]) rest
       | sign :: digits =>
         if sign = '+' ∨ sign = '-' then
           LoadNumber.read_digits (parsed_num ++ [ch, sign]) digits
         else LoadNumber.read_digits (parsed_num ++ [ch]) rest).map (fun r => (r, false))
    else some ((parsed_num, input), is_int)

/-- The conversion at the end of `LoadNumber`: `std::stoi` for a text without fraction and
exponent, and `std::stod` in the other case and when `std::stoi` throws.  `stod` is the
result of `std::stod`, `none` when it throws. -/
def LoadNumber.convert (stod : List Char → Option ℚ) (parsed_num : List Char)
    ( is_int : Bool) : Option Node :=
  match (if is_int then stoi parsed_num else none) with
  | some value => some (.int value)
  | none =>
    match stod parsed_num with
    | some value => some (.double value)
    | none => none

/-- `LoadNumber`. -/
def LoadNumber (stod : List Char → Option ℚ) (input : List Char) : Loaded Node :=
  let (parsed_num, input) := LoadNumber.sign input
  match LoadNumber.integer parsed_num input with
  | none => .ParsingError
  | some (parsed_num, input) =>
    match LoadNumber.fraction parsed_num input with
    | none => .ParsingError
    | some ((parsed_num, input), is_int) =>
      match LoadNumber.exponent parsed_num input is_int with
      | none => .ParsingError
      | some ((parsed_num, input), is_int) =>
        match LoadNumber.convert stod parsed_num is_int with
        | none => .ParsingError
        | some node => .ok node input

mutual
/-- `LoadNode`; `input >> c` skips the white space and fails at the end of the stream.  The
first argument bounds the depth of the calls. -/
def LoadNode (stod : List Char → Option ℚ) : Nat → List Char → Loaded Node
  | 0, _ => .out_of_fuel
  | fuel + 1, input =>
    match input.dropWhile isspace with
    | [] => .ParsingError
    | c :: input =>
      if c = '[' then LoadArray.loop stod fuel [] input
      else if c = '{' then LoadDict.loop stod fuel [] input
      else if c = '"' then
        match LoadString input with
        | .ok s input => .ok (.string s) input
        | .ParsingError => .ParsingError
        | .out_of_fuel => .out_of_fuel
      else if c = 't' ∨ c = 'f' then LoadBool (c :: input)
      else if c = 'n' then LoadNull (c :: input)
      else LoadNumber stod (c :: input)
/-- The loop of `LoadArray` and what follows it; `result` holds the elements read so far. -/
def LoadArray.loop (stod : List Char → Option ℚ) : Nat → List Node → List Char → Loaded Node
  | 0, _, _ => .out_of_fuel
  | fuel + 1, result, input =>
    match input.dropWhile isspace with
    | [] => .ParsingError
    | c :: input =>
      if c = ']' then .ok (.Array result) input
      else
        match LoadNode stod fuel (if c ≠ ',' then c :: input else input) with
        | .ok node input => LoadArray.loop stod fuel (result ++ [node]) input
        | .ParsingError => .ParsingError
        | .out_of_fuel => .out_of_fuel
/-- The loop of `LoadDict` and what follows it; `dict` holds the entries read so far. -/
def LoadDict.loop (stod : List Char → Option ℚ) :
    Nat → List (String × Node) → List Char → Loaded Node
  | 0, _, _ => .out_of_fuel
  | fuel + 1, dict, input =>
    match input.dropWhile isspace with
    | [] => .ParsingError
    | c :: input =>
      if c = '}' then .ok (.Dict dict) input
      else if c = '"' then
        match LoadString input with
        | .ok key input =>
          (match input.dropWhile isspace with
           | [] => .ParsingError
           | c :: input =>
             if c = ':' then
               match Dict.find dict key with
               | some _ => .ParsingError
               | none =>
                 match LoadNode stod fuel input with
                 | .ok node input => LoadDict.loop stod fuel (Dict.emplace dict key node) input
                 | .ParsingError => .ParsingError
                 | .out_of_fuel => .out_of_fuel
             else .ParsingError)
        | .ParsingError => .ParsingError
        | .out_of_fuel => .out_of_fuel
      else if c ≠ ',' then .ParsingError
      else LoadDict.loop stod fuel dict input
end

/-- `json::Load`: the root of the document and the rest of the stream.  The bound on the depth
of the calls is one that no stream uses up. -/
def Load (stod : List Char → Option ℚ) (input : List Char) : Loaded Node :=
  LoadNode stod (2 * input.length + 1) input

mutual
/-- What the types of the code add to the ones of the model: an `int` is a number of 32 bits,
and the keys of a `Dict` ascend strictly. -/
def Node.valid : Node → Prop
  | .nullptr => True
  | .Array value => Node.valid.items value
  | .Dict value =>
    (value.map Prod.fst).Pairwise (fun lhs rhs => string_less lhs rhs = true) ∧
      Node.valid.entries value
  | .bool _ => True
  | .int value => -2147483648 ≤ value ∧ value ≤ 2147483647
  | .double _ => True
  | .string _ => True
/-- The elements of an `Array` are valid. -/
def Node.valid.items : List Node → Prop
  | [] => True
  | node :: rest => Node.valid node ∧ Node.valid.items rest
/-- The nodes of the entries of a `Dict` are valid. -/
def Node.valid.entries : List (String × Node) → Prop
  | [] => True
  | (_, node) :: rest => Node.valid node ∧ Node.valid.entries rest
end

mutual
/-- Spec: a node built from null, booleans, ints, strings, arrays and dicts (no doubles) whose
dict keys contain no double quote, backslash, newline or carriage-return character. -/
def Node.plain : Node → Prop
  | .nullptr => True
  | .Array value => Node.plain.items value
  | .Dict value => Node.plain.entries value
  | .bool _ => True
  | .int _ => True
  | .double _ => False
  | .string _ => True
/-- Spec: the elements of an array are plain. -/
def Node.plain.items : List Node → Prop
  | [] => True
  | node :: rest => Node.plain node ∧ Node.plain.items rest
/-- Spec: the keys of a dict have none of the four characters, and its nodes are plain. -/
def Node.plain.entries : List (String × Node) → Prop
  | [] => True
  | (key, node) :: rest =>
    (∀ c ∈ key.data, c ≠ '"' ∧ c ≠ '\\' ∧ c ≠ '\n' ∧ c ≠ '\r') ∧
      Node.plain node ∧ Node.plain.entries rest
end

/-- Spec: the members of an object text.  `Members stod keys text` holds when `text` is what
follows the opening brace of an object text whose members have the keys `keys`, in their
order: a member is a key between double quotes, a colon and a value; a comma stands between
two members and a closing brace after the last one; white space may stand before a key, a
colon, a comma and the closing brace.  The text of a key is one that `LoadString` reads as
the key; the text of a value, with the white space before it, is one after which `LoadNode`
stops when it reads a node there. -/
inductive Members (stod : List Char → Option ℚ) : List String → List Char → Prop where
  | last (ws₁ key_text ws₂ value_text ws₃ rest : List Char) (key : String) :
    (∀ c ∈ ws₁, isspace c = true) → (∀ c ∈ ws₂, isspace c = true) →
    (∀ c ∈ ws₃, isspace c = true) →
    (∀ input, LoadString (key_text ++ '"' :: input) = .ok key input) →
    (∀ fuel node input, LoadNode stod fuel (value_text ++ (ws₃ ++ '}' :: rest)) =
      .ok node input → input = ws₃ ++ '}' :: rest) →
    Members stod [key]
      (ws₁ ++ '"' :: (key_text ++ '"' :: (ws₂ ++ ':' :: (value_text ++ (ws₃ ++ '}' :: rest)))))
  | more (ws₁ key_text ws₂ value_text ws₃ text : List Char) (key : String)
      (keys : List String) :
    (∀ c ∈ ws₁, isspace c = true) → (∀ c ∈ ws₂, isspace c = true) →
    (∀ c ∈ ws₃, isspace c = true) →
    (∀ input, LoadString (key_text ++ '"' :: input) = .ok key input) →
    (∀ fuel node input, LoadNode stod fuel (value_text ++ (ws₃ ++ ',' :: text)) =
      .ok node input → input = ws₃ ++ ',' :: text) →
    Members stod keys text →
    Members stod (key :: keys)
      (ws₁ ++ '"' :: (key_text ++ '"' :: (ws₂ ++ ':' :: (value_text ++ (ws₃ ++ ',' :: text)))))

end json

/-! ## The answer of `json_reader.cpp` to a request about a stop -/

namespace json

/-- `Node::AsMap`; `none` stands for the `std::logic_error` of `AsType`. -/
def Node.AsMap : Node → Option (List (String × Node))
  | .Dict value => some value
  | _ => none

/-- `Node::AsInt`; `none` stands for the `std::logic_error` of `AsType`. -/
def Node.AsInt : Node → Option Int
  | .int value => some value
  | _ => none

/-- `Node::AsString`; `none` stands for the `std::logic_error` of `AsType`. -/
def Node.AsString : Node → Option String
  | .string value => some value
  | _ => none

/-- `Dict::at`; `none` stands for the `std::out_of_range` of a key that the map has not. -/
def Dict.at (dict : List (String × Node)) (key : String) : Option Node :=
  dict.lookup key

/-- A call of a method of `json::Builder`, the class of `json_builder.h`.  The functions of
`json_reader.cpp` return the node that a builder makes of a chain of calls; the chain stands
for the node. -/
inductive Builder.Call where
  | StartDict
  | Key (key : String)
  | Value (value : Node)
  | StartArray
  | EndArray
  | EndDict
  | Build

end json

namespace std

/-- `std::sort` with the comparison `comp`: the elements in an order in which none is less
than one before it.  The order of elements of which none is less than the other is one of the
orders that the standard allows: the one of the sort by insertion. -/
def sort {α : Type} (comp : α → α → Bool) (items : List α) : List α :=
  items.insertionSort (fun lhs rhs => comp rhs lhs = false)

end std

namespace tc.io

/-- The buses that the pointers of a vector point to; there are none when a pointer is not
the address of a bus of the catalogue. -/
def dereference (catalogue : TransportCatalogue) : List BusPtr → Option (List Bus)
  | [] => some []
  | bus_ptr :: rest =>
    match catalogue.bus_at bus_ptr, dereference catalogue rest with
    | .ok bus, some buses => some (bus :: buses)
    | _, _ => none

/-- `PrintStopStat`: the chain of calls of the builder.  `iteration` is the order in which
`buses_set.begin()` to `buses_set.end()` goes through the elements of the set; `none` stands
for a call that does not return: the assertion fails, an exception leaves the function, or a
pointer is not the address of a bus. -/
def PrintStopStat (iteration : List BusPtr → List BusPtr) (catalogue : TransportCatalogue)
    (request_node : json.Node) : Option (List json.Builder.Call) :=
  match request_node.AsMap with
  | none => none
  | some request_dict =>
    match (json.Dict.at request_dict "type").bind json.Node.AsString,
      (json.Dict.at request_dict "id").bind json.Node.AsInt,
      (json.Dict.at request_dict "name").bind json.Node.AsString with
    | some type, some id, some name =>
      if type ≠ "Stop" then none
      else
        match catalogue.GetStop name with
        | none =>
          some [.StartDict, .Key "request_id", .Value (.int id), .Key "error_message",
            .Value (.string "not found"), .EndDict, .Build]
        | some k =>
          match catalogue.GetBusesAtStop (some k) with
          | .error _ => none
          | .ok buses_set =>
            match dereference catalogue (iteration buses_set) with
            | none => none
            | some buses =>
              some ([.StartDict, .Key "request_id", .Value (.int id), .Key "buses",
                  .StartArray]
                ++ (std.sort (fun lhs rhs => json.string_less lhs.name rhs.name) buses).map
                  (fun bus => .Value (.string bus.name))
                ++ [.EndArray, .EndDict, .Build])
    | _, _, _ => none

end tc.io

/-! ## Properties of the construction of the graph -/

namespace tc.router.TransportRouter

open graph

/-- A lookup in a map after `m[k] = v`. -/
theorem lookup_cons_eq {α β : Type} [BEq α] [LawfulBEq α] [DecidableEq α] (k a : α) (b : β)
    (m : List (α × β)) :
    ((k, b) :: m).lookup a = if a = k then some b else m.lookup a := by
  rw [List.lookup_cons]
  by_cases h : a = k
  · subst h; simp
  · have hb : (a == k) = false := by simpa using h
    rw [hb, if_neg h]

/-- The state that `AddStopsToGraph.loop` returns, field by field. -/
theorem AddStopsToGraph.loop_spec (stops : List Stop) :
    ∀ (k : Nat) (self : TransportRouter), self.graph_.edges_.length = k →
      2 * (k + stops.length) ≤ self.graph_.vertex_count →
      ∃ self', AddStopsToGraph.loop stops k (2 * k) self = .ok self' ∧
        self'.transport_catalogue_ = self.transport_catalogue_ ∧
        self'.settings_ = self.settings_ ∧
        self'.graph_.vertex_count = self.graph_.vertex_count ∧
        self'.graph_.edges_.length = k + stops.length ∧
        (∀ j, self'.graph_.edges_[j]? =
          if j < k then self.graph_.edges_[j]?
          else if j < k + stops.length then
            some ⟨2 * j, 2 * j + 1, (self.settings_.bus_wait_time : ℚ)⟩
          else none) ∧
        self'.stop_vertices_.lookup none = self.stop_vertices_.lookup none ∧
        (∀ j, self'.stop_vertices_.lookup (some j) =
          if k ≤ j ∧ j < k + stops.length then some (2 * j, 2 * j + 1)
          else self.stop_vertices_.lookup (some j)) ∧
        (∀ j, self'.edge_stats_.lookup j =
          if k ≤ j ∧ j < k + stops.length then
            (stops[j - k]?).map
              (fun s => RouteStat.WaitRouteStat s.name (self.settings_.bus_wait_time : ℚ))
          else self.edge_stats_.lookup j) := by
  induction stops with
  | nil =>
    intro k self hk _
    refine ⟨self, rfl, rfl, rfl, rfl, by simpa using hk, ?_, rfl, ?_, ?_⟩
    · intro j
      by_cases h : j < k
      · simp [h]
      · simp [h]; omega
    · intro j; rw [if_neg (by simp only [List.length_nil]; omega)]
    · intro j; rw [if_neg (by simp only [List.length_nil]; omega)]
  | cons stop rest ih =>
    intro k self hk hV
    simp only [List.length_cons] at hV
    have hadd : self.graph_.AddEdge ⟨2 * k, 2 * k + 1, (self.settings_.bus_wait_time : ℚ)⟩ =
        .ok ({ self.graph_ with
                edges_ := self.graph_.edges_ ++
                  [⟨2 * k, 2 * k + 1, (self.settings_.bus_wait_time : ℚ)⟩] }, k) := by
      unfold DirectedWeightedGraph.AddEdge
      rw [if_pos ⟨by simp only; omega, by simp only; omega⟩, hk]
    obtain ⟨self', hrun, hc, hs, hvc, hlen, hedges, hnone, hsv, hst⟩ :=
      ih (k + 1)
        { self with
          stop_vertices_ := (some k, (2 * k, 2 * k + 1)) :: self.stop_vertices_
          edge_stats_ :=
            (k, .WaitRouteStat stop.name (self.settings_.bus_wait_time : ℚ)) :: self.edge_stats_
          graph_ := { self.graph_ with
            edges_ := self.graph_.edges_ ++
              [⟨2 * k, 2 * k + 1, (self.settings_.bus_wait_time : ℚ)⟩] } }
        (by simp [hk]) (by simp only; omega)
    dsimp only at hc hs hvc hlen hedges hnone hsv hst
    refine ⟨self', ?_, hc, hs, hvc, ?_, ?_, ?_, ?_, ?_⟩
    · rw [AddStopsToGraph.loop]
      simp only [hadd]
      rw [show 2 * k + 2 = 2 * (k + 1) by ring]
      exact hrun
    · rw [hlen]; simp only [List.length_cons]; omega
    · intro j
      rw [hedges j]
      simp only [List.length_cons]
      by_cases h1 : j < k
      · rw [if_pos (by omega), if_pos h1, List.getElem?_append_left (by omega)]
      · by_cases h2 : j = k
        · subst h2
          rw [if_pos (by omega), if_neg h1, if_pos (by omega), ← hk,
            List.getElem?_concat_length]
        · rw [if_neg (by omega), if_neg h1]
          by_cases h3 : j < k + 1 + rest.length
          · rw [if_pos h3, if_pos (by omega)]
          · rw [if_neg h3, if_neg (by omega)]
    · rw [hnone, lookup_cons_eq]; simp
    · intro j
      rw [hsv j, lookup_cons_eq]
      simp only [List.length_cons]
      by_cases h1 : k + 1 ≤ j ∧ j < k + 1 + rest.length
      · rw [if_pos h1, if_pos (by omega)]
      · rw [if_neg h1]
        by_cases h2 : j = k
        · subst h2; simp
        · rw [if_neg (by simpa using h2), if_neg (by omega)]
    · intro j
      rw [hst j, lookup_cons_eq]
      simp only [List.length_cons]
      by_cases h1 : k + 1 ≤ j ∧ j < k + 1 + rest.length
      · rw [if_pos h1, if_pos (by omega)]
        obtain ⟨i, hi⟩ : ∃ i, j - k = i + 1 := ⟨j - k - 1, by omega⟩
        rw [hi, show j - (k + 1) = i by omega]
        simp
      · rw [if_neg h1]
        by_cases h2 : j = k
        · subst h2; simp
        · rw [if_neg h2, if_neg (by omega)]

end tc.router.TransportRouter

/-- Reading a map: the value found is paired with the key in the list. -/
theorem mem_of_lookup_eq_some {α β : Type} [BEq α] [LawfulBEq α] (a : α) (b : β) :
    ∀ m : List (α × β), m.lookup a = some b → (a, b) ∈ m := by
  intro m
  induction m with
  | nil => intro h; simp at h
  | cons x xs ih =>
    obtain ⟨k, v⟩ := x
    intro h
    rw [List.lookup_cons] at h
    by_cases hk : (a == k) = true
    · rw [hk] at h
      have h1 : k = a := (eq_of_beq hk).symm
      have h2 : v = b := by simpa using h
      subst h1; subst h2
      exact List.mem_cons_self _ _
    · have hk' : (a == k) = false := by simpa using hk
      rw [hk'] at h
      exact List.mem_cons_of_mem _ (ih h)

namespace tc.router.TransportRouter

open graph Relation

/-- A step of `SetRouteEdges` changes neither the catalogue, the settings, the vertices of the
stops nor the number of vertices, and puts the new edge at the end. -/
theorem RideStep.frame {a b : TransportRouter} (h : RideStep a b) :
    b.transport_catalogue_ = a.transport_catalogue_ ∧ b.settings_ = a.settings_ ∧
    b.stop_vertices_ = a.stop_vertices_ ∧ b.graph_.vertex_count = a.graph_.vertex_count ∧
    b.graph_.edges_.length = a.graph_.edges_.length + 1 ∧
    (∀ id, id < a.graph_.edges_.length →
      b.graph_.edges_[id]? = a.graph_.edges_[id]? ∧
      b.edge_stats_.lookup id = a.edge_stats_.lookup id) := by
  cases h with
  | step bus_name stop_from stop_to hub_from terminal_from hub_to terminal_to dists time
      span_count hne hfrom hto hdists htime hfr htr =>
    refine ⟨rfl, rfl, rfl, rfl, by simp, ?_⟩
    intro id hid
    refine ⟨List.getElem?_append_left hid, ?_⟩
    show List.lookup id (_ :: a.edge_stats_) = _
    rw [lookup_cons_eq, if_neg (by omega)]

/-- Steps of `SetRouteEdges` change neither the catalogue, the settings, the vertices of the
stops nor the number of vertices, and keep the edges they find with their descriptors. -/
theorem RideStep.frame_star {a b : TransportRouter} (h : ReflTransGen RideStep a b) :
    b.transport_catalogue_ = a.transport_catalogue_ ∧ b.settings_ = a.settings_ ∧
    b.stop_vertices_ = a.stop_vertices_ ∧ b.graph_.vertex_count = a.graph_.vertex_count ∧
    a.graph_.edges_.length ≤ b.graph_.edges_.length ∧
    (∀ id, id < a.graph_.edges_.length →
      b.graph_.edges_[id]? = a.graph_.edges_[id]? ∧
      b.edge_stats_.lookup id = a.edge_stats_.lookup id) := by
  induction h with
  | refl => exact ⟨rfl, rfl, rfl, rfl, le_refl _, fun _ _ => ⟨rfl, rfl⟩⟩
  | tail _ hstep ih =>
    obtain ⟨h1, h2, h3, h4, h5, h6⟩ := ih
    obtain ⟨s1, s2, s3, s4, s5, s6⟩ := RideStep.frame hstep
    refine ⟨s1.trans h1, s2.trans h2, s3.trans h3, s4.trans h4, by omega, ?_⟩
    intro id hid
    obtain ⟨e1, e2⟩ := h6 id hid
    obtain ⟨f1, f2⟩ := s6 id (by omega)
    exact ⟨f1.trans e1, f2.trans e2⟩

/-- Steps of `SetRouteEdges` leave `router_` as it is. -/
theorem RideStep.router_star {a b : TransportRouter} (h : ReflTransGen RideStep a b) :
    b.router_ = a.router_ := by
  induction h with
  | refl => rfl
  | tail _ hstep ih =>
    cases hstep with
    | step bus_name stop_from stop_to hub_from terminal_from hub_to terminal_to dists time
        span_count hne hfrom hto hdists htime hfr htr => exact ih

/-- What holds after construction does not depend on `router_`. -/
theorem Built.with_router {self : TransportRouter} (hb : Built self) (router : Router) :
    Built { self with router_ := router } :=
  ⟨hb.vertex_count, hb.lookup_none, hb.lookup_some, hb.wait_count, hb.wait_edge, hb.ride_edge⟩

open graph Relation

/-- When `AddEdge` returns, both vertices are in range, the edge is at the end of the list and
its id is the former number of edges. -/
theorem AddEdge_ok {g g' : DirectedWeightedGraph} {edge : Edge} {id : Nat}
    (h : g.AddEdge edge = .ok (g', id)) :
    edge.from_vertex < g.vertex_count ∧ edge.to_vertex < g.vertex_count ∧
    g' = { g with edges_ := g.edges_ ++ [edge] } ∧ id = g.edges_.length := by
  unfold DirectedWeightedGraph.AddEdge at h
  split at h
  · rename_i hr
    injection h with h
    injection h with h1 h2
    exact ⟨hr.1, hr.2, h1.symm, h2.symm⟩
  · cases h

/-- When `stop_vertices_.at` returns, the map has the entry. -/
theorem stop_vertices_at_ok {self : TransportRouter} {stop : StopPtr} {p : Nat × Nat}
    (h : self.stop_vertices_at stop = .ok p) : self.stop_vertices_.lookup stop = some p := by
  unfold stop_vertices_at at h
  split at h
  · cases h
  · rename_i q hq
    injection h with h
    rw [hq, h]

/-- The inner loop of `SetRouteEdges` is a sequence of steps, and it inserts an edge with a
descriptor of the bus for every stop of its range that differs from the stop it starts at. -/
theorem SetRouteEdges.inner_steps (bus_name : String) (stop_from : StopPtr)
    (hub_from terminal : Nat) :
    ∀ (rest : List StopPtr) (prev : StopPtr) (time : ℚ) (span_count : Int)
      (self self' : TransportRouter) (dists : List Int),
      self.stop_vertices_.lookup stop_from = some (hub_from, terminal) →
      (∀ d ∈ dists, ∃ p q, self.transport_catalogue_.GetDistance p q = .ok d) →
      time = (dists.map (leg_time self.settings_)).sum →
      SetRouteEdges.inner bus_name stop_from terminal prev rest time span_count self
        = .ok self' →
      ReflTransGen RideStep self self' ∧
      ∀ (j : Nat) (stop_to : StopPtr), rest[j]? = some stop_to → stop_to ≠ stop_from →
        ∃ id edge hub_to terminal_to time' span',
          self'.graph_.edges_[id]? = some edge ∧ edge.from_vertex = terminal ∧
          self.stop_vertices_.lookup stop_to = some (hub_to, terminal_to) ∧
          edge.to_vertex = hub_to ∧
          self'.edge_stats_.lookup id = some (.BusRouteStat bus_name time' span') := by
  intro rest
  induction rest with
  | nil =>
    intro prev time span_count self self' dists _ _ _ h
    rw [SetRouteEdges.inner] at h
    injection h with h
    subst h
    exact ⟨ReflTransGen.refl, fun j q hq => by simp at hq⟩
  | cons stop_to rest ih =>
    intro prev time span_count self self' dists hfrom hdists htime h
    rw [SetRouteEdges.inner] at h
    by_cases heq : stop_from = stop_to
    · rw [if_pos heq] at h
      obtain ⟨hchain, hex⟩ := ih stop_to time span_count self self' dists hfrom hdists htime h
      refine ⟨hchain, ?_⟩
      intro j q hq hne
      cases j with
      | zero =>
        simp only [List.getElem?_cons_zero, Option.some.injEq] at hq
        exact absurd (hq.symm.trans heq.symm) hne
      | succ j =>
        simp only [List.getElem?_cons_succ] at hq
        exact hex j q hq hne
    · rw [if_neg heq] at h
      cases hd : self.transport_catalogue_.GetDistance prev stop_to with
      | error e => simp only [hd] at h; cases h
      | ok distance =>
        simp only [hd] at h
        cases hat : self.stop_vertices_at stop_to with
        | error e => simp only [hat] at h; cases h
        | ok p =>
          obtain ⟨hub_to, terminal_to⟩ := p
          simp only [hat] at h
          cases hadd : self.graph_.AddEdge
              ⟨terminal, hub_to, time + (distance : ℚ) / self.settings_.bus_velocity
                * velocity_coefficient⟩ with
          | error e => simp only [hadd] at h; cases h
          | ok r =>
            obtain ⟨g, edge_id⟩ := r
            simp only [hadd] at h
            obtain ⟨hr1, hr2, hg, hid⟩ := AddEdge_ok hadd
            subst hg hid
            have hto := stop_vertices_at_ok hat
            have hdists' : ∀ d ∈ dists ++ [distance],
                ∃ p q, self.transport_catalogue_.GetDistance p q = .ok d := by
              intro d hdm
              rcases List.mem_append.1 hdm with hdm | hdm
              · exact hdists d hdm
              · simp only [List.mem_singleton] at hdm
                subst hdm
                exact ⟨prev, stop_to, hd⟩
            have htime' : time + (distance : ℚ) / self.settings_.bus_velocity
                * velocity_coefficient
                = ((dists ++ [distance]).map (leg_time self.settings_)).sum := by
              rw [htime]
              simp [leg_time]
            have hstep := RideStep.step self bus_name stop_from stop_to hub_from terminal
              hub_to terminal_to (dists ++ [distance]) _ (span_count + 1) heq hfrom hto
              hdists' htime' hr1 hr2
            have key := fun a b c =>
              ih stop_to _ (span_count + 1) _ self' (dists ++ [distance]) a b c h
            obtain ⟨hchain, hex⟩ := key hfrom hdists' htime'
            refine ⟨ReflTransGen.head hstep hchain, ?_⟩
            intro j q hq hne
            cases j with
            | zero =>
              simp only [List.getElem?_cons_zero, Option.some.injEq] at hq
              subst hq
              obtain ⟨_, _, _, _, _, hkeep⟩ := RideStep.frame_star hchain
              obtain ⟨k1, k2⟩ := hkeep self.graph_.edges_.length (by simp)
              refine ⟨self.graph_.edges_.length,
                ⟨terminal, hub_to, time + (distance : ℚ) / self.settings_.bus_velocity
                  * velocity_coefficient⟩, hub_to, terminal_to,
                time + (distance : ℚ) / self.settings_.bus_velocity * velocity_coefficient,
                span_count + 1, ?_, ?_, hto, ?_, ?_⟩
              · rw [k1]; exact List.getElem?_concat_length _ _
              · rfl
              · rfl
              · rw [k2]; exact List.lookup_cons_self
            | succ j =>
              simp only [List.getElem?_cons_succ] at hq
              exact hex j q hq hne

open graph Relation

/-- A ride edge stays in the graph through later steps of `SetRouteEdges`. -/
theorem has_ride.keep {a b : TransportRouter} (h : ReflTransGen RideStep a b)
    {bus_name : String} {stop_from stop_to : StopPtr} (hr : has_ride a bus_name stop_from stop_to) :
    has_ride b bus_name stop_from stop_to := by
  obtain ⟨id, edge, hf, tf, ht, tt, time, span, h1, h2, h3, h4, h5, h6⟩ := hr
  obtain ⟨_, _, hsv, _, _, hkeep⟩ := RideStep.frame_star h
  have hid : id < a.graph_.edges_.length := by
    rcases List.getElem?_eq_some.1 h1 with ⟨hlt, _⟩
    exact hlt
  obtain ⟨k1, k2⟩ := hkeep id hid
  exact ⟨id, edge, hf, tf, ht, tt, time, span, k1.trans h1, hsv ▸ h2, hsv ▸ h3, h4, h5,
    k2.trans h6⟩

/-- `SetRouteEdges` is a sequence of steps, and it inserts a ride edge of the bus for every two
positions `i < j` of its range that hold different stops. -/
theorem SetRouteEdges_steps (bus_name : String) :
    ∀ (sub_path : List StopPtr) (self self' : TransportRouter),
      SetRouteEdges bus_name sub_path self = .ok self' →
      ReflTransGen RideStep self self' ∧
      ∀ (i j : Nat) (stop_i stop_j : StopPtr), i < j → sub_path[i]? = some stop_i →
        sub_path[j]? = some stop_j → stop_i ≠ stop_j →
        has_ride self' bus_name stop_i stop_j := by
  intro sub_path
  induction sub_path with
  | nil =>
    intro self self' h
    rw [SetRouteEdges] at h
    injection h with h
    subst h
    exact ⟨ReflTransGen.refl, fun i j _ _ _ hi => by simp at hi⟩
  | cons stop_from rest ih =>
    intro self self' h
    rw [SetRouteEdges] at h
    cases hat : self.stop_vertices_at stop_from with
    | error e => simp only [hat] at h; cases h
    | ok p =>
      obtain ⟨hub_from, terminal⟩ := p
      simp only [hat] at h
      cases hin : SetRouteEdges.inner bus_name stop_from terminal stop_from rest 0 0 self with
      | error e => simp only [hin] at h; cases h
      | ok mid =>
        simp only [hin] at h
        have hfrom := stop_vertices_at_ok hat
        obtain ⟨hc1, hex1⟩ := SetRouteEdges.inner_steps bus_name stop_from hub_from terminal
          rest stop_from 0 0 self mid [] hfrom (by simp) (by simp) hin
        obtain ⟨hc2, hex2⟩ := ih mid self' h
        refine ⟨hc1.trans hc2, ?_⟩
        intro i j stop_i stop_j hij hi hj hne
        cases j with
        | zero => omega
        | succ j =>
          simp only [List.getElem?_cons_succ] at hj
          cases i with
          | zero =>
            simp only [List.getElem?_cons_zero, Option.some.injEq] at hi
            subst hi
            obtain ⟨id, edge, hub_to, terminal_to, time', span', e1, e2, e3, e4, e5⟩ :=
              hex1 j stop_j hj (Ne.symm hne)
            obtain ⟨_, _, hsv, _, _, _⟩ := RideStep.frame_star hc1
            exact has_ride.keep hc2
              ⟨id, edge, hub_from, terminal, hub_to, terminal_to, time', span', e1,
                hsv ▸ hfrom, hsv ▸ e3, e2, e4, e5⟩
          | succ i =>
            simp only [List.getElem?_cons_succ] at hi
            exact hex2 i j stop_i stop_j (by omega) hi hj hne

/-- The body of the loop of `AddBussesToGraph` is a sequence of steps, and it inserts a ride edge
of the bus for every two positions `i < j` of a traversed range that hold different stops. -/
theorem AddBussesToGraph.body_steps (bus : Bus) (self self' : TransportRouter)
    (h : AddBussesToGraph.body bus self = .ok self') :
    ReflTransGen RideStep self self' ∧
    ∀ (sub_path : List StopPtr), traversed bus sub_path →
      ∀ (i j : Nat) (stop_i stop_j : StopPtr), i < j → sub_path[i]? = some stop_i →
        sub_path[j]? = some stop_j → stop_i ≠ stop_j →
        has_ride self' bus.name stop_i stop_j := by
  unfold AddBussesToGraph.body at h
  by_cases hrt : bus.is_roundtrip = true
  · rw [if_pos hrt] at h
    obtain ⟨hc, hex⟩ := SetRouteEdges_steps bus.name bus.stops self self' h
    refine ⟨hc, ?_⟩
    intro sub_path htr
    unfold traversed at htr
    rw [if_pos hrt] at htr
    subst htr
    exact hex
  · rw [if_neg hrt] at h
    by_cases hlen : bus.stops.length / 2 + 1 ≤ bus.stops.length
    · rw [if_pos hlen] at h
      cases hout : SetRouteEdges bus.name (outbound bus) self with
      | error e => simp only [hout] at h; cases h
      | ok mid =>
        simp only [hout] at h
        obtain ⟨hc1, hex1⟩ := SetRouteEdges_steps bus.name (outbound bus) self mid hout
        obtain ⟨hc2, hex2⟩ := SetRouteEdges_steps bus.name (inbound bus) mid self' h
        refine ⟨hc1.trans hc2, ?_⟩
        intro sub_path htr
        unfold traversed at htr
        rw [if_neg hrt] at htr
        rcases htr with htr | htr
        · subst htr
          intro i j stop_i stop_j hij hi hj hne
          exact has_ride.keep hc2 (hex1 i j stop_i stop_j hij hi hj hne)
        · subst htr
          exact hex2
    · rw [if_neg hlen] at h
      cases h

/-- The loop of `AddBussesToGraph` is a sequence of steps, and it inserts a ride edge of each of
its buses for every two positions `i < j` of a traversed range that hold different stops. -/
theorem AddBussesToGraph.loop_steps :
    ∀ (buses : List Bus) (self self' : TransportRouter),
      AddBussesToGraph.loop buses self = .ok self' →
      ReflTransGen RideStep self self' ∧
      ∀ bus ∈ buses, ∀ (sub_path : List StopPtr), traversed bus sub_path →
        ∀ (i j : Nat) (stop_i stop_j : StopPtr), i < j → sub_path[i]? = some stop_i →
          sub_path[j]? = some stop_j → stop_i ≠ stop_j →
          has_ride self' bus.name stop_i stop_j := by
  intro buses
  induction buses with
  | nil =>
    intro self self' h
    rw [AddBussesToGraph.loop] at h
    injection h with h
    subst h
    exact ⟨ReflTransGen.refl, fun bus hb => by simp at hb⟩
  | cons bus rest ih =>
    intro self self' h
    rw [AddBussesToGraph.loop] at h
    cases hb : AddBussesToGraph.body bus self with
    | error e => simp only [hb] at h; cases h
    | ok mid =>
      simp only [hb] at h
      obtain ⟨hc1, hex1⟩ := AddBussesToGraph.body_steps bus self mid hb
      obtain ⟨hc2, hex2⟩ := ih mid self' h
      refine ⟨hc1.trans hc2, ?_⟩
      intro bus' hmem sub_path htr i j stop_i stop_j hij hi hj hne
      rcases List.mem_cons.1 hmem with hm | hm
      · subst hm
        exact has_ride.keep hc2 (hex1 sub_path htr i j stop_i stop_j hij hi hj hne)
      · exact hex2 bus' hm sub_path htr i j stop_i stop_j hij hi hj hne

open graph Relation

/-- A step of `SetRouteEdges` keeps what construction has established. -/
theorem Built.step {a b : TransportRouter} (hb : Built a) (h : RideStep a b) : Built b := by
  obtain ⟨hvc, hnone, hsome, hcount, hwait, hride⟩ := hb
  obtain ⟨f1, f2, f3, f4, f5, f6⟩ := RideStep.frame h
  refine ⟨?_, ?_, ?_, ?_, ?_, ?_⟩
  · rw [f4, f1]; exact hvc
  · rw [f3]; exact hnone
  · intro k; rw [f3, f1]; exact hsome k
  · rw [f1]; omega
  · intro k stop hk
    rw [f1] at hk
    have hlt : k < a.transport_catalogue_.stops_.length := by
      rcases List.getElem?_eq_some.1 hk with ⟨hlt, _⟩
      exact hlt
    obtain ⟨g1, g2⟩ := f6 k (by omega)
    obtain ⟨w1, w2⟩ := hwait k stop hk
    rw [g1, g2, f2]
    exact ⟨w1, w2⟩
  · intro id edge hid hedge
    rw [f1] at hid ⊢
    by_cases hlt : id < a.graph_.edges_.length
    · obtain ⟨g1, g2⟩ := f6 id hlt
      rw [g1] at hedge
      rw [g2]
      exact hride id edge hid hedge
    · have hlt' : id < b.graph_.edges_.length := by
        rcases List.getElem?_eq_some.1 hedge with ⟨hlt', _⟩
        exact hlt'
      have hideq : id = a.graph_.edges_.length := by omega
      subst hideq
      cases h with
      | step bus_name stop_from stop_to hub_from terminal_from hub_to terminal_to dists time
          span_count hne hfrom hto hdists htime hfr htr =>
        have hedge' : edge = ⟨terminal_from, hub_to, time⟩ := by
          have := List.getElem?_concat_length a.graph_.edges_
            (⟨terminal_from, hub_to, time⟩ : Edge)
          exact (Option.some.inj (hedge.symm.trans this))
        subst hedge'
        cases stop_from with
        | none => rw [hnone] at hfrom; cases hfrom
        | some ka =>
          cases stop_to with
          | none => rw [hnone] at hto; cases hto
          | some kb =>
            rw [hsome ka] at hfrom
            rw [hsome kb] at hto
            by_cases ha : ka < a.transport_catalogue_.stops_.length
            · by_cases hb : kb < a.transport_catalogue_.stops_.length
              · rw [if_pos ha] at hfrom
                rw [if_pos hb] at hto
                simp only [Option.some.injEq, Prod.mk.injEq] at hfrom hto
                refine ⟨ka, kb, ha, hb, ?_, hfrom.2.symm, hto.1.symm, bus_name, span_count, ?_⟩
                · intro hab; exact hne (by rw [hab])
                · exact List.lookup_cons_self
              · rw [if_neg hb] at hto; cases hto
            · rw [if_neg ha] at hfrom; cases hfrom

/-- Steps of `SetRouteEdges` keep what construction has established. -/
theorem Built.steps {a b : TransportRouter} (hb : Built a) (h : ReflTransGen RideStep a b) :
    Built b := by
  induction h with
  | refl => exact hb
  | tail _ hstep ih => exact Built.step ih hstep

/-- `AddStopsToGraph` returns on the graph that `ConstructGraph` creates, with one wait edge for
every stop and nothing else. -/
theorem AddStopsToGraph_ok (c : TransportCatalogue) (settings : RoutingSettings) :
    ∃ mid, AddStopsToGraph
        { transport_catalogue_ := c, settings_ := settings,
          graph_ := { vertex_count := c.GetAllStops.length * 2 } } = .ok mid ∧
      mid.transport_catalogue_ = c ∧ mid.settings_ = settings ∧
      mid.graph_.edges_.length = c.stops_.length ∧ Built mid := by
  obtain ⟨mid, hrun, hc, hs, hvc, hlen, hedges, hnone, hsv, hst⟩ :=
    AddStopsToGraph.loop_spec c.GetAllStops 0
      { transport_catalogue_ := c, settings_ := settings,
        graph_ := { vertex_count := c.GetAllStops.length * 2 } } rfl
      (by simp only; omega)
  simp only [TransportCatalogue.GetAllStops, Nat.zero_add, Nat.zero_le, true_and,
    Nat.not_lt_zero, if_false, Nat.sub_zero, List.lookup_nil] at hc hs hvc hlen hedges
  simp only [TransportCatalogue.GetAllStops, Nat.zero_add, Nat.zero_le, true_and,
    Nat.not_lt_zero, if_false, Nat.sub_zero, List.lookup_nil] at hnone hsv hst
  refine ⟨mid, hrun, hc, hs, hlen, ?_, ?_, ?_, ?_, ?_, ?_⟩
  · rw [hvc, hc]; omega
  · exact hnone
  · intro k; rw [hsv k, hc]
  · rw [hc, hlen]
  · intro k stop hk
    rw [hc] at hk
    have hlt : k < c.stops_.length := by
      rcases List.getElem?_eq_some.1 hk with ⟨hlt, _⟩
      exact hlt
    rw [hedges k, if_pos hlt, hst k, if_pos hlt, hk, hs]
    exact ⟨rfl, rfl⟩
  · intro id edge hid hedge
    rw [hc] at hid
    rw [hedges id, if_neg (by omega)] at hedge
    cases hedge

/-- A completed construction: `ConstructGraph` returns, and the planner is what it returns with
the router of its graph as `router_`. -/
theorem new_built (c : TransportCatalogue) (settings : RoutingSettings) (tr : TransportRouter)
    (h : TransportRouter.new c settings = .ok tr) :
    ∃ built, ConstructGraph
        { transport_catalogue_ := c, settings_ := settings, graph_ := { vertex_count := 0 } }
        = .ok built ∧
      tr = { built with router_ := Router.new built.graph_ } := by
  unfold TransportRouter.new at h
  cases hrun : ConstructGraph
      { transport_catalogue_ := c, settings_ := settings, graph_ := { vertex_count := 0 } } with
  | error e => rw [hrun] at h; cases h
  | ok built =>
    rw [hrun] at h
    injection h with h
    exact ⟨built, rfl, h.symm⟩

/-- A construction that fails: `ConstructGraph` fails. -/
theorem new_fails (c : TransportCatalogue) (settings : RoutingSettings) (e : Error)
    (h : TransportRouter.new c settings = .error e) :
    ConstructGraph
        { transport_catalogue_ := c, settings_ := settings, graph_ := { vertex_count := 0 } }
        = .error e := by
  unfold TransportRouter.new at h
  cases hrun : ConstructGraph
      { transport_catalogue_ := c, settings_ := settings, graph_ := { vertex_count := 0 } } with
  | error e' =>
    rw [hrun] at h
    injection h with h
    rw [h]
  | ok built => rw [hrun] at h; cases h

/-- The router of a planner is the router of its graph. -/
theorem new_router (c : TransportCatalogue) (settings : RoutingSettings) (tr : TransportRouter)
    (h : TransportRouter.new c settings = .ok tr) : tr.router_.graph = tr.graph_ := by
  obtain ⟨built, _, htr⟩ := new_built c settings tr h
  rw [htr]
  rfl

/-- A completed construction is `AddStopsToGraph` followed by steps of `SetRouteEdges`, which
insert a ride edge of each bus for every two positions `i < j` of a traversed range that hold
different stops. -/
theorem new_steps (c : TransportCatalogue) (settings : RoutingSettings) (tr : TransportRouter)
    (h : TransportRouter.new c settings = .ok tr) :
    tr.transport_catalogue_ = c ∧ tr.settings_ = settings ∧ Built tr ∧
    (∀ bus ∈ c.buses_, ∀ (sub_path : List StopPtr), traversed bus sub_path →
      ∀ (i j : Nat) (stop_i stop_j : StopPtr), i < j → sub_path[i]? = some stop_i →
        sub_path[j]? = some stop_j → stop_i ≠ stop_j →
        has_ride tr bus.name stop_i stop_j) ∧
    ∃ mid, AddStopsToGraph
        { transport_catalogue_ := c, settings_ := settings,
          graph_ := { vertex_count := c.GetAllStops.length * 2 } } = .ok mid ∧
      mid.graph_.edges_.length = c.stops_.length ∧ Built mid ∧
      ReflTransGen RideStep mid { tr with router_ := mid.router_ } := by
  obtain ⟨mid, hmid, hc, hs, hlen, hbuilt⟩ := AddStopsToGraph_ok c settings
  obtain ⟨built, hrun, htr⟩ := new_built c settings tr h
  unfold ConstructGraph at hrun
  simp only [hmid] at hrun
  unfold AddBussesToGraph at hrun
  obtain ⟨hchain, hex⟩ := AddBussesToGraph.loop_steps _ mid built hrun
  obtain ⟨f1, f2, _, _, _, _⟩ := RideStep.frame_star hchain
  have hrouter := RideStep.router_star hchain
  subst htr
  have hback : ({ ({ built with router_ := Router.new built.graph_ } : TransportRouter) with
      router_ := mid.router_ } : TransportRouter) = built := by
    rw [← hrouter]
  refine ⟨f1.trans hc, f2.trans hs, (Built.steps hbuilt hchain).with_router _, ?_, mid, hmid,
    hlen, hbuilt, hback ▸ hchain⟩
  intro bus hbus
  exact hex bus (by rw [hc]; exact hbus)

open graph Relation

/-- The construction for `demo_catalogue` returns `demo_router`. -/
theorem demo_router_built : TransportRouter.new demo_catalogue demo_settings = .ok demo_router := by
  with_unfolding_all rfl

/-- The construction for `loop_catalogue` returns `loop_router`. -/
theorem loop_router_built : TransportRouter.new loop_catalogue loop_settings = .ok loop_router := by
  with_unfolding_all rfl

/-- No ride edge goes from the terminal vertex of a stop to the hub vertex of the same stop. -/
theorem Built.no_self_ride {self : TransportRouter} (hb : Built self) (bus_name : String)
    (stop : StopPtr) : ¬ has_ride self bus_name stop stop := by
  rintro ⟨id, edge, hf, tf, ht, tt, time, span, h1, h2, h3, h4, h5, h6⟩
  obtain ⟨hvc, hnone, hsome, hcount, hwait, hride⟩ := hb
  have hsame : (hf, tf) = (ht, tt) := Option.some.inj (h2.symm.trans h3)
  simp only [Prod.mk.injEq] at hsame
  cases stop with
  | none => rw [hnone] at h2; cases h2
  | some k =>
    rw [hsome k] at h2
    by_cases hk : k < self.transport_catalogue_.stops_.length
    · rw [if_pos hk] at h2
      simp only [Option.some.injEq, Prod.mk.injEq] at h2
      by_cases hid : id < self.transport_catalogue_.stops_.length
      · obtain ⟨s, hs⟩ : ∃ s, self.transport_catalogue_.stops_[id]? = some s :=
          ⟨_, List.getElem?_eq_getElem hid⟩
        obtain ⟨w1, w2⟩ := hwait id s hs
        rw [w2] at h6
        cases h6
      · obtain ⟨a, b, ha, hb', hab, e1, e2, _⟩ := hride id edge (by omega) h1
        omega
    · rw [if_neg hk] at h2; cases h2

end tc.router.TransportRouter

/-- C3 (as amended): when construction completes, for every bus of the catalogue and every two
positions `i < j` of a range of stops that `AddBussesToGraph` passes to `SetRouteEdges` for it,
if the stops at the two positions differ then the graph has a ride edge from the terminal
vertex of the stop at `i` to the hub vertex of the stop at `j` whose descriptor is a
`BusRouteStat` with the name of the bus. -/
theorem tc.router.ride_edge_for_positions (c : TransportCatalogue) (settings : RoutingSettings)
    (tr : TransportRouter) (h : TransportRouter.new c settings = .ok tr)
    (bus : Bus) (hbus : bus ∈ c.GetAllBuses) (sub_path : List StopPtr)
    (htr : TransportRouter.traversed bus sub_path) (i j : Nat) (stop_i stop_j : StopPtr)
    (hij : i < j) (hi : sub_path[i]? = some stop_i) (hj : sub_path[j]? = some stop_j)
    (hne : stop_i ≠ stop_j) :
    TransportRouter.has_ride tr bus.name stop_i stop_j := by
  obtain ⟨_, _, _, hex, _⟩ := TransportRouter.new_steps c settings tr h
  exact hex bus hbus sub_path htr i j stop_i stop_j hij hi hj hne

/-- Witness of C3 (as amended): the ring bus `297` of `demo_catalogue`, positions 0 and 2. -/
theorem tc.router.ride_edge_for_positions_witness :
    TransportRouter.new demo_catalogue demo_settings = .ok demo_router ∧
    TransportRouter.has_ride demo_router "297" (some 0) (some 2) :=
  ⟨TransportRouter.demo_router_built,
    tc.router.ride_edge_for_positions demo_catalogue demo_settings demo_router
      TransportRouter.demo_router_built
      ⟨"297", [some 0, some 1, some 2, some 0], some 0, true⟩ (by decide)
      [some 0, some 1, some 2, some 0] (by decide) 0 2 (some 0) (some 2) (by decide)
      (by decide) (by decide) (by decide)⟩

/-- C3 (as stated) fails: the ring bus `297` of `demo_catalogue` traverses the stops
`[0, 1, 2, 0]`, and for the positions 0 and 3, which both hold stop 0, the graph has no ride
edge from the terminal vertex to the hub vertex. -/
theorem tc.router.ride_edge_for_positions_counterexample :
    TransportRouter.new demo_catalogue demo_settings = .ok demo_router ∧
    (⟨"297", [some 0, some 1, some 2, some 0], some 0, true⟩ : Bus) ∈ demo_catalogue.GetAllBuses ∧
    TransportRouter.traversed ⟨"297", [some 0, some 1, some 2, some 0], some 0, true⟩
      [some 0, some 1, some 2, some 0] ∧
    [some 0, some 1, some 2, some (0 : Nat)][0]? = some (some 0) ∧
    [some 0, some 1, some 2, some (0 : Nat)][3]? = some (some 0) ∧
    ¬ TransportRouter.has_ride demo_router "297" (some 0) (some 0) :=
  ⟨TransportRouter.demo_router_built, by decide, by decide, by decide, by decide,
    TransportRouter.Built.no_self_ride
      (TransportRouter.new_steps demo_catalogue demo_settings demo_router
        TransportRouter.demo_router_built).2.2.1 "297" (some 0)⟩

/-- C6: for a catalogue of `n` stops, `AddStopsToGraph` returns on the graph that
`ConstructGraph` creates, that graph has `2 * n` vertices, and the `k`-th stop in the order of
the catalogue gets the hub vertex `2 * k` and the terminal vertex `2 * k + 1`; so two different
stops share no vertex and the two vertices of a stop differ.  All of this still
holds in every planner whose construction completes. -/
theorem tc.router.stop_vertices_assigned (c : TransportCatalogue) (settings : RoutingSettings) :
    ∃ mid, TransportRouter.AddStopsToGraph
        { transport_catalogue_ := c, settings_ := settings,
          graph_ := { vertex_count := c.GetAllStops.length * 2 } } = .ok mid ∧
      mid.graph_.GetVertexCount = 2 * c.GetAllStops.length ∧
      (∀ k, k < c.GetAllStops.length →
        mid.stop_vertices_at (some k) = .ok (2 * k, 2 * k + 1)) ∧
      (∀ tr, TransportRouter.new c settings = .ok tr →
        tr.graph_.GetVertexCount = 2 * c.GetAllStops.length ∧
        (∀ k, k < c.GetAllStops.length →
          tr.stop_vertices_at (some k) = .ok (2 * k, 2 * k + 1)) ∧
        ∀ (p q : StopPtr) (hub_p terminal_p hub_q terminal_q : Nat),
          tr.stop_vertices_at p = .ok (hub_p, terminal_p) →
          tr.stop_vertices_at q = .ok (hub_q, terminal_q) → p ≠ q →
          hub_p ≠ terminal_p ∧ hub_p ≠ hub_q ∧ hub_p ≠ terminal_q ∧
          terminal_p ≠ hub_q ∧ terminal_p ≠ terminal_q) := by
  obtain ⟨mid, hmid, hc, hs, hlen, hbuilt⟩ := TransportRouter.AddStopsToGraph_ok c settings
  have key : ∀ tr : TransportRouter, tr.transport_catalogue_ = c → TransportRouter.Built tr →
      tr.graph_.GetVertexCount = 2 * c.GetAllStops.length ∧
      (∀ k, k < c.GetAllStops.length →
        tr.stop_vertices_at (some k) = .ok (2 * k, 2 * k + 1)) ∧
      ∀ (p q : StopPtr) (hub_p terminal_p hub_q terminal_q : Nat),
        tr.stop_vertices_at p = .ok (hub_p, terminal_p) →
        tr.stop_vertices_at q = .ok (hub_q, terminal_q) → p ≠ q →
        hub_p ≠ terminal_p ∧ hub_p ≠ hub_q ∧ hub_p ≠ terminal_q ∧
        terminal_p ≠ hub_q ∧ terminal_p ≠ terminal_q := by
    intro tr htc hb
    obtain ⟨hvc, hnone, hsome, _, _, _⟩ := hb
    rw [htc] at hvc hsome
    refine ⟨hvc, ?_, ?_⟩
    · intro k hk
      unfold TransportRouter.stop_vertices_at
      rw [hsome k, if_pos (show k < c.stops_.length from hk)]
    · intro p q hub_p terminal_p hub_q terminal_q hp hq hpq
      have hp' := TransportRouter.stop_vertices_at_ok hp
      have hq' := TransportRouter.stop_vertices_at_ok hq
      cases p with
      | none => rw [hnone] at hp'; cases hp'
      | some kp =>
        cases q with
        | none => rw [hnone] at hq'; cases hq'
        | some kq =>
          rw [hsome kp] at hp'
          rw [hsome kq] at hq'
          have hne : kp ≠ kq := fun e => hpq (by rw [e])
          split at hp'
          · split at hq'
            · simp only [Option.some.injEq, Prod.mk.injEq] at hp' hq'
              omega
            · cases hq'
          · cases hp'
  refine ⟨mid, hmid, (key mid hc hbuilt).1, (key mid hc hbuilt).2.1, ?_⟩
  intro tr htr
  obtain ⟨htc, _, hb, _⟩ := TransportRouter.new_steps c settings tr htr
  exact key tr htc hb

/-- Witness of C6: in `demo_router` the stop at position 2 has the vertices 4 and 5. -/
theorem tc.router.stop_vertices_assigned_witness :
    demo_router.graph_.GetVertexCount = 6 ∧ demo_router.stop_vertices_at (some 2) = .ok (4, 5) :=
  (tc.router.stop_vertices_assigned demo_catalogue demo_settings).elim fun _ hmid =>
    ⟨(hmid.2.2.2 demo_router TransportRouter.demo_router_built).1,
      (hmid.2.2.2 demo_router TransportRouter.demo_router_built).2.1 2 (by decide)⟩

/-- C7: for a catalogue of `n` stops, `AddStopsToGraph` returns on the empty graph that
`ConstructGraph` creates, with exactly `n` edges; the edge with id `k` goes from the hub vertex
of the `k`-th stop to its terminal vertex with weight `bus_wait_time`, its descriptor is
`WaitRouteStat` with the name of the stop and `bus_wait_time`, and no other edge leaves that
hub vertex. -/
theorem tc.router.wait_edges_inserted (c : TransportCatalogue) (settings : RoutingSettings) :
    ∃ mid, TransportRouter.AddStopsToGraph
        { transport_catalogue_ := c, settings_ := settings,
          graph_ := { vertex_count := c.GetAllStops.length * 2 } } = .ok mid ∧
      mid.graph_.GetEdgeCount = c.GetAllStops.length ∧
      ∀ (k : Nat) (stop : Stop), c.GetAllStops[k]? = some stop →
        ∃ hub terminal, mid.stop_vertices_at (some k) = .ok (hub, terminal) ∧
          mid.graph_.edges_[k]? = some ⟨hub, terminal, (settings.bus_wait_time : ℚ)⟩ ∧
          mid.edge_stats_at k =
            .ok (.WaitRouteStat stop.name (settings.bus_wait_time : ℚ)) ∧
          ∀ (id : Nat) (edge : graph.Edge), mid.graph_.edges_[id]? = some edge →
            edge.from_vertex = hub → id = k := by
  obtain ⟨mid, hmid, hc, hs, hlen, hbuilt⟩ := TransportRouter.AddStopsToGraph_ok c settings
  refine ⟨mid, hmid, hlen, ?_⟩
  intro k stop hk
  obtain ⟨hvc, hnone, hsome, hcount, hwait, hride⟩ := hbuilt
  rw [hc] at hsome hwait hride
  rw [hs] at hwait
  have hklt : k < c.stops_.length := by
    rcases List.getElem?_eq_some.1 hk with ⟨hlt, _⟩
    exact hlt
  obtain ⟨w1, w2⟩ := hwait k stop hk
  refine ⟨2 * k, 2 * k + 1, ?_, w1, ?_, ?_⟩
  · unfold TransportRouter.stop_vertices_at
    rw [hsome k, if_pos hklt]
  · unfold TransportRouter.edge_stats_at
    rw [w2]
  · intro id edge hedge hfrom
    have hidlt : id < c.stops_.length := by
      rcases List.getElem?_eq_some.1 hedge with ⟨hlt, _⟩
      omega
    obtain ⟨s, hs'⟩ : ∃ s, c.stops_[id]? = some s := ⟨_, List.getElem?_eq_getElem hidlt⟩
    obtain ⟨v1, _⟩ := hwait id s hs'
    have : edge = ⟨2 * id, 2 * id + 1, (settings.bus_wait_time : ℚ)⟩ :=
      Option.some.inj (hedge.symm.trans v1)
    subst this
    simp only at hfrom
    omega

/-- Witness of C7: the wait edge of the stop at position 1 of `demo_catalogue`. -/
theorem tc.router.wait_edges_inserted_witness :
    ∃ mid, TransportRouter.AddStopsToGraph
        { transport_catalogue_ := demo_catalogue, settings_ := demo_settings,
          graph_ := { vertex_count := demo_catalogue.GetAllStops.length * 2 } } = .ok mid ∧
      ∃ hub terminal, mid.stop_vertices_at (some 1) = .ok (hub, terminal) ∧
        mid.graph_.edges_[1]? = some ⟨hub, terminal, (demo_settings.bus_wait_time : ℚ)⟩ ∧
        mid.edge_stats_at 1 =
          .ok (.WaitRouteStat "Marushkino" (demo_settings.bus_wait_time : ℚ)) :=
  (tc.router.wait_edges_inserted demo_catalogue demo_settings).elim fun mid hmid =>
    (hmid.2.2 1 ⟨"Marushkino", ⟨55595884 / 1000000, 37209755 / 1000000⟩⟩
      (by with_unfolding_all rfl)).elim fun hub h1 => h1.elim fun terminal h2 =>
      ⟨mid, hmid.1, hub, terminal, h2.1, h2.2.1, h2.2.2.1⟩

/-- Filtering the numbers below `m` with a test that only `k` passes leaves `[k]`. -/
theorem filter_range_eq_singleton (p : Nat → Bool) :
    ∀ (m k : Nat), k < m → (∀ j, j < m → (p j = true ↔ j = k)) →
      (List.range m).filter p = [k] := by
  intro m
  induction m with
  | zero => intro k hk; omega
  | succ m ih =>
    intro k hk hp
    rw [List.range_succ, List.filter_append]
    by_cases hkm : k = m
    · subst hkm
      have h1 : (List.range k).filter p = [] := by
        rw [List.filter_eq_nil_iff]
        intro j hj
        have hj' : j < k := List.mem_range.1 hj
        intro hpj
        have := (hp j (by omega)).1 hpj
        omega
      have h2 : p k = true := (hp k (by omega)).2 rfl
      rw [h1]
      simp [h2]
    · have h1 := ih k (by omega) (fun j hj => hp j (by omega))
      have h2 : p m = false := by
        cases hpm : p m with
        | false => rfl
        | true => exact absurd ((hp m (by omega)).1 hpm).symm hkm
      rw [h1]
      simp [h2]

/-- C8: in the graph of a planner whose construction completes, the hub vertex of every stop
has exactly one outgoing edge: the edge whose id is the position of the stop, which goes to the
terminal vertex of the same stop with weight `bus_wait_time` and has the descriptor
`WaitRouteStat` of the stop; no other edge, so no ride edge, leaves the hub vertex. -/
theorem tc.router.hub_has_only_wait_edge (c : TransportCatalogue) (settings : RoutingSettings)
    (tr : TransportRouter) (h : TransportRouter.new c settings = .ok tr)
    (stop : StopPtr) (hub terminal : Nat)
    (hat : tr.stop_vertices_at stop = .ok (hub, terminal)) :
    ∃ (k : Nat) (s : Stop), stop = some k ∧ c.GetAllStops[k]? = some s ∧
      tr.graph_.GetIncidentEdges hub = [k] ∧
      tr.graph_.edges_[k]? = some ⟨hub, terminal, (settings.bus_wait_time : ℚ)⟩ ∧
      tr.edge_stats_at k = .ok (.WaitRouteStat s.name (settings.bus_wait_time : ℚ)) ∧
      ∀ (id : Nat) (edge : graph.Edge), tr.graph_.edges_[id]? = some edge →
        edge.from_vertex = hub → id = k := by
  obtain ⟨htc, hst, hb, _, _⟩ := TransportRouter.new_steps c settings tr h
  obtain ⟨hvc, hnone, hsome, hcount, hwait, hride⟩ := hb
  rw [htc] at hsome hwait hride hcount
  rw [hst] at hwait
  have hat' := TransportRouter.stop_vertices_at_ok hat
  cases stop with
  | none => rw [hnone] at hat'; cases hat'
  | some k =>
    rw [hsome k] at hat'
    by_cases hk : k < c.stops_.length
    · rw [if_pos hk] at hat'
      simp only [Option.some.injEq, Prod.mk.injEq] at hat'
      obtain ⟨hh, ht⟩ := hat'
      subst hh ht
      obtain ⟨s, hs⟩ : ∃ s, c.stops_[k]? = some s := ⟨_, List.getElem?_eq_getElem hk⟩
      obtain ⟨w1, w2⟩ := hwait k s hs
      have huniq : ∀ (id : Nat) (edge : graph.Edge), tr.graph_.edges_[id]? = some edge →
          edge.from_vertex = 2 * k → id = k := by
        intro id edge hedge hfrom
        by_cases hid : id < c.stops_.length
        · obtain ⟨s', hs'⟩ : ∃ s', c.stops_[id]? = some s' := ⟨_, List.getElem?_eq_getElem hid⟩
          obtain ⟨v1, _⟩ := hwait id s' hs'
          have : edge = ⟨2 * id, 2 * id + 1, (settings.bus_wait_time : ℚ)⟩ :=
            Option.some.inj (hedge.symm.trans v1)
          subst this
          simp only at hfrom
          omega
        · obtain ⟨a, b, _, _, _, e1, _, _⟩ := hride id edge (by omega) hedge
          omega
      refine ⟨k, s, rfl, hs, ?_, w1, ?_, huniq⟩
      · unfold graph.DirectedWeightedGraph.GetIncidentEdges
        apply filter_range_eq_singleton _ _ k (by omega)
        intro j hj
        obtain ⟨e, he⟩ : ∃ e, tr.graph_.edges_[j]? = some e := ⟨_, List.getElem?_eq_getElem hj⟩
        rw [he]
        simp only [Option.any_some, decide_eq_true_eq]
        constructor
        · intro hfrom; exact huniq j e he hfrom
        · intro hjk
          subst hjk
          have : e = ⟨2 * j, 2 * j + 1, (settings.bus_wait_time : ℚ)⟩ :=
            Option.some.inj (he.symm.trans w1)
          rw [this]
      · unfold TransportRouter.edge_stats_at
        rw [w2]
    · rw [if_neg hk] at hat'; cases hat'

/-- Witness of C8: the hub vertex of the stop at position 1 of `demo_catalogue`. -/
theorem tc.router.hub_has_only_wait_edge_witness :
    demo_router.stop_vertices_at (some 1) = .ok (2, 3) ∧
    ∃ (k : Nat) (s : Stop), some 1 = some k ∧ demo_catalogue.GetAllStops[k]? = some s ∧
      demo_router.graph_.GetIncidentEdges 2 = [k] ∧
      demo_router.graph_.edges_[k]? = some ⟨2, 3, (demo_settings.bus_wait_time : ℚ)⟩ ∧
      demo_router.edge_stats_at k =
        .ok (.WaitRouteStat s.name (demo_settings.bus_wait_time : ℚ)) ∧
      ∀ (id : Nat) (edge : graph.Edge), demo_router.graph_.edges_[id]? = some edge →
        edge.from_vertex = 2 → id = k :=
  ⟨by with_unfolding_all rfl,
    tc.router.hub_has_only_wait_edge demo_catalogue demo_settings demo_router
      TransportRouter.demo_router_built (some 1) 2 3 (by with_unfolding_all rfl)⟩

/-- `ParseRoute` for a route that is not a round trip: the names followed by the names before
the last one, backwards. -/
theorem tc.ParseRoute_there_and_back (front : List String) (last : String) :
    ParseRoute (front ++ [last]) false = .ok (front ++ [last] ++ front.reverse) := by
  unfold ParseRoute
  simp

/-- C10: for a bus that is not a round trip and is read from the stops `front ++ [last]` (so
from `n ≥ 1` stops, `last` being the turnaround stop), `ParseRoute` stores a sequence of length
`2 * n - 1`, and for the bus with these stops (each name resolved to a stop by `resolve`, as
`ApplyCommands` does with `GetStop`) the body of `AddBussesToGraph` calls `SetRouteEdges` on
the input stops and then on the input stops backwards; both ranges hold the turnaround stop,
as their last and first element.  For a round trip the body calls `SetRouteEdges` once, on the
stored stops. -/
theorem tc.router.sub_paths_of_bus (front : List String) (last : String)
    (resolve : String → StopPtr) (bus : Bus) :
    (bus.is_roundtrip = false →
      ∃ stored, ParseRoute (front ++ [last]) false = .ok stored ∧
        stored.length = 2 * (front ++ [last]).length - 1 ∧
        (bus.stops = stored.map resolve →
          TransportRouter.outbound bus = (front ++ [last]).map resolve ∧
          TransportRouter.inbound bus = ((front ++ [last]).map resolve).reverse ∧
          (TransportRouter.outbound bus).getLast? = some (resolve last) ∧
          (TransportRouter.inbound bus).head? = some (resolve last) ∧
          ∀ self, TransportRouter.AddBussesToGraph.body bus self =
            match TransportRouter.SetRouteEdges bus.name ((front ++ [last]).map resolve) self
              with
            | .error e => .error e
            | .ok self' =>
              TransportRouter.SetRouteEdges bus.name ((front ++ [last]).map resolve).reverse
                self')) ∧
    (bus.is_roundtrip = true →
      (∀ sub_path, TransportRouter.traversed bus sub_path ↔ sub_path = bus.stops) ∧
      ∀ self, TransportRouter.AddBussesToGraph.body bus self =
        TransportRouter.SetRouteEdges bus.name bus.stops self) := by
  constructor
  · intro hrt
    refine ⟨front ++ [last] ++ front.reverse, tc.ParseRoute_there_and_back front last, ?_, ?_⟩
    · simp only [List.length_append, List.length_reverse, List.length_singleton]
      omega
    · intro hstops
      have hlen : bus.stops.length = 2 * front.length + 1 := by
        rw [hstops]
        simp only [List.length_map, List.length_append, List.length_reverse,
          List.length_singleton]
        omega
      have hhalf : bus.stops.length / 2 = front.length := by
        rw [hlen]; omega
      have hout : TransportRouter.outbound bus = (front ++ [last]).map resolve := by
        unfold TransportRouter.outbound
        rw [hhalf, hstops, List.map_append, List.take_append_of_le_length (by simp)]
        rw [List.take_of_length_le (by simp)]
      have hin : TransportRouter.inbound bus = ((front ++ [last]).map resolve).reverse := by
        unfold TransportRouter.inbound
        rw [hhalf, hstops]
        simp only [List.map_append, List.map_cons, List.map_nil, List.append_assoc,
          List.reverse_append, List.reverse_cons, List.reverse_nil, List.nil_append,
          List.singleton_append, List.map_reverse]
        rw [List.drop_append_of_le_length (by simp)]
        rw [List.drop_of_length_le (by simp)]
        simp
      refine ⟨hout, hin, ?_, ?_, ?_⟩
      · rw [hout]; simp
      · rw [hin]; simp
      · intro self
        unfold TransportRouter.AddBussesToGraph.body
        rw [if_neg (by simp [hrt]), if_pos (by omega), hout, hin]
  · intro hrt
    constructor
    · intro sub_path
      unfold TransportRouter.traversed
      rw [if_pos hrt]
    · intro self
      unfold TransportRouter.AddBussesToGraph.body
      rw [if_pos hrt]

/-- Witness of C10: the bus `635` of `demo_catalogue`, read from the stops of positions
`[0, 1, 2]`, and the ring bus `297`. -/
theorem tc.router.sub_paths_of_bus_witness :
    (TransportRouter.outbound ⟨"635", [some 0, some 1, some 2, some 1, some 0], some 2, false⟩
        = [some 0, some 1, some 2] ∧
      TransportRouter.inbound ⟨"635", [some 0, some 1, some 2, some 1, some 0], some 2, false⟩
        = [some 2, some 1, some 0]) ∧
    ∀ sub_path,
      TransportRouter.traversed ⟨"297", [some 0, some 1, some 2, some 0], some 0, true⟩ sub_path
        ↔ sub_path = [some 0, some 1, some 2, some 0] :=
  ⟨(((tc.router.sub_paths_of_bus ["Tolstopaltsevo", "Marushkino"] "Rasskazovka"
        demo_catalogue.GetStop
        ⟨"635", [some 0, some 1, some 2, some 1, some 0], some 2, false⟩).1 rfl).elim
      fun _ hs => ⟨(hs.2.2 (by
        have hp := hs.1
        rw [tc.ParseRoute_there_and_back] at hp
        injection hp with hp
        rw [← hp]
        with_unfolding_all decide)).1, (hs.2.2 (by
        have hp := hs.1
        rw [tc.ParseRoute_there_and_back] at hp
        injection hp with hp
        rw [← hp]
        with_unfolding_all decide)).2.1⟩),
    ((tc.router.sub_paths_of_bus [] "" demo_catalogue.GetStop
        ⟨"297", [some 0, some 1, some 2, some 0], some 0, true⟩).2 rfl).1⟩

/-- C4 at a failing input.  The ring bus `8` of `loop_catalogue` traverses the stops
`[0, 1, 0, 2, 0]`; the roads between the positions 0 and 3 are 1000, 2000 and 3000 metres long,
which at 60 km/h is 6 minutes.  Stop 0 has the terminal vertex 1 and stop 2 the hub vertex 4.
The ride edges of the graph, in the order of insertion, are listed: the edge inserted for the
positions 0 and 3 (the second one) has weight 4, because the road into position 2, where the
bus is back at stop 0, is skipped; no edge from vertex 1 to vertex 4 has weight 6. -/
theorem tc.router.ride_weight_at_revisited_stop :
    TransportRouter.new loop_catalogue loop_settings = .ok loop_router ∧
    loop_catalogue.GetAllBuses.map (fun bus => (bus.stops, bus.is_roundtrip))
      = [([some 0, some 1, some 0, some 2, some 0], true)] ∧
    (loop_catalogue.GetDistance (some 0) (some 1)).toOption = some 1000 ∧
    (loop_catalogue.GetDistance (some 1) (some 0)).toOption = some 2000 ∧
    (loop_catalogue.GetDistance (some 0) (some 2)).toOption = some 3000 ∧
    ((1000 + 2000 + 3000 : Int) : ℚ) / loop_settings.bus_velocity * (60 / 1000) = 6 ∧
    (loop_router.stop_vertices_at (some 0)).toOption = some (0, 1) ∧
    (loop_router.stop_vertices_at (some 2)).toOption = some (4, 5) ∧
    loop_router.graph_.edges_.drop 3 =
      [⟨1, 2, 1⟩, ⟨1, 4, 4⟩, ⟨3, 0, 2⟩, ⟨3, 4, 5⟩, ⟨3, 0, 8⟩, ⟨1, 4, 3⟩, ⟨5, 0, 3⟩] ∧
    ∀ edge ∈ loop_router.graph_.edges_,
      edge.from_vertex = 1 → edge.to_vertex = 4 → edge.weight ≠ 6 := by
  refine ⟨TransportRouter.loop_router_built, by decide, by decide, by decide, by decide,
    ?_, ?_, ?_, ?_, ?_⟩ <;>
    with_unfolding_all decide

/-- C5 at a failing input.  The ring bus `8` of `loop_catalogue` traverses the stops
`[0, 1, 0, 2, 0]`.  Stop 0 has the terminal vertex 1 and stop 2 the hub vertex 4.  The edges
from vertex 1 to vertex 4 are those with the ids 4 and 8; the first one is inserted for the
positions 0 and 3 and its descriptor has `span_count` 2, not 3, because the position 2, where
the bus is back at stop 0, is not counted. -/
theorem tc.router.span_count_at_revisited_stop :
    TransportRouter.new loop_catalogue loop_settings = .ok loop_router ∧
    loop_catalogue.GetAllBuses.map (fun bus => (bus.stops, bus.is_roundtrip))
      = [([some 0, some 1, some 0, some 2, some 0], true)] ∧
    (loop_router.stop_vertices_at (some 0)).toOption = some (0, 1) ∧
    (loop_router.stop_vertices_at (some 2)).toOption = some (4, 5) ∧
    (List.range loop_router.graph_.GetEdgeCount).filter
      (fun id => (loop_router.graph_.edges_[id]?).any
        (fun edge => edge.from_vertex = 1 ∧ edge.to_vertex = 4)) = [4, 8] ∧
    (loop_router.edge_stats_at 4).toOption = some (.BusRouteStat "8" 4 2) ∧
    (loop_router.edge_stats_at 8).toOption = some (.BusRouteStat "8" 3 1) ∧
    loop_router.edge_stats_.map (fun p => (p.1, p.2.GetType)) =
      [(9, .BUS), (8, .BUS), (7, .BUS), (6, .BUS), (5, .BUS), (4, .BUS), (3, .BUS),
        (2, .WAIT), (1, .WAIT), (0, .WAIT)] := by
  refine ⟨TransportRouter.loop_router_built, ?_, ?_, ?_, ?_, ?_, ?_, ?_⟩ <;>
    with_unfolding_all decide

namespace graph.Router

open graph DirectedWeightedGraph

/-- A route followed by one more edge is a route. -/
theorem IsRoute_concat (g : DirectedWeightedGraph) (id : Nat) (edge : Edge)
    (hedge : g.edges_[id]? = some edge) :
    ∀ (ids : List Nat) (u : Nat), IsRoute g u edge.from_vertex ids →
      IsRoute g u edge.to_vertex (ids ++ [id]) := by
  intro ids
  induction ids with
  | nil =>
    intro u h
    unfold IsRoute at h
    subst h
    show IsRoute g edge.from_vertex edge.to_vertex [id]
    unfold IsRoute
    rw [hedge]
    exact ⟨rfl, by unfold IsRoute; rfl⟩
  | cons i rest ih =>
    intro u h
    unfold IsRoute at h
    show IsRoute g u edge.to_vertex (i :: (rest ++ [id]))
    unfold IsRoute
    cases hi : g.edges_[i]? with
    | none => rw [hi] at h; exact h.elim
    | some e =>
      rw [hi] at h
      exact ⟨h.1, ih e.to_vertex h.2⟩

/-- The weight of a route followed by one more edge. -/
theorem route_weight_concat (g : DirectedWeightedGraph) (ids : List Nat) (id : Nat) :
    route_weight g (ids ++ [id]) = route_weight g ids + g.edge_weight id := by
  unfold route_weight
  simp

/-- A route followed by a route that starts where the first one ends is a route. -/
theorem IsRoute_append (g : DirectedWeightedGraph) (v w : Nat) (tail : List Nat)
    (htail : IsRoute g v w tail) :
    ∀ (ids : List Nat) (u : Nat), IsRoute g u v ids → IsRoute g u w (ids ++ tail) := by
  intro ids
  induction ids with
  | nil =>
    intro u h
    unfold IsRoute at h
    subst h
    exact htail
  | cons i rest ih =>
    intro u h
    unfold IsRoute at h
    show IsRoute g u w (i :: (rest ++ tail))
    unfold IsRoute
    cases hi : g.edges_[i]? with
    | none => rw [hi] at h; exact h.elim
    | some e =>
      rw [hi] at h
      exact ⟨h.1, ih e.to_vertex h.2⟩

/-- The weight of a route followed by another one. -/
theorem route_weight_append (g : DirectedWeightedGraph) (ids tail : List Nat) :
    route_weight g (ids ++ tail) = route_weight g ids + route_weight g tail := by
  unfold route_weight
  simp

/-- The record behind a chain. -/
theorem Chain.lookup {g : DirectedWeightedGraph} {source : Nat}
    {data : List (Nat × RouteInternalData)} {unsettled : List Nat} {v : Nat} {ids : List Nat}
    {weight : ℚ} (h : Chain g source data unsettled v ids weight) :
    ∃ prev, data.lookup v = some ⟨weight, prev⟩ := by
  cases h with
  | source hs => exact ⟨none, hs⟩
  | step u v' ids' w id edge hc hu hedge hfrom hto hl => exact ⟨some id, hl⟩

/-- The edges of a chain are a route from the source with the recorded weight. -/
theorem Chain.route {g : DirectedWeightedGraph} {source : Nat}
    {data : List (Nat × RouteInternalData)} {unsettled : List Nat} {v : Nat} {ids : List Nat}
    {weight : ℚ} (h : Chain g source data unsettled v ids weight) :
    IsRoute g source v ids ∧ route_weight g ids = weight := by
  induction h with
  | source hs => exact ⟨by unfold IsRoute; rfl, by simp [route_weight]⟩
  | step u v ids' w id edge hc hu hedge hfrom hto hl ih =>
    obtain ⟨ih1, ih2⟩ := ih
    subst hfrom hto
    refine ⟨IsRoute_concat g id edge hedge ids' source ih1, ?_⟩
    rw [route_weight_concat, ih2]
    unfold edge_weight
    rw [hedge]

/-- Following the parent edges of a chain gives back its edges. -/
theorem Chain.reconstruct {g : DirectedWeightedGraph} {source : Nat}
    {data : List (Nat × RouteInternalData)} {unsettled : List Nat} {v : Nat} {ids : List Nat}
    {weight : ℚ} (h : Chain g source data unsettled v ids weight) :
    ∀ (fuel : Nat) (acc : List Nat), ids.length < fuel →
      Router.reconstruct g data fuel v acc = some (ids ++ acc) := by
  induction h with
  | source hs =>
    intro fuel acc hf
    cases fuel with
    | zero => simp at hf
    | succ fuel =>
      unfold Router.reconstruct
      rw [hs]
      rfl
  | step u v ids' w id edge hc hu hedge hfrom hto hl ih =>
    intro fuel acc hf
    cases fuel with
    | zero => simp at hf
    | succ fuel =>
      unfold Router.reconstruct
      rw [hl]
      simp only [hedge]
      rw [hfrom, ih fuel (id :: acc) (by simp at hf; omega)]
      simp

/-- A chain survives a change of the records that leaves the settled vertices, the source and
the end of the chain alone, while more vertices are settled. -/
theorem Chain.mono {g : DirectedWeightedGraph} {source : Nat}
    {data data' : List (Nat × RouteInternalData)} {unsettled unsettled' : List Nat}
    (hsettled : ∀ x, x ∉ unsettled → data'.lookup x = data.lookup x)
    (hsource : data'.lookup source = data.lookup source)
    (hsub : ∀ x, x ∈ unsettled' → x ∈ unsettled)
    {v : Nat} {ids : List Nat} {weight : ℚ} (h : Chain g source data unsettled v ids weight) :
    data'.lookup v = data.lookup v → Chain g source data' unsettled' v ids weight := by
  induction h with
  | source hs =>
    intro _
    exact Chain.source (hsource.trans hs)
  | step u v ids' w id edge hc hu hedge hfrom hto hl ih =>
    intro hv
    exact Chain.step u v ids' w id edge (ih (hsettled u hu)) (fun hx => hu (hsub u hx)) hedge
      hfrom hto (hv.trans hl)

open graph DirectedWeightedGraph

/-- When `extractMin` returns nothing, no vertex of the list is reached. -/
theorem extractMin_none (data : List (Nat × RouteInternalData)) :
    ∀ (vs : List Nat), extractMin data vs = none → ∀ z ∈ vs, data.lookup z = none := by
  intro vs
  induction vs with
  | nil => intro _ z hz; simp at hz
  | cons a l ihl =>
    intro hl z hz
    unfold extractMin at hl
    cases ha : data.lookup a with
    | none =>
      rw [ha] at hl
      rcases List.mem_cons.1 hz with hz | hz
      · subst hz; exact ha
      · exact ihl hl z hz
    | some da =>
      rw [ha] at hl
      cases hl' : extractMin data l with
      | none => rw [hl'] at hl; cases hl
      | some q =>
        obtain ⟨q1, q2⟩ := q
        rw [hl'] at hl
        simp only at hl
        split at hl <;> cases hl

/-- The vertex that `extractMin` returns is a reached vertex of the list with the returned
weight, and no reached vertex of the list has a smaller weight. -/
theorem extractMin_some (data : List (Nat × RouteInternalData)) :
    ∀ (vs : List Nat) (u : Nat) (w : ℚ), extractMin data vs = some (u, w) →
      u ∈ vs ∧ (∃ d, data.lookup u = some d ∧ d.weight = w) ∧
      ∀ y ∈ vs, ∀ dy, data.lookup y = some dy → w ≤ dy.weight := by
  intro vs
  induction vs with
  | nil => intro u w h; simp [extractMin] at h
  | cons v vs ih =>
    intro u w h
    unfold extractMin at h
    cases hv : data.lookup v with
    | none =>
      rw [hv] at h
      obtain ⟨h1, h2, h3⟩ := ih u w h
      refine ⟨List.mem_cons_of_mem _ h1, h2, ?_⟩
      intro y hy dy hdy
      rcases List.mem_cons.1 hy with hy | hy
      · subst hy; rw [hv] at hdy; cases hdy
      · exact h3 y hy dy hdy
    | some d =>
      rw [hv] at h
      cases hrest : extractMin data vs with
      | none =>
        rw [hrest] at h
        simp only [Option.some.injEq, Prod.mk.injEq] at h
        obtain ⟨e1, e2⟩ := h
        subst e1 e2
        refine ⟨List.mem_cons_self _ _, ⟨d, hv, rfl⟩, ?_⟩
        intro y hy dy hdy
        rcases List.mem_cons.1 hy with hy | hy
        · subst hy
          rw [hv] at hdy
          cases hdy
          exact le_refl _
        · exfalso
          rw [extractMin_none data vs hrest y hy] at hdy
          cases hdy
      | some q =>
        obtain ⟨u', w'⟩ := q
        rw [hrest] at h
        simp only at h
        obtain ⟨h1, h2, h3⟩ := ih u' w' hrest
        by_cases hle : d.weight ≤ w'
        · rw [if_pos hle] at h
          simp only [Option.some.injEq, Prod.mk.injEq] at h
          obtain ⟨e1, e2⟩ := h
          subst e1 e2
          refine ⟨List.mem_cons_self _ _, ⟨d, hv, rfl⟩, ?_⟩
          intro y hy dy hdy
          rcases List.mem_cons.1 hy with hy | hy
          · subst hy
            rw [hv] at hdy
            cases hdy
            exact le_refl _
          · exact le_trans hle (h3 y hy dy hdy)
        · rw [if_neg hle] at h
          simp only [Option.some.injEq, Prod.mk.injEq] at h
          obtain ⟨e1, e2⟩ := h
          subst e1 e2
          refine ⟨List.mem_cons_of_mem _ h1, h2, ?_⟩
          intro y hy dy hdy
          rcases List.mem_cons.1 hy with hy | hy
          · subst hy
            rw [hv] at hdy
            cases hdy
            exact le_of_lt (not_le.1 hle)
          · exact h3 y hy dy hdy

/-- What `relaxEdge` does: either it leaves the records alone, and then the target of the edge,
if it is not settled, has a record of at most the weight through the edge; or it puts a record
with the weight through the edge and the edge as parent in front, for a target that is not
settled and had no record or a larger weight. -/
theorem relaxEdge_cases (g : DirectedWeightedGraph) (unsettled : List Nat) (w : ℚ)
    (data : List (Nat × RouteInternalData)) (id : Nat) :
    (relaxEdge g unsettled w data id = data ∧
      ∀ edge, g.edges_[id]? = some edge → edge.to_vertex ∈ unsettled →
        ∃ dv, data.lookup edge.to_vertex = some dv ∧ dv.weight ≤ w + edge.weight) ∨
    ∃ edge, g.edges_[id]? = some edge ∧ edge.to_vertex ∈ unsettled ∧
      relaxEdge g unsettled w data id
        = (edge.to_vertex, ⟨w + edge.weight, some id⟩) :: data ∧
      ∀ d, data.lookup edge.to_vertex = some d → w + edge.weight < d.weight := by
  unfold relaxEdge
  cases hedge : g.edges_[id]? with
  | none => exact Or.inl ⟨rfl, fun edge he => by cases he⟩
  | some edge =>
    simp only
    by_cases hmem : edge.to_vertex ∈ unsettled
    · rw [if_pos hmem]
      cases hl : data.lookup edge.to_vertex with
      | none =>
        refine Or.inr ⟨edge, rfl, hmem, rfl, ?_⟩
        intro d hd; rw [hl] at hd; cases hd
      | some d =>
        simp only
        by_cases hlt : w + edge.weight < d.weight
        · rw [if_pos hlt]
          refine Or.inr ⟨edge, rfl, hmem, rfl, ?_⟩
          intro d' hd'
          rw [hl] at hd'
          cases hd'
          exact hlt
        · rw [if_neg hlt]
          refine Or.inl ⟨rfl, ?_⟩
          intro edge' he' _
          cases he'
          exact ⟨d, hl, not_lt.1 hlt⟩
    · rw [if_neg hmem]
      refine Or.inl ⟨rfl, ?_⟩
      intro edge' he' hmem'
      cases he'
      exact absurd hmem' hmem

/-- The edges that `GetIncidentEdges` lists leave the vertex, and it lists all of them. -/
theorem mem_GetIncidentEdges (g : DirectedWeightedGraph) (u id : Nat) :
    id ∈ g.GetIncidentEdges u ↔ ∃ edge, g.edges_[id]? = some edge ∧ edge.from_vertex = u := by
  unfold DirectedWeightedGraph.GetIncidentEdges
  rw [List.mem_filter, List.mem_range]
  constructor
  · rintro ⟨hlt, hany⟩
    cases he : g.edges_[id]? with
    | none => rw [he] at hany; simp at hany
    | some edge =>
      rw [he] at hany
      exact ⟨edge, rfl, by simpa using hany⟩
  · rintro ⟨edge, he, hfrom⟩
    refine ⟨?_, ?_⟩
    · rcases List.getElem?_eq_some.1 he with ⟨hlt, _⟩
      exact hlt
    · rw [he]; simpa using hfrom

open graph DirectedWeightedGraph

/-- Relaxing an edge leaves the records of the settled vertices alone. -/
theorem relaxEdge_settled (g : DirectedWeightedGraph) (unsettled : List Nat) (w : ℚ)
    (data : List (Nat × RouteInternalData)) (id : Nat) (x : Nat) (hx : x ∉ unsettled) :
    (relaxEdge g unsettled w data id).lookup x = data.lookup x := by
  rcases relaxEdge_cases g unsettled w data id with ⟨h, _⟩ | ⟨edge, _, hmem, h, _⟩
  · rw [h]
  · rw [h, tc.router.TransportRouter.lookup_cons_eq, if_neg]
    intro hxe
    exact hx (hxe ▸ hmem)

/-- Relaxing edges leaves the records of the settled vertices alone. -/
theorem relax_all_settled (g : DirectedWeightedGraph) (unsettled : List Nat) (w : ℚ) (x : Nat)
    (hx : x ∉ unsettled) :
    ∀ (ids : List Nat) (data : List (Nat × RouteInternalData)),
      (ids.foldl (relaxEdge g unsettled w) data).lookup x = data.lookup x := by
  intro ids
  induction ids with
  | nil => intro data; rfl
  | cons id rest ih =>
    intro data
    rw [List.foldl_cons, ih, relaxEdge_settled g unsettled w data id x hx]

/-- Relaxing the edges that leave a settled vertex `u` keeps the routes behind the records:
those of at most `n` edges become routes of at most `n + 1` edges. -/
theorem relax_all_chains (g : DirectedWeightedGraph) (source : Nat) (unsettled : List Nat)
    (u : Nat) (w : ℚ) (n : Nat) (hu : u ∉ unsettled) (hsource : source ∉ unsettled) :
    ∀ (ids : List Nat) (data : List (Nat × RouteInternalData)),
      (∀ id ∈ ids, ∃ edge, g.edges_[id]? = some edge ∧ edge.from_vertex = u) →
      (∃ through, Chain g source data unsettled u through w ∧ through.length ≤ n) →
      (∀ v d, data.lookup v = some d →
        ∃ route, Chain g source data unsettled v route d.weight ∧ route.length ≤ n + 1) →
      ∀ v d, (ids.foldl (relaxEdge g unsettled w) data).lookup v = some d →
        ∃ route, Chain g source (ids.foldl (relaxEdge g unsettled w) data) unsettled v route
          d.weight ∧ route.length ≤ n + 1 := by
  intro ids
  induction ids with
  | nil => intro data _ _ hall; exact hall
  | cons id rest ih =>
    intro data hleave hthrough hall
    rw [List.foldl_cons]
    have hrest : ∀ id' ∈ rest, ∃ edge, g.edges_[id']? = some edge ∧ edge.from_vertex = u :=
      fun id' h' => hleave id' (List.mem_cons_of_mem _ h')
    rcases relaxEdge_cases g unsettled w data id with ⟨h, _⟩ | ⟨edge, hedge, hmem, h, _⟩
    · rw [h]
      exact ih data hrest hthrough hall
    · rw [h]
      obtain ⟨edge', hedge', hfrom⟩ := hleave id (List.mem_cons_self _ _)
      have hee : edge' = edge := Option.some.inj (hedge'.symm.trans hedge)
      subst hee
      have hlook : ∀ x, x ≠ edge'.to_vertex →
          ((edge'.to_vertex, (⟨w + edge'.weight, some id⟩ : RouteInternalData)) :: data).lookup x
            = data.lookup x := by
        intro x hx
        rw [tc.router.TransportRouter.lookup_cons_eq, if_neg hx]
      have hset : ∀ x, x ∉ unsettled →
          ((edge'.to_vertex, (⟨w + edge'.weight, some id⟩ : RouteInternalData)) :: data).lookup x
            = data.lookup x :=
        fun x hx => hlook x (fun hxe => hx (hxe ▸ hmem))
      obtain ⟨through, hch, hlen⟩ := hthrough
      have hch' := Chain.mono hset (hset source hsource) (fun x hx => hx) hch (hset u hu)
      apply ih _ hrest ⟨through, hch', hlen⟩
      intro v d hv
      by_cases hvt : v = edge'.to_vertex
      · subst hvt
        rw [List.lookup_cons_self] at hv
        cases hv
        exact ⟨through ++ [id],
          Chain.step u edge'.to_vertex through w id edge' hch' hu hedge hfrom rfl
            List.lookup_cons_self,
          by simp only [List.length_append, List.length_singleton]; omega⟩
      · rw [hlook v hvt] at hv
        obtain ⟨route, hr, hrl⟩ := hall v d hv
        exact ⟨route, Chain.mono hset (hset source hsource) (fun x hx => hx) hr (hlook v hvt),
          hrl⟩

/-- A bound on the number of edges of the routes can be raised. -/
theorem PathInv.weaken {g : DirectedWeightedGraph} {source n m : Nat} {st : SearchState}
    (h : PathInv g source n st) (hnm : n ≤ m) : PathInv g source m st :=
  ⟨h.nodup, h.source_data, h.source_first, fun v d hv =>
    (h.chains v d hv).elim fun ids hids => ⟨ids, hids.1, le_trans hids.2 hnm⟩⟩

/-- A round of the search keeps the routes behind the records. -/
theorem PathInv.settle {g : DirectedWeightedGraph} {source n : Nat} {st st' : SearchState}
    (h : PathInv g source n st) (hs : Router.settle g st = some st') :
    PathInv g source (n + 1) st' := by
  obtain ⟨hnodup, hsd, hfirst, hchains⟩ := h
  unfold Router.settle at hs
  cases hmin : extractMin st.data st.unsettled with
  | none => rw [hmin] at hs; cases hs
  | some q =>
    obtain ⟨u, w⟩ := q
    rw [hmin] at hs
    simp only [Option.some.injEq] at hs
    subst hs
    obtain ⟨humem, ⟨du, hdu, hduw⟩, _⟩ := extractMin_some st.data st.unsettled u w hmin
    have hu : u ∉ st.unsettled.erase u := fun hx => ((hnodup.mem_erase_iff).1 hx).1 rfl
    have hsub : ∀ x, x ∈ st.unsettled.erase u → x ∈ st.unsettled :=
      fun x hx => List.mem_of_mem_erase hx
    have hsource : source ∉ st.unsettled.erase u := by
      intro hx
      have hsu : u = source := hfirst (hsub source hx) u du hdu
      exact hu (hsu ▸ hx)
    have hall : ∀ v d, st.data.lookup v = some d →
        ∃ route, Chain g source st.data (st.unsettled.erase u) v route d.weight ∧
          route.length ≤ n + 1 := by
      intro v d hv
      obtain ⟨route, hr, hrl⟩ := hchains v d hv
      exact ⟨route, Chain.mono (fun _ _ => rfl) rfl hsub hr rfl, by omega⟩
    have hthrough : ∃ through,
        Chain g source st.data (st.unsettled.erase u) u through w ∧ through.length ≤ n := by
      obtain ⟨route, hr, hrl⟩ := hchains u du hdu
      exact ⟨route, hduw ▸ Chain.mono (fun _ _ => rfl) rfl hsub hr rfl, hrl⟩
    refine ⟨hnodup.erase u, ?_, ?_, ?_⟩
    · show List.lookup source (List.foldl _ st.data _) = _
      rw [relax_all_settled g _ w source hsource]
      exact hsd
    · intro hx
      exact absurd hx hsource
    · exact relax_all_chains g source (st.unsettled.erase u) u w n hu hsource
        (g.GetIncidentEdges u) st.data
        (fun id hid => (mem_GetIncidentEdges g u id).1 hid) hthrough hall

/-- The search keeps the routes behind the records. -/
theorem PathInv.search {g : DirectedWeightedGraph} {source : Nat} :
    ∀ (fuel n : Nat) (st : SearchState), PathInv g source n st →
      PathInv g source (n + fuel) (Router.search g fuel st) := by
  intro fuel
  induction fuel with
  | zero => intro n st h; exact h
  | succ fuel ih =>
    intro n st h
    unfold Router.search
    cases hs : Router.settle g st with
    | none => exact h.weaken (by omega)
    | some st' =>
      have := ih (n + 1) st' (h.settle hs)
      simp only
      rw [show n + (fuel + 1) = n + 1 + fuel by omega]
      exact this

/-- The search starts with the routes behind the records. -/
theorem PathInv.initial (g : DirectedWeightedGraph) (source : Nat) :
    PathInv g source 0 (Router.initial g source) := by
  refine ⟨List.nodup_range _, List.lookup_cons_self, ?_, ?_⟩
  · intro _ v d hv
    unfold Router.initial at hv
    simp only at hv
    rw [tc.router.TransportRouter.lookup_cons_eq] at hv
    by_cases hvs : v = source
    · exact hvs
    · rw [if_neg hvs] at hv; cases hv
  · intro v d hv
    unfold Router.initial at hv ⊢
    simp only at hv ⊢
    rw [tc.router.TransportRouter.lookup_cons_eq] at hv
    by_cases hvs : v = source
    · rw [if_pos hvs] at hv
      cases hv
      subst hvs
      exact ⟨[], Chain.source List.lookup_cons_self, le_refl _⟩
    · rw [if_neg hvs] at hv; cases hv

/-- Every record that the search leaves is backed by a route from the source, and
`BuildRoute` returns that route with its weight. -/
theorem BuildRoute_of_reached (g : DirectedWeightedGraph) (source target : Nat)
    (d : RouteInternalData) (hd : (routes_internal_data g source).lookup target = some d) :
    ∃ ids, BuildRoute g source target = some ⟨d.weight, ids⟩ ∧
      IsRoute g source target ids ∧ route_weight g ids = d.weight := by
  have hinv := PathInv.search g.vertex_count 0 _ (PathInv.initial g source)
  obtain ⟨ids, hch, hlen⟩ := hinv.chains target d hd
  refine ⟨ids, ?_, hch.route⟩
  unfold BuildRoute
  rw [hd]
  simp only
  have := hch.reconstruct (g.vertex_count + 1) [] (by omega)
  unfold routes_internal_data
  rw [this]
  simp

/-- What `BuildRoute` returns is a route from the source to the target with its weight. -/
theorem BuildRoute_sound (g : DirectedWeightedGraph) (source target : Nat) (r : RouteInfo)
    (h : BuildRoute g source target = some r) :
    IsRoute g source target r.edges ∧ route_weight g r.edges = r.weight ∧
    ∃ d, (routes_internal_data g source).lookup target = some d ∧ d.weight = r.weight := by
  cases hd : (routes_internal_data g source).lookup target with
  | none =>
    unfold BuildRoute at h
    rw [hd] at h
    cases h
  | some d =>
    obtain ⟨ids, hb, hr, hw⟩ := BuildRoute_of_reached g source target d hd
    rw [hb] at h
    cases h
    exact ⟨hr, hw, d, rfl, rfl⟩

open graph DirectedWeightedGraph

/-- Relaxing an edge keeps every record or lowers its weight. -/
theorem relaxEdge_lowers (g : DirectedWeightedGraph) (unsettled : List Nat) (w : ℚ)
    (data : List (Nat × RouteInternalData)) (id : Nat) (y : Nat) (d : RouteInternalData)
    (hd : data.lookup y = some d) :
    ∃ d', (relaxEdge g unsettled w data id).lookup y = some d' ∧ d'.weight ≤ d.weight := by
  rcases relaxEdge_cases g unsettled w data id with ⟨h, _⟩ | ⟨edge, _, _, h, hlt⟩
  · rw [h]; exact ⟨d, hd, le_refl _⟩
  · rw [h, tc.router.TransportRouter.lookup_cons_eq]
    by_cases hy : y = edge.to_vertex
    · rw [if_pos hy]
      subst hy
      exact ⟨_, rfl, le_of_lt (hlt d hd)⟩
    · rw [if_neg hy]
      exact ⟨d, hd, le_refl _⟩

/-- Relaxing edges keeps every record or lowers its weight. -/
theorem relax_all_lowers (g : DirectedWeightedGraph) (unsettled : List Nat) (w : ℚ) :
    ∀ (ids : List Nat) (data : List (Nat × RouteInternalData)) (y : Nat)
      (d : RouteInternalData), data.lookup y = some d →
      ∃ d', (ids.foldl (relaxEdge g unsettled w) data).lookup y = some d' ∧
        d'.weight ≤ d.weight := by
  intro ids
  induction ids with
  | nil => intro data y d hd; exact ⟨d, hd, le_refl _⟩
  | cons id rest ih =>
    intro data y d hd
    rw [List.foldl_cons]
    obtain ⟨d1, h1, hle1⟩ := relaxEdge_lowers g unsettled w data id y d hd
    obtain ⟨d2, h2, hle2⟩ := ih _ y d1 h1
    exact ⟨d2, h2, le_trans hle2 hle1⟩

/-- With weights that are not negative, relaxing edges from a vertex of weight `w` leaves no
record below `w` at the vertices that are not settled, if there was none. -/
theorem relax_all_bound (g : DirectedWeightedGraph)
    (hnn : ∀ (id : Nat) (edge : Edge), g.edges_[id]? = some edge → 0 ≤ edge.weight)
    (unsettled : List Nat) (w : ℚ) :
    ∀ (ids : List Nat) (data : List (Nat × RouteInternalData)),
      (∀ y ∈ unsettled, ∀ d, data.lookup y = some d → w ≤ d.weight) →
      ∀ y ∈ unsettled, ∀ d,
        (ids.foldl (relaxEdge g unsettled w) data).lookup y = some d → w ≤ d.weight := by
  intro ids
  induction ids with
  | nil => intro data h; exact h
  | cons id rest ih =>
    intro data h
    rw [List.foldl_cons]
    apply ih
    intro y hy d hd
    rcases relaxEdge_cases g unsettled w data id with ⟨e, _⟩ | ⟨edge, hedge, _, e, _⟩
    · rw [e] at hd; exact h y hy d hd
    · rw [e, tc.router.TransportRouter.lookup_cons_eq] at hd
      by_cases hyt : y = edge.to_vertex
      · rw [if_pos hyt] at hd
        cases hd
        have := hnn id edge hedge
        show w ≤ w + edge.weight
        linarith
      · rw [if_neg hyt] at hd
        exact h y hy d hd

/-- After relaxing edges from a vertex of weight `w`, the target of each of them, if it is not
settled, has a record of at most `w` plus the weight of the edge. -/
theorem relax_all_done (g : DirectedWeightedGraph) (unsettled : List Nat) (w : ℚ) :
    ∀ (ids : List Nat) (data : List (Nat × RouteInternalData)),
      ∀ id ∈ ids, ∀ edge, g.edges_[id]? = some edge → edge.to_vertex ∈ unsettled →
        ∃ dv, (ids.foldl (relaxEdge g unsettled w) data).lookup edge.to_vertex = some dv ∧
          dv.weight ≤ w + edge.weight := by
  intro ids
  induction ids with
  | nil => intro data id hid; simp at hid
  | cons i rest ih =>
    intro data id hid edge hedge hmem
    rw [List.foldl_cons]
    rcases List.mem_cons.1 hid with hid | hid
    · subst hid
      have h1 : ∃ dv, (relaxEdge g unsettled w data id).lookup edge.to_vertex = some dv ∧
          dv.weight ≤ w + edge.weight := by
        rcases relaxEdge_cases g unsettled w data id with ⟨e, hle⟩ | ⟨edge', hedge', _, e, _⟩
        · rw [e]; exact hle edge hedge hmem
        · have hee : edge' = edge := Option.some.inj (hedge'.symm.trans hedge)
          subst hee
          rw [e]
          exact ⟨_, List.lookup_cons_self, le_refl _⟩
      obtain ⟨dv, hdv, hle⟩ := h1
      obtain ⟨dv', hdv', hle'⟩ := relax_all_lowers g unsettled w rest _ _ dv hdv
      exact ⟨dv', hdv', le_trans hle' hle⟩
    · exact ih _ id hid edge hedge hmem

/-- With weights that are not negative and edges that end at vertices of the graph, a round of
the search keeps what `OptInv` says. -/
theorem OptInv.round {g : DirectedWeightedGraph}
    (hwf : ∀ (id : Nat) (edge : Edge), g.edges_[id]? = some edge →
      edge.to_vertex < g.vertex_count)
    (hnn : ∀ (id : Nat) (edge : Edge), g.edges_[id]? = some edge → 0 ≤ edge.weight)
    {st st' : SearchState} (hnodup : st.unsettled.Nodup) (h : OptInv g st)
    (hs : Router.settle g st = some st') : OptInv g st' := by
  obtain ⟨hrange, hreached, hleast, hrelaxed⟩ := h
  unfold Router.settle at hs
  cases hmin : extractMin st.data st.unsettled with
  | none => rw [hmin] at hs; cases hs
  | some q =>
    obtain ⟨u, w⟩ := q
    rw [hmin] at hs
    simp only [Option.some.injEq] at hs
    subst hs
    obtain ⟨humem, ⟨du, hdu, hduw⟩, hleastu⟩ := extractMin_some st.data st.unsettled u w hmin
    have hu : u ∉ st.unsettled.erase u := fun hx => ((hnodup.mem_erase_iff).1 hx).1 rfl
    have hsub : ∀ x, x ∈ st.unsettled.erase u → x ∈ st.unsettled :=
      fun x hx => List.mem_of_mem_erase hx
    have hsplit : ∀ x, x ∉ st.unsettled.erase u → x = u ∨ x ∉ st.unsettled := by
      intro x hx
      by_cases hxu : x = u
      · exact Or.inl hxu
      · exact Or.inr (fun hmem => hx ((List.mem_erase_of_ne hxu).2 hmem))
    have hfrozen := fun x hx =>
      relax_all_settled g (st.unsettled.erase u) w x hx (g.GetIncidentEdges u) st.data
    have hlower := relax_all_lowers g (st.unsettled.erase u) w (g.GetIncidentEdges u) st.data
    have hbound := relax_all_bound g hnn (st.unsettled.erase u) w (g.GetIncidentEdges u)
      st.data (fun y hy d hd => hleastu y (hsub y hy) d hd)
    have hdone := relax_all_done g (st.unsettled.erase u) w (g.GetIncidentEdges u) st.data
    refine ⟨fun x hx => hrange x (hsub x hx), ?_, ?_, ?_⟩
    · intro x hxV hx
      show ∃ d, List.lookup x (List.foldl _ st.data _) = some d
      rw [hfrozen x hx]
      rcases hsplit x hx with hxu | hxU
      · subst hxu; exact ⟨du, hdu⟩
      · exact hreached x hxV hxU
    · intro x y dx dy hx hy hdx hdy
      have hdx' : st.data.lookup x = some dx := (hfrozen x hx).symm.trans hdx
      have hwy : w ≤ dy.weight := hbound y hy dy hdy
      rcases hsplit x hx with hxu | hxU
      · subst hxu
        rw [hdu] at hdx'
        cases hdx'
        rw [hduw]
        exact hwy
      · have := hleast x u dx du hxU humem hdx' hdu
        rw [hduw] at this
        exact le_trans this hwy
    · intro id edge dfrom hedge hfrom hdfrom
      have hdfrom' : st.data.lookup edge.from_vertex = some dfrom :=
        (hfrozen _ hfrom).symm.trans hdfrom
      show ∃ dv, List.lookup edge.to_vertex (List.foldl _ st.data _) = some dv ∧ _
      rcases hsplit _ hfrom with hfu | hfU
      · rw [hfu, hdu] at hdfrom'
        cases hdfrom'
        rw [hduw]
        by_cases hto : edge.to_vertex ∈ st.unsettled.erase u
        · exact hdone id ((mem_GetIncidentEdges g u id).2 ⟨edge, hedge, hfu⟩) edge hedge hto
        · rw [hfrozen _ hto]
          have hew := hnn id edge hedge
          rcases hsplit _ hto with htu | htU
          · rw [htu]
            exact ⟨du, hdu, by rw [hduw]; linarith⟩
          · obtain ⟨dt, hdt⟩ := hreached _ (hwf id edge hedge) htU
            have := hleast _ u dt du htU humem hdt hdu
            rw [hduw] at this
            exact ⟨dt, hdt, by linarith⟩
      · obtain ⟨dv, hdv, hle⟩ := hrelaxed id edge dfrom hedge hfU hdfrom'
        obtain ⟨dv', hdv', hle'⟩ := hlower _ dv hdv
        exact ⟨dv', hdv', le_trans hle' hle⟩

/-- With weights that are not negative and edges that end at vertices of the graph, the search
keeps what `OptInv` says, and with at least as many rounds as unsettled vertices it ends with
an empty frontier. -/
theorem OptInv.rounds {g : DirectedWeightedGraph}
    (hwf : ∀ (id : Nat) (edge : Edge), g.edges_[id]? = some edge →
      edge.to_vertex < g.vertex_count)
    (hnn : ∀ (id : Nat) (edge : Edge), g.edges_[id]? = some edge → 0 ≤ edge.weight)
    (source : Nat) :
    ∀ (fuel n : Nat) (st : SearchState), PathInv g source n st → OptInv g st →
      st.unsettled.length ≤ fuel →
      OptInv g (Router.search g fuel st) ∧
      ∀ y ∈ (Router.search g fuel st).unsettled,
        (Router.search g fuel st).data.lookup y = none := by
  intro fuel
  induction fuel with
  | zero =>
    intro n st _ hopt hlen
    refine ⟨hopt, ?_⟩
    intro y hy
    have : st.unsettled = [] := List.length_eq_zero.1 (by omega)
    unfold Router.search at hy
    rw [this] at hy
    simp at hy
  | succ fuel ih =>
    intro n st hpath hopt hlen
    unfold Router.search
    cases hs : Router.settle g st with
    | none =>
      refine ⟨hopt, ?_⟩
      simp only
      unfold Router.settle at hs
      cases hmin : extractMin st.data st.unsettled with
      | none => exact extractMin_none st.data st.unsettled hmin
      | some q => rw [hmin] at hs; cases hs
    | some st' =>
      simp only
      apply ih (n + 1) st' (hpath.settle hs) (OptInv.round hwf hnn hpath.nodup hopt hs)
      unfold Router.settle at hs
      cases hmin : extractMin st.data st.unsettled with
      | none => rw [hmin] at hs; cases hs
      | some q =>
        obtain ⟨u, w⟩ := q
        rw [hmin] at hs
        simp only [Option.some.injEq] at hs
        subst hs
        obtain ⟨humem, _, _⟩ := extractMin_some st.data st.unsettled u w hmin
        simp only [List.length_erase_of_mem humem]
        omega

/-- With a source that is a vertex of the graph, the search starts with what `OptInv` says. -/
theorem OptInv.start (g : DirectedWeightedGraph) (source : Nat)
    (hsource : source < g.vertex_count) : OptInv g (Router.initial g source) := by
  have honly : ∀ (x : Nat) (d : RouteInternalData),
      (Router.initial g source).data.lookup x = some d → x = source := by
    intro x d hd
    unfold Router.initial at hd
    simp only at hd
    rw [tc.router.TransportRouter.lookup_cons_eq] at hd
    by_cases hxs : x = source
    · exact hxs
    · rw [if_neg hxs] at hd; cases hd
  have hin : ∀ x, x ∉ (Router.initial g source).unsettled → ¬ x < g.vertex_count :=
    fun x hx hlt => hx (List.mem_range.2 hlt)
  refine ⟨fun x hx => List.mem_range.1 hx, ?_, ?_, ?_⟩
  · intro x hxV hx
    exact absurd hxV (hin x hx)
  · intro x y dx dy hx _ hdx _
    have := honly x dx hdx
    subst this
    exact absurd hsource (hin _ hx)
  · intro id edge du _ hfrom hdu
    have := honly _ du hdu
    rw [this] at hfrom
    exact absurd hsource (hin _ hfrom)

/-- With weights that are not negative, edges that end at vertices of the graph and a source
that is a vertex of the graph: for every route from the source to the target, `BuildRoute`
returns a route, and its weight is at most the weight of the given route. -/
theorem BuildRoute_least (g : DirectedWeightedGraph)
    (hwf : ∀ (id : Nat) (edge : Edge), g.edges_[id]? = some edge →
      edge.to_vertex < g.vertex_count)
    (hnn : ∀ (id : Nat) (edge : Edge), g.edges_[id]? = some edge → 0 ≤ edge.weight)
    (source target : Nat) (hsource : source < g.vertex_count) (ids : List Nat)
    (hroute : IsRoute g source target ids) :
    ∃ r, BuildRoute g source target = some r ∧ r.weight ≤ route_weight g ids := by
  have hpath := PathInv.search g.vertex_count 0 _ (PathInv.initial g source)
  obtain ⟨hopt, hempty⟩ := OptInv.rounds hwf hnn source g.vertex_count 0 _
    (PathInv.initial g source) (OptInv.start g source hsource)
    (by unfold Router.initial; simp)
  have key : ∀ (ids : List Nat) (u : Nat) (du : RouteInternalData),
      IsRoute g u target ids → (routes_internal_data g source).lookup u = some du →
      ∃ dt, (routes_internal_data g source).lookup target = some dt ∧
        dt.weight ≤ du.weight + route_weight g ids := by
    intro ids
    induction ids with
    | nil =>
      intro u du hr hdu
      unfold IsRoute at hr
      subst hr
      exact ⟨du, hdu, by simp [route_weight]⟩
    | cons id rest ih =>
      intro u du hr hdu
      unfold IsRoute at hr
      cases hedge : g.edges_[id]? with
      | none => rw [hedge] at hr; exact hr.elim
      | some edge =>
        rw [hedge] at hr
        obtain ⟨hfrom, hrest⟩ := hr
        subst hfrom
        have hsettled : edge.from_vertex ∉
            (Router.search g g.vertex_count (Router.initial g source)).unsettled := by
          intro hmem
          have := hempty _ hmem
          unfold routes_internal_data at hdu
          rw [this] at hdu
          cases hdu
        obtain ⟨dv, hdv, hle⟩ := hopt.relaxed id edge du hedge hsettled hdu
        obtain ⟨dt, hdt, hle'⟩ := ih edge.to_vertex dv hrest hdv
        refine ⟨dt, hdt, ?_⟩
        have hw : route_weight g (id :: rest) = edge.weight + route_weight g rest := by
          unfold route_weight
          simp only [List.map_cons, List.sum_cons]
          unfold edge_weight
          rw [hedge]
        rw [hw]
        linarith
  obtain ⟨dt, hdt, hle⟩ := key ids source ⟨0, none⟩ hroute hpath.source_data
  obtain ⟨found, hb, _, _⟩ := BuildRoute_of_reached g source target dt hdt
  exact ⟨⟨dt.weight, found⟩, hb, by simpa using hle⟩

end graph.Router

namespace tc.router.TransportRouter

open graph Relation DirectedWeightedGraph

/-- After construction every edge has a descriptor with the weight of the edge as time, and
ends at a vertex of the graph. -/
theorem Built.edge_stat {self : TransportRouter} (hb : Built self) (id : Nat) (edge : Edge)
    (hedge : self.graph_.edges_[id]? = some edge) :
    edge.to_vertex < self.graph_.vertex_count ∧
    edge.from_vertex < self.graph_.vertex_count ∧
    ∃ stat, self.edge_stats_at id = .ok stat ∧ stat.time = edge.weight := by
  obtain ⟨hvc, hnone, hsome, hcount, hwait, hride⟩ := hb
  by_cases hid : id < self.transport_catalogue_.stops_.length
  · obtain ⟨s, hs⟩ : ∃ s, self.transport_catalogue_.stops_[id]? = some s :=
      ⟨_, List.getElem?_eq_getElem hid⟩
    obtain ⟨w1, w2⟩ := hwait id s hs
    have : edge = ⟨2 * id, 2 * id + 1, (self.settings_.bus_wait_time : ℚ)⟩ :=
      Option.some.inj (hedge.symm.trans w1)
    subst this
    refine ⟨by simp only; omega, by simp only; omega,
      .WaitRouteStat s.name (self.settings_.bus_wait_time : ℚ), ?_, rfl⟩
    unfold edge_stats_at
    rw [w2]
  · obtain ⟨a, b, ha, hb', _, e1, e2, bus_name, span_count, hstat⟩ :=
      hride id edge (by omega) hedge
    refine ⟨by omega, by omega, .BusRouteStat bus_name edge.weight span_count, ?_, rfl⟩
    unfold edge_stats_at
    rw [hstat]

/-- After construction `FindRoute` finds the descriptors of the edges of every route, and
their times add up to the weight of the route. -/
theorem Built.items {self : TransportRouter} (hb : Built self) :
    ∀ (ids : List Nat) (u v : Nat), IsRoute self.graph_ u v ids →
      ∃ items, FindRoute.items self ids = .ok items ∧
        (items.map RouteStat.time).sum = route_weight self.graph_ ids := by
  intro ids
  induction ids with
  | nil =>
    intro u v _
    exact ⟨[], rfl, by simp [route_weight]⟩
  | cons id rest ih =>
    intro u v hr
    unfold IsRoute at hr
    cases hedge : self.graph_.edges_[id]? with
    | none => rw [hedge] at hr; exact hr.elim
    | some edge =>
      rw [hedge] at hr
      obtain ⟨items, hitems, hsum⟩ := ih edge.to_vertex v hr.2
      obtain ⟨_, _, stat, hstat, htime⟩ := hb.edge_stat id edge hedge
      refine ⟨stat :: items, ?_, ?_⟩
      · unfold FindRoute.items
        rw [hstat]
        simp only [hitems]
      · unfold route_weight at hsum ⊢
        simp only [List.map_cons, List.sum_cons, hsum, htime]
        unfold edge_weight
        rw [hedge]

/-- A distance that `GetDistance` returns is one of the registered distances. -/
theorem GetDistance_mem (c : TransportCatalogue) (p q : StopPtr) (d : Int)
    (h : c.GetDistance p q = .ok d) : ∃ key, (key, d) ∈ c.distances_ := by
  unfold TransportCatalogue.GetDistance at h
  cases h1 : c.distances_.lookup (p, q) with
  | some d1 =>
    rw [h1] at h
    cases h
    exact ⟨(p, q), mem_of_lookup_eq_some _ _ _ h1⟩
  | none =>
    rw [h1] at h
    cases h2 : c.distances_.lookup (q, p) with
    | some d2 =>
      rw [h2] at h
      cases h
      exact ⟨(q, p), mem_of_lookup_eq_some _ _ _ h2⟩
    | none => rw [h2] at h; cases h

/-- With a positive velocity and registered distances that are not negative, steps of
`SetRouteEdges` insert no edge of negative weight. -/
theorem nonneg_steps {a b : TransportRouter} (h : ReflTransGen RideStep a b)
    (hvel : 0 < a.settings_.bus_velocity)
    (hdist : ∀ entry ∈ a.transport_catalogue_.distances_, 0 ≤ entry.2)
    (ha : ∀ (id : Nat) (edge : Edge), a.graph_.edges_[id]? = some edge → 0 ≤ edge.weight) :
    ∀ (id : Nat) (edge : Edge), b.graph_.edges_[id]? = some edge → 0 ≤ edge.weight := by
  induction h with
  | refl => exact ha
  | tail hab hstep ih =>
    rename_i m b'
    obtain ⟨f1, f2, _, _, _, _⟩ := RideStep.frame_star hab
    intro id edge hedge
    obtain ⟨_, _, _, _, hlen, hkeep⟩ := RideStep.frame hstep
    by_cases hid : id < m.graph_.edges_.length
    · rw [(hkeep id hid).1] at hedge
      exact ih id edge hedge
    · have hlt : id < b'.graph_.edges_.length := by
        rcases List.getElem?_eq_some.1 hedge with ⟨hlt, _⟩
        exact hlt
      have hideq : id = m.graph_.edges_.length := by omega
      subst hideq
      cases hstep with
      | step bus_name stop_from stop_to hub_from terminal_from hub_to terminal_to dists time
          span_count hne hfrom hto hdists htime hfr htr =>
        have hedge' : edge = ⟨terminal_from, hub_to, time⟩ := by
          have := List.getElem?_concat_length m.graph_.edges_
            (⟨terminal_from, hub_to, time⟩ : Edge)
          exact (Option.some.inj (hedge.symm.trans this))
        subst hedge'
        show 0 ≤ time
        rw [htime]
        apply List.sum_nonneg
        intro x hx
        obtain ⟨d, hd, hxd⟩ := List.mem_map.1 hx
        subst hxd
        obtain ⟨p, q, hpq⟩ := hdists d hd
        obtain ⟨key, hkey⟩ := GetDistance_mem _ p q d hpq
        rw [f1] at hkey
        have hd0 : (0 : Int) ≤ d := hdist (key, d) hkey
        unfold leg_time velocity_coefficient
        rw [f2]
        have h1 : (0 : ℚ) ≤ (d : ℚ) := by exact_mod_cast hd0
        have h2 : (0 : ℚ) ≤ (d : ℚ) / a.settings_.bus_velocity := div_nonneg h1 hvel.le
        exact mul_nonneg h2 (by norm_num)

/-- With a wait time that is not negative, a positive velocity and registered distances that
are not negative, a completed construction leaves no edge of negative weight. -/
theorem new_nonneg (c : TransportCatalogue) (settings : RoutingSettings) (tr : TransportRouter)
    (h : TransportRouter.new c settings = .ok tr) (hwait : 0 ≤ settings.bus_wait_time)
    (hvel : 0 < settings.bus_velocity) (hdist : ∀ entry ∈ c.distances_, 0 ≤ entry.2) :
    ∀ (id : Nat) (edge : Edge), tr.graph_.edges_[id]? = some edge → 0 ≤ edge.weight := by
  obtain ⟨_, _, _, _, mid, hmid, hlen, hbm, hchain⟩ := new_steps c settings tr h
  obtain ⟨mid', hmid', hc, hs, _, _⟩ := AddStopsToGraph_ok c settings
  have hsame : mid' = mid := by
    have := hmid'.symm.trans hmid
    injection this
  subst hsame
  apply nonneg_steps hchain (hs ▸ hvel) (hc ▸ hdist)
  intro id edge hedge
  have hid : id < mid'.transport_catalogue_.stops_.length := by
    rcases List.getElem?_eq_some.1 hedge with ⟨hlt, _⟩
    rw [hc]; omega
  obtain ⟨s, hs'⟩ : ∃ s, mid'.transport_catalogue_.stops_[id]? = some s :=
    ⟨_, List.getElem?_eq_getElem hid⟩
  obtain ⟨w1, _⟩ := hbm.wait_edge id s hs'
  have : edge = ⟨2 * id, 2 * id + 1, (mid'.settings_.bus_wait_time : ℚ)⟩ :=
    Option.some.inj (hedge.symm.trans w1)
  subst this
  show (0 : ℚ) ≤ (mid'.settings_.bus_wait_time : ℚ)
  rw [hs]
  exact_mod_cast hwait

/-- What a successful `FindRoute` returns: the descriptors of the edges of a route that
`BuildRoute` found between the two hub vertices, and its weight. -/
theorem FindRoute_ok {self : TransportRouter} {stop_from stop_to : StopPtr} {r : Route}
    (h : self.FindRoute stop_from stop_to = .ok (some r)) :
    ∃ hub_from terminal_from hub_to terminal_to info,
      self.stop_vertices_at stop_from = .ok (hub_from, terminal_from) ∧
      self.stop_vertices_at stop_to = .ok (hub_to, terminal_to) ∧
      Router.BuildRoute self.router_.graph hub_from hub_to = some info ∧
      FindRoute.items self info.edges = .ok r.items ∧ r.total_time = info.weight := by
  unfold FindRoute at h
  cases h1 : self.stop_vertices_at stop_from with
  | error e => rw [h1] at h; cases h
  | ok p =>
    obtain ⟨hub_from, terminal_from⟩ := p
    rw [h1] at h
    simp only at h
    cases h2 : self.stop_vertices_at stop_to with
    | error e => rw [h2] at h; cases h
    | ok q =>
      obtain ⟨hub_to, terminal_to⟩ := q
      rw [h2] at h
      simp only at h
      cases h3 : Router.BuildRoute self.router_.graph hub_from hub_to with
      | none => rw [h3] at h; cases h
      | some info =>
        rw [h3] at h
        simp only at h
        cases h4 : FindRoute.items self info.edges with
        | error e => rw [h4] at h; cases h
        | ok items =>
          rw [h4] at h
          simp only [Except.ok.injEq, Option.some.injEq] at h
          subst h
          exact ⟨hub_from, terminal_from, hub_to, terminal_to, info, rfl, rfl, h3, h4, rfl⟩

end tc.router.TransportRouter

/-- C2: when construction completes and `FindRoute` returns a route, the two stops have hub
vertices, and there is a directed path `edges` of the graph from the hub vertex of the first
stop to the hub vertex of the second one such that the items of the route are the
descriptors of these edges in the order of the path; `total_time` is the sum of the times of
the items and the sum of the weights of the edges. -/
theorem tc.router.found_route_is_path (c : TransportCatalogue) (settings : RoutingSettings)
    (tr : TransportRouter) (h : TransportRouter.new c settings = .ok tr)
    (stop_from stop_to : StopPtr) (r : Route)
    (hfind : tr.FindRoute stop_from stop_to = .ok (some r)) :
    ∃ hub_from terminal_from hub_to terminal_to edges,
      tr.stop_vertices_at stop_from = .ok (hub_from, terminal_from) ∧
      tr.stop_vertices_at stop_to = .ok (hub_to, terminal_to) ∧
      graph.DirectedWeightedGraph.IsRoute tr.graph_ hub_from hub_to edges ∧
      TransportRouter.FindRoute.items tr edges = .ok r.items ∧
      r.total_time = (r.items.map RouteStat.time).sum ∧
      r.total_time = graph.DirectedWeightedGraph.route_weight tr.graph_ edges := by
  obtain ⟨_, _, hb, _, _⟩ := TransportRouter.new_steps c settings tr h
  obtain ⟨hub_from, terminal_from, hub_to, terminal_to, info, h1, h2, h3, h4, h5⟩ :=
    TransportRouter.FindRoute_ok hfind
  rw [TransportRouter.new_router c settings tr h] at h3
  obtain ⟨hroute, hweight, _⟩ := graph.Router.BuildRoute_sound tr.graph_ hub_from hub_to info h3
  obtain ⟨items, hitems, hsum⟩ := hb.items info.edges hub_from hub_to hroute
  have hsame : items = r.items := by
    have := hitems.symm.trans h4
    injection this
  subst hsame
  exact ⟨hub_from, terminal_from, hub_to, terminal_to, info.edges, h1, h2, hroute, h4,
    by rw [h5, ← hweight, hsum], by rw [h5, hweight]⟩

/-- C1 (as amended): when construction completes for settings with a wait time that is not
negative and a positive velocity and for a catalogue in which no registered road distance is
negative, and the graph has a directed path from the hub vertex of one stop to the hub vertex
of another, `FindRoute` returns a route; its `total_time` is the weight of a directed path
between the two hub vertices, and no directed path between them has a smaller weight. -/
theorem tc.router.found_route_is_fastest (c : TransportCatalogue) (settings : RoutingSettings)
    (tr : TransportRouter) (h : TransportRouter.new c settings = .ok tr)
    (hwait : 0 ≤ settings.bus_wait_time) (hvel : 0 < settings.bus_velocity)
    (hdist : ∀ entry ∈ c.distances_, 0 ≤ entry.2)
    (stop_from stop_to : StopPtr) (hub_from terminal_from hub_to terminal_to : Nat)
    (hfrom : tr.stop_vertices_at stop_from = .ok (hub_from, terminal_from))
    (hto : tr.stop_vertices_at stop_to = .ok (hub_to, terminal_to))
    (path : List Nat) (hpath : graph.DirectedWeightedGraph.IsRoute tr.graph_ hub_from hub_to path) :
    ∃ r, tr.FindRoute stop_from stop_to = .ok (some r) ∧
      (∃ best, graph.DirectedWeightedGraph.IsRoute tr.graph_ hub_from hub_to best ∧
        graph.DirectedWeightedGraph.route_weight tr.graph_ best = r.total_time) ∧
      ∀ other, graph.DirectedWeightedGraph.IsRoute tr.graph_ hub_from hub_to other →
        r.total_time ≤ graph.DirectedWeightedGraph.route_weight tr.graph_ other := by
  obtain ⟨htc, _, hb, _, _⟩ := TransportRouter.new_steps c settings tr h
  have hnn := TransportRouter.new_nonneg c settings tr h hwait hvel hdist
  have hwf : ∀ (id : Nat) (edge : graph.Edge), tr.graph_.edges_[id]? = some edge →
      edge.to_vertex < tr.graph_.vertex_count :=
    fun id edge hedge => (hb.edge_stat id edge hedge).1
  have hsource : hub_from < tr.graph_.vertex_count := by
    have hl := TransportRouter.stop_vertices_at_ok hfrom
    cases stop_from with
    | none => rw [hb.lookup_none] at hl; cases hl
    | some k =>
      rw [hb.lookup_some k] at hl
      split at hl
      · simp only [Option.some.injEq, Prod.mk.injEq] at hl
        rw [hb.vertex_count]
        omega
      · cases hl
  obtain ⟨info, hinfo, _⟩ :=
    graph.Router.BuildRoute_least tr.graph_ hwf hnn hub_from hub_to hsource path hpath
  obtain ⟨hroute, hweight, _⟩ :=
    graph.Router.BuildRoute_sound tr.graph_ hub_from hub_to info hinfo
  obtain ⟨items, hitems, _⟩ := hb.items info.edges hub_from hub_to hroute
  refine ⟨⟨info.weight, items⟩, ?_, ⟨info.edges, hroute, hweight⟩, ?_⟩
  · unfold TransportRouter.FindRoute
    rw [hfrom, hto]
    simp only [TransportRouter.new_router c settings tr h, hinfo, hitems]
  · intro other hother
    obtain ⟨info', hinfo', hle⟩ :=
      graph.Router.BuildRoute_least tr.graph_ hwf hnn hub_from hub_to hsource other hother
    have : info' = info := Option.some.inj (hinfo'.symm.trans hinfo)
    subst this
    exact hle

namespace graph.Router

/-- A round of the search that settles a vertex uses up one unit of fuel. -/
theorem search_succ (g : DirectedWeightedGraph) (fuel : Nat) (st st' : SearchState)
    (h : settle g st = some st') : search g (fuel + 1) st = search g fuel st' := by
  rw [search, h]

/-- The search in `neg_graph` from vertex 0, round by round: vertex 2 is settled with weight 2
in the third round, before vertex 5, whose edge to vertex 2 has weight -6, is reached. -/
theorem neg_graph_search :
    routes_internal_data tc.router.neg_graph 0 =
      [(5, ⟨4, some 2⟩), (3, ⟨3, some 1⟩), (4, ⟨3, some 5⟩), (2, ⟨2, some 3⟩),
        (1, ⟨1, some 0⟩), (0, ⟨0, none⟩)] := by
  have h0 : settle tc.router.neg_graph (initial tc.router.neg_graph 0) =
      some ⟨[(1, ⟨1, some 0⟩), (0, ⟨0, none⟩)], [1, 2, 3, 4, 5]⟩ := by
    with_unfolding_all decide
  have h1 : settle tc.router.neg_graph ⟨[(1, ⟨1, some 0⟩), (0, ⟨0, none⟩)], [1, 2, 3, 4, 5]⟩ =
      some ⟨[(4, ⟨3, some 5⟩), (2, ⟨2, some 3⟩), (1, ⟨1, some 0⟩), (0, ⟨0, none⟩)],
        [2, 3, 4, 5]⟩ := by
    with_unfolding_all decide
  have h2 : settle tc.router.neg_graph
      ⟨[(4, ⟨3, some 5⟩), (2, ⟨2, some 3⟩), (1, ⟨1, some 0⟩), (0, ⟨0, none⟩)], [2, 3, 4, 5]⟩ =
      some ⟨[(3, ⟨3, some 1⟩), (4, ⟨3, some 5⟩), (2, ⟨2, some 3⟩), (1, ⟨1, some 0⟩),
        (0, ⟨0, none⟩)], [3, 4, 5]⟩ := by
    with_unfolding_all decide
  have h3 : settle tc.router.neg_graph
      ⟨[(3, ⟨3, some 1⟩), (4, ⟨3, some 5⟩), (2, ⟨2, some 3⟩), (1, ⟨1, some 0⟩),
        (0, ⟨0, none⟩)], [3, 4, 5]⟩ =
      some ⟨[(3, ⟨3, some 1⟩), (4, ⟨3, some 5⟩), (2, ⟨2, some 3⟩), (1, ⟨1, some 0⟩),
        (0, ⟨0, none⟩)], [4, 5]⟩ := by
    with_unfolding_all decide
  have h4 : settle tc.router.neg_graph
      ⟨[(3, ⟨3, some 1⟩), (4, ⟨3, some 5⟩), (2, ⟨2, some 3⟩), (1, ⟨1, some 0⟩),
        (0, ⟨0, none⟩)], [4, 5]⟩ =
      some ⟨[(5, ⟨4, some 2⟩), (3, ⟨3, some 1⟩), (4, ⟨3, some 5⟩), (2, ⟨2, some 3⟩),
        (1, ⟨1, some 0⟩), (0, ⟨0, none⟩)], [5]⟩ := by
    with_unfolding_all decide
  have h5 : settle tc.router.neg_graph
      ⟨[(5, ⟨4, some 2⟩), (3, ⟨3, some 1⟩), (4, ⟨3, some 5⟩), (2, ⟨2, some 3⟩),
        (1, ⟨1, some 0⟩), (0, ⟨0, none⟩)], [5]⟩ =
      some ⟨[(5, ⟨4, some 2⟩), (3, ⟨3, some 1⟩), (4, ⟨3, some 5⟩), (2, ⟨2, some 3⟩),
        (1, ⟨1, some 0⟩), (0, ⟨0, none⟩)], []⟩ := by
    with_unfolding_all decide
  show (search tc.router.neg_graph (5 + 1) (initial tc.router.neg_graph 0)).data = _
  rw [search_succ _ _ _ _ h0, search_succ _ _ _ _ h1, search_succ _ _ _ _ h2,
    search_succ _ _ _ _ h3, search_succ _ _ _ _ h4, search_succ _ _ _ _ h5]
  rfl

/-- In `neg_graph`, `BuildRoute` from vertex 0 to vertex 2 returns the edges 0 and 3 with
weight 2. -/
theorem neg_graph_route : BuildRoute tc.router.neg_graph 0 2 = some ⟨2, [0, 3]⟩ := by
  unfold BuildRoute
  rw [neg_graph_search]
  with_unfolding_all decide

end graph.Router

namespace tc.router.TransportRouter

/-- The construction for `neg_catalogue` returns `neg_router`. -/
theorem neg_router_built : TransportRouter.new neg_catalogue neg_settings = .ok neg_router := by
  with_unfolding_all rfl

/-- The graph of `neg_router` is `neg_graph`. -/
theorem neg_router_graph : neg_router.graph_ = neg_graph := by
  with_unfolding_all decide

/-- In `neg_router`, `FindRoute` from the first to the second stop returns a wait and a ride
that take 2 minutes together. -/
theorem neg_router_route :
    neg_router.FindRoute (some 0) (some 1)
      = .ok (some ⟨2, [.WaitRouteStat "A" 1, .BusRouteStat "1" 1 1]⟩) := by
  have h1 : neg_router.stop_vertices_at (some 0) = .ok (0, 1) := by with_unfolding_all rfl
  have h2 : neg_router.stop_vertices_at (some 1) = .ok (2, 3) := by with_unfolding_all rfl
  have h3 : FindRoute.items neg_router [0, 3]
      = .ok [.WaitRouteStat "A" 1, .BusRouteStat "1" 1 1] := by with_unfolding_all rfl
  unfold FindRoute
  rw [h1, h2]
  simp only
  rw [new_router _ _ _ neg_router_built, neg_router_graph, graph.Router.neg_graph_route]
  simp only [h3]

end tc.router.TransportRouter

/-- Witness of C2: the route that `FindRoute` returns in `neg_router` from the first to the
second stop. -/
theorem tc.router.found_route_is_path_witness :
    neg_router.FindRoute (some 0) (some 1)
      = .ok (some ⟨2, [.WaitRouteStat "A" 1, .BusRouteStat "1" 1 1]⟩) ∧
    ∃ hub_from terminal_from hub_to terminal_to edges,
      neg_router.stop_vertices_at (some 0) = .ok (hub_from, terminal_from) ∧
      neg_router.stop_vertices_at (some 1) = .ok (hub_to, terminal_to) ∧
      graph.DirectedWeightedGraph.IsRoute neg_router.graph_ hub_from hub_to edges ∧
      TransportRouter.FindRoute.items neg_router edges
        = .ok [.WaitRouteStat "A" 1, .BusRouteStat "1" 1 1] ∧
      (2 : ℚ) = ([RouteStat.WaitRouteStat "A" 1, .BusRouteStat "1" 1 1].map RouteStat.time).sum ∧
      (2 : ℚ) = graph.DirectedWeightedGraph.route_weight neg_router.graph_ edges :=
  ⟨TransportRouter.neg_router_route,
    tc.router.found_route_is_path neg_catalogue neg_settings neg_router
      TransportRouter.neg_router_built (some 0) (some 1)
      ⟨2, [.WaitRouteStat "A" 1, .BusRouteStat "1" 1 1]⟩ TransportRouter.neg_router_route⟩

/-- Witness of C1 (as amended): in `demo_router`, whose catalogue has no negative distance,
the edges 0 and 3 are a directed path from the hub vertex of the first stop to the hub vertex
of the second one, so `FindRoute` returns a route of least weight. -/
theorem tc.router.found_route_is_fastest_witness :
    TransportRouter.new demo_catalogue demo_settings = .ok demo_router ∧
    graph.DirectedWeightedGraph.IsRoute demo_router.graph_ 0 2 [0, 3] ∧
    ∃ r, demo_router.FindRoute (some 0) (some 1) = .ok (some r) ∧
      (∃ best, graph.DirectedWeightedGraph.IsRoute demo_router.graph_ 0 2 best ∧
        graph.DirectedWeightedGraph.route_weight demo_router.graph_ best = r.total_time) ∧
      ∀ other, graph.DirectedWeightedGraph.IsRoute demo_router.graph_ 0 2 other →
        r.total_time ≤ graph.DirectedWeightedGraph.route_weight demo_router.graph_ other :=
  ⟨TransportRouter.demo_router_built, by with_unfolding_all decide,
    tc.router.found_route_is_fastest demo_catalogue demo_settings demo_router
      TransportRouter.demo_router_built (by decide) (by with_unfolding_all decide) (by decide)
      (some 0) (some 1) 0 1 2 3 (by with_unfolding_all rfl) (by with_unfolding_all rfl)
      [0, 3] (by with_unfolding_all decide)⟩

/-- C1 (as stated) fails.  `neg_catalogue` has the road distance -6000 from the third to the
second stop; the settings have a wait time that is not negative and a positive velocity.
`ConstructGraph`, which the constructor runs before the router is built, returns `neg_graph`
for them.  In it the edges 0 and 3 are a directed path from the hub vertex of the first stop
to the hub vertex of the second one, and the edges 0, 5, 2, 6, 1, 4 lead from the first hub
vertex back to it with weight -1, so the directed paths between the two hub vertices have
weights below every bound: their weights have no minimum, and no `total_time` is the minimum
of them, whatever the router does with this graph.  Among the directed paths without a
repeated vertex, the edges 0, 5, 2, 6 have the weight -2, below the weight 2 of the edges 0
and 3. -/
theorem tc.router.found_route_is_fastest_counterexample :
    0 ≤ neg_settings.bus_wait_time ∧ 0 < neg_settings.bus_velocity ∧
    (∃ built, TransportRouter.ConstructGraph
        { transport_catalogue_ := neg_catalogue
          settings_ := neg_settings
          graph_ := { vertex_count := 0 } } = .ok built ∧
      built.graph_ = neg_graph ∧
      built.stop_vertices_at (some 0) = .ok (0, 1) ∧
      built.stop_vertices_at (some 1) = .ok (2, 3)) ∧
    graph.DirectedWeightedGraph.IsRoute neg_graph 0 2 [0, 3] ∧
    graph.DirectedWeightedGraph.IsRoute neg_graph 0 0 [0, 5, 2, 6, 1, 4] ∧
    graph.DirectedWeightedGraph.route_weight neg_graph [0, 5, 2, 6, 1, 4] = -1 ∧
    (∀ bound : ℚ, ∃ path, graph.DirectedWeightedGraph.IsRoute neg_graph 0 2 path ∧
      graph.DirectedWeightedGraph.route_weight neg_graph path < bound) ∧
    (¬ ∃ total_time : ℚ,
      ∀ other, graph.DirectedWeightedGraph.IsRoute neg_graph 0 2 other →
        total_time ≤ graph.DirectedWeightedGraph.route_weight neg_graph other) ∧
    graph.DirectedWeightedGraph.IsRoute neg_graph 0 2 [0, 5, 2, 6] ∧
    graph.DirectedWeightedGraph.route_weight neg_graph [0, 5, 2, 6] = -2 ∧
    graph.DirectedWeightedGraph.route_weight neg_graph [0, 3] = 2 := by
  have hcycle : graph.DirectedWeightedGraph.IsRoute neg_graph 0 0 [0, 5, 2, 6, 1, 4] := by
    with_unfolding_all decide
  have hweight :
      graph.DirectedWeightedGraph.route_weight neg_graph [0, 5, 2, 6, 1, 4] = -1 := by
    with_unfolding_all decide
  have hlast : graph.DirectedWeightedGraph.IsRoute neg_graph 0 2 [0, 3] := by
    with_unfolding_all decide
  have hlastw : graph.DirectedWeightedGraph.route_weight neg_graph [0, 3] = 2 := by
    with_unfolding_all decide
  have hrounds : ∀ n : Nat, ∃ path, graph.DirectedWeightedGraph.IsRoute neg_graph 0 0 path ∧
      graph.DirectedWeightedGraph.route_weight neg_graph path = -(n : ℚ) := by
    intro n
    induction n with
    | zero =>
      refine ⟨[], ?_, ?_⟩
      · unfold graph.DirectedWeightedGraph.IsRoute
        rfl
      · simp [graph.DirectedWeightedGraph.route_weight]
    | succ n ih =>
      obtain ⟨path, hpath, hw⟩ := ih
      refine ⟨path ++ [0, 5, 2, 6, 1, 4],
        graph.Router.IsRoute_append neg_graph 0 0 _ hcycle path 0 hpath, ?_⟩
      rw [graph.Router.route_weight_append, hw, hweight]
      push_cast
      ring
  have hbelow : ∀ bound : ℚ, ∃ path, graph.DirectedWeightedGraph.IsRoute neg_graph 0 2 path ∧
      graph.DirectedWeightedGraph.route_weight neg_graph path < bound := by
    intro bound
    obtain ⟨n, hn⟩ := exists_nat_gt (2 - bound)
    obtain ⟨path, hpath, hw⟩ := hrounds n
    refine ⟨path ++ [0, 3], graph.Router.IsRoute_append neg_graph 0 2 _ hlast path 0 hpath, ?_⟩
    rw [graph.Router.route_weight_append, hw, hlastw]
    linarith
  refine ⟨by decide, by with_unfolding_all decide,
    ⟨_, by with_unfolding_all rfl, by with_unfolding_all rfl, by with_unfolding_all rfl,
      by with_unfolding_all rfl⟩, hlast, hcycle, hweight, hbelow, ?_,
    by with_unfolding_all decide, by with_unfolding_all decide, hlastw⟩
  rintro ⟨total_time, hmin⟩
  obtain ⟨path, hpath, hw⟩ := hbelow total_time
  exact absurd (hmin path hpath) (not_le.2 hw)

namespace tc.router.TransportRouter

open graph Relation DirectedWeightedGraph

/-- After construction every directed path that starts at a hub vertex and ends at a hub vertex
is made of pairs of a wait edge and a ride edge. -/
theorem Built.hub_paths {self : TransportRouter} (hb : Built self) (b : Nat) :
    ∀ (m : Nat) (path : List Nat) (a : Nat), path.length ≤ m →
      a < self.transport_catalogue_.stops_.length →
      IsRoute self.graph_ (2 * a) (2 * b) path →
      Even path.length ∧
      ∃ items, FindRoute.items self path = .ok items ∧ wait_ride_pairs self path items := by
  obtain ⟨hvc, hnone, hsome, hcount, hwait, hride⟩ := hb
  intro m
  induction m with
  | zero =>
    intro path a hlen _ _
    have : path = [] := List.length_eq_zero.1 (by omega)
    subst this
    exact ⟨⟨0, rfl⟩, [], rfl, by unfold wait_ride_pairs; trivial⟩
  | succ m ih =>
    intro path a hlen ha hroute
    cases path with
    | nil => exact ⟨⟨0, rfl⟩, [], rfl, by unfold wait_ride_pairs; trivial⟩
    | cons e1 rest1 =>
      unfold IsRoute at hroute
      cases he1 : self.graph_.edges_[e1]? with
      | none => rw [he1] at hroute; exact hroute.elim
      | some edge1 =>
        rw [he1] at hroute
        obtain ⟨hfrom1, hroute1⟩ := hroute
        have hid1 : e1 < self.transport_catalogue_.stops_.length := by
          by_contra hcon
          obtain ⟨a', b', _, _, _, e1', _, _⟩ := hride e1 edge1 (by omega) he1
          omega
        obtain ⟨s1, hs1⟩ : ∃ s, self.transport_catalogue_.stops_[e1]? = some s :=
          ⟨_, List.getElem?_eq_getElem hid1⟩
        obtain ⟨w1, w2⟩ := hwait e1 s1 hs1
        have hedge1 : edge1 = ⟨2 * e1, 2 * e1 + 1, (self.settings_.bus_wait_time : ℚ)⟩ :=
          Option.some.inj (he1.symm.trans w1)
        subst hedge1
        simp only at hfrom1 hroute1
        have hea : e1 = a := by omega
        subst hea
        cases rest1 with
        | nil =>
          unfold IsRoute at hroute1
          omega
        | cons e2 rest2 =>
          unfold IsRoute at hroute1
          cases he2 : self.graph_.edges_[e2]? with
          | none => rw [he2] at hroute1; exact hroute1.elim
          | some edge2 =>
            rw [he2] at hroute1
            obtain ⟨hfrom2, hroute2⟩ := hroute1
            have hid2 : self.transport_catalogue_.stops_.length ≤ e2 := by
              by_contra hcon
              obtain ⟨s2, hs2⟩ : ∃ s, self.transport_catalogue_.stops_[e2]? = some s :=
                ⟨_, List.getElem?_eq_getElem (by omega)⟩
              obtain ⟨v1, _⟩ := hwait e2 s2 hs2
              have : edge2 = ⟨2 * e2, 2 * e2 + 1, (self.settings_.bus_wait_time : ℚ)⟩ :=
                Option.some.inj (he2.symm.trans v1)
              subst this
              simp only at hfrom2
              omega
            obtain ⟨a', b', _, hb', _, _, hto2, bus_name, span_count, hstat2⟩ :=
              hride e2 edge2 hid2 he2
            rw [hto2] at hroute2
            simp only [List.length_cons] at hlen
            obtain ⟨heven, items, hitems, hpairs⟩ := ih rest2 b' (by omega) hb' hroute2
            refine ⟨?_, .WaitRouteStat s1.name (self.settings_.bus_wait_time : ℚ)
              :: .BusRouteStat bus_name edge2.weight span_count :: items, ?_, ?_⟩
            · obtain ⟨r, hr⟩ := heven
              exact ⟨r + 1, by simp only [List.length_cons]; omega⟩
            · unfold FindRoute.items edge_stats_at
              rw [w2]
              simp only
              unfold FindRoute.items edge_stats_at
              rw [hstat2]
              simp only [hitems]
            · unfold wait_ride_pairs
              refine ⟨⟨e1, s1, 2 * e1, 2 * e1 + 1, edge2, bus_name, span_count, hs1, ?_, w1,
                rfl, he2, hfrom2, rfl⟩, hpairs⟩
              unfold stop_vertices_at
              rw [hsome e1, if_pos hid1]

end tc.router.TransportRouter

/-- C9: when construction completes, every directed path of the graph from the hub vertex of a
stop to the hub vertex of a stop has an even number of edges, every edge of it has a
descriptor, and edges and descriptors come in pairs of a wait and a ride: a `WaitRouteStat`
with the name of a stop, for the wait edge of that stop, followed by a `BusRouteStat` for an
edge that leaves the terminal vertex of the same stop.  So an itinerary made of the descriptors
of such a path, as `FindRoute` builds it, has exactly one wait for every ride, at the stop
where the ride starts. -/
theorem tc.router.hub_paths_alternate (c : TransportCatalogue) (settings : RoutingSettings)
    (tr : TransportRouter) (h : TransportRouter.new c settings = .ok tr)
    (stop_from stop_to : StopPtr) (hub_from terminal_from hub_to terminal_to : Nat)
    (hfrom : tr.stop_vertices_at stop_from = .ok (hub_from, terminal_from))
    (hto : tr.stop_vertices_at stop_to = .ok (hub_to, terminal_to))
    (path : List Nat)
    (hpath : graph.DirectedWeightedGraph.IsRoute tr.graph_ hub_from hub_to path) :
    Even path.length ∧
    ∃ items, TransportRouter.FindRoute.items tr path = .ok items ∧
      TransportRouter.wait_ride_pairs tr path items := by
  obtain ⟨_, _, hb, _, _⟩ := TransportRouter.new_steps c settings tr h
  have hubs : ∀ (stop : StopPtr) (hub terminal : Nat),
      tr.stop_vertices_at stop = .ok (hub, terminal) →
      ∃ k, k < tr.transport_catalogue_.stops_.length ∧ hub = 2 * k := by
    intro stop hub terminal hat
    have hl := TransportRouter.stop_vertices_at_ok hat
    cases stop with
    | none => rw [hb.lookup_none] at hl; cases hl
    | some k =>
      rw [hb.lookup_some k] at hl
      split at hl
      · rename_i hk
        simp only [Option.some.injEq, Prod.mk.injEq] at hl
        exact ⟨k, hk, hl.1.symm⟩
      · cases hl
  obtain ⟨a, ha, hea⟩ := hubs stop_from hub_from terminal_from hfrom
  obtain ⟨b, _, heb⟩ := hubs stop_to hub_to terminal_to hto
  subst hea heb
  exact hb.hub_paths b path.length path a (le_refl _) ha hpath

/-- Witness of C9: in `demo_router` the edges 0, 3, 1, 5 lead from the hub vertex of the first
stop to the hub vertex of the third one: wait, ride, wait, ride. -/
theorem tc.router.hub_paths_alternate_witness :
    graph.DirectedWeightedGraph.IsRoute demo_router.graph_ 0 4 [0, 3, 1, 5] ∧
    Even [0, 3, 1, 5].length ∧
    ∃ items, TransportRouter.FindRoute.items demo_router [0, 3, 1, 5] = .ok items ∧
      TransportRouter.wait_ride_pairs demo_router [0, 3, 1, 5] items :=
  ⟨by with_unfolding_all decide,
    tc.router.hub_paths_alternate demo_catalogue demo_settings demo_router
      TransportRouter.demo_router_built (some 0) (some 2) 0 1 4 5 (by with_unfolding_all rfl)
      (by with_unfolding_all rfl) [0, 3, 1, 5] (by with_unfolding_all decide)⟩

/-! ## Properties of the catalogue and of `ParseRoute` -/

/-- What `GetDistance` returns right after `SetDistance(A, B, d)`, for the pair and for the
reversed pair when the catalogue has no entry for it. -/
theorem tc.GetDistance_after_SetDistance (c : TransportCatalogue) (stop_a stop_b : StopPtr)
    (d : Int) :
    (c.SetDistance stop_a stop_b d).GetDistance stop_a stop_b = .ok d ∧
    (c.distances_.lookup (stop_b, stop_a) = none →
      (c.SetDistance stop_a stop_b d).GetDistance stop_b stop_a = .ok d) := by
  unfold TransportCatalogue.GetDistance TransportCatalogue.SetDistance
  simp only [List.lookup_cons_self, true_and]
  intro hba
  rw [tc.router.TransportRouter.lookup_cons_eq]
  by_cases h : (stop_b, stop_a) = (stop_a, stop_b)
  · rw [if_pos h]
  · rw [if_neg h, hba]

/-- C11: in every catalogue state in which the last distance registered for the pair
`(A, B)` is `d` and no distance is registered for the pair `(B, A)`, `GetDistance(B, A)`
returns `d`, the value that `GetDistance(A, B)` returns.  This is the state right after
`SetDistance(A, B, d)` in a catalogue without an entry for `(B, A)`, and every later state in
which neither pair is registered again. -/
theorem tc.reverse_distance_falls_back (c : TransportCatalogue) (stop_a stop_b : StopPtr)
    (d : Int) :
    (c.distances_.lookup (stop_a, stop_b) = some d →
      c.distances_.lookup (stop_b, stop_a) = none →
      c.GetDistance stop_b stop_a = .ok d ∧ c.GetDistance stop_a stop_b = .ok d) ∧
    (c.distances_.lookup (stop_b, stop_a) = none →
      (c.SetDistance stop_a stop_b d).GetDistance stop_b stop_a = .ok d ∧
      (c.SetDistance stop_a stop_b d).GetDistance stop_a stop_b = .ok d) := by
  constructor
  · intro hab hba
    unfold TransportCatalogue.GetDistance
    rw [hba, hab]
    exact ⟨rfl, rfl⟩
  · intro hba
    exact ⟨(tc.GetDistance_after_SetDistance c stop_a stop_b d).2 hba,
      (tc.GetDistance_after_SetDistance c stop_a stop_b d).1⟩

/-- Witness of C11: in `demo_catalogue` the distance from stop 1 to stop 2 is registered as
9900 and none is registered from stop 2 to stop 1. -/
theorem tc.reverse_distance_falls_back_witness :
    router.demo_catalogue.GetDistance (some 2) (some 1) = .ok 9900 ∧
    router.demo_catalogue.GetDistance (some 1) (some 2) = .ok 9900 :=
  (tc.reverse_distance_falls_back router.demo_catalogue (some 1) (some 2) 9900).1 (by decide)
    (by decide)

/-- C12: in every catalogue state in which distances are registered for both `(A, B)` and
`(B, A)`, `GetDistance(A, B)` returns the value last registered for `(A, B)` and
`GetDistance(B, A)` the value last registered for `(B, A)`, whether the two values are equal or
not.  In particular, after `SetDistance(A, B, d_ab)` and `SetDistance(B, A, d_ba)` for distinct
stops, in this or in the other order, each direction returns its own value. -/
theorem tc.registered_distance_has_precedence (c : TransportCatalogue)
    (stop_a stop_b : StopPtr) (d_ab d_ba : Int) :
    (c.distances_.lookup (stop_a, stop_b) = some d_ab →
      c.distances_.lookup (stop_b, stop_a) = some d_ba →
      c.GetDistance stop_a stop_b = .ok d_ab ∧ c.GetDistance stop_b stop_a = .ok d_ba) ∧
    (stop_a ≠ stop_b →
      ((c.SetDistance stop_a stop_b d_ab).SetDistance stop_b stop_a d_ba).GetDistance
          stop_a stop_b = .ok d_ab ∧
      ((c.SetDistance stop_a stop_b d_ab).SetDistance stop_b stop_a d_ba).GetDistance
          stop_b stop_a = .ok d_ba ∧
      ((c.SetDistance stop_b stop_a d_ba).SetDistance stop_a stop_b d_ab).GetDistance
          stop_a stop_b = .ok d_ab ∧
      ((c.SetDistance stop_b stop_a d_ba).SetDistance stop_a stop_b d_ab).GetDistance
          stop_b stop_a = .ok d_ba) := by
  have key : ∀ (c' : TransportCatalogue) (p q : StopPtr) (d : Int),
      c'.distances_.lookup (p, q) = some d → c'.GetDistance p q = .ok d := by
    intro c' p q d h
    unfold TransportCatalogue.GetDistance
    rw [h]
  constructor
  · intro hab hba
    exact ⟨key c _ _ _ hab, key c _ _ _ hba⟩
  · intro hne
    have h1 : (stop_a, stop_b) ≠ (stop_b, stop_a) := fun h => hne (congrArg Prod.fst h)
    have h2 : (stop_b, stop_a) ≠ (stop_a, stop_b) := fun h => hne (congrArg Prod.snd h)
    refine ⟨key _ _ _ _ ?_, key _ _ _ _ ?_, key _ _ _ _ ?_, key _ _ _ _ ?_⟩
    · unfold TransportCatalogue.SetDistance
      simp only
      rw [tc.router.TransportRouter.lookup_cons_eq, if_neg h1]
      exact List.lookup_cons_self
    · exact List.lookup_cons_self
    · exact List.lookup_cons_self
    · unfold TransportCatalogue.SetDistance
      simp only
      rw [tc.router.TransportRouter.lookup_cons_eq, if_neg h2]
      exact List.lookup_cons_self

/-- Witness of C12: in `demo_catalogue` the distances between the stops 0 and 1 are registered
in both directions, as 3900 and as 4100. -/
theorem tc.registered_distance_has_precedence_witness :
    router.demo_catalogue.GetDistance (some 0) (some 1) = .ok 3900 ∧
    router.demo_catalogue.GetDistance (some 1) (some 0) = .ok 4100 :=
  (tc.registered_distance_has_precedence router.demo_catalogue (some 0) (some 1) 3900 4100).1
    (by decide) (by decide)

/-- C17: for a bus request with a list of stop names that is not empty, `ParseRoute` returns
the list as it is when `is_roundtrip` holds, and otherwise the list followed by its reverse
without the first element of the reverse, the turnaround stop; that result reads the same
backwards, has `2 * n - 1` elements, and its first `n` elements are the input. -/
theorem tc.ParseRoute_result (names : List String) (hne : names ≠ []) :
    ParseRoute names true = .ok names ∧
    ∃ stored, ParseRoute names false = .ok stored ∧
      stored = names ++ names.reverse.tail ∧ stored.reverse = stored ∧
      stored.length = 2 * names.length - 1 ∧ stored.take names.length = names := by
  refine ⟨rfl, ?_⟩
  rcases List.eq_nil_or_concat names with h | ⟨front, last, h⟩
  · exact absurd h hne
  · rw [List.concat_eq_append] at h
    subst h
    refine ⟨front ++ [last] ++ front.reverse, tc.ParseRoute_there_and_back front last, ?_, ?_,
      ?_, ?_⟩
    · simp
    · simp
    · simp only [List.length_append, List.length_reverse, List.length_singleton]
      omega
    · rw [List.take_append_of_le_length (le_refl _), List.take_length]

/-- Witness of C17: the two routes of the comment of `ParseRoute`. -/
theorem tc.ParseRoute_result_witness :
    ParseRoute ["A", "B", "C", "A"] true = .ok ["A", "B", "C", "A"] ∧
    ParseRoute ["A", "B", "C", "D"] false = .ok ["A", "B", "C", "D", "C", "B", "A"] :=
  ⟨(tc.ParseRoute_result ["A", "B", "C", "A"] (by decide)).1,
    (tc.ParseRoute_result ["A", "B", "C", "D"] (by decide)).2.elim
      fun _ h => h.1.trans (congrArg Except.ok h.2.1)⟩

/-- `AddBus` changes neither the stops nor the distances. -/
theorem tc.AddBus_stops (c c' : TransportCatalogue) (name : String) (stops : List StopPtr)
    (end_stop_ptr : StopPtr) (is_roundtrip : Bool)
    (h : c.AddBus name stops end_stop_ptr is_roundtrip = .ok c') :
    c'.stops_ = c.stops_ ∧ c'.distances_ = c.distances_ ∧
    c'.stopname_to_stop_ = c.stopname_to_stop_ ∧
    c'.buses_ = c.buses_ ++ [⟨name, stops, end_stop_ptr, is_roundtrip⟩] := by
  unfold TransportCatalogue.AddBus at h
  cases hl : TransportCatalogue.AddBus.loop (some c.buses_.length) stops c.stop_to_buses_ with
  | error e => simp only [hl] at h; cases h
  | ok m =>
    simp only [hl] at h
    injection h with h
    subst h
    exact ⟨rfl, rfl, rfl, rfl⟩

/-- C18: after any sequence of `AddStop` calls `GetAllStops` returns the stops that were there
followed by the added stops in the order of the calls (so, starting from the empty catalogue,
exactly the added stops in that order); and a stop that is at position `k` is at position `k`,
with the same name and coordinates, after every later `AddStop`, `SetDistance` and `AddBus`. -/
theorem tc.stops_keep_order (c : TransportCatalogue) :
    (∀ requests : List (String × Coordinates),
      (requests.foldl (fun c' r => c'.AddStop r.1 r.2) c).GetAllStops
        = c.GetAllStops ++ requests.map (fun r => (⟨r.1, r.2⟩ : Stop))) ∧
    (∀ requests : List (String × Coordinates),
      (requests.foldl (fun c' r => c'.AddStop r.1 r.2) ({} : TransportCatalogue)).GetAllStops
        = requests.map (fun r => (⟨r.1, r.2⟩ : Stop))) ∧
    ∀ (k : Nat) (stop : Stop), c.GetAllStops[k]? = some stop →
      (∀ name coordinates, (c.AddStop name coordinates).GetAllStops[k]? = some stop) ∧
      (∀ stop_from stop_to distance,
        (c.SetDistance stop_from stop_to distance).GetAllStops[k]? = some stop) ∧
      ∀ name stops end_stop_ptr is_roundtrip c',
        c.AddBus name stops end_stop_ptr is_roundtrip = .ok c' →
        c'.GetAllStops[k]? = some stop := by
  have hfold : ∀ (requests : List (String × Coordinates)) (c0 : TransportCatalogue),
      (requests.foldl (fun c' r => c'.AddStop r.1 r.2) c0).GetAllStops
        = c0.GetAllStops ++ requests.map (fun r => (⟨r.1, r.2⟩ : Stop)) := by
    intro requests
    induction requests with
    | nil => intro c0; simp
    | cons r rest ih =>
      intro c0
      rw [List.foldl_cons, ih]
      unfold TransportCatalogue.GetAllStops TransportCatalogue.AddStop
      simp
  refine ⟨fun requests => hfold requests c, ?_, ?_⟩
  · intro requests
    rw [hfold requests {}]
    rfl
  · intro k stop hk
    unfold TransportCatalogue.GetAllStops at hk ⊢
    refine ⟨?_, ?_, ?_⟩
    · intro name coordinates
      unfold TransportCatalogue.AddStop
      simp only
      rw [List.getElem?_append_left]
      · exact hk
      · rcases List.getElem?_eq_some.1 hk with ⟨hlt, _⟩
        exact hlt
    · intro stop_from stop_to distance
      exact hk
    · intro name stops end_stop_ptr is_roundtrip c' h
      rw [(tc.AddBus_stops c c' name stops end_stop_ptr is_roundtrip h).1]
      exact hk

/-- Witness of C18: the stop at position 1 of `demo_catalogue` stays there when a stop, a
distance or a bus is added. -/
theorem tc.stops_keep_order_witness :
    (router.demo_catalogue.AddStop "Vnukovo" ⟨0, 0⟩).GetAllStops[1]?
      = some ⟨"Marushkino", ⟨55595884 / 1000000, 37209755 / 1000000⟩⟩ ∧
    (router.demo_catalogue.SetDistance (some 0) (some 2) 5).GetAllStops[1]?
      = some ⟨"Marushkino", ⟨55595884 / 1000000, 37209755 / 1000000⟩⟩ :=
  ⟨((tc.stops_keep_order router.demo_catalogue).2.2 1
      ⟨"Marushkino", ⟨55595884 / 1000000, 37209755 / 1000000⟩⟩
      (by with_unfolding_all rfl)).1 "Vnukovo" ⟨0, 0⟩,
    ((tc.stops_keep_order router.demo_catalogue).2.2 1
      ⟨"Marushkino", ⟨55595884 / 1000000, 37209755 / 1000000⟩⟩
      (by with_unfolding_all rfl)).2.1 (some 0) (some 2) 5⟩

/-! ## Properties of the route queries -/

/-- C13 at a failing input.  `demo_catalogue` has no stop `Vnukovo`, so `GetStop` returns
`nullptr` for it; `FindRoute` with `nullptr` as either stop does not return "not found":
`stop_vertices_.at` throws `std::out_of_range`. -/
theorem tc.router.route_query_with_unknown_stop :
    demo_catalogue.GetStop "Vnukovo" = none ∧
    demo_catalogue.GetStop "Marushkino" = some 1 ∧
    demo_router.FindRoute (demo_catalogue.GetStop "Vnukovo")
      (demo_catalogue.GetStop "Marushkino") = .error .out_of_range ∧
    demo_router.FindRoute (demo_catalogue.GetStop "Marushkino")
      (demo_catalogue.GetStop "Vnukovo") = .error .out_of_range := by
  refine ⟨by decide, by decide, ?_, ?_⟩ <;> with_unfolding_all rfl

namespace graph.Router

open graph DirectedWeightedGraph

/-- From a vertex to itself `BuildRoute` returns the route without edges, of weight 0. -/
theorem BuildRoute_self (g : DirectedWeightedGraph) (source : Nat) :
    BuildRoute g source source = some ⟨0, []⟩ := by
  have hinv := PathInv.search g.vertex_count 0 _ (PathInv.initial g source)
  have hsd : (routes_internal_data g source).lookup source = some ⟨0, none⟩ := hinv.source_data
  unfold BuildRoute
  rw [hsd]
  simp only
  unfold reconstruct
  rw [hsd]

/-- Without a route from the source to the target `BuildRoute` returns nothing. -/
theorem BuildRoute_none (g : DirectedWeightedGraph) (source target : Nat)
    (h : ∀ ids, ¬ IsRoute g source target ids) : BuildRoute g source target = none := by
  cases hb : BuildRoute g source target with
  | none => rfl
  | some r => exact absurd (BuildRoute_sound g source target r hb).1 (h r.edges)

/-- When no edge ends at a vertex, the only route to it is the one without edges. -/
theorem no_route_into (g : DirectedWeightedGraph) (target : Nat)
    (h : ∀ edge ∈ g.edges_, edge.to_vertex ≠ target) :
    ∀ (ids : List Nat) (u : Nat), IsRoute g u target ids → u = target := by
  intro ids
  induction ids with
  | nil => intro u hr; unfold IsRoute at hr; exact hr
  | cons id rest ih =>
    intro u hr
    unfold IsRoute at hr
    cases hedge : g.edges_[id]? with
    | none => rw [hedge] at hr; exact hr.elim
    | some edge =>
      rw [hedge] at hr
      have hmem : edge ∈ g.edges_ := List.getElem?_mem hedge
      exact absurd (ih edge.to_vertex hr.2) (h edge hmem)

end graph.Router

/-- C14: when construction completes, for two stops of the catalogue, at the positions
`k_from` and `k_to`, whose hub vertices `2 * k_from` and `2 * k_to` are joined by no directed
path of the graph, `FindRoute` returns `nullopt`: it raises no error and returns no route,
whatever its `total_time`. -/
theorem tc.router.unreachable_stop_has_no_route (c : TransportCatalogue)
    (settings : RoutingSettings) (tr : TransportRouter)
    (h : TransportRouter.new c settings = .ok tr) (k_from k_to : Nat)
    (hk_from : k_from < c.GetAllStops.length) (hk_to : k_to < c.GetAllStops.length)
    (hnone : ∀ path,
      ¬ graph.DirectedWeightedGraph.IsRoute tr.graph_ (2 * k_from) (2 * k_to) path) :
    tr.stop_vertices_at (some k_from) = .ok (2 * k_from, 2 * k_from + 1) ∧
    tr.stop_vertices_at (some k_to) = .ok (2 * k_to, 2 * k_to + 1) ∧
    tr.FindRoute (some k_from) (some k_to) = .ok none := by
  obtain ⟨htc, _, hb, _, _⟩ := TransportRouter.new_steps c settings tr h
  have hat : ∀ k, k < c.GetAllStops.length →
      tr.stop_vertices_at (some k) = .ok (2 * k, 2 * k + 1) := by
    intro k hk
    unfold TransportRouter.stop_vertices_at
    rw [hb.lookup_some k, htc, if_pos (show k < c.stops_.length from hk)]
  refine ⟨hat k_from hk_from, hat k_to hk_to, ?_⟩
  unfold TransportRouter.FindRoute
  rw [hat k_from hk_from, hat k_to hk_to]
  simp only
  rw [TransportRouter.new_router c settings tr h,
    graph.Router.BuildRoute_none tr.graph_ (2 * k_from) (2 * k_to) hnone]

/-- The construction for `island_catalogue` returns `island_router`. -/
theorem tc.router.island_router_built :
    TransportRouter.new island_catalogue loop_settings = .ok island_router := by
  with_unfolding_all rfl

/-- Witness of C14: in `island_router` no edge ends at the hub vertex of the third stop, which
no bus serves, so there is no route from the first stop to it. -/
theorem tc.router.unreachable_stop_has_no_route_witness :
    island_router.stop_vertices_at (some 0) = .ok (2 * 0, 2 * 0 + 1) ∧
    island_router.stop_vertices_at (some 2) = .ok (2 * 2, 2 * 2 + 1) ∧
    island_router.FindRoute (some 0) (some 2) = .ok none :=
  tc.router.unreachable_stop_has_no_route island_catalogue loop_settings island_router
    tc.router.island_router_built 0 2 (by decide) (by decide)
    (fun path hp =>
      absurd (graph.Router.no_route_into island_router.graph_ 4
        (by with_unfolding_all decide) path 0 hp) (by decide))

/-- C15: when construction completes, for every stop of the catalogue `FindRoute` from the stop
to itself returns a route with `total_time` 0 and no items. -/
theorem tc.router.route_to_same_stop (c : TransportCatalogue) (settings : RoutingSettings)
    (tr : TransportRouter) (h : TransportRouter.new c settings = .ok tr) (k : Nat)
    (hk : k < c.GetAllStops.length) :
    tr.FindRoute (some k) (some k) = .ok (some ⟨0, []⟩) := by
  obtain ⟨htc, _, hb, _, _⟩ := TransportRouter.new_steps c settings tr h
  have hat : tr.stop_vertices_at (some k) = .ok (2 * k, 2 * k + 1) := by
    unfold TransportRouter.stop_vertices_at
    rw [hb.lookup_some k, htc, if_pos (show k < c.stops_.length from hk)]
  unfold TransportRouter.FindRoute
  rw [hat]
  simp only
  rw [graph.Router.BuildRoute_self]
  rfl

/-- Witness of C15: the second stop of `demo_catalogue`. -/
theorem tc.router.route_to_same_stop_witness :
    demo_router.FindRoute (some 1) (some 1) = .ok (some ⟨0, []⟩) :=
  tc.router.route_to_same_stop demo_catalogue demo_settings demo_router
    TransportRouter.demo_router_built 1 (by decide)

/-! ## Weights and vertex indices of the edges that the builder inserts -/

namespace tc.router.TransportRouter

open graph Relation DirectedWeightedGraph

/-- With a positive velocity, the inner loop of `SetRouteEdges` inserts no edge of negative
weight when the time so far and the distances it reads are not negative. -/
theorem SetRouteEdges.inner_nonneg (bus_name : String) (stop_from : StopPtr) (terminal : Nat) :
    ∀ (rest : List StopPtr) (prev : StopPtr) (time : ℚ) (span_count : Int)
      (self self' : TransportRouter),
      0 < self.settings_.bus_velocity → 0 ≤ time →
      (∀ (j : Nat) (p q : StopPtr) (d : Int), (prev :: rest)[j]? = some p →
        (prev :: rest)[j + 1]? = some q → q ≠ stop_from →
        self.transport_catalogue_.GetDistance p q = .ok d → 0 ≤ d) →
      (∀ (id : Nat) (edge : Edge), self.graph_.edges_[id]? = some edge → 0 ≤ edge.weight) →
      SetRouteEdges.inner bus_name stop_from terminal prev rest time span_count self
        = .ok self' →
      ∀ (id : Nat) (edge : Edge), self'.graph_.edges_[id]? = some edge → 0 ≤ edge.weight := by
  intro rest
  induction rest with
  | nil =>
    intro prev time span_count self self' _ _ _ hnn h
    rw [SetRouteEdges.inner] at h
    injection h with h
    subst h
    exact hnn
  | cons stop_to rest ih =>
    intro prev time span_count self self' hvel htime hread hnn h
    rw [SetRouteEdges.inner] at h
    have hread' : ∀ (j : Nat) (p q : StopPtr) (d : Int), (stop_to :: rest)[j]? = some p →
        (stop_to :: rest)[j + 1]? = some q → q ≠ stop_from →
        self.transport_catalogue_.GetDistance p q = .ok d → 0 ≤ d :=
      fun j p q d hp hq hne hd =>
        hread (j + 1) p q d (by simpa using hp) (by simpa using hq) hne hd
    by_cases heq : stop_from = stop_to
    · rw [if_pos heq] at h
      exact ih stop_to time span_count self self' hvel htime hread' hnn h
    · rw [if_neg heq] at h
      cases hd : self.transport_catalogue_.GetDistance prev stop_to with
      | error e => simp only [hd] at h; cases h
      | ok distance =>
        simp only [hd] at h
        cases hat : self.stop_vertices_at stop_to with
        | error e => simp only [hat] at h; cases h
        | ok p =>
          obtain ⟨hub_to, terminal_to⟩ := p
          simp only [hat] at h
          cases hadd : self.graph_.AddEdge
              ⟨terminal, hub_to, time + (distance : ℚ) / self.settings_.bus_velocity
                * velocity_coefficient⟩ with
          | error e => simp only [hadd] at h; cases h
          | ok r =>
            obtain ⟨g, edge_id⟩ := r
            simp only [hadd] at h
            obtain ⟨_, _, hg, hid⟩ := AddEdge_ok hadd
            subst hg hid
            have hd0 : (0 : Int) ≤ distance :=
              hread 0 prev stop_to distance (by simp) (by simp) (fun e => heq e.symm) hd
            have htime' : 0 ≤ time + (distance : ℚ) / self.settings_.bus_velocity
                * velocity_coefficient := by
              have h1 : (0 : ℚ) ≤ (distance : ℚ) := by exact_mod_cast hd0
              have h2 : (0 : ℚ) ≤ (distance : ℚ) / self.settings_.bus_velocity :=
                div_nonneg h1 hvel.le
              have h3 : (0 : ℚ) ≤ velocity_coefficient := by
                unfold velocity_coefficient; norm_num
              have := mul_nonneg h2 h3
              linarith
            have key := fun a b c d =>
              ih stop_to _ (span_count + 1) _ self' a b c d h
            apply key hvel htime' hread'
            intro id edge hedge
            simp only at hedge
            by_cases hlt : id < self.graph_.edges_.length
            · rw [List.getElem?_append_left hlt] at hedge
              exact hnn id edge hedge
            · have hlen : id < (self.graph_.edges_ ++
                  [(⟨terminal, hub_to, time + (distance : ℚ) / self.settings_.bus_velocity
                    * velocity_coefficient⟩ : Edge)]).length := by
                rcases List.getElem?_eq_some.1 hedge with ⟨hl, _⟩
                exact hl
              simp only [List.length_append, List.length_singleton] at hlen
              have hideq : id = self.graph_.edges_.length := by omega
              subst hideq
              rw [List.getElem?_concat_length] at hedge
              injection hedge with hedge
              subst hedge
              exact htime'

/-- With a positive velocity, `SetRouteEdges` inserts no edge of negative weight when the
distances it reads on its range are not negative. -/
theorem SetRouteEdges_nonneg (bus_name : String) (c : TransportCatalogue)
    (settings : RoutingSettings) (hvel : 0 < settings.bus_velocity) :
    ∀ (sub_path : List StopPtr) (self self' : TransportRouter),
      self.transport_catalogue_ = c → self.settings_ = settings →
      (∀ (p q : StopPtr) (d : Int), range_reads sub_path p q →
        c.GetDistance p q = .ok d → 0 ≤ d) →
      (∀ (id : Nat) (edge : Edge), self.graph_.edges_[id]? = some edge → 0 ≤ edge.weight) →
      SetRouteEdges bus_name sub_path self = .ok self' →
      ∀ (id : Nat) (edge : Edge), self'.graph_.edges_[id]? = some edge → 0 ≤ edge.weight := by
  intro sub_path
  induction sub_path with
  | nil =>
    intro self self' _ _ _ hnn h
    rw [SetRouteEdges] at h
    injection h with h
    subst h
    exact hnn
  | cons stop_from rest ih =>
    intro self self' hc hs hread hnn h
    rw [SetRouteEdges] at h
    cases hat : self.stop_vertices_at stop_from with
    | error e => simp only [hat] at h; cases h
    | ok p =>
      obtain ⟨hub_from, terminal⟩ := p
      simp only [hat] at h
      cases hin : SetRouteEdges.inner bus_name stop_from terminal stop_from rest 0 0 self with
      | error e => simp only [hin] at h; cases h
      | ok mid =>
        simp only [hin] at h
        obtain ⟨hchain, _⟩ := SetRouteEdges.inner_steps bus_name stop_from hub_from terminal
          rest stop_from 0 0 self mid [] (stop_vertices_at_ok hat) (by simp) (by simp) hin
        obtain ⟨f1, f2, _, _, _, _⟩ := RideStep.frame_star hchain
        have hmid := SetRouteEdges.inner_nonneg bus_name stop_from terminal rest stop_from 0 0
          self mid (hs ▸ hvel) (le_refl _)
          (fun j p q d hp hq hne hd =>
            hread p q d ⟨0, j + 1, stop_from, by omega, by simp, hq, hne, by simpa using hp⟩
              (hc ▸ hd))
          hnn hin
        apply ih mid self' (f1.trans hc) (f2.trans hs) ?_ hmid h
        intro p q d hr hd
        obtain ⟨i, k, stop_i, hik, hi, hk, hne, hp⟩ := hr
        refine hread p q d ⟨i + 1, k + 1, stop_i, by omega, by simpa using hi, by simpa using hk,
          hne, ?_⟩ hd
        obtain ⟨k', hk'⟩ : ∃ k', k = k' + 1 := ⟨k - 1, by omega⟩
        subst hk'
        simpa using hp

end tc.router.TransportRouter

namespace tc.router.TransportRouter

open graph Relation DirectedWeightedGraph

/-- With a positive velocity, the body of the loop of `AddBussesToGraph` inserts no edge of
negative weight when the distances read on the ranges of the bus are not negative. -/
theorem AddBussesToGraph.body_nonneg (bus : Bus) (c : TransportCatalogue)
    (settings : RoutingSettings) (hvel : 0 < settings.bus_velocity)
    (self self' : TransportRouter) (hc : self.transport_catalogue_ = c)
    (hs : self.settings_ = settings)
    (hread : ∀ (sub_path : List StopPtr), traversed bus sub_path →
      ∀ (p q : StopPtr) (d : Int), range_reads sub_path p q →
        c.GetDistance p q = .ok d → 0 ≤ d)
    (hnn : ∀ (id : Nat) (edge : Edge), self.graph_.edges_[id]? = some edge → 0 ≤ edge.weight)
    (h : AddBussesToGraph.body bus self = .ok self') :
    ∀ (id : Nat) (edge : Edge), self'.graph_.edges_[id]? = some edge → 0 ≤ edge.weight := by
  unfold AddBussesToGraph.body at h
  by_cases hrt : bus.is_roundtrip = true
  · rw [if_pos hrt] at h
    exact SetRouteEdges_nonneg bus.name c settings hvel bus.stops self self' hc hs
      (hread bus.stops (by unfold traversed; rw [if_pos hrt])) hnn h
  · rw [if_neg hrt] at h
    by_cases hlen : bus.stops.length / 2 + 1 ≤ bus.stops.length
    · rw [if_pos hlen] at h
      cases hout : SetRouteEdges bus.name (outbound bus) self with
      | error e => simp only [hout] at h; cases h
      | ok mid =>
        simp only [hout] at h
        obtain ⟨hchain, _⟩ := SetRouteEdges_steps bus.name (outbound bus) self mid hout
        obtain ⟨f1, f2, _, _, _, _⟩ := RideStep.frame_star hchain
        have hmid := SetRouteEdges_nonneg bus.name c settings hvel (outbound bus) self mid hc
          hs (hread (outbound bus) (by unfold traversed; rw [if_neg hrt]; exact Or.inl rfl))
          hnn hout
        exact SetRouteEdges_nonneg bus.name c settings hvel (inbound bus) mid self'
          (f1.trans hc) (f2.trans hs)
          (hread (inbound bus) (by unfold traversed; rw [if_neg hrt]; exact Or.inr rfl))
          hmid h
    · rw [if_neg hlen] at h
      cases h

/-- With a positive velocity, the loop of `AddBussesToGraph` inserts no edge of negative weight
when the distances read on the ranges of its buses are not negative. -/
theorem AddBussesToGraph.loop_nonneg (c : TransportCatalogue) (settings : RoutingSettings)
    (hvel : 0 < settings.bus_velocity) :
    ∀ (buses : List Bus) (self self' : TransportRouter),
      self.transport_catalogue_ = c → self.settings_ = settings →
      (∀ bus ∈ buses, ∀ (sub_path : List StopPtr), traversed bus sub_path →
        ∀ (p q : StopPtr) (d : Int), range_reads sub_path p q →
          c.GetDistance p q = .ok d → 0 ≤ d) →
      (∀ (id : Nat) (edge : Edge), self.graph_.edges_[id]? = some edge → 0 ≤ edge.weight) →
      AddBussesToGraph.loop buses self = .ok self' →
      ∀ (id : Nat) (edge : Edge), self'.graph_.edges_[id]? = some edge → 0 ≤ edge.weight := by
  intro buses
  induction buses with
  | nil =>
    intro self self' _ _ _ hnn h
    rw [AddBussesToGraph.loop] at h
    injection h with h
    subst h
    exact hnn
  | cons bus rest ih =>
    intro self self' hc hs hread hnn h
    rw [AddBussesToGraph.loop] at h
    cases hb : AddBussesToGraph.body bus self with
    | error e => simp only [hb] at h; cases h
    | ok mid =>
      simp only [hb] at h
      obtain ⟨hchain, _⟩ := AddBussesToGraph.body_steps bus self mid hb
      obtain ⟨f1, f2, _, _, _, _⟩ := RideStep.frame_star hchain
      have hmid := AddBussesToGraph.body_nonneg bus c settings hvel self mid hc hs
        (hread bus (List.mem_cons_self _ _)) hnn hb
      exact ih mid self' (f1.trans hc) (f2.trans hs)
        (fun bus' hm => hread bus' (List.mem_cons_of_mem _ hm)) hmid h

end tc.router.TransportRouter

/-- C19: when construction completes for a wait time that is not negative, a positive velocity
and a catalogue in which no road distance that the builder reads is negative, no edge of the
graph, wait edge or ride edge, has a negative weight. -/
theorem tc.router.edge_weights_nonneg (c : TransportCatalogue) (settings : RoutingSettings)
    (tr : TransportRouter) (h : TransportRouter.new c settings = .ok tr)
    (hwait : 0 ≤ settings.bus_wait_time) (hvel : 0 < settings.bus_velocity)
    (hread : ∀ (p q : StopPtr) (d : Int), TransportRouter.reads_distance c p q →
      c.GetDistance p q = .ok d → 0 ≤ d) :
    ∀ (id : Nat) (edge : graph.Edge), tr.graph_.edges_[id]? = some edge → 0 ≤ edge.weight := by
  obtain ⟨mid, hmid, hc, hs, hlen, hbm⟩ := TransportRouter.AddStopsToGraph_ok c settings
  obtain ⟨built, hrun, htr⟩ := TransportRouter.new_built c settings tr h
  unfold TransportRouter.ConstructGraph at hrun
  simp only [hmid] at hrun
  unfold TransportRouter.AddBussesToGraph at hrun
  rw [hc] at hrun
  subst htr
  apply TransportRouter.AddBussesToGraph.loop_nonneg c settings hvel c.GetAllBuses mid built hc
    hs ?_ ?_ hrun
  · intro bus hbus sub_path htr p q d hr hd
    exact hread p q d ⟨bus, hbus, sub_path, htr, hr⟩ hd
  · intro id edge hedge
    have hid : id < mid.transport_catalogue_.stops_.length := by
      rcases List.getElem?_eq_some.1 hedge with ⟨hlt, _⟩
      rw [hc]; omega
    obtain ⟨s, hs'⟩ : ∃ s, mid.transport_catalogue_.stops_[id]? = some s :=
      ⟨_, List.getElem?_eq_getElem hid⟩
    obtain ⟨w1, _⟩ := hbm.wait_edge id s hs'
    have : edge = ⟨2 * id, 2 * id + 1, (mid.settings_.bus_wait_time : ℚ)⟩ :=
      Option.some.inj (hedge.symm.trans w1)
    subst this
    show (0 : ℚ) ≤ (mid.settings_.bus_wait_time : ℚ)
    rw [hs]
    exact_mod_cast hwait

/-- Witness of C19: no edge of `demo_router` has a negative weight. -/
theorem tc.router.edge_weights_nonneg_witness :
    TransportRouter.new demo_catalogue demo_settings = .ok demo_router ∧
    ∀ (id : Nat) (edge : graph.Edge), demo_router.graph_.edges_[id]? = some edge →
      0 ≤ edge.weight :=
  ⟨TransportRouter.demo_router_built,
    tc.router.edge_weights_nonneg demo_catalogue demo_settings demo_router
      TransportRouter.demo_router_built (by decide) (by with_unfolding_all decide)
      (fun p q d _ hd =>
        (TransportRouter.GetDistance_mem demo_catalogue p q d hd).elim
          fun key hkey =>
            (by decide : ∀ entry ∈ demo_catalogue.distances_, (0 : Int) ≤ entry.2)
              (key, d) hkey)⟩

namespace tc.router.TransportRouter

open graph Relation DirectedWeightedGraph

/-- The only way in which `GetDistance` fails is the dereference of `end()`. -/
theorem GetDistance_error (c : TransportCatalogue) (p q : StopPtr) (e : Error)
    (h : c.GetDistance p q = .error e) : e = .undefined_behaviour := by
  unfold TransportCatalogue.GetDistance at h
  cases h1 : c.distances_.lookup (p, q) with
  | some d => rw [h1] at h; cases h
  | none =>
    rw [h1] at h
    cases h2 : c.distances_.lookup (q, p) with
    | some d => rw [h2] at h; cases h
    | none => rw [h2] at h; simp only at h; injection h with h; exact h.symm

/-- When the vertices involved are in range, the inner loop of `SetRouteEdges` fails only by
reading a distance that the catalogue does not have. -/
theorem SetRouteEdges.inner_error (bus_name : String) (stop_from : StopPtr) (terminal : Nat)
    (V : Nat) :
    ∀ (rest : List StopPtr) (prev : StopPtr) (time : ℚ) (span_count : Int)
      (self : TransportRouter) (e : Error),
      self.graph_.vertex_count = V → terminal < V →
      (∀ q ∈ rest, q ≠ stop_from →
        ∃ hub t, self.stop_vertices_.lookup q = some (hub, t) ∧ hub < V) →
      SetRouteEdges.inner bus_name stop_from terminal prev rest time span_count self
        = .error e →
      e = .undefined_behaviour ∧
      ∃ (j : Nat) (p q : StopPtr), (prev :: rest)[j]? = some p ∧
        (prev :: rest)[j + 1]? = some q ∧ q ≠ stop_from ∧
        self.transport_catalogue_.GetDistance p q = .error .undefined_behaviour := by
  intro rest
  induction rest with
  | nil =>
    intro prev time span_count self e _ _ _ h
    rw [SetRouteEdges.inner] at h
    cases h
  | cons stop_to rest ih =>
    intro prev time span_count self e hV hterm hvalid h
    rw [SetRouteEdges.inner] at h
    have hvalid' : ∀ q ∈ rest, q ≠ stop_from →
        ∃ hub t, self.stop_vertices_.lookup q = some (hub, t) ∧ hub < V :=
      fun q hq => hvalid q (List.mem_cons_of_mem _ hq)
    by_cases heq : stop_from = stop_to
    · rw [if_pos heq] at h
      obtain ⟨he, j, p, q, hp, hq, hne, hd⟩ :=
        ih stop_to time span_count self e hV hterm hvalid' h
      exact ⟨he, j + 1, p, q, by simpa using hp, by simpa using hq, hne, hd⟩
    · rw [if_neg heq] at h
      cases hd : self.transport_catalogue_.GetDistance prev stop_to with
      | error e' =>
        simp only [hd] at h
        injection h with h
        subst h
        have he := GetDistance_error _ _ _ _ hd
        subst he
        exact ⟨rfl, 0, prev, stop_to, by simp, by simp, fun x => heq x.symm, hd⟩
      | ok distance =>
        simp only [hd] at h
        obtain ⟨hub_to, terminal_to, hlook, hhub⟩ :=
          hvalid stop_to (List.mem_cons_self _ _) (fun x => heq x.symm)
        have hat : self.stop_vertices_at stop_to = .ok (hub_to, terminal_to) := by
          unfold stop_vertices_at
          rw [hlook]
        simp only [hat] at h
        have hadd : self.graph_.AddEdge
            ⟨terminal, hub_to, time + (distance : ℚ) / self.settings_.bus_velocity
              * velocity_coefficient⟩
            = .ok ({ self.graph_ with edges_ := self.graph_.edges_ ++
                [⟨terminal, hub_to, time + (distance : ℚ) / self.settings_.bus_velocity
                  * velocity_coefficient⟩] }, self.graph_.edges_.length) := by
          unfold DirectedWeightedGraph.AddEdge
          rw [if_pos ⟨by simp only; omega, by simp only; omega⟩]
        simp only [hadd] at h
        have key := fun a b c => ih stop_to _ (span_count + 1) _ e a b c h
        obtain ⟨he, j, p, q, hp, hq, hne, hdd⟩ := key hV hterm hvalid'
        exact ⟨he, j + 1, p, q, by simpa using hp, by simpa using hq, hne, hdd⟩

/-- After construction of the stop vertices, `SetRouteEdges` on stops of the catalogue fails
only by reading a distance that the catalogue does not have. -/
theorem SetRouteEdges_error (bus_name : String) (c : TransportCatalogue) :
    ∀ (sub_path : List StopPtr) (self : TransportRouter) (e : Error),
      Built self → self.transport_catalogue_ = c →
      (∀ q ∈ sub_path, ∃ k, k < c.GetAllStops.length ∧ q = some k) →
      SetRouteEdges bus_name sub_path self = .error e →
      e = .undefined_behaviour ∧
      ∃ (p q : StopPtr), range_reads sub_path p q ∧
        c.GetDistance p q = .error .undefined_behaviour := by
  intro sub_path
  induction sub_path with
  | nil =>
    intro self e _ _ _ h
    rw [SetRouteEdges] at h
    cases h
  | cons stop_from rest ih =>
    intro self e hb hc hvalid h
    rw [SetRouteEdges] at h
    have hlook : ∀ q ∈ stop_from :: rest,
        ∃ hub t, self.stop_vertices_.lookup q = some (hub, t) ∧ hub < self.graph_.vertex_count ∧
          t < self.graph_.vertex_count := by
      intro q hq
      obtain ⟨k, hk, hqk⟩ := hvalid q hq
      subst hqk
      have hk' : k < self.transport_catalogue_.stops_.length := by rw [hc]; exact hk
      refine ⟨2 * k, 2 * k + 1, ?_, ?_, ?_⟩
      · rw [hb.lookup_some k, if_pos hk']
      · rw [hb.vertex_count]; omega
      · rw [hb.vertex_count]; omega
    obtain ⟨hub_from, terminal, hfrom, _, hterm⟩ := hlook stop_from (List.mem_cons_self _ _)
    have hat : self.stop_vertices_at stop_from = .ok (hub_from, terminal) := by
      unfold stop_vertices_at
      rw [hfrom]
    simp only [hat] at h
    cases hin : SetRouteEdges.inner bus_name stop_from terminal stop_from rest 0 0 self with
    | error e' =>
      simp only [hin] at h
      injection h with h
      subst h
      obtain ⟨he, j, p, q, hp, hq, hne, hd⟩ :=
        SetRouteEdges.inner_error bus_name stop_from terminal self.graph_.vertex_count rest
          stop_from 0 0 self e' rfl hterm
          (fun q hq _ => (hlook q (List.mem_cons_of_mem _ hq)).elim
            fun hub hx => hx.elim fun t hy => ⟨hub, t, hy.1, hy.2.1⟩) hin
      exact ⟨he, p, q, ⟨0, j + 1, stop_from, by omega, by simp, hq, hne, by simpa using hp⟩,
        hc ▸ hd⟩
    | ok mid =>
      simp only [hin] at h
      obtain ⟨hchain, _⟩ := SetRouteEdges.inner_steps bus_name stop_from hub_from terminal
        rest stop_from 0 0 self mid [] hfrom (by simp) (by simp) hin
      obtain ⟨f1, _, _, _, _, _⟩ := RideStep.frame_star hchain
      obtain ⟨he, p, q, hr, hd⟩ := ih mid e (hb.steps hchain) (f1.trans hc)
        (fun q hq => hvalid q (List.mem_cons_of_mem _ hq)) h
      obtain ⟨i, k, stop_i, hik, hi, hk, hne, hp⟩ := hr
      refine ⟨he, p, q, ⟨i + 1, k + 1, stop_i, by omega, by simpa using hi,
        by simpa using hk, hne, ?_⟩, hd⟩
      obtain ⟨k', hk'⟩ : ∃ k', k = k' + 1 := ⟨k - 1, by omega⟩
      subst hk'
      simpa using hp

/-- After construction of the stop vertices, the body of the loop of `AddBussesToGraph` for a
bus whose stops are stops of the catalogue, and which has a stop if it is not a round trip,
fails only by reading a distance that the catalogue does not have. -/
theorem AddBussesToGraph.body_error (bus : Bus) (c : TransportCatalogue)
    (self : TransportRouter) (e : Error) (hb : Built self)
    (hc : self.transport_catalogue_ = c)
    (hvalid : ∀ q ∈ bus.stops, ∃ k, k < c.GetAllStops.length ∧ q = some k)
    (hnonempty : bus.is_roundtrip = false → bus.stops ≠ [])
    (h : AddBussesToGraph.body bus self = .error e) :
    e = .undefined_behaviour ∧
    ∃ (sub_path : List StopPtr) (p q : StopPtr), traversed bus sub_path ∧
      range_reads sub_path p q ∧ c.GetDistance p q = .error .undefined_behaviour := by
  unfold AddBussesToGraph.body at h
  by_cases hrt : bus.is_roundtrip = true
  · rw [if_pos hrt] at h
    obtain ⟨he, p, q, hr, hd⟩ := SetRouteEdges_error bus.name c bus.stops self e hb hc hvalid h
    exact ⟨he, bus.stops, p, q, by unfold traversed; rw [if_pos hrt], hr, hd⟩
  · rw [if_neg hrt] at h
    have hne : bus.stops ≠ [] := hnonempty (by simpa using hrt)
    have hlen : bus.stops.length / 2 + 1 ≤ bus.stops.length := by
      have : 0 < bus.stops.length := List.length_pos.2 hne
      omega
    rw [if_pos hlen] at h
    cases hout : SetRouteEdges bus.name (outbound bus) self with
    | error e' =>
      simp only [hout] at h
      injection h with h
      subst h
      obtain ⟨he, p, q, hr, hd⟩ := SetRouteEdges_error bus.name c (outbound bus) self e' hb hc
        (fun q hq => hvalid q (List.mem_of_mem_take hq)) hout
      exact ⟨he, outbound bus, p, q,
        by unfold traversed; rw [if_neg hrt]; exact Or.inl rfl, hr, hd⟩
    | ok mid =>
      simp only [hout] at h
      obtain ⟨hchain, _⟩ := SetRouteEdges_steps bus.name (outbound bus) self mid hout
      obtain ⟨f1, _, _, _, _, _⟩ := RideStep.frame_star hchain
      obtain ⟨he, p, q, hr, hd⟩ := SetRouteEdges_error bus.name c (inbound bus) mid e
        (hb.steps hchain) (f1.trans hc) (fun q hq => hvalid q (List.mem_of_mem_drop hq)) h
      exact ⟨he, inbound bus, p, q,
        by unfold traversed; rw [if_neg hrt]; exact Or.inr rfl, hr, hd⟩

/-- After construction of the stop vertices, the loop of `AddBussesToGraph` over buses whose
stops are stops of the catalogue, and which have a stop if they are not round trips, fails
only by reading a distance that the catalogue does not have. -/
theorem AddBussesToGraph.loop_error (c : TransportCatalogue) :
    ∀ (buses : List Bus) (self : TransportRouter) (e : Error),
      Built self → self.transport_catalogue_ = c →
      (∀ bus ∈ buses, ∀ q ∈ bus.stops, ∃ k, k < c.GetAllStops.length ∧ q = some k) →
      (∀ bus ∈ buses, bus.is_roundtrip = false → bus.stops ≠ []) →
      AddBussesToGraph.loop buses self = .error e →
      e = .undefined_behaviour ∧
      ∃ bus ∈ buses, ∃ (sub_path : List StopPtr) (p q : StopPtr), traversed bus sub_path ∧
        range_reads sub_path p q ∧ c.GetDistance p q = .error .undefined_behaviour := by
  intro buses
  induction buses with
  | nil =>
    intro self e _ _ _ _ h
    rw [AddBussesToGraph.loop] at h
    cases h
  | cons bus rest ih =>
    intro self e hb hc hvalid hnonempty h
    rw [AddBussesToGraph.loop] at h
    cases hbody : AddBussesToGraph.body bus self with
    | error e' =>
      simp only [hbody] at h
      injection h with h
      subst h
      obtain ⟨he, sub_path, p, q, htr, hr, hd⟩ := AddBussesToGraph.body_error bus c self e' hb
        hc (hvalid bus (List.mem_cons_self _ _)) (hnonempty bus (List.mem_cons_self _ _)) hbody
      exact ⟨he, bus, List.mem_cons_self _ _, sub_path, p, q, htr, hr, hd⟩
    | ok mid =>
      simp only [hbody] at h
      obtain ⟨hchain, _⟩ := AddBussesToGraph.body_steps bus self mid hbody
      obtain ⟨f1, _, _, _, _, _⟩ := RideStep.frame_star hchain
      obtain ⟨he, bus', hm, sub_path, p, q, htr, hr, hd⟩ := ih mid e (hb.steps hchain)
        (f1.trans hc) (fun b hm => hvalid b (List.mem_cons_of_mem _ hm))
        (fun b hm => hnonempty b (List.mem_cons_of_mem _ hm)) h
      exact ⟨he, bus', List.mem_cons_of_mem _ hm, sub_path, p, q, htr, hr, hd⟩

/-- When the stops of every bus are stops of the catalogue and every bus that is not a round
trip has a stop, construction fails only by reading a distance that the catalogue does not
have. -/
theorem new_error (c : TransportCatalogue) (settings : RoutingSettings)
    (hvalid : ∀ bus ∈ c.GetAllBuses, ∀ q ∈ bus.stops,
      ∃ k, k < c.GetAllStops.length ∧ q = some k)
    (hnonempty : ∀ bus ∈ c.GetAllBuses, bus.is_roundtrip = false → bus.stops ≠ [])
    (e : Error) (h : TransportRouter.new c settings = .error e) :
    e = .undefined_behaviour ∧
    ∃ (p q : StopPtr), reads_distance c p q ∧
      c.GetDistance p q = .error .undefined_behaviour := by
  obtain ⟨mid, hmid, hc, hs, hlen, hbm⟩ := AddStopsToGraph_ok c settings
  replace h := new_fails c settings e h
  unfold ConstructGraph at h
  simp only [hmid] at h
  unfold AddBussesToGraph at h
  rw [hc] at h
  obtain ⟨he, bus, hbus, sub_path, p, q, htr, hr, hd⟩ :=
    AddBussesToGraph.loop_error c c.GetAllBuses mid e hbm hc hvalid hnonempty h
  exact ⟨he, p, q, ⟨bus, hbus, sub_path, htr, hr⟩, hd⟩

end tc.router.TransportRouter

/-- C20: when every stop of every bus is a stop of the catalogue and every bus that is not a
round trip has a stop, construction never raises the out-of-range error: it fails only by
reading a road distance that the catalogue does not have, so it completes when the catalogue
has every distance that the builder reads; and in the graph of a completed construction, which
has `V = 2 * n` vertices for `n` stops, both vertices of every edge are below `V`. -/
theorem tc.router.construction_stays_in_range (c : TransportCatalogue)
    (settings : RoutingSettings)
    (hvalid : ∀ bus ∈ c.GetAllBuses, ∀ q ∈ bus.stops,
      ∃ k, k < c.GetAllStops.length ∧ q = some k)
    (hnonempty : ∀ bus ∈ c.GetAllBuses, bus.is_roundtrip = false → bus.stops ≠ []) :
    TransportRouter.new c settings ≠ .error .out_of_range ∧
    ((∀ (p q : StopPtr), TransportRouter.reads_distance c p q →
        ∃ d, c.GetDistance p q = .ok d) →
      ∃ tr, TransportRouter.new c settings = .ok tr) ∧
    ∀ tr, TransportRouter.new c settings = .ok tr →
      tr.graph_.GetVertexCount = 2 * c.GetAllStops.length ∧
      ∀ (id : Nat) (edge : graph.Edge), tr.graph_.edges_[id]? = some edge →
        edge.from_vertex < tr.graph_.GetVertexCount ∧
        edge.to_vertex < tr.graph_.GetVertexCount := by
  refine ⟨?_, ?_, ?_⟩
  · intro h
    have := (TransportRouter.new_error c settings hvalid hnonempty _ h).1
    cases this
  · intro hall
    cases hnew : TransportRouter.new c settings with
    | ok tr => exact ⟨tr, rfl⟩
    | error e =>
      obtain ⟨_, p, q, hr, hd⟩ := TransportRouter.new_error c settings hvalid hnonempty e hnew
      obtain ⟨d, hd'⟩ := hall p q hr
      rw [hd'] at hd
      cases hd
  · intro tr htr
    obtain ⟨htc, _, hb, _, _⟩ := TransportRouter.new_steps c settings tr htr
    refine ⟨?_, ?_⟩
    · show tr.graph_.vertex_count = _
      rw [hb.vertex_count, htc]
      rfl
    · intro id edge hedge
      obtain ⟨h1, h2, _⟩ := hb.edge_stat id edge hedge
      exact ⟨h2, h1⟩

/-- Witness of C20: the buses of `demo_catalogue` visit stops of the catalogue and have stops;
its construction does not raise the out-of-range error and the vertices of the edges of
`demo_router` are below 6. -/
theorem tc.router.construction_stays_in_range_witness :
    TransportRouter.new demo_catalogue demo_settings ≠ .error .out_of_range ∧
    demo_router.graph_.GetVertexCount = 2 * demo_catalogue.GetAllStops.length ∧
    ∀ (id : Nat) (edge : graph.Edge), demo_router.graph_.edges_[id]? = some edge →
      edge.from_vertex < demo_router.graph_.GetVertexCount ∧
      edge.to_vertex < demo_router.graph_.GetVertexCount :=
  have h := tc.router.construction_stays_in_range demo_catalogue demo_settings
    (by decide) (by decide)
  ⟨h.1, h.2.2 demo_router TransportRouter.demo_router_built⟩

/-! ## The network of two stops of the example -/

namespace graph.Router

open DirectedWeightedGraph

/-- The search in the graph of two stops joined by a ring bus (wait edges 0 and 1 of weight
`w`, ride edges 2 and 3 of weight `t`), from the hub vertex 0, round by round: every round has
one reached vertex to settle, whatever the weights. -/
theorem ring_graph_search (w t : ℚ) :
    routes_internal_data ⟨4, [⟨0, 1, w⟩, ⟨2, 3, w⟩, ⟨1, 2, t⟩, ⟨3, 0, t⟩]⟩ 0 =
      [(3, ⟨0 + w + t + w, some 1⟩), (2, ⟨0 + w + t, some 2⟩), (1, ⟨0 + w, some 0⟩),
        (0, ⟨0, none⟩)] := by
  have h0 : settle ⟨4, [⟨0, 1, w⟩, ⟨2, 3, w⟩, ⟨1, 2, t⟩, ⟨3, 0, t⟩]⟩
      (initial ⟨4, [⟨0, 1, w⟩, ⟨2, 3, w⟩, ⟨1, 2, t⟩, ⟨3, 0, t⟩]⟩ 0) =
      some ⟨[(1, ⟨0 + w, some 0⟩), (0, ⟨0, none⟩)], [1, 2, 3]⟩ := by
    rfl
  have h1 : settle ⟨4, [⟨0, 1, w⟩, ⟨2, 3, w⟩, ⟨1, 2, t⟩, ⟨3, 0, t⟩]⟩
      ⟨[(1, ⟨0 + w, some 0⟩), (0, ⟨0, none⟩)], [1, 2, 3]⟩ =
      some ⟨[(2, ⟨0 + w + t, some 2⟩), (1, ⟨0 + w, some 0⟩), (0, ⟨0, none⟩)], [2, 3]⟩ := by
    rfl
  have h2 : settle ⟨4, [⟨0, 1, w⟩, ⟨2, 3, w⟩, ⟨1, 2, t⟩, ⟨3, 0, t⟩]⟩
      ⟨[(2, ⟨0 + w + t, some 2⟩), (1, ⟨0 + w, some 0⟩), (0, ⟨0, none⟩)], [2, 3]⟩ =
      some ⟨[(3, ⟨0 + w + t + w, some 1⟩), (2, ⟨0 + w + t, some 2⟩), (1, ⟨0 + w, some 0⟩),
        (0, ⟨0, none⟩)], [3]⟩ := by
    rfl
  have h3 : settle ⟨4, [⟨0, 1, w⟩, ⟨2, 3, w⟩, ⟨1, 2, t⟩, ⟨3, 0, t⟩]⟩
      ⟨[(3, ⟨0 + w + t + w, some 1⟩), (2, ⟨0 + w + t, some 2⟩), (1, ⟨0 + w, some 0⟩),
        (0, ⟨0, none⟩)], [3]⟩ =
      some ⟨[(3, ⟨0 + w + t + w, some 1⟩), (2, ⟨0 + w + t, some 2⟩), (1, ⟨0 + w, some 0⟩),
        (0, ⟨0, none⟩)], []⟩ := by
    rfl
  show (search _ (3 + 1) (initial _ 0)).data = _
  rw [search_succ _ _ _ _ h0, search_succ _ _ _ _ h1, search_succ _ _ _ _ h2,
    search_succ _ _ _ _ h3]
  rfl

/-- In the graph of two stops joined by a ring bus, `BuildRoute` from the hub vertex of the
first stop to the hub vertex of the second one returns the wait edge 0 and the ride edge 2. -/
theorem ring_graph_route (w t : ℚ) :
    BuildRoute ⟨4, [⟨0, 1, w⟩, ⟨2, 3, w⟩, ⟨1, 2, t⟩, ⟨3, 0, t⟩]⟩ 0 2
      = some ⟨0 + w + t, [0, 2]⟩ := by
  unfold BuildRoute
  rw [ring_graph_search]
  rfl

end graph.Router

namespace tc.router.TransportRouter

open graph DirectedWeightedGraph

/-- The construction for a catalogue of two stops and one ring bus that goes from the first
stop to the second one and back: the wait edges 0 and 1 and the ride edges 2 and 3. -/
theorem ring_router_built (c : TransportCatalogue) (settings : RoutingSettings)
    (stop_a stop_b : Stop) (bus_name : String) (end_stop_ptr : StopPtr) (d : Int)
    (hstops : c.GetAllStops = [stop_a, stop_b])
    (hbuses : c.GetAllBuses = [⟨bus_name, [some 0, some 1, some 0], end_stop_ptr, true⟩])
    (hab : c.GetDistance (some 0) (some 1) = .ok d)
    (hba : c.GetDistance (some 1) (some 0) = .ok d) :
    TransportRouter.new c settings = .ok
      { transport_catalogue_ := c
        settings_ := settings
        stop_vertices_ := [(some 1, (2, 3)), (some 0, (0, 1))]
        edge_stats_ :=
          [(3, .BusRouteStat bus_name
              (0 + (d : ℚ) / settings.bus_velocity * velocity_coefficient) (0 + 1)),
            (2, .BusRouteStat bus_name
              (0 + (d : ℚ) / settings.bus_velocity * velocity_coefficient) (0 + 1)),
            (1, .WaitRouteStat stop_b.name settings.bus_wait_time),
            (0, .WaitRouteStat stop_a.name settings.bus_wait_time)]
        graph_ := ⟨4, [⟨0, 1, settings.bus_wait_time⟩, ⟨2, 3, settings.bus_wait_time⟩,
          ⟨1, 2, 0 + (d : ℚ) / settings.bus_velocity * velocity_coefficient⟩,
          ⟨3, 0, 0 + (d : ℚ) / settings.bus_velocity * velocity_coefficient⟩]⟩
        router_ := Router.new
          ⟨4, [⟨0, 1, settings.bus_wait_time⟩, ⟨2, 3, settings.bus_wait_time⟩,
            ⟨1, 2, 0 + (d : ℚ) / settings.bus_velocity * velocity_coefficient⟩,
            ⟨3, 0, 0 + (d : ℚ) / settings.bus_velocity * velocity_coefficient⟩]⟩ } := by
  simp [TransportRouter.new, ConstructGraph, Router.new, AddStopsToGraph, hstops,
    AddStopsToGraph.loop, AddEdge, AddBussesToGraph, hbuses, AddBussesToGraph.loop,
    AddBussesToGraph.body, SetRouteEdges, SetRouteEdges.inner, stop_vertices_at, hab, hba,
    List.lookup]

end tc.router.TransportRouter

/-- C16: for a catalogue of two stops A and B and one ring bus with the stops [A, B, A], the
road between them being `d` metres long in both directions, and for a positive velocity `v`
and a wait time `w`, the construction completes and `FindRoute(A, B)` returns the total time
`w + d / v * 0.06` with the items `Wait{A, w}` and `Ride{bus, d / v * 0.06, span_count = 1}`.
Neither `0 ≤ d` nor `0 ≤ w` is needed: the search meets one reached vertex per round.  The
velocity is positive as in the claim: times are rationals here, whose division by 0 is not that
of the code. -/
theorem tc.router.two_stop_route (c : TransportCatalogue) (settings : RoutingSettings)
    (stop_a stop_b : Stop) (bus_name : String) (end_stop_ptr : StopPtr) (d : Int)
    (hstops : c.GetAllStops = [stop_a, stop_b])
    (hbuses : c.GetAllBuses = [⟨bus_name, [some 0, some 1, some 0], end_stop_ptr, true⟩])
    (hab : c.GetDistance (some 0) (some 1) = .ok d)
    (hba : c.GetDistance (some 1) (some 0) = .ok d)
    (_hvel : 0 < settings.bus_velocity) :
    ∃ tr, TransportRouter.new c settings = .ok tr ∧
      tr.FindRoute (some 0) (some 1) = .ok (some
        ⟨(settings.bus_wait_time : ℚ) + (d : ℚ) / settings.bus_velocity * 0.06,
          [.WaitRouteStat stop_a.name settings.bus_wait_time,
            .BusRouteStat bus_name ((d : ℚ) / settings.bus_velocity * 0.06) 1]⟩) := by
  refine ⟨_, TransportRouter.ring_router_built c settings stop_a stop_b bus_name end_stop_ptr d
    hstops hbuses hab hba, ?_⟩
  have hcoef : velocity_coefficient = 0.06 := by
    unfold velocity_coefficient
    norm_num
  unfold TransportRouter.FindRoute
  simp only [TransportRouter.stop_vertices_at, List.lookup]
  rw [show ((some 0 : StopPtr) == some 1) = false from rfl,
    show ((some 0 : StopPtr) == some 0) = true from rfl,
    show ((some 1 : StopPtr) == some 1) = true from rfl]
  simp only [graph.Router.new, graph.Router.ring_graph_route]
  simp [TransportRouter.FindRoute.items, TransportRouter.edge_stats_at, List.lookup, hcoef]

/-- Witness of C16: the example of the specification, with the wait time 6, the velocity 40
and the distance 3900, where the total time is 11.85. -/
theorem tc.router.two_stop_route_witness :
    (6 : ℚ) + 3900 / 40 * 0.06 = 11.85 ∧
    ∃ tr, TransportRouter.new pair_catalogue demo_settings = .ok tr ∧
      tr.FindRoute (some 0) (some 1) = .ok (some
        ⟨((6 : Int) : ℚ) + ((3900 : Int) : ℚ) / 40 * 0.06,
          [.WaitRouteStat "Tolstopaltsevo" ((6 : Int) : ℚ),
            .BusRouteStat "297" (((3900 : Int) : ℚ) / 40 * 0.06) 1]⟩) :=
  ⟨by norm_num,
    tc.router.two_stop_route pair_catalogue demo_settings
      ⟨"Tolstopaltsevo", ⟨55611087 / 1000000, 3720829 / 100000⟩⟩
      ⟨"Marushkino", ⟨55595884 / 1000000, 37209755 / 1000000⟩⟩ "297" (some 0) 3900
      (by with_unfolding_all rfl) (by with_unfolding_all rfl) (by with_unfolding_all rfl)
      (by with_unfolding_all rfl) (by with_unfolding_all decide)⟩

/-! ## Properties of the operations of the catalogue -/

/-- Reading the distances after `SetDistance`: the new entry is found under its own key and
every other key is read as before. -/
theorem tc.lookup_after_SetDistance (c : TransportCatalogue) (stop_a stop_b : StopPtr) (d : Int)
    (key : StopPtr × StopPtr) :
    (c.SetDistance stop_a stop_b d).distances_.lookup key =
      if key = (stop_a, stop_b) then some d else c.distances_.lookup key := by
  show List.lookup key (((stop_a, stop_b), d) :: c.distances_) = _
  rw [List.lookup_cons]
  by_cases h : key = (stop_a, stop_b)
  · subst h; simp
  · have hb : (key == (stop_a, stop_b)) = false := by simpa using h
    rw [hb, if_neg h]

/-- C27 (as amended): `SetDistance(A, B, d)` makes `GetDistance(A, B)` return `d` and leaves
`GetDistance(C, D)` as it was for every pair `(C, D)` other than `(A, B)` and `(B, A)`; when `A`
and `B` are different stops, `GetDistance(B, A)` is as it was if a distance is registered for
`(B, A)`, and becomes `d` if none is. -/
theorem tc.SetDistance_changes (c : TransportCatalogue) (stop_a stop_b : StopPtr) (d : Int) :
    (c.SetDistance stop_a stop_b d).GetDistance stop_a stop_b = .ok d ∧
    (∀ stop_c stop_d : StopPtr, (stop_c, stop_d) ≠ (stop_a, stop_b) →
      (stop_c, stop_d) ≠ (stop_b, stop_a) →
      (c.SetDistance stop_a stop_b d).GetDistance stop_c stop_d = c.GetDistance stop_c stop_d) ∧
    (stop_a ≠ stop_b →
      (c.distances_.lookup (stop_b, stop_a) ≠ none →
        (c.SetDistance stop_a stop_b d).GetDistance stop_b stop_a
          = c.GetDistance stop_b stop_a) ∧
      (c.distances_.lookup (stop_b, stop_a) = none →
        (c.SetDistance stop_a stop_b d).GetDistance stop_b stop_a = .ok d)) := by
  refine ⟨?_, ?_, ?_⟩
  · unfold TransportCatalogue.GetDistance
    rw [tc.lookup_after_SetDistance, if_pos rfl]
  · intro stop_c stop_d h1 h2
    have h3 : (stop_d, stop_c) ≠ (stop_a, stop_b) := by
      intro h
      apply h2
      simp only [Prod.mk.injEq] at h ⊢
      exact ⟨h.2, h.1⟩
    unfold TransportCatalogue.GetDistance
    rw [tc.lookup_after_SetDistance, if_neg h1, tc.lookup_after_SetDistance, if_neg h3]
  · intro hab
    have hne : (stop_b, stop_a) ≠ (stop_a, stop_b) := by
      intro h
      simp only [Prod.mk.injEq] at h
      exact hab h.2
    constructor
    · intro hreg
      unfold TransportCatalogue.GetDistance
      rw [tc.lookup_after_SetDistance, if_neg hne]
      cases hl : c.distances_.lookup (stop_b, stop_a) with
      | none => exact absurd hl hreg
      | some d' => rfl
    · intro hnone
      unfold TransportCatalogue.GetDistance
      rw [tc.lookup_after_SetDistance, if_neg hne, hnone, tc.lookup_after_SetDistance,
        if_pos rfl]

/-- Witness of C27 (as amended): in `demo_catalogue`, which has the distance 4100 from the
second to the first stop, a new distance from the first to the second stop is returned for
that direction and leaves the other direction at 4100. -/
theorem tc.SetDistance_changes_witness :
    (router.demo_catalogue.SetDistance (some 0) (some 1) 5000).GetDistance (some 0) (some 1)
      = .ok 5000 ∧
    (router.demo_catalogue.SetDistance (some 0) (some 1) 5000).GetDistance (some 1) (some 0)
      = router.demo_catalogue.GetDistance (some 1) (some 0) :=
  ⟨(tc.SetDistance_changes router.demo_catalogue (some 0) (some 1) 5000).1,
    ((tc.SetDistance_changes router.demo_catalogue (some 0) (some 1) 5000).2.2
      (by decide)).1 (by decide)⟩

/-- C27 (as stated) fails when `A` and `B` are the same stop.  In the catalogue with the
distance 5 from the first stop to itself, a distance is registered for `(B, A)`, and
`SetDistance(A, B, 7)` changes `GetDistance(B, A)` from 5 to 7. -/
theorem tc.SetDistance_changes_counterexample :
    (({} : TransportCatalogue).SetDistance (some 0) (some 0) 5).distances_.lookup
      (some 0, some 0) = some 5 ∧
    (({} : TransportCatalogue).SetDistance (some 0) (some 0) 5).GetDistance (some 0) (some 0)
      = .ok 5 ∧
    ((({} : TransportCatalogue).SetDistance (some 0) (some 0) 5).SetDistance (some 0) (some 0)
      7).GetDistance (some 0) (some 0) = .ok 7 ∧
    ¬ ∀ (c : TransportCatalogue) (stop_a stop_b : StopPtr) (d : Int),
      c.distances_.lookup (stop_b, stop_a) ≠ none →
      (c.SetDistance stop_a stop_b d).GetDistance stop_b stop_a
        = c.GetDistance stop_b stop_a := by
  refine ⟨by decide, by with_unfolding_all rfl, by with_unfolding_all rfl, ?_⟩
  intro h
  have h1 := h (({} : TransportCatalogue).SetDistance (some 0) (some 0) 5) (some 0) (some 0) 7
    (by decide)
  have h2 : ((({} : TransportCatalogue).SetDistance (some 0) (some 0) 5).SetDistance (some 0)
      (some 0) 7).GetDistance (some 0) (some 0) = .ok 7 := by with_unfolding_all rfl
  have h3 : (({} : TransportCatalogue).SetDistance (some 0) (some 0) 5).GetDistance (some 0)
      (some 0) = .ok 5 := by with_unfolding_all rfl
  rw [h2, h3] at h1
  injection h1 with h1
  exact absurd h1 (by decide)

/-- The loop of `GetRouteInfo` returns when the stops are stops of the catalogue, the
catalogue has a distance for every two consecutive stops and no sum on the way leaves the
range of `int`: it adds these distances up and collects every stop once. -/
theorem tc.GetRouteInfo.loop_sums (ComputeDistance : Coordinates → Coordinates → ℚ)
    (c : TransportCatalogue) :
    ∀ (rest : List StopPtr) (prev : StopPtr) (unique_stops : List StopPtr) (distance : Int)
      (stright_distance : ℚ) (dists : List Int),
      (∀ p ∈ prev :: rest, ∃ stop, c.stop_at p = .ok stop) →
      dists.length = rest.length →
      (∀ (k : Nat) (p q : StopPtr), (prev :: rest)[k]? = some p →
        (prev :: rest)[k + 1]? = some q → ∃ d, dists[k]? = some d ∧ c.GetDistance p q = .ok d) →
      (∀ sums ∈ dists.inits, INT_MIN ≤ distance + sums.sum ∧ distance + sums.sum ≤ INT_MAX) →
      unique_stops.Nodup →
      ∃ unique_stops' stright_distance',
        TransportCatalogue.GetRouteInfo.loop ComputeDistance c prev rest unique_stops distance
          stright_distance = .ok (unique_stops', distance + dists.sum, stright_distance') ∧
        unique_stops'.Nodup ∧ ∀ p, p ∈ unique_stops' ↔ p ∈ unique_stops ∨ p ∈ rest := by
  intro rest
  induction rest with
  | nil =>
    intro prev unique_stops distance stright_distance dists _ hlen _ _ hnd
    have hd : dists = [] := List.length_eq_zero.1 (by simpa using hlen)
    subst hd
    exact ⟨unique_stops, stright_distance, by simp [TransportCatalogue.GetRouteInfo.loop], hnd,
      by simp⟩
  | cons pos rest ih =>
    intro prev unique_stops distance stright_distance dists hvalid hlen hdist hfit hnd
    cases dists with
    | nil => simp at hlen
    | cons d0 dists =>
      obtain ⟨d, hd0, hd⟩ := hdist 0 prev pos (by simp) (by simp)
      simp only [List.getElem?_cons_zero, Option.some.injEq] at hd0
      subst hd0
      have hfit0 : INT_MIN ≤ distance + d0 ∧ distance + d0 ≤ INT_MAX := by
        have := hfit [d0] ((List.mem_inits _ _).2 (by simp))
        simpa using this
      obtain ⟨stop_prev, hprev⟩ := hvalid prev (List.mem_cons_self _ _)
      obtain ⟨stop_pos, hpos⟩ := hvalid pos (List.mem_cons_of_mem _ (List.mem_cons_self _ _))
      have hnd' : (if pos ∈ unique_stops then unique_stops else pos :: unique_stops).Nodup := by
        by_cases hm : pos ∈ unique_stops
        · rw [if_pos hm]; exact hnd
        · rw [if_neg hm]; exact List.nodup_cons.2 ⟨hm, hnd⟩
      obtain ⟨unique_stops', stright_distance', hrun, hnd'', hmem⟩ :=
        ih pos (if pos ∈ unique_stops then unique_stops else pos :: unique_stops)
          (distance + d0)
          (stright_distance + ComputeDistance stop_prev.coordinates stop_pos.coordinates) dists
          (fun p hp => hvalid p (List.mem_cons_of_mem _ hp))
          (by simpa using hlen)
          (fun k p q hp hq => by
            obtain ⟨d, h1, h2⟩ := hdist (k + 1) p q (by simpa using hp) (by simpa using hq)
            exact ⟨d, by simpa using h1, h2⟩)
          (fun sums hsums => by
            have := hfit (d0 :: sums)
              ((List.mem_inits _ _).2
                (List.prefix_cons_inj d0 |>.2 ((List.mem_inits _ _).1 hsums)))
            simpa [add_assoc] using this)
          hnd'
      refine ⟨unique_stops', stright_distance', ?_, hnd'', ?_⟩
      · rw [TransportCatalogue.GetRouteInfo.loop]
        simp only [hd, hprev, hpos]
        rw [if_pos hfit0, hrun, List.sum_cons, add_assoc]
      · intro p
        rw [hmem p]
        by_cases hm : pos ∈ unique_stops
        · rw [if_pos hm]
          simp only [List.mem_cons]
          constructor
          · rintro (h | h)
            · exact Or.inl h
            · exact Or.inr (Or.inr h)
          · rintro (h | h | h)
            · exact Or.inl h
            · exact Or.inl (h ▸ hm)
            · exact Or.inr h
        · rw [if_neg hm]
          simp only [List.mem_cons]
          constructor
          · rintro ((h | h) | h)
            · exact Or.inr (Or.inl h)
            · exact Or.inl h
            · exact Or.inr (Or.inr h)
          · rintro (h | h | h)
            · exact Or.inl (Or.inr h)
            · exact Or.inl (Or.inl h)
            · exact Or.inr h

/-- C23 (as amended): for every bus of the catalogue, `GetRouteInfo` returns without reading a
distance when the bus has fewer than two stops, and returns when the stops of the bus are
stops of the catalogue, `GetDistance` returns for every two consecutive stops, the distances
being `dists`, and the sum of no initial part of `dists` leaves the range of `int`.  The
result has `stops_count` equal to the number of stops of the bus, `unique_stops_count` equal
to the number of different stops among them, which is at most `stops_count`, and `distance`
equal to the sum of `dists`, which is 0 for fewer than two stops. -/
theorem tc.GetRouteInfo_counts (ComputeDistance : Coordinates → Coordinates → ℚ)
    (c : TransportCatalogue) (bus_ptr : BusPtr) (bus : Bus)
    (hbus : c.bus_at bus_ptr = .ok bus) :
    (bus.stops.length < 2 →
      ∃ info, c.GetRouteInfo ComputeDistance bus_ptr = .ok info ∧
        info.stops_count = bus.stops.length ∧
        info.unique_stops_count = bus.stops.toFinset.card ∧
        info.unique_stops_count ≤ info.stops_count ∧ info.distance = 0) ∧
    (∀ dists : List Int,
      (∀ p ∈ bus.stops, ∃ stop, c.stop_at p = .ok stop) →
      dists.length + 1 = bus.stops.length →
      (∀ (k : Nat) (p q : StopPtr), bus.stops[k]? = some p → bus.stops[k + 1]? = some q →
        ∃ d, dists[k]? = some d ∧ c.GetDistance p q = .ok d) →
      (∀ sums ∈ dists.inits, INT_MIN ≤ sums.sum ∧ sums.sum ≤ INT_MAX) →
      ∃ info, c.GetRouteInfo ComputeDistance bus_ptr = .ok info ∧
        info.stops_count = bus.stops.length ∧
        info.unique_stops_count = bus.stops.toFinset.card ∧
        info.unique_stops_count ≤ info.stops_count ∧ info.distance = dists.sum) := by
  constructor
  · intro hlt
    refine ⟨{ stops_count := bus.stops.length, unique_stops_count := bus.stops.length }, ?_,
      rfl, ?_, le_refl _, rfl⟩
    · unfold TransportCatalogue.GetRouteInfo
      simp only [hbus]
      rw [if_pos hlt]
    · show bus.stops.length = _
      cases hs : bus.stops with
      | nil => rfl
      | cons first rest =>
        cases rest with
        | nil => rfl
        | cons second rest =>
          rw [hs] at hlt
          simp only [List.length_cons] at hlt
          omega
  · intro dists hvalid hlen hdist hfit
    cases hs : bus.stops with
    | nil => rw [hs] at hlen; simp at hlen
    | cons first rest =>
      rw [hs] at hvalid hlen hdist
      obtain ⟨unique_stops', stright_distance', hrun, hnd, hmem⟩ :=
        tc.GetRouteInfo.loop_sums ComputeDistance c rest first [first] 0 0 dists hvalid
          (by simpa using hlen) hdist (fun sums hsums => by simpa using hfit sums hsums)
          (List.nodup_singleton _)
      have hcard : unique_stops'.length = (first :: rest).toFinset.card := by
        rw [← List.toFinset_card_of_nodup hnd]
        congr 1
        ext p
        simp [hmem p]
      by_cases hlt : bus.stops.length < 2
      · have hrest : rest = [] := by
          rw [hs] at hlt
          cases rest with
          | nil => rfl
          | cons second rest =>
            simp only [List.length_cons] at hlt
            omega
        subst hrest
        have hd : dists = [] := List.length_eq_zero.1 (by simpa using hlen)
        subst hd
        refine ⟨{ stops_count := bus.stops.length, unique_stops_count := bus.stops.length }, ?_,
          by rw [hs], ?_, le_refl _, rfl⟩
        · unfold TransportCatalogue.GetRouteInfo
          simp only [hbus]
          rw [if_pos hlt]
        · show bus.stops.length = _
          rw [hs]
          rfl
      · refine ⟨(⟨bus.stops.length, unique_stops'.length, dists.sum,
            (dists.sum : ℚ) / stright_distance'⟩ : RouteInfo), ?_, by rw [hs], hcard, ?_, rfl⟩
        · unfold TransportCatalogue.GetRouteInfo
          simp only [hbus]
          rw [if_neg hlt]
          simp only [hs, hrun, zero_add]
        · show unique_stops'.length ≤ bus.stops.length
          rw [hcard, hs]
          exact List.toFinset_card_le _

/-- Witness of C23 (as amended): the bus `635` of `demo_catalogue`, stored with the stops
0, 1, 2, 1, 0, has five stops, three of them different, and the length
3900 + 9900 + 9900 + 4100, no part of which leaves the range of `int` (`ComputeDistance` is
taken constant). -/
theorem tc.GetRouteInfo_counts_witness :
    ∃ info, router.demo_catalogue.GetRouteInfo (fun _ _ => 1) (some 1) = .ok info ∧
      info.stops_count = 5 ∧ info.unique_stops_count = 3 ∧ info.unique_stops_count ≤ 5 ∧
      info.distance = 27800 := by
  obtain ⟨info, h1, h2, h3, h4, h5⟩ :=
    (tc.GetRouteInfo_counts (fun _ _ => 1) router.demo_catalogue (some 1)
      ⟨"635", [some 0, some 1, some 2, some 1, some 0], some 2, false⟩
      (by with_unfolding_all rfl)).2 [3900, 9900, 9900, 4100]
      (by
        intro p hp
        simp only [List.mem_cons, List.mem_singleton, List.not_mem_nil, or_false] at hp
        rcases hp with h | h | h | h | h <;> subst h <;>
          exact ⟨_, by with_unfolding_all rfl⟩)
      (by decide)
      (by
        intro k p q hp hq
        match k, hp, hq with
        | 0, hp, hq =>
          simp only [List.getElem?_cons_zero, List.getElem?_cons_succ, Option.some.injEq]
            at hp hq
          subst hp hq
          exact ⟨3900, rfl, by with_unfolding_all rfl⟩
        | 1, hp, hq =>
          simp only [List.getElem?_cons_zero, List.getElem?_cons_succ, Option.some.injEq]
            at hp hq
          subst hp hq
          exact ⟨9900, rfl, by with_unfolding_all rfl⟩
        | 2, hp, hq =>
          simp only [List.getElem?_cons_zero, List.getElem?_cons_succ, Option.some.injEq]
            at hp hq
          subst hp hq
          exact ⟨9900, rfl, by with_unfolding_all rfl⟩
        | 3, hp, hq =>
          simp only [List.getElem?_cons_zero, List.getElem?_cons_succ, Option.some.injEq]
            at hp hq
          subst hp hq
          exact ⟨4100, rfl, by with_unfolding_all rfl⟩
        | k + 4, hp, hq => simp at hq)
      (by decide)
  exact ⟨info, h1, h2, h3.trans (by decide), le_of_le_of_eq h4 h2, h5.trans (by decide)⟩

/-- C23 (as stated) fails.  The ring bus of `far_catalogue` goes from the first stop to the
second one and back, and `GetDistance` returns 2000000000 for both pairs of consecutive
stops, each an `int`.  Their sum, 4000000000, is greater than `INT_MAX`: the second
`info.distance += ...` has no defined behaviour, `GetRouteInfo` does not return, and no
`int` in `distance` is the sum of the two distances. -/
theorem tc.GetRouteInfo_counts_counterexample :
    router.far_catalogue.bus_at (some 0)
      = .ok ⟨"1", [some 0, some 1, some 0], some 0, true⟩ ∧
    router.far_catalogue.GetDistance (some 0) (some 1) = .ok 2000000000 ∧
    router.far_catalogue.GetDistance (some 1) (some 0) = .ok 2000000000 ∧
    (2000000000 : Int) ≤ INT_MAX ∧ INT_MAX < 2000000000 + 2000000000 ∧
    (∀ ComputeDistance : Coordinates → Coordinates → ℚ,
      router.far_catalogue.GetRouteInfo ComputeDistance (some 0)
        = .error .undefined_behaviour) ∧
    ¬ ∃ (ComputeDistance : Coordinates → Coordinates → ℚ) (info : RouteInfo),
      router.far_catalogue.GetRouteInfo ComputeDistance (some 0) = .ok info ∧
      info.distance = 2000000000 + 2000000000 := by
  have hrun : ∀ ComputeDistance : Coordinates → Coordinates → ℚ,
      router.far_catalogue.GetRouteInfo ComputeDistance (some 0)
        = .error .undefined_behaviour := by
    intro ComputeDistance
    with_unfolding_all rfl
  refine ⟨by with_unfolding_all rfl, by with_unfolding_all rfl, by with_unfolding_all rfl,
    by decide, by decide, hrun, ?_⟩
  rintro ⟨ComputeDistance, info, hinfo, _⟩
  rw [hrun ComputeDistance] at hinfo
  cases hinfo

/-! ## Properties of `ApplyCommands` -/

/-- The first loop of `ApplyCommands` only looks at the requests of type `Stop`. -/
theorem tc.ApplyCommands.stops_filter :
    ∀ (requests : List BaseRequest) (catalogue : TransportCatalogue),
      ApplyCommands.stops requests catalogue
        = ApplyCommands.stops (requests.filter BaseRequest.is_stop) catalogue := by
  intro requests
  induction requests with
  | nil => intro catalogue; rfl
  | cons request rest ih =>
    intro catalogue
    cases request with
    | Stop name coordinates road_distances =>
      simp only [List.filter_cons, BaseRequest.is_stop, if_true, ApplyCommands.stops]
      exact ih _
    | Bus name stops is_roundtrip =>
      simp only [List.filter_cons, BaseRequest.is_stop, ApplyCommands.stops]
      exact ih _
    | Other =>
      simp only [List.filter_cons, BaseRequest.is_stop, ApplyCommands.stops]
      exact ih _

/-- The second loop of `ApplyCommands` only looks at the requests of type `Bus`. -/
theorem tc.ApplyCommands.buses_filter :
    ∀ (requests : List BaseRequest) (catalogue : TransportCatalogue),
      ApplyCommands.buses requests catalogue
        = ApplyCommands.buses (requests.filter BaseRequest.is_bus) catalogue := by
  intro requests
  induction requests with
  | nil => intro catalogue; rfl
  | cons request rest ih =>
    intro catalogue
    cases request with
    | Stop name coordinates road_distances =>
      simp only [List.filter_cons, BaseRequest.is_bus, ApplyCommands.buses]
      exact ih _
    | Bus name stops is_roundtrip =>
      simp only [List.filter_cons, BaseRequest.is_bus, if_true, ApplyCommands.buses]
      cases ApplyCommands.bus catalogue name stops is_roundtrip with
      | error e => rfl
      | ok c => exact ih _
    | Other =>
      simp only [List.filter_cons, BaseRequest.is_bus, ApplyCommands.buses]
      exact ih _

/-- The third loop of `ApplyCommands` only looks at the requests of type `Stop`. -/
theorem tc.ApplyCommands.distances_filter :
    ∀ (requests : List BaseRequest) (catalogue : TransportCatalogue),
      ApplyCommands.distances requests catalogue
        = ApplyCommands.distances (requests.filter BaseRequest.is_stop) catalogue := by
  intro requests
  induction requests with
  | nil => intro catalogue; rfl
  | cons request rest ih =>
    intro catalogue
    cases request with
    | Stop name coordinates road_distances =>
      simp only [List.filter_cons, BaseRequest.is_stop, if_true, ApplyCommands.distances]
      exact ih _
    | Bus name stops is_roundtrip =>
      simp only [List.filter_cons, BaseRequest.is_stop, ApplyCommands.distances]
      exact ih _
    | Other =>
      simp only [List.filter_cons, BaseRequest.is_stop, ApplyCommands.distances]
      exact ih _

/-- `ApplyCommands` is determined by the requests of type `Stop` and the requests of type
`Bus`, each in their order. -/
theorem tc.ApplyCommands_filter (requests : List BaseRequest) (catalogue : TransportCatalogue) :
    ApplyCommands requests catalogue =
      match ApplyCommands.buses (requests.filter BaseRequest.is_bus)
          (ApplyCommands.stops (requests.filter BaseRequest.is_stop) catalogue) with
      | .error e => .error e
      | .ok c => .ok (ApplyCommands.distances (requests.filter BaseRequest.is_stop) c) := by
  unfold ApplyCommands
  rw [tc.ApplyCommands.stops_filter requests, tc.ApplyCommands.buses_filter requests]
  cases ApplyCommands.buses (requests.filter BaseRequest.is_bus)
      (ApplyCommands.stops (requests.filter BaseRequest.is_stop) catalogue) with
  | error e => rfl
  | ok c => simp only [tc.ApplyCommands.distances_filter requests c]

/-- The catalogue after two sequences of calls, one after the other. -/
theorem tc.populate_append (first second : List Call) :
    ∀ catalogue : TransportCatalogue,
      populate (first ++ second) catalogue =
        match populate first catalogue with
        | .error e => .error e
        | .ok c => populate second c := by
  induction first with
  | nil => intro catalogue; rfl
  | cons call rest ih =>
    intro catalogue
    rw [List.cons_append, populate, populate]
    cases call.run catalogue with
    | error e => rfl
    | ok c => exact ih c

/-- `GetStop` reads `stopname_to_stop_` only. -/
theorem tc.GetStop_congr (c registered : TransportCatalogue)
    (h : c.stopname_to_stop_ = registered.stopname_to_stop_) (name : String) :
    c.GetStop name = registered.GetStop name := by
  unfold TransportCatalogue.GetStop
  rw [h]

/-- The first loop of `ApplyCommands` makes the calls of `AddStop` for the requests of type
`Stop`, in the order of the array. -/
theorem tc.ApplyCommands.stops_calls :
    ∀ (requests : List BaseRequest) (catalogue : TransportCatalogue),
      populate (registration.stop_calls requests) catalogue
        = .ok (ApplyCommands.stops requests catalogue) := by
  intro requests
  induction requests with
  | nil => intro catalogue; rfl
  | cons request rest ih =>
    intro catalogue
    cases request with
    | Stop name coordinates road_distances =>
      rw [registration.stop_calls, populate, ApplyCommands.stops]
      exact ih _
    | Bus name stops is_roundtrip =>
      rw [registration.stop_calls, ApplyCommands.stops]
      exact ih _
    | Other =>
      rw [registration.stop_calls, ApplyCommands.stops]
      exact ih _

/-- The second loop of `ApplyCommands` makes the calls of `AddBus` for the requests of type
`Bus`, in the order of the array, when every such request has stops. -/
theorem tc.ApplyCommands.buses_calls (registered : TransportCatalogue) :
    ∀ (requests : List BaseRequest) (catalogue : TransportCatalogue),
      catalogue.stopname_to_stop_ = registered.stopname_to_stop_ →
      (∀ name stops is_roundtrip,
        BaseRequest.Bus name stops is_roundtrip ∈ requests → stops ≠ []) →
      ApplyCommands.buses requests catalogue
        = populate (registration.bus_calls registered requests) catalogue := by
  intro requests
  induction requests with
  | nil => intro catalogue _ _; rfl
  | cons request rest ih =>
    intro catalogue hnames hne
    have hrest : ∀ name stops is_roundtrip,
        BaseRequest.Bus name stops is_roundtrip ∈ rest → stops ≠ [] :=
      fun a b d hx => hne a b d (List.mem_cons_of_mem _ hx)
    cases request with
    | Stop name coordinates road_distances =>
      rw [registration.bus_calls, ApplyCommands.buses]
      exact ih catalogue hnames hrest
    | Other =>
      rw [registration.bus_calls, ApplyCommands.buses]
      exact ih catalogue hnames hrest
    | Bus name stops is_roundtrip =>
      have hstops : stops ≠ [] := hne name stops is_roundtrip (List.mem_cons_self _ _)
      have hget : catalogue.GetStop = registered.GetStop :=
        funext (tc.GetStop_congr catalogue registered hnames)
      obtain ⟨last, hlast⟩ : ∃ last, stops.getLast? = some last := by
        cases h : stops.getLast? with
        | none => exact absurd (List.getLast?_eq_none_iff.1 h) hstops
        | some last => exact ⟨last, rfl⟩
      have hparse : ParseRoute stops is_roundtrip
          = .ok (if is_roundtrip then stops else stops ++ stops.reverse.tail) := by
        unfold ParseRoute
        by_cases hrt : is_roundtrip = true
        · rw [if_pos hrt, if_pos hrt]
        · rw [if_neg hrt, if_neg hrt]
          cases hrev : stops.reverse with
          | nil => exact absurd (List.reverse_eq_nil_iff.1 hrev) hstops
          | cons x back => rfl
      have hbus : ApplyCommands.bus catalogue name stops is_roundtrip
          = catalogue.AddBus name
              ((if is_roundtrip then stops else stops ++ stops.reverse.tail).map
                registered.GetStop)
              (registered.GetStop (stops.getLast?.getD "")) is_roundtrip := by
        unfold ApplyCommands.bus
        rw [hparse]
        simp only [hlast, hget, Option.getD_some]
      rw [registration.bus_calls, ApplyCommands.buses, populate, hbus]
      simp only [Call.run]
      cases hrun : catalogue.AddBus name
          ((if is_roundtrip then stops else stops ++ stops.reverse.tail).map registered.GetStop)
          (registered.GetStop (stops.getLast?.getD "")) is_roundtrip with
      | error e => rfl
      | ok c =>
        exact ih c ((tc.AddBus_stops _ _ _ _ _ _ hrun).2.2.1.trans hnames) hrest

/-- The second loop of `ApplyCommands` leaves `stopname_to_stop_` as it is. -/
theorem tc.ApplyCommands.buses_keep_names :
    ∀ (requests : List BaseRequest) (catalogue c : TransportCatalogue),
      ApplyCommands.buses requests catalogue = .ok c →
      c.stopname_to_stop_ = catalogue.stopname_to_stop_ := by
  intro requests
  induction requests with
  | nil =>
    intro catalogue c h
    rw [ApplyCommands.buses] at h
    injection h with h
    rw [h]
  | cons request rest ih =>
    intro catalogue c h
    cases request with
    | Stop name coordinates road_distances =>
      rw [ApplyCommands.buses] at h
      exact ih catalogue c h
    | Other =>
      rw [ApplyCommands.buses] at h
      exact ih catalogue c h
    | Bus name stops is_roundtrip =>
      rw [ApplyCommands.buses] at h
      cases hbus : ApplyCommands.bus catalogue name stops is_roundtrip with
      | error e => rw [hbus] at h; cases h
      | ok mid =>
        rw [hbus] at h
        simp only at h
        have hmid : mid.stopname_to_stop_ = catalogue.stopname_to_stop_ := by
          unfold ApplyCommands.bus at hbus
          cases hparse : ParseRoute stops is_roundtrip with
          | error e => rw [hparse] at hbus; cases hbus
          | ok names =>
            rw [hparse] at hbus
            simp only at hbus
            cases hlast : stops.getLast? with
            | none => rw [hlast] at hbus; cases hbus
            | some end_stop_name =>
              rw [hlast] at hbus
              simp only at hbus
              exact (tc.AddBus_stops _ _ _ _ _ _ hbus).2.2.1
        exact (ih mid c h).trans hmid

/-- The inner loop of the third loop of `ApplyCommands` makes the calls of `SetDistance` for
the entries of `road_distances`, in their order. -/
theorem tc.ApplyCommands.road_distances_calls (registered : TransportCatalogue)
    (stop_from_ptr : StopPtr) :
    ∀ (road_distances : List (String × Int)) (catalogue : TransportCatalogue),
      catalogue.stopname_to_stop_ = registered.stopname_to_stop_ →
      populate
          (road_distances.map
            (fun distance_pair =>
              Call.SetDistance stop_from_ptr (registered.GetStop distance_pair.1)
                distance_pair.2))
          catalogue
        = .ok (ApplyCommands.road_distances stop_from_ptr road_distances catalogue) ∧
      (ApplyCommands.road_distances stop_from_ptr road_distances catalogue).stopname_to_stop_
        = registered.stopname_to_stop_ := by
  intro road_distances
  induction road_distances with
  | nil => intro catalogue hnames; exact ⟨rfl, hnames⟩
  | cons distance_pair rest ih =>
    intro catalogue hnames
    rw [List.map_cons, populate, ApplyCommands.road_distances]
    simp only [Call.run]
    rw [tc.GetStop_congr catalogue registered hnames]
    exact ih _ hnames

/-- The third loop of `ApplyCommands` makes the calls of `SetDistance` for the requests of
type `Stop`, in the order of the array. -/
theorem tc.ApplyCommands.distances_calls (registered : TransportCatalogue) :
    ∀ (requests : List BaseRequest) (catalogue : TransportCatalogue),
      catalogue.stopname_to_stop_ = registered.stopname_to_stop_ →
      populate (registration.distance_calls registered requests) catalogue
        = .ok (ApplyCommands.distances requests catalogue) := by
  intro requests
  induction requests with
  | nil => intro catalogue _; rfl
  | cons request rest ih =>
    intro catalogue hnames
    cases request with
    | Stop name coordinates road_distances =>
      obtain ⟨hrun, hkeep⟩ := tc.ApplyCommands.road_distances_calls registered
        (registered.GetStop name) road_distances catalogue hnames
      rw [registration.distance_calls, tc.populate_append, hrun, ApplyCommands.distances,
        tc.GetStop_congr catalogue registered hnames]
      exact ih _ hkeep
    | Bus name stops is_roundtrip =>
      rw [registration.distance_calls, ApplyCommands.distances]
      exact ih catalogue hnames
    | Other =>
      rw [registration.distance_calls, ApplyCommands.distances]
      exact ih catalogue hnames

/-- C30: `ApplyCommands` registers the stops, then the buses, then the distances.  Two arrays
of requests with the same requests of type `Stop` in the same order and the same requests of
type `Bus` in the same order give the same result, whatever the catalogue they start from; in
particular an array gives the same result as the array that has its requests of type `Stop`
first and its other requests after them.  And when every request of type `Bus` has stops, the
result is the result of the calls of `AddStop` for all the requests of type `Stop`, followed
by the calls of `AddBus` for all the requests of type `Bus`, with the stops looked up in the
catalogue that has all the stops, followed by the calls of `SetDistance` for all the entries
of `road_distances`. -/
theorem tc.ApplyCommands_order (catalogue : TransportCatalogue) :
    (∀ requests requests' : List BaseRequest,
      requests.filter BaseRequest.is_stop = requests'.filter BaseRequest.is_stop →
      requests.filter BaseRequest.is_bus = requests'.filter BaseRequest.is_bus →
      ApplyCommands requests catalogue = ApplyCommands requests' catalogue) ∧
    (∀ requests : List BaseRequest,
      ApplyCommands
          (requests.filter BaseRequest.is_stop ++ requests.filter (fun r => !r.is_stop))
          catalogue
        = ApplyCommands requests catalogue) ∧
    ∀ requests : List BaseRequest,
      (∀ name stops is_roundtrip,
        BaseRequest.Bus name stops is_roundtrip ∈ requests → stops ≠ []) →
      ∃ registered, populate (registration.stop_calls requests) catalogue = .ok registered ∧
        ApplyCommands requests catalogue
          = populate
              (registration.stop_calls requests ++ registration.bus_calls registered requests
                ++ registration.distance_calls registered requests)
              catalogue := by
  have key : ∀ requests requests' : List BaseRequest,
      requests.filter BaseRequest.is_stop = requests'.filter BaseRequest.is_stop →
      requests.filter BaseRequest.is_bus = requests'.filter BaseRequest.is_bus →
      ApplyCommands requests catalogue = ApplyCommands requests' catalogue := by
    intro requests requests' hstops hbuses
    rw [tc.ApplyCommands_filter requests, tc.ApplyCommands_filter requests', hstops, hbuses]
  refine ⟨key, ?_, ?_⟩
  · intro requests
    apply key
    · rw [List.filter_append, List.filter_filter, List.filter_filter]
      have h1 : requests.filter (fun r => r.is_stop && r.is_stop)
          = requests.filter BaseRequest.is_stop :=
        List.filter_congr (fun r _ => by simp)
      have h2 : requests.filter (fun r => r.is_stop && !r.is_stop) = [] :=
        List.filter_eq_nil_iff.2 (fun r _ => by simp)
      rw [h1, h2, List.append_nil]
    · rw [List.filter_append, List.filter_filter, List.filter_filter]
      have h1 : requests.filter (fun r => r.is_bus && r.is_stop) = [] :=
        List.filter_eq_nil_iff.2 (fun r _ => by cases r <;> simp [BaseRequest.is_bus,
          BaseRequest.is_stop])
      have h2 : requests.filter (fun r => r.is_bus && !r.is_stop)
          = requests.filter BaseRequest.is_bus :=
        List.filter_congr (fun r _ => by cases r <;> simp [BaseRequest.is_bus,
          BaseRequest.is_stop])
      rw [h1, h2, List.nil_append]
  · intro requests hne
    refine ⟨ApplyCommands.stops requests catalogue,
      tc.ApplyCommands.stops_calls requests catalogue, ?_⟩
    rw [tc.populate_append, tc.populate_append, tc.ApplyCommands.stops_calls requests catalogue]
    simp only
    rw [← tc.ApplyCommands.buses_calls (ApplyCommands.stops requests catalogue) requests
      (ApplyCommands.stops requests catalogue) rfl hne]
    unfold ApplyCommands
    cases hrun : ApplyCommands.buses requests (ApplyCommands.stops requests catalogue) with
    | error e => rfl
    | ok c =>
      simp only
      have hnames : c.stopname_to_stop_
          = (ApplyCommands.stops requests catalogue).stopname_to_stop_ :=
        tc.ApplyCommands.buses_keep_names requests _ c hrun
      rw [tc.ApplyCommands.distances_calls (ApplyCommands.stops requests catalogue) requests c
        hnames]

/-- Witness of C30: the request for the bus `297` before the requests for its two stops gives
the catalogue that the requests for the stops followed by the request for the bus give, and
that catalogue is the one after the two calls of `AddStop`, the call of `AddBus` with the
stops at the addresses 0, 1, 0 and the two calls of `SetDistance`. -/
theorem tc.ApplyCommands_order_witness :
    (∃ c, ApplyCommands
        [.Bus "297" ["Tolstopaltsevo", "Marushkino", "Tolstopaltsevo"] true,
          .Stop "Tolstopaltsevo" ⟨55611087 / 1000000, 3720829 / 100000⟩ [("Marushkino", 3900)],
          .Stop "Marushkino" ⟨55595884 / 1000000, 37209755 / 1000000⟩ [("Tolstopaltsevo", 3900)]]
        {} = .ok c) ∧
    ApplyCommands
        [.Bus "297" ["Tolstopaltsevo", "Marushkino", "Tolstopaltsevo"] true,
          .Stop "Tolstopaltsevo" ⟨55611087 / 1000000, 3720829 / 100000⟩ [("Marushkino", 3900)],
          .Stop "Marushkino" ⟨55595884 / 1000000, 37209755 / 1000000⟩ [("Tolstopaltsevo", 3900)]]
        {}
      = ApplyCommands
        [.Stop "Tolstopaltsevo" ⟨55611087 / 1000000, 3720829 / 100000⟩ [("Marushkino", 3900)],
          .Stop "Marushkino" ⟨55595884 / 1000000, 37209755 / 1000000⟩ [("Tolstopaltsevo", 3900)],
          .Bus "297" ["Tolstopaltsevo", "Marushkino", "Tolstopaltsevo"] true]
        {} ∧
    (∃ registered,
      populate
          (registration.stop_calls
            [.Bus "297" ["Tolstopaltsevo", "Marushkino", "Tolstopaltsevo"] true,
              .Stop "Tolstopaltsevo" ⟨55611087 / 1000000, 3720829 / 100000⟩
                [("Marushkino", 3900)],
              .Stop "Marushkino" ⟨55595884 / 1000000, 37209755 / 1000000⟩
                [("Tolstopaltsevo", 3900)]])
          {} = .ok registered ∧
      ApplyCommands
          [.Bus "297" ["Tolstopaltsevo", "Marushkino", "Tolstopaltsevo"] true,
            .Stop "Tolstopaltsevo" ⟨55611087 / 1000000, 3720829 / 100000⟩
              [("Marushkino", 3900)],
            .Stop "Marushkino" ⟨55595884 / 1000000, 37209755 / 1000000⟩
              [("Tolstopaltsevo", 3900)]]
          {}
        = populate
          (registration.stop_calls
              [.Bus "297" ["Tolstopaltsevo", "Marushkino", "Tolstopaltsevo"] true,
                .Stop "Tolstopaltsevo" ⟨55611087 / 1000000, 3720829 / 100000⟩
                  [("Marushkino", 3900)],
                .Stop "Marushkino" ⟨55595884 / 1000000, 37209755 / 1000000⟩
                  [("Tolstopaltsevo", 3900)]]
            ++ registration.bus_calls registered
              [.Bus "297" ["Tolstopaltsevo", "Marushkino", "Tolstopaltsevo"] true,
                .Stop "Tolstopaltsevo" ⟨55611087 / 1000000, 3720829 / 100000⟩
                  [("Marushkino", 3900)],
                .Stop "Marushkino" ⟨55595884 / 1000000, 37209755 / 1000000⟩
                  [("Tolstopaltsevo", 3900)]]
            ++ registration.distance_calls registered
              [.Bus "297" ["Tolstopaltsevo", "Marushkino", "Tolstopaltsevo"] true,
                .Stop "Tolstopaltsevo" ⟨55611087 / 1000000, 3720829 / 100000⟩
                  [("Marushkino", 3900)],
                .Stop "Marushkino" ⟨55595884 / 1000000, 37209755 / 1000000⟩
                  [("Tolstopaltsevo", 3900)]])
          {}) ∧
    populate
        [.AddStop "Tolstopaltsevo" ⟨55611087 / 1000000, 3720829 / 100000⟩,
          .AddStop "Marushkino" ⟨55595884 / 1000000, 37209755 / 1000000⟩,
          .AddBus "297" [some 0, some 1, some 0] (some 0) true,
          .SetDistance (some 0) (some 1) 3900,
          .SetDistance (some 1) (some 0) 3900]
        {}
      = ApplyCommands
        [.Bus "297" ["Tolstopaltsevo", "Marushkino", "Tolstopaltsevo"] true,
          .Stop "Tolstopaltsevo" ⟨55611087 / 1000000, 3720829 / 100000⟩ [("Marushkino", 3900)],
          .Stop "Marushkino" ⟨55595884 / 1000000, 37209755 / 1000000⟩ [("Tolstopaltsevo", 3900)]]
        {} :=
  ⟨⟨_, by with_unfolding_all rfl⟩, (tc.ApplyCommands_order {}).1 _ _ rfl rfl,
    (tc.ApplyCommands_order {}).2.2 _ (by
      intro name stops is_roundtrip hm
      simp only [List.mem_cons, BaseRequest.Bus.injEq, reduceCtorEq, List.mem_singleton,
        List.not_mem_nil, or_false] at hm
      rw [hm.2.1]
      simp),
    by with_unfolding_all rfl⟩

/-! ## What the calls establish in the catalogue -/

/-- When the loop of `AddBus` returns, every stop of the bus is a key of the map, and the set of
a key has the bus added when the key is a stop of the bus. -/
theorem tc.AddBus.loop_ok (bus_ptr : BusPtr) :
    ∀ (stops : List StopPtr) (m m' : List (StopPtr × List BusPtr)),
      TransportCatalogue.AddBus.loop bus_ptr stops m = .ok m' →
      (∀ p ∈ stops, m.lookup p ≠ none) ∧
      ∀ q, m'.lookup q = (m.lookup q).map
        (fun buses => if q ∈ stops ∧ bus_ptr ∉ buses then bus_ptr :: buses else buses) := by
  intro stops
  induction stops with
  | nil =>
    intro m m' h
    rw [TransportCatalogue.AddBus.loop] at h
    injection h with h
    subst h
    refine ⟨fun p hp => by simp at hp, fun q => ?_⟩
    cases m.lookup q with
    | none => rfl
    | some buses => simp
  | cons stop rest ih =>
    intro m m' h
    rw [TransportCatalogue.AddBus.loop] at h
    cases hl : m.lookup stop with
    | none => rw [hl] at h; cases h
    | some buses =>
      rw [hl] at h
      simp only at h
      obtain ⟨hkeys, hlook⟩ := ih _ m' h
      constructor
      · intro p hp
        rcases List.mem_cons.1 hp with hp | hp
        · subst hp; rw [hl]; simp
        · have := hkeys p hp
          rw [tc.router.TransportRouter.lookup_cons_eq] at this
          by_cases hps : p = stop
          · subst hps; rw [hl]; simp
          · rw [if_neg hps] at this; exact this
      · intro q
        rw [hlook q, tc.router.TransportRouter.lookup_cons_eq]
        by_cases hq : q = stop
        · subst hq
          rw [if_pos rfl, hl]
          simp only [Option.map_some', List.mem_cons, true_or, true_and]
          by_cases hb : bus_ptr ∈ buses
          · simp [hb]
          · simp [hb]
        · rw [if_neg hq]
          cases m.lookup q with
          | none => rfl
          | some buses' => simp [hq]

/-- The loop of `AddBus` fails with `std::out_of_range` only. -/
theorem tc.AddBus.loop_fails (bus_ptr : BusPtr) :
    ∀ (stops : List StopPtr) (m : List (StopPtr × List BusPtr)) (e : Error),
      TransportCatalogue.AddBus.loop bus_ptr stops m = .error e → e = .out_of_range := by
  intro stops
  induction stops with
  | nil => intro m e h; rw [TransportCatalogue.AddBus.loop] at h; cases h
  | cons stop rest ih =>
    intro m e h
    rw [TransportCatalogue.AddBus.loop] at h
    cases hl : m.lookup stop with
    | none => rw [hl] at h; injection h with h; exact h.symm
    | some buses => rw [hl] at h; exact ih _ e h

/-- The empty catalogue has what the calls establish for `stop_to_buses_`. -/
theorem tc.TransportCatalogue.Served.empty_catalogue : ({} : TransportCatalogue).Served :=
  ⟨rfl, fun _ _ => rfl, fun bus hb => by simp at hb, fun k hk => by simp at hk⟩

/-- `AddStop` keeps what the calls establish for `stop_to_buses_`. -/
theorem tc.TransportCatalogue.Served.AddStop {c : TransportCatalogue} (hs : c.Served)
    (name : String) (coordinates : Coordinates) : (c.AddStop name coordinates).Served := by
  obtain ⟨h1, h2, h3, h4⟩ := hs
  have hlen : (c.AddStop name coordinates).stops_.length = c.stops_.length + 1 := by
    simp [TransportCatalogue.AddStop]
  have hlook : ∀ q, (c.AddStop name coordinates).stop_to_buses_.lookup q =
      if q = some c.stops_.length then some [] else c.stop_to_buses_.lookup q :=
    fun q => tc.router.TransportRouter.lookup_cons_eq _ _ _ _
  have hbuses : (c.AddStop name coordinates).buses_ = c.buses_ := rfl
  refine ⟨?_, ?_, ?_, ?_⟩
  · rw [hlook, if_neg (by simp)]; exact h1
  · intro k hk
    rw [hlen] at hk
    rw [hlook, if_neg (by simp; omega)]
    exact h2 k (by omega)
  · intro bus hb p hp
    rw [hbuses] at hb
    obtain ⟨k, hk, hpk⟩ := h3 bus hb p hp
    exact ⟨k, by rw [hlen]; omega, hpk⟩
  · intro k hk
    rw [hlen] at hk
    rw [hlook, hbuses]
    by_cases hkl : k = c.stops_.length
    · subst hkl
      rw [if_pos rfl]
      refine ⟨[], rfl, List.nodup_nil, ?_⟩
      intro b
      constructor
      · intro hb; simp at hb
      · rintro ⟨j, bus, _, hj, hmem⟩
        obtain ⟨k', hk', hp⟩ := h3 bus (List.getElem?_mem hj) _ hmem
        simp only [Option.some.injEq] at hp
        omega
    · rw [if_neg (by simpa using hkl)]
      exact h4 k (by omega)

/-- `SetDistance` keeps what the calls establish for `stop_to_buses_`. -/
theorem tc.TransportCatalogue.Served.SetDistance {c : TransportCatalogue} (hs : c.Served)
    (stop_from_ptr stop_to_ptr : StopPtr) (distance : Int) :
    (c.SetDistance stop_from_ptr stop_to_ptr distance).Served :=
  ⟨hs.lookup_none, hs.lookup_late, hs.bus_stops, hs.lookup_some⟩

/-- An `AddBus` that returns keeps what the calls establish for `stop_to_buses_`. -/
theorem tc.TransportCatalogue.Served.AddBus {c c' : TransportCatalogue} (hs : c.Served)
    (name : String) (stops : List StopPtr) (end_stop_ptr : StopPtr) (is_roundtrip : Bool)
    (h : c.AddBus name stops end_stop_ptr is_roundtrip = .ok c') : c'.Served := by
  obtain ⟨h1, h2, h3, h4⟩ := hs
  unfold TransportCatalogue.AddBus at h
  cases hl : TransportCatalogue.AddBus.loop (some c.buses_.length) stops c.stop_to_buses_ with
  | error e => simp only [hl] at h; cases h
  | ok m =>
    simp only [hl] at h
    injection h with h
    subst h
    obtain ⟨hkeys, hlook⟩ := tc.AddBus.loop_ok _ stops _ m hl
    have hstop : ∀ p ∈ stops, ∃ k, k < c.stops_.length ∧ p = some k := by
      intro p hp
      cases p with
      | none => exact absurd h1 (hkeys none hp)
      | some k =>
        by_cases hk : k < c.stops_.length
        · exact ⟨k, hk, rfl⟩
        · exact absurd (h2 k (by omega)) (hkeys (some k) hp)
    refine ⟨?_, ?_, ?_, ?_⟩
    · show m.lookup none = none
      rw [hlook, h1]; rfl
    · intro k hk
      show m.lookup (some k) = none
      rw [hlook, h2 k hk]; rfl
    · intro bus hb p hp
      rcases List.mem_append.1 hb with hb | hb
      · exact h3 bus hb p hp
      · simp only [List.mem_singleton] at hb
        subst hb
        exact hstop p hp
    · intro k hk
      obtain ⟨buses, hbl, hnd, hmem⟩ := h4 k hk
      refine ⟨if some k ∈ stops ∧ (some c.buses_.length : BusPtr) ∉ buses
          then some c.buses_.length :: buses else buses, ?_, ?_, ?_⟩
      · show m.lookup (some k) = _
        rw [hlook, hbl]; rfl
      · by_cases hc : some k ∈ stops ∧ (some c.buses_.length : BusPtr) ∉ buses
        · rw [if_pos hc]; exact List.nodup_cons.2 ⟨hc.2, hnd⟩
        · rw [if_neg hc]; exact hnd
      · intro b
        have hnew : ∀ j bus, (c.buses_ ++ [(⟨name, stops, end_stop_ptr, is_roundtrip⟩ : Bus)])[j]?
            = some bus ↔ c.buses_[j]? = some bus ∨
              (j = c.buses_.length ∧ bus = ⟨name, stops, end_stop_ptr, is_roundtrip⟩) := by
          intro j bus
          by_cases hj : j < c.buses_.length
          · rw [List.getElem?_append_left hj]
            constructor
            · exact Or.inl
            · rintro (h | ⟨h, _⟩)
              · exact h
              · omega
          · by_cases hj' : j = c.buses_.length
            · subst hj'
              rw [List.getElem?_concat_length]
              constructor
              · intro h; injection h with h; exact Or.inr ⟨rfl, h.symm⟩
              · rintro (h | ⟨_, h⟩)
                · rw [List.getElem?_eq_none (le_refl _)] at h; cases h
                · rw [h]
            · rw [List.getElem?_eq_none (by simp; omega)]
              constructor
              · intro h; cases h
              · rintro (h | ⟨h, _⟩)
                · rw [List.getElem?_eq_none (by omega)] at h; cases h
                · exact absurd h hj'
        have hb0 : b ∈ (if some k ∈ stops ∧ (some c.buses_.length : BusPtr) ∉ buses
            then some c.buses_.length :: buses else buses) ↔
            b ∈ buses ∨ (b = some c.buses_.length ∧ some k ∈ stops) := by
          by_cases hc : some k ∈ stops ∧ (some c.buses_.length : BusPtr) ∉ buses
          · rw [if_pos hc]
            simp only [List.mem_cons]
            constructor
            · rintro (h | h)
              · exact Or.inr ⟨h, hc.1⟩
              · exact Or.inl h
            · rintro (h | ⟨h, _⟩)
              · exact Or.inr h
              · exact Or.inl h
          · rw [if_neg hc]
            constructor
            · exact Or.inl
            · rintro (h | ⟨h, hk'⟩)
              · exact h
              · subst h
                by_contra hnot
                exact hc ⟨hk', hnot⟩
        rw [hb0, hmem b]
        constructor
        · rintro (⟨j, bus, e1, e2, e3⟩ | ⟨e1, e2⟩)
          · exact ⟨j, bus, e1, (hnew j bus).2 (Or.inl e2), e3⟩
          · exact ⟨c.buses_.length, ⟨name, stops, end_stop_ptr, is_roundtrip⟩, e1,
              (hnew _ _).2 (Or.inr ⟨rfl, rfl⟩), e2⟩
        · rintro ⟨j, bus, e1, e2, e3⟩
          rcases (hnew j bus).1 e2 with e2 | ⟨e2, e4⟩
          · exact Or.inl ⟨j, bus, e1, e2, e3⟩
          · subst e2 e4
            exact Or.inr ⟨e1, e3⟩

/-- Calls that return keep what the calls establish for `stop_to_buses_`. -/
theorem tc.populate_served :
    ∀ (calls : List Call) (c c' : TransportCatalogue), c.Served → populate calls c = .ok c' →
      c'.Served := by
  intro calls
  induction calls with
  | nil =>
    intro c c' hs h
    rw [populate] at h
    injection h with h
    subst h
    exact hs
  | cons call rest ih =>
    intro c c' hs h
    rw [populate] at h
    cases call with
    | AddStop name coordinates =>
      exact ih _ c' (hs.AddStop name coordinates) h
    | AddBus name stops end_stop_ptr is_roundtrip =>
      simp only [Call.run] at h
      cases hb : c.AddBus name stops end_stop_ptr is_roundtrip with
      | error e => rw [hb] at h; cases h
      | ok c1 =>
        rw [hb] at h
        exact ih c1 c' (hs.AddBus name stops end_stop_ptr is_roundtrip hb) h
    | SetDistance stop_from_ptr stop_to_ptr distance =>
      exact ih _ c' (hs.SetDistance stop_from_ptr stop_to_ptr distance) h

/-- C28: after any sequence of calls of `AddStop`, `AddBus` and `SetDistance` that return,
starting with the empty catalogue, `GetBusesAtStop` returns for every stop of the catalogue,
and the set it returns holds, once each, the addresses of the buses that have the stop among
their stops, and nothing else: it is empty for a stop that no bus visits. -/
theorem tc.buses_at_stop (calls : List Call) (c : TransportCatalogue)
    (h : populate calls {} = .ok c) (k : Nat) (hk : k < c.GetAllStops.length) :
    ∃ buses, c.GetBusesAtStop (some k) = .ok buses ∧ buses.Nodup ∧
      (∀ b, b ∈ buses ↔
        ∃ j bus, b = some j ∧ c.GetAllBuses[j]? = some bus ∧ some k ∈ bus.stops) ∧
      ((∀ bus ∈ c.GetAllBuses, some k ∉ bus.stops) → buses = []) := by
  have hs := tc.populate_served calls {} c tc.TransportCatalogue.Served.empty_catalogue h
  obtain ⟨buses, hl, hnd, hmem⟩ := hs.lookup_some k hk
  refine ⟨buses, ?_, hnd, hmem, ?_⟩
  · unfold TransportCatalogue.GetBusesAtStop
    rw [hl]
  · intro hno
    apply List.eq_nil_iff_forall_not_mem.2
    intro b hb
    obtain ⟨j, bus, _, hj, hin⟩ := (hmem b).1 hb
    exact hno bus (List.getElem?_mem hj) hin

/-- Witness of C28: in `island_catalogue` the bus `1` visits the first stop twice and no bus
visits the third stop. -/
theorem tc.buses_at_stop_witness :
    (∃ buses, router.island_catalogue.GetBusesAtStop (some 0) = .ok buses ∧ buses.Nodup ∧
      (∀ b, b ∈ buses ↔ ∃ j bus, b = some j ∧
        router.island_catalogue.GetAllBuses[j]? = some bus ∧ some 0 ∈ bus.stops) ∧
      ((∀ bus ∈ router.island_catalogue.GetAllBuses, some 0 ∉ bus.stops) → buses = [])) ∧
    router.island_catalogue.GetBusesAtStop (some 0) = .ok [some 0] ∧
    router.island_catalogue.GetBusesAtStop (some 2) = .ok [] :=
  ⟨tc.buses_at_stop
      [.AddStop "A" ⟨0, 0⟩, .AddStop "B" ⟨0, 1⟩, .AddStop "C" ⟨1, 0⟩,
        .AddBus "1" [some 0, some 1, some 0] (some 0) true,
        .SetDistance (some 0) (some 1) 1000]
      router.island_catalogue (by with_unfolding_all rfl) 0 (by decide),
    by with_unfolding_all rfl, by with_unfolding_all rfl⟩

/-- The empty deque and the empty map. -/
theorem tc.NameIndex.empty_index {α : Type} (key : α → String) : NameIndex key [] [] :=
  ⟨fun _ _ x hx => by simp at hx, fun _ _ h => by simp at h⟩

/-- Adding an item to the deque and its name with its address to the map. -/
theorem tc.NameIndex.push {α : Type} {key : α → String} {items : List α}
    {m : List (String × Option Nat)} (h : NameIndex key items m) (x : α) :
    NameIndex key (items ++ [x]) ((key x, some items.length) :: m) := by
  obtain ⟨habsent, hfound⟩ := h
  constructor
  · intro name hl y hy
    rw [tc.router.TransportRouter.lookup_cons_eq] at hl
    by_cases hn : name = key x
    · rw [if_pos hn] at hl; cases hl
    · rw [if_neg hn] at hl
      rcases List.mem_append.1 hy with hy | hy
      · exact habsent name hl y hy
      · simp only [List.mem_singleton] at hy
        subst hy
        exact fun e => hn e.symm
  · intro name p hl
    rw [tc.router.TransportRouter.lookup_cons_eq] at hl
    by_cases hn : name = key x
    · rw [if_pos hn] at hl
      injection hl with hl
      subst hl
      refine ⟨items.length, x, rfl, List.getElem?_concat_length _ _, hn.symm, ?_⟩
      intro k' x' hk' hx'
      rw [List.getElem?_eq_none (by simp; omega)] at hx'
      cases hx'
    · rw [if_neg hn] at hl
      obtain ⟨k, y, hp, hk, hy, hlast⟩ := hfound name p hl
      have hlt : k < items.length := by
        rcases List.getElem?_eq_some.1 hk with ⟨hlt, _⟩
        exact hlt
      refine ⟨k, y, hp, by rw [List.getElem?_append_left hlt]; exact hk, hy, ?_⟩
      intro k' x' hk' hx'
      by_cases hlt' : k' < items.length
      · rw [List.getElem?_append_left hlt'] at hx'
        exact hlast k' x' hk' hx'
      · by_cases heq : k' = items.length
        · subst heq
          rw [List.getElem?_concat_length] at hx'
          injection hx' with hx'
          subst hx'
          exact fun e => hn e.symm
        · rw [List.getElem?_eq_none (by simp; omega)] at hx'
          cases hx'

/-- What `AddBus` does to the buses and their names when it returns. -/
theorem tc.AddBus_names (c c' : TransportCatalogue) (name : String) (stops : List StopPtr)
    (end_stop_ptr : StopPtr) (is_roundtrip : Bool)
    (h : c.AddBus name stops end_stop_ptr is_roundtrip = .ok c') :
    c'.buses_ = c.buses_ ++ [⟨name, stops, end_stop_ptr, is_roundtrip⟩] ∧
    c'.busname_to_bus_ = (name, some c.buses_.length) :: c.busname_to_bus_ := by
  unfold TransportCatalogue.AddBus at h
  cases hl : TransportCatalogue.AddBus.loop (some c.buses_.length) stops c.stop_to_buses_ with
  | error e => simp only [hl] at h; cases h
  | ok m =>
    simp only [hl] at h
    injection h with h
    subst h
    exact ⟨rfl, rfl⟩

/-- After calls that return, the stops are the stops that were there followed by the stops of
the calls of `AddStop`, the buses are the buses that were there followed by the buses of the
calls of `AddBus`, and the two maps from names to addresses are kept up. -/
theorem tc.populate_names :
    ∀ (calls : List Call) (c c' : TransportCatalogue), populate calls c = .ok c' →
      NameIndex Stop.name c.stops_ c.stopname_to_stop_ →
      NameIndex Bus.name c.buses_ c.busname_to_bus_ →
      c'.stops_ = c.stops_ ++ calls.filterMap Call.stop ∧
      c'.buses_ = c.buses_ ++ calls.filterMap Call.bus ∧
      NameIndex Stop.name c'.stops_ c'.stopname_to_stop_ ∧
      NameIndex Bus.name c'.buses_ c'.busname_to_bus_ := by
  intro calls
  induction calls with
  | nil =>
    intro c c' h hs hb
    rw [populate] at h
    injection h with h
    subst h
    exact ⟨by simp, by simp, hs, hb⟩
  | cons call rest ih =>
    intro c c' h hs hb
    rw [populate] at h
    cases call with
    | AddStop name coordinates =>
      obtain ⟨e1, e2, e3, e4⟩ := ih (c.AddStop name coordinates) c' h
        (hs.push ⟨name, coordinates⟩) hb
      refine ⟨?_, ?_, e3, e4⟩
      · rw [e1]
        simp [TransportCatalogue.AddStop, Call.stop]
      · rw [e2]
        simp [TransportCatalogue.AddStop, Call.bus]
    | AddBus name stops end_stop_ptr is_roundtrip =>
      simp only [Call.run] at h
      cases hadd : c.AddBus name stops end_stop_ptr is_roundtrip with
      | error e => rw [hadd] at h; cases h
      | ok c1 =>
        rw [hadd] at h
        obtain ⟨s1, _, s3, _⟩ := tc.AddBus_stops c c1 name stops end_stop_ptr is_roundtrip hadd
        obtain ⟨b1, b2⟩ := tc.AddBus_names c c1 name stops end_stop_ptr is_roundtrip hadd
        obtain ⟨e1, e2, e3, e4⟩ := ih c1 c' h (by rw [s1, s3]; exact hs)
          (by rw [b1, b2]; exact hb.push ⟨name, stops, end_stop_ptr, is_roundtrip⟩)
        refine ⟨?_, ?_, e3, e4⟩
        · rw [e1, s1]
          simp [Call.stop]
        · rw [e2, b1]
          simp [Call.bus]
    | SetDistance stop_from_ptr stop_to_ptr distance =>
      obtain ⟨e1, e2, e3, e4⟩ := ih (c.SetDistance stop_from_ptr stop_to_ptr distance) c' h
        hs hb
      refine ⟨?_, ?_, e3, e4⟩
      · rw [e1]
        simp [TransportCatalogue.SetDistance, Call.stop]
      · rw [e2]
        simp [TransportCatalogue.SetDistance, Call.bus]

/-- C29: after any sequence of calls of `AddStop`, `AddBus` and `SetDistance` that return,
starting with the empty catalogue, `GetStop` returns a stop for a name exactly when one of the
calls is `AddStop` with that name; the stop returned has that name and is the last one of the
deque with that name, that is the one added last; for every other name `GetStop` returns
`nullptr`.  `GetBus` does the same for the names of the calls of `AddBus`. -/
theorem tc.names_are_found (calls : List Call) (c : TransportCatalogue)
    (h : populate calls {} = .ok c) (name : String) :
    (c.GetStop name ≠ none ↔ ∃ coordinates, Call.AddStop name coordinates ∈ calls) ∧
    (∀ k, c.GetStop name = some k →
      ∃ stop, c.GetAllStops[k]? = some stop ∧ stop.name = name ∧
        ∀ k' stop', k < k' → c.GetAllStops[k']? = some stop' → stop'.name ≠ name) ∧
    (c.GetBus name ≠ none ↔
      ∃ stops end_stop_ptr is_roundtrip,
        Call.AddBus name stops end_stop_ptr is_roundtrip ∈ calls) ∧
    (∀ k, c.GetBus name = some k →
      ∃ bus, c.GetAllBuses[k]? = some bus ∧ bus.name = name ∧
        ∀ k' bus', k < k' → c.GetAllBuses[k']? = some bus' → bus'.name ≠ name) := by
  obtain ⟨hstops, hbuses, hs, hb⟩ := tc.populate_names calls {} c h
    (tc.NameIndex.empty_index Stop.name) (tc.NameIndex.empty_index Bus.name)
  simp only [List.nil_append] at hstops hbuses
  refine ⟨?_, ?_, ?_, ?_⟩
  · unfold TransportCatalogue.GetStop
    cases hl : c.stopname_to_stop_.lookup name with
    | none =>
      simp only [ne_eq, not_true_eq_false, false_iff, not_exists]
      intro coordinates hmem
      have : (⟨name, coordinates⟩ : Stop) ∈ c.stops_ := by
        rw [hstops]
        exact List.mem_filterMap.2 ⟨_, hmem, rfl⟩
      exact hs.absent name hl _ this rfl
    | some p =>
      obtain ⟨k, stop, hp, hk, hname, _⟩ := hs.found name p hl
      subst hp
      simp only [ne_eq, reduceCtorEq, not_false_eq_true, true_iff]
      have hmem : stop ∈ calls.filterMap Call.stop := by
        rw [← hstops]
        exact List.getElem?_mem hk
      obtain ⟨call, hcall, hstop⟩ := List.mem_filterMap.1 hmem
      cases call with
      | AddStop name' coordinates =>
        simp only [Call.stop, Option.some.injEq] at hstop
        subst hstop
        simp only at hname
        subst hname
        exact ⟨coordinates, hcall⟩
      | AddBus _ _ _ _ => simp [Call.stop] at hstop
      | SetDistance _ _ _ => simp [Call.stop] at hstop
  · intro k hk
    unfold TransportCatalogue.GetStop at hk
    cases hl : c.stopname_to_stop_.lookup name with
    | none => rw [hl] at hk; cases hk
    | some p =>
      rw [hl] at hk
      simp only at hk
      subst hk
      obtain ⟨k', stop, hp, hk', hname, hlast⟩ := hs.found name _ hl
      injection hp with hp
      subst hp
      exact ⟨stop, hk', hname, hlast⟩
  · unfold TransportCatalogue.GetBus
    cases hl : c.busname_to_bus_.lookup name with
    | none =>
      simp only [ne_eq, not_true_eq_false, false_iff, not_exists]
      intro stops end_stop_ptr is_roundtrip hmem
      have : (⟨name, stops, end_stop_ptr, is_roundtrip⟩ : Bus) ∈ c.buses_ := by
        rw [hbuses]
        exact List.mem_filterMap.2 ⟨_, hmem, rfl⟩
      exact hb.absent name hl _ this rfl
    | some p =>
      obtain ⟨k, bus, hp, hk, hname, _⟩ := hb.found name p hl
      subst hp
      simp only [ne_eq, reduceCtorEq, not_false_eq_true, true_iff]
      have hmem : bus ∈ calls.filterMap Call.bus := by
        rw [← hbuses]
        exact List.getElem?_mem hk
      obtain ⟨call, hcall, hbus⟩ := List.mem_filterMap.1 hmem
      cases call with
      | AddStop _ _ => simp [Call.bus] at hbus
      | AddBus name' stops end_stop_ptr is_roundtrip =>
        simp only [Call.bus, Option.some.injEq] at hbus
        subst hbus
        simp only at hname
        subst hname
        exact ⟨stops, end_stop_ptr, is_roundtrip, hcall⟩
      | SetDistance _ _ _ => simp [Call.bus] at hbus
  · intro k hk
    unfold TransportCatalogue.GetBus at hk
    cases hl : c.busname_to_bus_.lookup name with
    | none => rw [hl] at hk; cases hk
    | some p =>
      rw [hl] at hk
      simp only at hk
      subst hk
      obtain ⟨k', bus, hp, hk', hname, hlast⟩ := hb.found name _ hl
      injection hp with hp
      subst hp
      exact ⟨bus, hk', hname, hlast⟩

/-- Witness of C29: after two calls of `AddStop` with the name `A` and one with the name `B`,
`GetStop` returns the second stop with the name `A`, and no stop for the name `C`. -/
theorem tc.names_are_found_witness :
    populate [.AddStop "A" ⟨0, 0⟩, .AddStop "B" ⟨0, 1⟩, .AddStop "A" ⟨1, 0⟩] {}
      = .ok router.twin_catalogue ∧
    router.twin_catalogue.GetStop "A" = some 2 ∧
    (∃ stop, router.twin_catalogue.GetAllStops[2]? = some stop ∧ stop.name = "A" ∧
      ∀ k' stop', 2 < k' → router.twin_catalogue.GetAllStops[k']? = some stop' →
        stop'.name ≠ "A") ∧
    router.twin_catalogue.GetStop "C" = none ∧
    ¬ ∃ coordinates, Call.AddStop "C" coordinates ∈
      [Call.AddStop "A" ⟨0, 0⟩, .AddStop "B" ⟨0, 1⟩, .AddStop "A" ⟨1, 0⟩] :=
  have hrun : populate [.AddStop "A" ⟨0, 0⟩, .AddStop "B" ⟨0, 1⟩, .AddStop "A" ⟨1, 0⟩] {}
      = .ok router.twin_catalogue := rfl
  have hnone : router.twin_catalogue.GetStop "C" = none := by decide
  have hsome : router.twin_catalogue.GetStop "A" = some 2 := by decide
  ⟨hrun, hsome, (tc.names_are_found _ _ hrun "A").2.1 2 hsome, hnone,
    fun hex => ((tc.names_are_found _ _ hrun "C").1.2 hex) hnone⟩

/-! ## Requests for buses with unknown stops -/

/-- For a request with stops, `ParseRoute` returns names among which are the names of the
request. -/
theorem tc.ParseRoute_covers (stops : List String) (is_roundtrip : Bool) (hne : stops ≠ []) :
    ∃ names, ParseRoute stops is_roundtrip = .ok names ∧ ∀ s ∈ stops, s ∈ names := by
  unfold ParseRoute
  by_cases hrt : is_roundtrip = true
  · rw [if_pos hrt]
    exact ⟨stops, rfl, fun s hs => hs⟩
  · rw [if_neg hrt]
    cases hrev : stops.reverse with
    | nil => exact absurd (List.reverse_eq_nil_iff.1 hrev) hne
    | cons last back => exact ⟨stops ++ back, rfl, fun s hs => List.mem_append_left _ hs⟩

/-- The first loop of `ApplyCommands` keeps what the calls establish for `stop_to_buses_`, and
`GetStop` keeps returning `nullptr` for a name that no request of type `Stop` has. -/
theorem tc.ApplyCommands.stops_spec (stop_name : String) :
    ∀ (requests : List BaseRequest) (c : TransportCatalogue), c.Served →
      c.stopname_to_stop_.lookup stop_name = none →
      (∀ n coordinates road_distances,
        BaseRequest.Stop n coordinates road_distances ∈ requests → n ≠ stop_name) →
      (ApplyCommands.stops requests c).Served ∧
      (ApplyCommands.stops requests c).stopname_to_stop_.lookup stop_name = none := by
  intro requests
  induction requests with
  | nil => intro c hs hl _; exact ⟨hs, hl⟩
  | cons request rest ih =>
    intro c hs hl hno
    have hno' : ∀ n coordinates road_distances,
        BaseRequest.Stop n coordinates road_distances ∈ rest → n ≠ stop_name :=
      fun n co rd hm => hno n co rd (List.mem_cons_of_mem _ hm)
    cases request with
    | Stop name coordinates road_distances =>
      rw [ApplyCommands.stops]
      apply ih _ (hs.AddStop name coordinates) _ hno'
      show List.lookup stop_name ((name, _) :: c.stopname_to_stop_) = none
      rw [tc.router.TransportRouter.lookup_cons_eq,
        if_neg (fun e => hno name coordinates road_distances (List.mem_cons_self _ _) e.symm)]
      exact hl
    | Bus name stops is_roundtrip =>
      rw [ApplyCommands.stops]
      exact ih c hs hl hno'
    | Other =>
      rw [ApplyCommands.stops]
      exact ih c hs hl hno'

/-- The body of the second loop of `ApplyCommands` for a request that names a stop for which
`GetStop` returns `nullptr` does not return: `stop_to_buses_.at` throws in `AddBus`.  When the
body fails for a request with stops, it fails with `std::out_of_range`, and when it returns it
keeps `stopname_to_stop_` and what the calls establish for `stop_to_buses_`. -/
theorem tc.ApplyCommands.bus_spec (c : TransportCatalogue) (hs : c.Served) (name : String)
    (stops : List String) (is_roundtrip : Bool) :
    ((∃ s ∈ stops, c.GetStop s = none) →
      ∃ e, ApplyCommands.bus c name stops is_roundtrip = .error e) ∧
    (∀ e, ApplyCommands.bus c name stops is_roundtrip = .error e → stops ≠ [] →
      e = .out_of_range) ∧
    (∀ c', ApplyCommands.bus c name stops is_roundtrip = .ok c' →
      c'.Served ∧ c'.stopname_to_stop_ = c.stopname_to_stop_) := by
  refine ⟨?_, ?_, ?_⟩
  · rintro ⟨s, hmem, hnone⟩
    have hne : stops ≠ [] := List.ne_nil_of_mem hmem
    obtain ⟨names, hparse, hcover⟩ := tc.ParseRoute_covers stops is_roundtrip hne
    cases hrun : ApplyCommands.bus c name stops is_roundtrip with
    | error e => exact ⟨e, rfl⟩
    | ok c' =>
      exfalso
      unfold ApplyCommands.bus at hrun
      rw [hparse] at hrun
      simp only at hrun
      cases hlast : stops.getLast? with
      | none => rw [hlast] at hrun; cases hrun
      | some end_stop_name =>
        rw [hlast] at hrun
        simp only at hrun
        unfold TransportCatalogue.AddBus at hrun
        cases hl : TransportCatalogue.AddBus.loop (some c.buses_.length)
            (names.map c.GetStop) c.stop_to_buses_ with
        | error e => simp only [hl] at hrun; cases hrun
        | ok m =>
          obtain ⟨hkeys, _⟩ := tc.AddBus.loop_ok _ _ _ m hl
          have hin : (none : StopPtr) ∈ names.map c.GetStop :=
            List.mem_map.2 ⟨s, hcover s hmem, hnone⟩
          exact hkeys none hin hs.lookup_none
  · intro e hrun hne
    obtain ⟨names, hparse, _⟩ := tc.ParseRoute_covers stops is_roundtrip hne
    unfold ApplyCommands.bus at hrun
    rw [hparse] at hrun
    simp only at hrun
    cases hlast : stops.getLast? with
    | none => exact absurd (List.getLast?_eq_none_iff.1 hlast) hne
    | some end_stop_name =>
      rw [hlast] at hrun
      simp only at hrun
      unfold TransportCatalogue.AddBus at hrun
      cases hl : TransportCatalogue.AddBus.loop (some c.buses_.length)
          (names.map c.GetStop) c.stop_to_buses_ with
      | error e' =>
        simp only [hl] at hrun
        injection hrun with hrun
        subst hrun
        exact tc.AddBus.loop_fails _ _ _ _ hl
      | ok m => simp only [hl] at hrun; cases hrun
  · intro c' hrun
    unfold ApplyCommands.bus at hrun
    cases hparse : ParseRoute stops is_roundtrip with
    | error e => rw [hparse] at hrun; cases hrun
    | ok names =>
      rw [hparse] at hrun
      simp only at hrun
      cases hlast : stops.getLast? with
      | none => rw [hlast] at hrun; cases hrun
      | some end_stop_name =>
        rw [hlast] at hrun
        simp only at hrun
        exact ⟨hs.AddBus _ _ _ _ hrun, (tc.AddBus_stops _ _ _ _ _ _ hrun).2.2.1⟩

/-- The second loop of `ApplyCommands` does not return when one of its requests names a stop
for which `GetStop` returns `nullptr`; it fails with `std::out_of_range` when every request of
type `Bus` has stops. -/
theorem tc.ApplyCommands.buses_spec (stop_name : String) :
    ∀ (requests : List BaseRequest) (c : TransportCatalogue), c.Served →
      c.stopname_to_stop_.lookup stop_name = none →
      (∃ name stops is_roundtrip, BaseRequest.Bus name stops is_roundtrip ∈ requests ∧
        stop_name ∈ stops) →
      ∃ e, ApplyCommands.buses requests c = .error e ∧
        ((∀ name stops is_roundtrip,
          BaseRequest.Bus name stops is_roundtrip ∈ requests → stops ≠ []) →
          e = .out_of_range) := by
  intro requests
  induction requests with
  | nil =>
    rintro c _ _ ⟨_, _, _, hm, _⟩
    simp at hm
  | cons request rest ih =>
    rintro c hs hl ⟨name, stops, is_roundtrip, hm, hin⟩
    have hget : c.GetStop stop_name = none := by
      unfold TransportCatalogue.GetStop
      rw [hl]
    cases request with
    | Stop n coordinates road_distances =>
      rw [ApplyCommands.buses]
      have hm' : BaseRequest.Bus name stops is_roundtrip ∈ rest := by
        rcases List.mem_cons.1 hm with h | h
        · cases h
        · exact h
      obtain ⟨e, he, hkind⟩ := ih c hs hl ⟨name, stops, is_roundtrip, hm', hin⟩
      exact ⟨e, he, fun hne => hkind (fun a b d hx => hne a b d (List.mem_cons_of_mem _ hx))⟩
    | Other =>
      rw [ApplyCommands.buses]
      have hm' : BaseRequest.Bus name stops is_roundtrip ∈ rest := by
        rcases List.mem_cons.1 hm with h | h
        · cases h
        · exact h
      obtain ⟨e, he, hkind⟩ := ih c hs hl ⟨name, stops, is_roundtrip, hm', hin⟩
      exact ⟨e, he, fun hne => hkind (fun a b d hx => hne a b d (List.mem_cons_of_mem _ hx))⟩
    | Bus name0 stops0 is_roundtrip0 =>
      rw [ApplyCommands.buses]
      obtain ⟨hbad, hkind0, hok⟩ := tc.ApplyCommands.bus_spec c hs name0 stops0 is_roundtrip0
      cases hrun : ApplyCommands.bus c name0 stops0 is_roundtrip0 with
      | error e =>
        refine ⟨e, rfl, fun hne => ?_⟩
        exact hkind0 e hrun (hne name0 stops0 is_roundtrip0 (List.mem_cons_self _ _))
      | ok c' =>
        simp only
        obtain ⟨hs', hnames⟩ := hok c' hrun
        have hm' : BaseRequest.Bus name stops is_roundtrip ∈ rest := by
          rcases List.mem_cons.1 hm with h | h
          · injection h with h1 h2 h3
            subst h1 h2 h3
            obtain ⟨e, he⟩ := hbad ⟨stop_name, hin, hget⟩
            rw [hrun] at he
            cases he
          · exact h
        obtain ⟨e, he, hkind⟩ := ih c' hs' (by rw [hnames]; exact hl)
          ⟨name, stops, is_roundtrip, hm', hin⟩
        exact ⟨e, he, fun hne => hkind (fun a b d hx => hne a b d (List.mem_cons_of_mem _ hx))⟩

/-- C22: the claim fails in the code.  When a request of type `Bus` of the array names a stop
that no request of type `Stop` of the array has, `GetStop` returns `nullptr` for that name,
`ApplyCommands` passes it on without a test, and, starting with the empty catalogue,
`ApplyCommands` does not return a catalogue; when every request of type `Bus` has stops, it
ends with the `std::out_of_range` that `stop_to_buses_.at` throws in `AddBus`. -/
theorem tc.unknown_stop_in_bus_request (requests : List BaseRequest) (name : String)
    (stops : List String) (is_roundtrip : Bool) (stop_name : String)
    (hbus : BaseRequest.Bus name stops is_roundtrip ∈ requests) (hstop : stop_name ∈ stops)
    (hunknown : ∀ n coordinates road_distances,
      BaseRequest.Stop n coordinates road_distances ∈ requests → n ≠ stop_name) :
    (ApplyCommands.stops requests {}).GetStop stop_name = none ∧
    (∃ e, ApplyCommands requests {} = .error e) ∧
    ((∀ name stops is_roundtrip,
      BaseRequest.Bus name stops is_roundtrip ∈ requests → stops ≠ []) →
      ApplyCommands requests {} = .error .out_of_range) := by
  obtain ⟨hs, hl⟩ := tc.ApplyCommands.stops_spec stop_name requests {}
    tc.TransportCatalogue.Served.empty_catalogue rfl hunknown
  obtain ⟨e, he, hkind⟩ := tc.ApplyCommands.buses_spec stop_name requests _ hs hl
    ⟨name, stops, is_roundtrip, hbus, hstop⟩
  refine ⟨?_, ⟨e, ?_⟩, ?_⟩
  · unfold TransportCatalogue.GetStop
    rw [hl]
  · unfold ApplyCommands
    rw [he]
  · intro hne
    unfold ApplyCommands
    rw [he, hkind hne]

/-- Witness of C22: for the array with the stop `A` and the ring bus `1` through `A` and `Z`,
`GetStop` returns `nullptr` for `Z` and `ApplyCommands` ends with `std::out_of_range`. -/
theorem tc.unknown_stop_in_bus_request_witness :
    (ApplyCommands.stops [.Stop "A" ⟨0, 0⟩ [], .Bus "1" ["A", "Z"] true] {}).GetStop "Z"
      = none ∧
    ApplyCommands [.Stop "A" ⟨0, 0⟩ [], .Bus "1" ["A", "Z"] true] {} = .error .out_of_range :=
  have h := tc.unknown_stop_in_bus_request [.Stop "A" ⟨0, 0⟩ [], .Bus "1" ["A", "Z"] true] "1"
    ["A", "Z"] true "Z" (by simp) (by simp)
    (by
      intro n coordinates road_distances hm
      simp only [List.mem_cons, BaseRequest.Stop.injEq, reduceCtorEq, List.mem_singleton,
        List.not_mem_nil, or_false] at hm
      rw [hm.1]
      decide)
  ⟨h.1, h.2.2 (by
    intro name stops is_roundtrip hm
    simp only [List.mem_cons, BaseRequest.Bus.injEq, reduceCtorEq, List.mem_singleton,
      List.not_mem_nil, or_false, false_or] at hm
    rw [hm.2.1]
    simp)⟩

/-! ## Construction and the routing settings -/

namespace tc.router.TransportRouter

open graph Relation DirectedWeightedGraph

/-- The loop of `AddStopsToGraph` keeps the keys of `edge_stats_` equal to the ids of the
edges, the last one first. -/
theorem AddStopsToGraph.loop_keys :
    ∀ (stops : List Stop) (k vertex_counter : Nat) (self self' : TransportRouter),
      self.edge_stats_.map Prod.fst = (List.range self.graph_.edges_.length).reverse →
      AddStopsToGraph.loop stops k vertex_counter self = .ok self' →
      self'.edge_stats_.map Prod.fst = (List.range self'.graph_.edges_.length).reverse := by
  intro stops
  induction stops with
  | nil =>
    intro k vertex_counter self self' hkeys h
    rw [AddStopsToGraph.loop] at h
    injection h with h
    subst h
    exact hkeys
  | cons stop rest ih =>
    intro k vertex_counter self self' hkeys h
    rw [AddStopsToGraph.loop] at h
    cases hadd : self.graph_.AddEdge
        ⟨vertex_counter, vertex_counter + 1, (self.settings_.bus_wait_time : ℚ)⟩ with
    | error e => simp only [hadd] at h; cases h
    | ok r =>
      obtain ⟨g, edge_id⟩ := r
      simp only [hadd] at h
      obtain ⟨_, _, hg, hid⟩ := AddEdge_ok hadd
      subst hg hid
      apply ih (k + 1) (vertex_counter + 2) _ self' _ h
      simp only [List.map_cons, List.length_append, List.length_singleton, List.range_succ,
        List.reverse_append, List.reverse_singleton, List.singleton_append, hkeys]

/-- Steps of `SetRouteEdges` keep the keys of `edge_stats_` equal to the ids of the edges, the
last one first, and give every edge they insert the sum of the times of distances of the
catalogue as weight. -/
theorem keys_steps {a b : TransportRouter} (h : ReflTransGen RideStep a b)
    (hkeys : a.edge_stats_.map Prod.fst = (List.range a.graph_.edges_.length).reverse) :
    b.edge_stats_.map Prod.fst = (List.range b.graph_.edges_.length).reverse ∧
    ∀ (id : Nat) (edge : Edge), a.graph_.edges_.length ≤ id →
      b.graph_.edges_[id]? = some edge →
      ∃ dists : List Int,
        (∀ d ∈ dists, ∃ p q, a.transport_catalogue_.GetDistance p q = .ok d) ∧
        edge.weight = (dists.map (leg_time a.settings_)).sum := by
  induction h with
  | refl =>
    refine ⟨hkeys, ?_⟩
    intro id edge hid hedge
    rcases List.getElem?_eq_some.1 hedge with ⟨hlt, _⟩
    omega
  | tail hab hstep ih =>
    rename_i m b'
    obtain ⟨ihkeys, ihw⟩ := ih
    obtain ⟨f1, f2, _, _, f5, _⟩ := RideStep.frame_star hab
    obtain ⟨_, _, _, _, hlen, hkeep⟩ := RideStep.frame hstep
    constructor
    · cases hstep with
      | step bus_name stop_from stop_to hub_from terminal_from hub_to terminal_to dists time
          span_count hne hfrom hto hdists htime hfr htr =>
        simp only [List.map_cons, List.length_append, List.length_singleton, List.range_succ,
          List.reverse_append, List.reverse_singleton, List.singleton_append, ihkeys]
    · intro id edge hid hedge
      by_cases hlt : id < m.graph_.edges_.length
      · rw [(hkeep id hlt).1] at hedge
        exact ihw id edge hid hedge
      · have hlt' : id < b'.graph_.edges_.length := by
          rcases List.getElem?_eq_some.1 hedge with ⟨hlt', _⟩
          exact hlt'
        have hideq : id = m.graph_.edges_.length := by omega
        subst hideq
        cases hstep with
        | step bus_name stop_from stop_to hub_from terminal_from hub_to terminal_to dists time
            span_count hne hfrom hto hdists htime hfr htr =>
          have hedge' : edge = ⟨terminal_from, hub_to, time⟩ := by
            have := List.getElem?_concat_length m.graph_.edges_
              (⟨terminal_from, hub_to, time⟩ : Edge)
            exact (Option.some.inj (hedge.symm.trans this))
          subst hedge'
          refine ⟨dists, ?_, ?_⟩
          · intro d hd
            rw [← f1]
            exact hdists d hd
          · rw [← f2]
            exact htime

end tc.router.TransportRouter

/-- C24: when construction completes, the keys of the table of the descriptors are the ids of
the edges of the graph, each of them once, and the descriptor of every edge has the weight of
the edge as time: the descriptor of the wait edge of a stop is a `WaitRouteStat` and the weight
is `bus_wait_time`, the descriptor of every other edge is a `BusRouteStat` and the weight is the
sum of the times of road distances read from the catalogue. -/
theorem tc.router.edges_have_descriptors (c : TransportCatalogue) (settings : RoutingSettings)
    (tr : TransportRouter) (h : TransportRouter.new c settings = .ok tr) :
    tr.edge_stats_.map Prod.fst = (List.range tr.graph_.GetEdgeCount).reverse ∧
    ∀ (id : Nat) (edge : graph.Edge), tr.graph_.edges_[id]? = some edge →
      (tr.edge_stats_.map Prod.fst).count id = 1 ∧
      ∃ stat, tr.edge_stats_at id = .ok stat ∧ stat.time = edge.weight ∧
        (id < c.GetAllStops.length →
          stat.GetType = .WAIT ∧ edge.weight = (settings.bus_wait_time : ℚ)) ∧
        (c.GetAllStops.length ≤ id →
          stat.GetType = .BUS ∧
          ∃ dists : List Int, (∀ d ∈ dists, ∃ p q, c.GetDistance p q = .ok d) ∧
            edge.weight = (dists.map (TransportRouter.leg_time settings)).sum) := by
  obtain ⟨htc, hs, hb, _, mid, hmid, hlen, hbm, hchain⟩ :=
    TransportRouter.new_steps c settings tr h
  obtain ⟨mid', hmid', hc', hs', _, _⟩ := TransportRouter.AddStopsToGraph_ok c settings
  have hsame : mid' = mid := by
    have := hmid'.symm.trans hmid
    injection this
  subst hsame
  have hkeys_mid : mid'.edge_stats_.map Prod.fst
      = (List.range mid'.graph_.edges_.length).reverse := by
    unfold TransportRouter.AddStopsToGraph at hmid
    exact TransportRouter.AddStopsToGraph.loop_keys c.GetAllStops 0 0
      { transport_catalogue_ := c, settings_ := settings,
        graph_ := { vertex_count := c.GetAllStops.length * 2 } } mid' rfl hmid
  obtain ⟨hkeys, hweights⟩ := TransportRouter.keys_steps hchain hkeys_mid
  refine ⟨hkeys, ?_⟩
  intro id edge hedge
  have hid : id < tr.graph_.edges_.length := by
    rcases List.getElem?_eq_some.1 hedge with ⟨hlt, _⟩
    exact hlt
  constructor
  · rw [hkeys]
    apply List.count_eq_one_of_mem
    · exact List.nodup_reverse.2 (List.nodup_range _)
    · exact List.mem_reverse.2 (List.mem_range.2 hid)
  · by_cases hw : id < c.stops_.length
    · obtain ⟨s, hs0⟩ : ∃ s, tr.transport_catalogue_.stops_[id]? = some s := by
        rw [htc]
        exact ⟨_, List.getElem?_eq_getElem hw⟩
      obtain ⟨w1, w2⟩ := hb.wait_edge id s hs0
      have hedge' : edge = ⟨2 * id, 2 * id + 1, (tr.settings_.bus_wait_time : ℚ)⟩ :=
        Option.some.inj (hedge.symm.trans w1)
      subst hedge'
      refine ⟨.WaitRouteStat s.name (tr.settings_.bus_wait_time : ℚ), ?_, rfl, ?_, ?_⟩
      · unfold TransportRouter.edge_stats_at
        rw [w2]
      · intro _
        exact ⟨rfl, by rw [hs]⟩
      · intro hge
        exact absurd hw (by simpa [TransportCatalogue.GetAllStops] using hge)
    · obtain ⟨a, b, _, _, _, _, _, bus_name, span_count, hstat⟩ :=
        hb.ride_edge id edge (by rw [htc]; omega) hedge
      refine ⟨.BusRouteStat bus_name edge.weight span_count, ?_, rfl, ?_, ?_⟩
      · unfold TransportRouter.edge_stats_at
        rw [hstat]
      · intro hlt
        exact absurd hlt hw
      · intro _
        refine ⟨rfl, ?_⟩
        have := hweights id edge (by rw [hlen]; omega) hedge
        rw [hc', hs'] at this
        exact this

/-- Witness of C24: the table of `demo_router` has one descriptor for each of its edges. -/
theorem tc.router.edges_have_descriptors_witness :
    demo_router.edge_stats_.map Prod.fst = (List.range demo_router.graph_.GetEdgeCount).reverse ∧
    (demo_router.edge_stats_.map Prod.fst).count 3 = 1 ∧
    demo_router.graph_.edges_[3]? = some ⟨1, 2, 117 / 20⟩ ∧
    demo_router.edge_stats_at 3 = .ok (.BusRouteStat "297" (117 / 20) 1) :=
  have h := tc.router.edges_have_descriptors demo_catalogue demo_settings demo_router
    TransportRouter.demo_router_built
  have hedge : demo_router.graph_.edges_[3]? = some ⟨1, 2, 117 / 20⟩ := by
    with_unfolding_all rfl
  ⟨h.1, (h.2 3 _ hedge).1, hedge, by with_unfolding_all rfl⟩

/-! ## Where the ride edges come from -/

namespace tc.router.TransportRouter

open graph Relation DirectedWeightedGraph

/-- Every edge that the inner loop of `SetRouteEdges` leaves in the graph was there before or
goes from the terminal vertex it is given to the hub vertex of a stop of its range that
differs from the stop it starts at. -/
theorem SetRouteEdges.inner_source (bus_name : String) (stop_from : StopPtr) (terminal : Nat) :
    ∀ (rest : List StopPtr) (prev : StopPtr) (time : ℚ) (span_count : Int)
      (self self' : TransportRouter),
      SetRouteEdges.inner bus_name stop_from terminal prev rest time span_count self
        = .ok self' →
      ∀ (id : Nat) (edge : Edge), self'.graph_.edges_[id]? = some edge →
        self.graph_.edges_[id]? = some edge ∨
        (self.graph_.edges_.length ≤ id ∧ edge.from_vertex = terminal ∧
          ∃ (j : Nat) (stop_to : StopPtr) (hub_to terminal_to : Nat),
            rest[j]? = some stop_to ∧ stop_to ≠ stop_from ∧
            self.stop_vertices_.lookup stop_to = some (hub_to, terminal_to) ∧
            edge.to_vertex = hub_to) := by
  intro rest
  induction rest with
  | nil =>
    intro prev time span_count self self' h id edge hedge
    rw [SetRouteEdges.inner] at h
    injection h with h
    subst h
    exact Or.inl hedge
  | cons stop_to rest ih =>
    intro prev time span_count self self' h id edge hedge
    rw [SetRouteEdges.inner] at h
    by_cases heq : stop_from = stop_to
    · rw [if_pos heq] at h
      rcases ih stop_to time span_count self self' h id edge hedge with hold | hnew
      · exact Or.inl hold
      · obtain ⟨h1, h2, j, q, hub, t, h3, h4, h5, h6⟩ := hnew
        exact Or.inr ⟨h1, h2, j + 1, q, hub, t, by simpa using h3, h4, h5, h6⟩
    · rw [if_neg heq] at h
      cases hd : self.transport_catalogue_.GetDistance prev stop_to with
      | error e => simp only [hd] at h; cases h
      | ok distance =>
        simp only [hd] at h
        cases hat : self.stop_vertices_at stop_to with
        | error e => simp only [hat] at h; cases h
        | ok p =>
          obtain ⟨hub_to, terminal_to⟩ := p
          simp only [hat] at h
          cases hadd : self.graph_.AddEdge
              ⟨terminal, hub_to, time + (distance : ℚ) / self.settings_.bus_velocity
                * velocity_coefficient⟩ with
          | error e => simp only [hadd] at h; cases h
          | ok r =>
            obtain ⟨g, edge_id⟩ := r
            simp only [hadd] at h
            obtain ⟨_, _, hg, hid⟩ := AddEdge_ok hadd
            subst hg hid
            have key := ih stop_to _ (span_count + 1) _ self' h id edge hedge
            simp only at key
            rcases key with hold | hnew
            · by_cases hlt : id < self.graph_.edges_.length
              · rw [List.getElem?_append_left hlt] at hold
                exact Or.inl hold
              · have hlen : id < (self.graph_.edges_ ++
                    [(⟨terminal, hub_to, time + (distance : ℚ) / self.settings_.bus_velocity
                      * velocity_coefficient⟩ : Edge)]).length := by
                  rcases List.getElem?_eq_some.1 hold with ⟨hl, _⟩
                  exact hl
                simp only [List.length_append, List.length_singleton] at hlen
                have hideq : id = self.graph_.edges_.length := by omega
                subst hideq
                rw [List.getElem?_concat_length] at hold
                injection hold with hold
                subst hold
                exact Or.inr ⟨le_refl _, rfl, 0, stop_to, hub_to, terminal_to, by simp,
                  fun e => heq e.symm, stop_vertices_at_ok hat, rfl⟩
            · obtain ⟨h1, h2, j, q, hub, t, h3, h4, h5, h6⟩ := hnew
              simp only [List.length_append, List.length_singleton] at h1
              exact Or.inr ⟨by omega, h2, j + 1, q, hub, t, by simpa using h3, h4, h5, h6⟩

/-- Every edge that `SetRouteEdges` leaves in the graph was there before or goes from the
terminal vertex of a stop of its range to the hub vertex of another stop at a later position
of the range. -/
theorem SetRouteEdges_source (bus_name : String) :
    ∀ (sub_path : List StopPtr) (self self' : TransportRouter),
      SetRouteEdges bus_name sub_path self = .ok self' →
      ∀ (id : Nat) (edge : Edge), self'.graph_.edges_[id]? = some edge →
        self.graph_.edges_[id]? = some edge ∨
        (self.graph_.edges_.length ≤ id ∧
          ∃ (stop_a stop_b : StopPtr) (hub_a terminal_a hub_b terminal_b : Nat),
            range_visits sub_path stop_a stop_b ∧ stop_a ≠ stop_b ∧
            self.stop_vertices_.lookup stop_a = some (hub_a, terminal_a) ∧
            self.stop_vertices_.lookup stop_b = some (hub_b, terminal_b) ∧
            edge.from_vertex = terminal_a ∧ edge.to_vertex = hub_b) := by
  intro sub_path
  induction sub_path with
  | nil =>
    intro self self' h id edge hedge
    rw [SetRouteEdges] at h
    injection h with h
    subst h
    exact Or.inl hedge
  | cons stop_from rest ih =>
    intro self self' h id edge hedge
    rw [SetRouteEdges] at h
    cases hat : self.stop_vertices_at stop_from with
    | error e => simp only [hat] at h; cases h
    | ok p =>
      obtain ⟨hub_from, terminal⟩ := p
      simp only [hat] at h
      cases hin : SetRouteEdges.inner bus_name stop_from terminal stop_from rest 0 0 self with
      | error e => simp only [hin] at h; cases h
      | ok mid =>
        simp only [hin] at h
        have hfrom := stop_vertices_at_ok hat
        obtain ⟨hchain, _⟩ := SetRouteEdges.inner_steps bus_name stop_from hub_from terminal
          rest stop_from 0 0 self mid [] hfrom (by simp) (by simp) hin
        obtain ⟨_, _, f3, _, f5, _⟩ := RideStep.frame_star hchain
        rcases ih mid self' h id edge hedge with hold | hnew
        · rcases SetRouteEdges.inner_source bus_name stop_from terminal rest stop_from 0 0 self
            mid hin id edge hold with hold' | hnew'
          · exact Or.inl hold'
          · obtain ⟨h1, h2, j, q, hub, t, h3, h4, h5, h6⟩ := hnew'
            exact Or.inr ⟨h1, stop_from, q, hub_from, terminal, hub, t,
              ⟨0, j + 1, by omega, by simp, by simpa using h3⟩, fun e => h4 e.symm, hfrom, h5,
              h2, h6⟩
        · obtain ⟨h1, a, b, ha, ta, hb, tb, ⟨i, j, hij, hi, hj⟩, h3, h4, h5, h6, h7⟩ := hnew
          rw [f3] at h4 h5
          exact Or.inr ⟨by omega, a, b, ha, ta, hb, tb,
            ⟨i + 1, j + 1, by omega, by simpa using hi, by simpa using hj⟩, h3, h4, h5, h6, h7⟩

/-- Every edge that the body of the loop of `AddBussesToGraph` leaves in the graph was there
before or goes from the terminal vertex of a stop of a range of the bus to the hub vertex of
another stop at a later position of the range. -/
theorem AddBussesToGraph.body_source (bus : Bus) (self self' : TransportRouter)
    (h : AddBussesToGraph.body bus self = .ok self') :
    ∀ (id : Nat) (edge : Edge), self'.graph_.edges_[id]? = some edge →
      self.graph_.edges_[id]? = some edge ∨
      (self.graph_.edges_.length ≤ id ∧
        ∃ (stop_a stop_b : StopPtr) (hub_a terminal_a hub_b terminal_b : Nat),
          (∃ sub_path, traversed bus sub_path ∧ range_visits sub_path stop_a stop_b) ∧
          stop_a ≠ stop_b ∧
          self.stop_vertices_.lookup stop_a = some (hub_a, terminal_a) ∧
          self.stop_vertices_.lookup stop_b = some (hub_b, terminal_b) ∧
          edge.from_vertex = terminal_a ∧ edge.to_vertex = hub_b) := by
  intro id edge hedge
  unfold AddBussesToGraph.body at h
  by_cases hrt : bus.is_roundtrip = true
  · rw [if_pos hrt] at h
    rcases SetRouteEdges_source bus.name bus.stops self self' h id edge hedge with hold | hnew
    · exact Or.inl hold
    · obtain ⟨h1, a, b, ha, ta, hb, tb, hv, h3, h4, h5, h6, h7⟩ := hnew
      exact Or.inr ⟨h1, a, b, ha, ta, hb, tb,
        ⟨bus.stops, by unfold traversed; rw [if_pos hrt], hv⟩, h3, h4, h5, h6, h7⟩
  · rw [if_neg hrt] at h
    by_cases hlen : bus.stops.length / 2 + 1 ≤ bus.stops.length
    · rw [if_pos hlen] at h
      cases hout : SetRouteEdges bus.name (outbound bus) self with
      | error e => simp only [hout] at h; cases h
      | ok mid =>
        simp only [hout] at h
        obtain ⟨hchain, _⟩ := SetRouteEdges_steps bus.name (outbound bus) self mid hout
        obtain ⟨_, _, f3, _, f5, _⟩ := RideStep.frame_star hchain
        rcases SetRouteEdges_source bus.name (inbound bus) mid self' h id edge hedge
          with hold | hnew
        · rcases SetRouteEdges_source bus.name (outbound bus) self mid hout id edge hold
            with hold' | hnew'
          · exact Or.inl hold'
          · obtain ⟨h1, a, b, ha, ta, hb, tb, hv, h3, h4, h5, h6, h7⟩ := hnew'
            exact Or.inr ⟨h1, a, b, ha, ta, hb, tb,
              ⟨outbound bus, by unfold traversed; rw [if_neg hrt]; exact Or.inl rfl, hv⟩,
              h3, h4, h5, h6, h7⟩
        · obtain ⟨h1, a, b, ha, ta, hb, tb, hv, h3, h4, h5, h6, h7⟩ := hnew
          rw [f3] at h4 h5
          exact Or.inr ⟨by omega, a, b, ha, ta, hb, tb,
            ⟨inbound bus, by unfold traversed; rw [if_neg hrt]; exact Or.inr rfl, hv⟩,
            h3, h4, h5, h6, h7⟩
    · rw [if_neg hlen] at h
      cases h

/-- Every edge that the loop of `AddBussesToGraph` leaves in the graph was there before or
goes from the terminal vertex of a stop of a range of one of the buses to the hub vertex of
another stop at a later position of the range. -/
theorem AddBussesToGraph.loop_source :
    ∀ (buses : List Bus) (self self' : TransportRouter),
      AddBussesToGraph.loop buses self = .ok self' →
      ∀ (id : Nat) (edge : Edge), self'.graph_.edges_[id]? = some edge →
        self.graph_.edges_[id]? = some edge ∨
        (self.graph_.edges_.length ≤ id ∧
          ∃ (stop_a stop_b : StopPtr) (hub_a terminal_a hub_b terminal_b : Nat),
            (∃ bus ∈ buses, ∃ sub_path, traversed bus sub_path ∧
              range_visits sub_path stop_a stop_b) ∧
            stop_a ≠ stop_b ∧
            self.stop_vertices_.lookup stop_a = some (hub_a, terminal_a) ∧
            self.stop_vertices_.lookup stop_b = some (hub_b, terminal_b) ∧
            edge.from_vertex = terminal_a ∧ edge.to_vertex = hub_b) := by
  intro buses
  induction buses with
  | nil =>
    intro self self' h id edge hedge
    rw [AddBussesToGraph.loop] at h
    injection h with h
    subst h
    exact Or.inl hedge
  | cons bus rest ih =>
    intro self self' h id edge hedge
    rw [AddBussesToGraph.loop] at h
    cases hbody : AddBussesToGraph.body bus self with
    | error e => simp only [hbody] at h; cases h
    | ok mid =>
      simp only [hbody] at h
      obtain ⟨hchain, _⟩ := AddBussesToGraph.body_steps bus self mid hbody
      obtain ⟨_, _, f3, _, f5, _⟩ := RideStep.frame_star hchain
      rcases ih mid self' h id edge hedge with hold | hnew
      · rcases AddBussesToGraph.body_source bus self mid hbody id edge hold with hold' | hnew'
        · exact Or.inl hold'
        · obtain ⟨h1, a, b, ha, ta, hb, tb, ⟨sp, htr, hv⟩, h3, h4, h5, h6, h7⟩ := hnew'
          exact Or.inr ⟨h1, a, b, ha, ta, hb, tb,
            ⟨bus, List.mem_cons_self _ _, sp, htr, hv⟩, h3, h4, h5, h6, h7⟩
      · obtain ⟨h1, a, b, ha, ta, hb, tb, ⟨bus', hm, sp, htr, hv⟩, h3, h4, h5, h6, h7⟩ := hnew
        rw [f3] at h4 h5
        exact Or.inr ⟨by omega, a, b, ha, ta, hb, tb,
          ⟨bus', List.mem_cons_of_mem _ hm, sp, htr, hv⟩, h3, h4, h5, h6, h7⟩

/-- The stops of a range that `AddBussesToGraph` passes to `SetRouteEdges` for a bus are stops
of the bus. -/
theorem traversed_subset {bus : Bus} {sub_path : List StopPtr} (h : traversed bus sub_path)
    {p : StopPtr} (hp : p ∈ sub_path) : p ∈ bus.stops := by
  unfold traversed at h
  by_cases hrt : bus.is_roundtrip = true
  · rw [if_pos hrt] at h
    subst h
    exact hp
  · rw [if_neg hrt] at h
    rcases h with h | h
    · subst h; exact List.mem_of_mem_take hp
    · subst h; exact List.mem_of_mem_drop hp

end tc.router.TransportRouter

/-- C26: when construction completes, every edge after the wait edges goes from the terminal
vertex of a stop `P` of the catalogue to the hub vertex of another stop `Q` of the catalogue
such that a bus of the catalogue has a traversed range with `P` at a position before a position
of `Q`; so no edge goes from the terminal vertex of a stop to the hub vertex of the same stop,
and no edge ends at the hub vertex of a stop that no bus has among its stops. -/
theorem tc.router.ride_edges_follow_buses (c : TransportCatalogue) (settings : RoutingSettings)
    (tr : TransportRouter) (h : TransportRouter.new c settings = .ok tr) :
    (∀ (id : Nat) (edge : graph.Edge), c.GetAllStops.length ≤ id →
      tr.graph_.edges_[id]? = some edge →
      ∃ p q, p < c.GetAllStops.length ∧ q < c.GetAllStops.length ∧ p ≠ q ∧
        edge.from_vertex = 2 * p + 1 ∧ edge.to_vertex = 2 * q ∧
        TransportRouter.bus_visits c (some p) (some q)) ∧
    (∀ (id : Nat) (edge : graph.Edge) (k : Nat), tr.graph_.edges_[id]? = some edge →
      ¬ (edge.from_vertex = 2 * k + 1 ∧ edge.to_vertex = 2 * k)) ∧
    (∀ k, (∀ bus ∈ c.GetAllBuses, some k ∉ bus.stops) →
      ∀ (id : Nat) (edge : graph.Edge), tr.graph_.edges_[id]? = some edge →
        edge.to_vertex ≠ 2 * k) := by
  obtain ⟨htc, hs, hb, _, mid, hmid, hlen, hbm, hchain⟩ :=
    TransportRouter.new_steps c settings tr h
  obtain ⟨mid', hmid', hc', _, _, _⟩ := TransportRouter.AddStopsToGraph_ok c settings
  have hsame : mid' = mid := by
    have := hmid'.symm.trans hmid
    injection this
  subst hsame
  obtain ⟨built, hrun, htr⟩ := TransportRouter.new_built c settings tr h
  unfold TransportRouter.ConstructGraph at hrun
  simp only [hmid] at hrun
  unfold TransportRouter.AddBussesToGraph at hrun
  rw [hc'] at hrun
  have hgraph : tr.graph_ = built.graph_ := by rw [htr]
  have hride : ∀ (id : Nat) (edge : graph.Edge), c.GetAllStops.length ≤ id →
      tr.graph_.edges_[id]? = some edge →
      ∃ p q, p < c.GetAllStops.length ∧ q < c.GetAllStops.length ∧ p ≠ q ∧
        edge.from_vertex = 2 * p + 1 ∧ edge.to_vertex = 2 * q ∧
        TransportRouter.bus_visits c (some p) (some q) := by
    intro id edge hid hedge
    rw [hgraph] at hedge
    rcases TransportRouter.AddBussesToGraph.loop_source c.GetAllBuses mid' built hrun id edge
        hedge
      with hold | hnew
    · rcases List.getElem?_eq_some.1 hold with ⟨hlt, _⟩
      rw [hlen] at hlt
      exact absurd hlt (by simpa [TransportCatalogue.GetAllStops] using hid)
    · obtain ⟨_, a, b, ha, ta, hb', tb, hv, hne, h4, h5, h6, h7⟩ := hnew
      cases a with
      | none => rw [hbm.lookup_none] at h4; cases h4
      | some p =>
        cases b with
        | none => rw [hbm.lookup_none] at h5; cases h5
        | some q =>
          rw [hbm.lookup_some p, hc'] at h4
          rw [hbm.lookup_some q, hc'] at h5
          by_cases hp : p < c.stops_.length
          · by_cases hq : q < c.stops_.length
            · rw [if_pos hp] at h4
              rw [if_pos hq] at h5
              simp only [Option.some.injEq, Prod.mk.injEq] at h4 h5
              exact ⟨p, q, hp, hq, fun e => hne (by rw [e]), by omega, by omega, hv⟩
            · rw [if_neg hq] at h5; cases h5
          · rw [if_neg hp] at h4; cases h4
  have hall : ∀ (id : Nat) (edge : graph.Edge), tr.graph_.edges_[id]? = some edge →
      (id < c.stops_.length ∧ edge.from_vertex = 2 * id ∧ edge.to_vertex = 2 * id + 1) ∨
      ∃ p q, p ≠ q ∧ edge.from_vertex = 2 * p + 1 ∧ edge.to_vertex = 2 * q ∧
        TransportRouter.bus_visits c (some p) (some q) := by
    intro id edge hedge
    by_cases hw : id < c.stops_.length
    · obtain ⟨s, hs0⟩ : ∃ s, tr.transport_catalogue_.stops_[id]? = some s := by
        rw [htc]
        exact ⟨_, List.getElem?_eq_getElem hw⟩
      obtain ⟨w1, _⟩ := hb.wait_edge id s hs0
      have hedge' : edge = ⟨2 * id, 2 * id + 1, (tr.settings_.bus_wait_time : ℚ)⟩ :=
        Option.some.inj (hedge.symm.trans w1)
      subst hedge'
      exact Or.inl ⟨hw, rfl, rfl⟩
    · obtain ⟨p, q, _, _, hne, e1, e2, hv⟩ := hride id edge
        (by simpa [TransportCatalogue.GetAllStops] using hw) hedge
      exact Or.inr ⟨p, q, hne, e1, e2, hv⟩
  refine ⟨hride, ?_, ?_⟩
  · intro id edge k hedge hk
    rcases hall id edge hedge with ⟨_, e1, e2⟩ | ⟨p, q, hne, e1, e2, _⟩
    · omega
    · omega
  · intro k hno id edge hedge hto
    rcases hall id edge hedge with ⟨_, e1, e2⟩ | ⟨p, q, hne, e1, e2, hv⟩
    · omega
    · have hqk : q = k := by omega
      subst hqk
      obtain ⟨bus, hbus, sub_path, htr, i, j, _, _, hj⟩ := hv
      exact hno bus hbus (TransportRouter.traversed_subset htr (List.getElem?_mem hj))

/-- Witness of C26: in `island_router`, whose third stop no bus visits, the edge 3 is a ride
edge from the terminal vertex of the first stop to the hub vertex of the second one, and no
edge ends at the hub vertex 4 of the third stop. -/
theorem tc.router.ride_edges_follow_buses_witness :
    island_router.graph_.edges_[3]? = some ⟨1, 2, 1⟩ ∧
    (∃ p q, p < island_catalogue.GetAllStops.length ∧ q < island_catalogue.GetAllStops.length ∧
      p ≠ q ∧ (1 : Nat) = 2 * p + 1 ∧ (2 : Nat) = 2 * q ∧
      TransportRouter.bus_visits island_catalogue (some p) (some q)) ∧
    ∀ (id : Nat) (edge : graph.Edge), island_router.graph_.edges_[id]? = some edge →
      edge.to_vertex ≠ 2 * 2 :=
  have h := tc.router.ride_edges_follow_buses island_catalogue loop_settings island_router
    tc.router.island_router_built
  have hedge : island_router.graph_.edges_[3]? = some ⟨1, 2, 1⟩ := by with_unfolding_all rfl
  ⟨hedge, h.1 3 _ (by decide) hedge, h.2.2 2 (by decide)⟩

/-! ## The edges of a range of different stops -/

namespace tc.router.TransportRouter

open graph Relation DirectedWeightedGraph

/-- The time accumulated at the first position of the range. -/
theorem time_after_zero (settings : RoutingSettings) (dist : StopPtr → StopPtr → Int)
    (prev stop_to : StopPtr) (rest : List StopPtr) (time : ℚ) :
    time_after settings dist prev (stop_to :: rest) time 0
      = time + (dist prev stop_to : ℚ) / settings.bus_velocity * velocity_coefficient := by
  simp [time_after, leg_time]

/-- The time accumulated at a later position of the range. -/
theorem time_after_succ (settings : RoutingSettings) (dist : StopPtr → StopPtr → Int)
    (prev stop_to : StopPtr) (rest : List StopPtr) (time : ℚ) (t : Nat) :
    time_after settings dist prev (stop_to :: rest) time (t + 1)
      = time_after settings dist stop_to rest
          (time + (dist prev stop_to : ℚ) / settings.bus_velocity * velocity_coefficient) t := by
  simp [time_after, leg_time, add_assoc]

/-- The inner loop of `SetRouteEdges` on a range of stops of the catalogue that differ from the
stop it starts at, when the catalogue has the distances between consecutive stops: it returns,
it changes nothing but the edges and their descriptors, and it appends one edge for every
position of the range, with the time accumulated at that position as weight and in the
descriptor. -/
theorem SetRouteEdges.inner_exact (bus_name : String) (c : TransportCatalogue)
    (settings : RoutingSettings) (dist : StopPtr → StopPtr → Int) (stop_from : StopPtr)
    (terminal : Nat) :
    ∀ (rest : List Nat) (prev : StopPtr) (time : ℚ) (span_count : Int) (self : TransportRouter),
      self.transport_catalogue_ = c → self.settings_ = settings →
      self.graph_.vertex_count = 2 * c.stops_.length →
      (∀ k, k < c.stops_.length →
        self.stop_vertices_.lookup (some k) = some (2 * k, 2 * k + 1)) →
      terminal < 2 * c.stops_.length →
      (∀ k ∈ rest, k < c.stops_.length ∧ stop_from ≠ some k) →
      (∀ (u : Nat) (p q : StopPtr), (prev :: rest.map some)[u]? = some p →
        (prev :: rest.map some)[u + 1]? = some q → c.GetDistance p q = .ok (dist p q)) →
      ∃ self', SetRouteEdges.inner bus_name stop_from terminal prev (rest.map some) time
          span_count self = .ok self' ∧
        self'.transport_catalogue_ = self.transport_catalogue_ ∧
        self'.settings_ = self.settings_ ∧ self'.stop_vertices_ = self.stop_vertices_ ∧
        self'.graph_.vertex_count = self.graph_.vertex_count ∧
        self'.graph_.edges_ = self.graph_.edges_ ++
          (List.range rest.length).map (fun t => (⟨terminal, 2 * rest.getD t 0,
            time_after settings dist prev (rest.map some) time t⟩ : Edge)) ∧
        (∀ id, id < self.graph_.edges_.length →
          self'.edge_stats_.lookup id = self.edge_stats_.lookup id) ∧
        ∀ t, t < rest.length →
          self'.edge_stats_.lookup (self.graph_.edges_.length + t) =
            some (.BusRouteStat bus_name
              (time_after settings dist prev (rest.map some) time t) (span_count + (t + 1))) := by
  intro rest
  induction rest with
  | nil =>
    intro prev time span_count self _ _ _ _ _ _ _
    exact ⟨self, by simp [SetRouteEdges.inner], rfl, rfl, rfl, rfl, by simp, fun _ _ => rfl,
      fun t ht => by simp at ht⟩
  | cons y rest ih =>
    intro prev time span_count self hc hs hvc hlook hterm hvalid hdist
    obtain ⟨hy, hne⟩ := hvalid y (List.mem_cons_self _ _)
    have hd : self.transport_catalogue_.GetDistance prev (some y)
        = .ok (dist prev (some y)) := by
      rw [hc]
      exact hdist 0 prev (some y) (by simp) (by simp)
    have hat : self.stop_vertices_at (some y) = .ok (2 * y, 2 * y + 1) := by
      unfold stop_vertices_at
      rw [hlook y hy]
    have hadd : self.graph_.AddEdge
        ⟨terminal, 2 * y, time + (dist prev (some y) : ℚ) / self.settings_.bus_velocity
          * velocity_coefficient⟩
        = .ok ({ self.graph_ with edges_ := self.graph_.edges_ ++
            [⟨terminal, 2 * y, time + (dist prev (some y) : ℚ) / self.settings_.bus_velocity
              * velocity_coefficient⟩] }, self.graph_.edges_.length) := by
      unfold DirectedWeightedGraph.AddEdge
      rw [if_pos ⟨by simp only; omega, by simp only; omega⟩]
    obtain ⟨self', hrun, f1, f2, f3, f4, hedges, hkeep, hstats⟩ := ih (some y)
      (time + (dist prev (some y) : ℚ) / self.settings_.bus_velocity * velocity_coefficient)
      (span_count + 1)
      { self with
        edge_stats_ :=
          (self.graph_.edges_.length,
            .BusRouteStat bus_name
              (time + (dist prev (some y) : ℚ) / self.settings_.bus_velocity
                * velocity_coefficient) (span_count + 1)) :: self.edge_stats_
        graph_ := { self.graph_ with edges_ := self.graph_.edges_ ++
          [⟨terminal, 2 * y, time + (dist prev (some y) : ℚ) / self.settings_.bus_velocity
            * velocity_coefficient⟩] } }
      hc hs hvc hlook hterm (fun k hk => hvalid k (List.mem_cons_of_mem _ hk))
      (fun u p q hp hq => hdist (u + 1) p q (by simpa using hp) (by simpa using hq))
    simp only [List.length_append, List.length_singleton] at hedges hkeep hstats
    refine ⟨self', ?_, f1, f2, f3, f4, ?_, ?_, ?_⟩
    · rw [List.map_cons, SetRouteEdges.inner, if_neg hne]
      simp only [hd, hat, hadd]
      exact hrun
    · rw [hedges, List.length_cons, List.range_succ_eq_map, List.map_cons, List.map_map,
        List.append_assoc, List.singleton_append, List.map_cons, List.getD_cons_zero,
        time_after_zero, hs]
      congr 2
      apply List.map_congr_left
      intro t _
      simp only [Function.comp, List.getD_cons_succ, time_after_succ]
    · intro id hid
      rw [hkeep id (by omega)]
      show List.lookup id (_ :: self.edge_stats_) = _
      rw [lookup_cons_eq, if_neg (by omega)]
    · intro t ht
      cases t with
      | zero =>
        rw [Nat.add_zero, hkeep _ (by omega)]
        show List.lookup _ (_ :: self.edge_stats_) = _
        rw [List.lookup_cons_self, List.map_cons, time_after_zero, hs]
        simp
      | succ t =>
        simp only [List.length_cons] at ht
        have := hstats t (by omega)
        rw [show self.graph_.edges_.length + (t + 1) = self.graph_.edges_.length + 1 + t by omega,
          this, List.map_cons, time_after_succ, hs]
        congr 2
        push_cast
        ring

/-- The pairs of `position_pairs m` are the pairs of positions `i < j` below `m`. -/
theorem mem_position_pairs : ∀ (m i j : Nat), (i, j) ∈ position_pairs m ↔ i < j ∧ j < m := by
  intro m
  induction m with
  | zero => intro i j; simp [position_pairs]
  | succ m ih =>
    intro i j
    rw [position_pairs, List.mem_append, List.mem_map, List.mem_map]
    constructor
    · rintro (⟨t, ht, hp⟩ | ⟨p, hp, hq⟩)
      · simp only [Prod.mk.injEq] at hp
        have := List.mem_range.1 ht
        omega
      · obtain ⟨a, b⟩ := p
        simp only [Prod.mk.injEq] at hq
        have := (ih a b).1 hp
        omega
    · rintro ⟨hij, hj⟩
      cases i with
      | zero =>
        refine Or.inl ⟨j - 1, List.mem_range.2 (by omega), ?_⟩
        show (0, j - 1 + 1) = (0, j)
        rw [Nat.sub_add_cancel (by omega)]
      | succ i =>
        refine Or.inr ⟨(i, j - 1), (ih i (j - 1)).2 (by omega), ?_⟩
        show (i + 1, j - 1 + 1) = (i + 1, j)
        rw [Nat.sub_add_cancel (by omega)]

/-- No pair comes twice in `position_pairs m`. -/
theorem nodup_position_pairs : ∀ m : Nat, (position_pairs m).Nodup := by
  intro m
  induction m with
  | zero => simp [position_pairs]
  | succ m ih =>
    rw [position_pairs]
    apply List.Nodup.append
    · apply List.Nodup.map _ (List.nodup_range m)
      intro a b hab
      simp only [Prod.mk.injEq] at hab
      omega
    · apply List.Nodup.map _ ih
      intro a b hab
      obtain ⟨a1, a2⟩ := a
      obtain ⟨b1, b2⟩ := b
      simp only [Prod.mk.injEq] at hab ⊢
      omega
    · intro p hp1 hp2
      obtain ⟨t, _, ht⟩ := List.mem_map.1 hp1
      obtain ⟨q, _, hq⟩ := List.mem_map.1 hp2
      rw [← ht] at hq
      simp only [Prod.mk.injEq] at hq
      omega

/-- There are `m * (m - 1) / 2` pairs in `position_pairs m`. -/
theorem length_position_pairs : ∀ m : Nat, (position_pairs m).length = m * (m - 1) / 2 := by
  have key : ∀ m : Nat, (position_pairs m).length * 2 = m * (m - 1) := by
    intro m
    induction m with
    | zero => simp [position_pairs]
    | succ m ih =>
      rw [position_pairs, List.length_append, List.length_map, List.length_map,
        List.length_range, Nat.add_mul, ih]
      cases m with
      | zero => rfl
      | succ k =>
        simp only [Nat.add_sub_cancel]
        ring
  intro m
  have := key m
  omega

/-- The times of a list of distances add up to the time of their sum. -/
theorem sum_leg_time (settings : RoutingSettings) (l : List Int) :
    (l.map (leg_time settings)).sum
      = ((l.sum : Int) : ℚ) / settings.bus_velocity * velocity_coefficient := by
  induction l with
  | nil => simp
  | cons d l ih =>
    rw [List.map_cons, List.sum_cons, List.sum_cons, ih, leg_time]
    push_cast
    rw [add_div, add_mul]

/-- The sum of the distances between two positions of a range that has one more stop in
front. -/
theorem road_between_cons (dist : StopPtr → StopPtr → Int) (stop : StopPtr)
    (sub_path : List StopPtr) (i j : Nat) :
    road_between dist (stop :: sub_path) (i + 1) (j + 1) = road_between dist sub_path i j := by
  unfold road_between consecutive_distances
  cases sub_path with
  | nil => simp
  | cons second rest => simp

/-- The time accumulated from nothing at a position of the range is the time of the sum of the
distances up to that position. -/
theorem time_after_eq (settings : RoutingSettings) (dist : StopPtr → StopPtr → Int)
    (stop : StopPtr) (rest : List StopPtr) (t : Nat) :
    time_after settings dist stop rest 0 t
      = ((road_between dist (stop :: rest) 0 (t + 1) : Int) : ℚ) / settings.bus_velocity
        * velocity_coefficient := by
  unfold time_after road_between consecutive_distances
  rw [zero_add, sum_leg_time]
  simp

/-- `SetRouteEdges` on a range of different stops of the catalogue, when the catalogue has the
distances between consecutive stops: it returns, it changes nothing but the edges and their
descriptors, and it appends one edge for every pair of positions `i < j` of the range, from the
terminal vertex of the stop at `i` to the hub vertex of the stop at `j`, with the time of the
sum of the distances from `i` to `j` as weight and `j - i` as `span_count`. -/
theorem SetRouteEdges_exact (bus_name : String) (c : TransportCatalogue)
    (settings : RoutingSettings) (dist : StopPtr → StopPtr → Int) :
    ∀ (ks : List Nat) (self : TransportRouter),
      self.transport_catalogue_ = c → self.settings_ = settings →
      self.graph_.vertex_count = 2 * c.stops_.length →
      (∀ k, k < c.stops_.length →
        self.stop_vertices_.lookup (some k) = some (2 * k, 2 * k + 1)) →
      (∀ k ∈ ks, k < c.stops_.length) → ks.Nodup →
      (∀ (u : Nat) (p q : StopPtr), (ks.map some)[u]? = some p →
        (ks.map some)[u + 1]? = some q → c.GetDistance p q = .ok (dist p q)) →
      ∃ self', SetRouteEdges bus_name (ks.map some) self = .ok self' ∧
        self'.transport_catalogue_ = self.transport_catalogue_ ∧
        self'.settings_ = self.settings_ ∧ self'.stop_vertices_ = self.stop_vertices_ ∧
        self'.graph_.vertex_count = self.graph_.vertex_count ∧
        self'.graph_.edges_ = self.graph_.edges_ ++
          (position_pairs ks.length).map (fun p => (⟨2 * ks.getD p.1 0 + 1, 2 * ks.getD p.2 0,
            ((road_between dist (ks.map some) p.1 p.2 : Int) : ℚ) / settings.bus_velocity
              * velocity_coefficient⟩ : Edge)) ∧
        (∀ id, id < self.graph_.edges_.length →
          self'.edge_stats_.lookup id = self.edge_stats_.lookup id) ∧
        ∀ (t : Nat) (p : Nat × Nat), (position_pairs ks.length)[t]? = some p →
          self'.edge_stats_.lookup (self.graph_.edges_.length + t) =
            some (.BusRouteStat bus_name
              (((road_between dist (ks.map some) p.1 p.2 : Int) : ℚ) / settings.bus_velocity
                * velocity_coefficient) ((p.2 : Int) - (p.1 : Int))) := by
  intro ks
  induction ks with
  | nil =>
    intro self _ _ _ _ _ _ _
    exact ⟨self, by simp [SetRouteEdges], rfl, rfl, rfl, rfl, by simp [position_pairs],
      fun _ _ => rfl, fun t p hp => by simp [position_pairs] at hp⟩
  | cons x rest ih =>
    intro self hc hs hvc hlook hvalid hnodup hdist
    have hx : x < c.stops_.length := hvalid x (List.mem_cons_self _ _)
    obtain ⟨hxrest, hnodup'⟩ := List.nodup_cons.1 hnodup
    have hat : self.stop_vertices_at (some x) = .ok (2 * x, 2 * x + 1) := by
      unfold stop_vertices_at
      rw [hlook x hx]
    obtain ⟨mid, hin, m1, m2, m3, m4, medges, mkeep, mstats⟩ :=
      SetRouteEdges.inner_exact bus_name c settings dist (some x) (2 * x + 1) rest (some x) 0 0
        self hc hs hvc hlook (by omega)
        (fun k hk => ⟨hvalid k (List.mem_cons_of_mem _ hk), fun e => by
          injection e with e
          exact hxrest (e ▸ hk)⟩)
        (fun u p q hp hq => hdist u p q (by simpa using hp) (by simpa using hq))
    obtain ⟨self', hrun, f1, f2, f3, f4, hedges, hkeep, hstats⟩ := ih mid (m1.trans hc)
      (m2.trans hs) (m4.trans hvc) (fun k hk => by rw [m3]; exact hlook k hk)
      (fun k hk => hvalid k (List.mem_cons_of_mem _ hk)) hnodup'
      (fun u p q hp hq => hdist (u + 1) p q (by simpa using hp) (by simpa using hq))
    have hmlen : mid.graph_.edges_.length = self.graph_.edges_.length + rest.length := by
      rw [medges]; simp
    refine ⟨self', ?_, f1.trans m1, f2.trans m2, f3.trans m3, f4.trans m4, ?_, ?_, ?_⟩
    · rw [List.map_cons, SetRouteEdges]
      simp only [hat, hin]
      exact hrun
    · rw [hedges, medges, List.append_assoc, List.length_cons, position_pairs, List.map_append,
        List.map_map, List.map_map]
      congr 2
      · apply List.map_congr_left
        intro t _
        simp only [Function.comp, List.getD_cons_zero, List.getD_cons_succ, List.map_cons,
          time_after_eq]
      · apply List.map_congr_left
        intro p _
        simp only [Function.comp, List.getD_cons_succ, List.map_cons, road_between_cons]
    · intro id hid
      rw [hkeep id (by omega), mkeep id hid]
    · intro t p hp
      rw [List.length_cons, position_pairs] at hp
      by_cases ht : t < rest.length
      · rw [List.getElem?_append_left (by simpa using ht), List.getElem?_map,
          List.getElem?_range ht] at hp
        simp only [Option.map_some', Option.some.injEq] at hp
        subst hp
        rw [hkeep _ (by omega), mstats t ht, time_after_eq, List.map_cons]
        congr 2
        push_cast
        ring
      · rw [List.getElem?_append_right (by simpa using ht), List.length_map, List.length_range,
          List.getElem?_map] at hp
        cases hq : (position_pairs rest.length)[t - rest.length]? with
        | none => rw [hq] at hp; cases hp
        | some q =>
          rw [hq] at hp
          simp only [Option.map_some', Option.some.injEq] at hp
          subst hp
          have := hstats (t - rest.length) q hq
          rw [hmlen, show self.graph_.edges_.length + rest.length + (t - rest.length)
            = self.graph_.edges_.length + t by omega] at this
          rw [this, List.map_cons, road_between_cons]
          congr 2
          push_cast
          ring

end tc.router.TransportRouter

/-- C25 (as amended): in exact arithmetic and for a velocity that is not zero, in a state that
construction has established, `SetRouteEdges` on a range of `m` different stops of the
catalogue, for which the catalogue has the distances between consecutive stops, returns and
appends exactly `m * (m - 1) / 2` edges to the graph, one for each pair of positions `i < j`
of the range: the edge of the pair goes from the terminal vertex of the stop at `i` to the hub
vertex of the stop at `j`, its weight is the sum of the consecutive road distances from `i`
to `j` divided by the velocity and multiplied by 0.06, and its descriptor is a `BusRouteStat`
of the bus with that time and `span_count = j - i`. -/
theorem tc.router.ride_edges_of_distinct_stops (bus_name : String) (self : TransportRouter)
    (ks : List Nat) (dist : StopPtr → StopPtr → Int) (hb : TransportRouter.Built self)
    (hvel : self.settings_.bus_velocity ≠ 0)
    (hvalid : ∀ k ∈ ks, k < self.transport_catalogue_.GetAllStops.length) (hnodup : ks.Nodup)
    (hdist : ∀ (u : Nat) (p q : StopPtr), (ks.map some)[u]? = some p →
      (ks.map some)[u + 1]? = some q →
      self.transport_catalogue_.GetDistance p q = .ok (dist p q)) :
    ∃ self', TransportRouter.SetRouteEdges bus_name (ks.map some) self = .ok self' ∧
      self'.graph_.edges_ = self.graph_.edges_ ++
        (TransportRouter.position_pairs ks.length).map
          (fun p => (⟨2 * ks.getD p.1 0 + 1, 2 * ks.getD p.2 0,
            ((TransportRouter.road_between dist (ks.map some) p.1 p.2 : Int) : ℚ)
              / self.settings_.bus_velocity * 0.06⟩ : graph.Edge)) ∧
      (∀ (t : Nat) (p : Nat × Nat), (TransportRouter.position_pairs ks.length)[t]? = some p →
        self'.edge_stats_at (self.graph_.edges_.length + t) =
          .ok (.BusRouteStat bus_name
            (((TransportRouter.road_between dist (ks.map some) p.1 p.2 : Int) : ℚ)
              / self.settings_.bus_velocity * 0.06) ((p.2 : Int) - (p.1 : Int)))) ∧
      self'.graph_.edges_.length = self.graph_.edges_.length + ks.length * (ks.length - 1) / 2 ∧
      (TransportRouter.position_pairs ks.length).Nodup ∧
      ∀ i j, (i, j) ∈ TransportRouter.position_pairs ks.length ↔ i < j ∧ j < ks.length := by
  have hcoef : velocity_coefficient = 0.06 := by
    unfold velocity_coefficient
    norm_num
  have _ := hvel
  obtain ⟨self', hrun, _, _, _, _, hedges, _, hstats⟩ :=
    TransportRouter.SetRouteEdges_exact bus_name self.transport_catalogue_ self.settings_ dist
      ks self rfl rfl hb.vertex_count
      (fun k hk => by rw [hb.lookup_some k, if_pos hk]) hvalid hnodup hdist
  rw [hcoef] at hedges hstats
  refine ⟨self', hrun, hedges, ?_, ?_, TransportRouter.nodup_position_pairs _,
    TransportRouter.mem_position_pairs _⟩
  · intro t p hp
    unfold TransportRouter.edge_stats_at
    rw [hstats t p hp]
  · rw [hedges, List.length_append, List.length_map, TransportRouter.length_position_pairs]

/-- Witness of C25 (as amended): `SetRouteEdges` on the range of the three stops of
`demo_catalogue`, in the state of `demo_router`, whose velocity is 40, appends three edges;
the distances are those of the catalogue. -/
theorem tc.router.ride_edges_of_distinct_stops_witness :
    ∃ self', TransportRouter.SetRouteEdges "9" ([0, 1, 2].map some) demo_router = .ok self' ∧
      self'.graph_.edges_.length = demo_router.graph_.edges_.length + 3 * (3 - 1) / 2 ∧
      self'.edge_stats_at (demo_router.graph_.edges_.length + 1) =
        .ok (.BusRouteStat "9"
          (((TransportRouter.road_between
              (fun p q => match demo_catalogue.GetDistance p q with
                | .ok d => d
                | .error _ => 0)
              ([0, 1, 2].map some) 0 2 : Int) : ℚ)
            / demo_router.settings_.bus_velocity * 0.06) ((2 : Int) - (0 : Int))) := by
  obtain ⟨self', h1, _, h3, h4, _, _⟩ :=
    tc.router.ride_edges_of_distinct_stops "9" demo_router [0, 1, 2]
      (fun p q => match demo_catalogue.GetDistance p q with
        | .ok d => d
        | .error _ => 0)
      (TransportRouter.new_steps demo_catalogue demo_settings demo_router
        TransportRouter.demo_router_built).2.2.1
      (by with_unfolding_all decide)
      (by
        intro k hk
        have hlen : demo_router.transport_catalogue_.GetAllStops.length = 3 := by
          with_unfolding_all rfl
        rw [hlen]
        simp only [List.mem_cons, List.mem_singleton, List.not_mem_nil, or_false] at hk
        omega)
      (by decide)
      (by
        intro u p q hp hq
        match u, hp, hq with
        | 0, hp, hq =>
          simp only [List.map_cons, List.getElem?_cons_zero, List.getElem?_cons_succ,
            Option.some.injEq] at hp hq
          subst hp hq
          with_unfolding_all rfl
        | 1, hp, hq =>
          simp only [List.map_cons, List.getElem?_cons_zero, List.getElem?_cons_succ,
            Option.some.injEq] at hp hq
          subst hp hq
          with_unfolding_all rfl
        | u + 2, hp, hq => simp at hq)
  exact ⟨self', h1, h4, h3 1 (0, 2) (by decide)⟩

/-- C25 (as stated) fails for the values that the code stores.  `hop_catalogue` has three
stops with the roads of 100 and 200 metres between them, and the velocity is 30.  In exact
arithmetic the edge from the terminal vertex of the first stop to the hub vertex of the third
one has the weight `(100 + 200) / 30 * 0.06`.  With the operations of `double` the code adds
`100 / 30 * 0.06` and `200 / 30 * 0.06` up and passes 0.6000000000000001 to `AddEdge`, while
the sum of the two distances divided by the velocity and multiplied by 0.06 is the `double`
0.6, one unit in the last place below it. -/
theorem tc.router.ride_edges_of_distinct_stops_counterexample :
    hop_catalogue.GetDistance (some 0) (some 1) = .ok 100 ∧
    hop_catalogue.GetDistance (some 1) (some 2) = .ok 200 ∧
    (∃ built, TransportRouter.ConstructGraph
        { transport_catalogue_ := hop_catalogue
          settings_ := hop_settings
          graph_ := { vertex_count := 0 } } = .ok built ∧
      built.graph_.edges_[4]? = some ⟨1, 4, ((100 + 200 : Int) : ℚ) / 30 * 0.06⟩) ∧
    TransportRouter.SetRouteEdges.double_times 30 [100, 200] 0 =
      [3602879701896397 / 18014398509481984, 1351079888211149 / 2251799813685248] ∧
    double.mul (double.div ((100 + 200 : Int) : ℚ) 30) (double.div 60 1000) =
      5404319552844595 / 9007199254740992 ∧
    (1351079888211149 / 2251799813685248 : ℚ)
      = 5404319552844595 / 9007199254740992 + 1 / 9007199254740992 ∧
    (TransportRouter.SetRouteEdges.double_times 30 [100, 200] 0)[1]? ≠
      some (double.mul (double.div ((100 + 200 : Int) : ℚ) 30) (double.div 60 1000)) ∧
    (TransportRouter.SetRouteEdges.double_times 30 [100, 200] 0)[1]? ≠
      some (((100 + 200 : Int) : ℚ) / 30 * 0.06) := by
  have hcode : TransportRouter.SetRouteEdges.double_times 30 [100, 200] 0 =
      [3602879701896397 / 18014398509481984, 1351079888211149 / 2251799813685248] := by
    decide!
  have hformula : double.mul (double.div ((100 + 200 : Int) : ℚ) 30) (double.div 60 1000) =
      5404319552844595 / 9007199254740992 := by
    decide!
  refine ⟨by with_unfolding_all rfl, by with_unfolding_all rfl,
    ⟨_, by with_unfolding_all rfl, ?_⟩, hcode, hformula, by norm_num, ?_, ?_⟩
  · decide!
  · rw [hcode, hformula]
    decide!
  · rw [hcode]
    decide!

/-! ## The text of a string and its loading -/

/-- The loop of `LoadString` at the closing quote. -/
theorem json.LoadString.loop_quote (rest s : List Char) :
    LoadString.loop ('"' :: rest) s = .ok (String.mk s) rest := by
  rw [LoadString.loop.eq_def]
  simp

/-- The loop of `LoadString` at a character that is kept as it is. -/
theorem json.LoadString.loop_plain (ch : Char) (rest s : List Char)
    (h1 : ch ≠ '"') (h2 : ch ≠ '\\') (h3 : ch ≠ '\n') (h4 : ch ≠ '\r') :
    LoadString.loop (ch :: rest) s = LoadString.loop rest (s ++ [ch]) := by
  rw [LoadString.loop.eq_def]
  simp [h1, h2, h3, h4]

/-- The loop of `LoadString` at an escape sequence. -/
theorem json.LoadString.loop_escape (escaped_char : Char) (rest s : List Char) :
    LoadString.loop ('\\' :: escaped_char :: rest) s =
      if escaped_char = 'n' then LoadString.loop rest (s ++ ['\n'])
      else if escaped_char = 't' then LoadString.loop rest (s ++ ['\t'])
      else if escaped_char = 'r' then LoadString.loop rest (s ++ ['\r'])
      else if escaped_char = '"' then LoadString.loop rest (s ++ ['"'])
      else if escaped_char = '\\' then LoadString.loop rest (s ++ ['\\'])
      else .ParsingError := by
  rw [LoadString.loop.eq_def]
  simp

/-- The loop of `LoadString` reads the text of `PrintValue` for the characters of a string up
to the closing quote, and adds the characters to the ones it holds. -/
theorem json.LoadString.loop_escaped :
    ∀ (str s rest : List Char),
      LoadString.loop (PrintValue.string.loop str ++ '"' :: rest) s =
        .ok (String.mk (s ++ str)) rest := by
  intro str
  induction str with
  | nil =>
    intro s rest
    simp [PrintValue.string.loop, json.LoadString.loop_quote]
  | cons c str ih =>
    intro s rest
    have e : s ++ c :: str = (s ++ [c]) ++ str := by simp
    rw [e, ← ih (s ++ [c]) rest]
    by_cases h1 : c = '\n'
    · subst h1
      simp [PrintValue.string.loop, json.LoadString.loop_escape]
    by_cases h2 : c = '\r'
    · subst h2
      simp [PrintValue.string.loop, json.LoadString.loop_escape]
    by_cases h3 : c = '"'
    · subst h3
      simp [PrintValue.string.loop, json.LoadString.loop_escape]
    by_cases h4 : c = '\t'
    · subst h4
      simp [PrintValue.string.loop, json.LoadString.loop_escape]
    by_cases h5 : c = '\\'
    · subst h5
      simp [PrintValue.string.loop, json.LoadString.loop_escape]
    simp only [PrintValue.string.loop, h1, h2, h3, h4, h5, if_false, List.singleton_append,
      List.cons_append, List.nil_append]
    exact json.LoadString.loop_plain c _ s h3 h5 h1 h2

/-- White space at the front of the stream is skipped by `input >> c`. -/
theorem json.dropWhile_isspace_cons (c : Char) (input : List Char) (h : isspace c = false) :
    (c :: input).dropWhile isspace = c :: input := by
  simp [List.dropWhile, h]

/-- C32: for every string, `LoadString` reads the text that `PrintValue` writes for the
characters of the string, up to the closing quote, as the string again, whatever follows the
quote; and `Load` applied to the text that `Print` writes for the string node returns the
string node, with the whole text read. -/
theorem json.string_round_trip (stod : List Char → Option ℚ) (print_double : ℚ → List Char)
    (s : String) :
    (∀ rest, LoadString (PrintValue.string.loop s.data ++ '"' :: rest) = .ok s rest) ∧
      Load stod (Print print_double (.string s)) = .ok (.string s) [] := by
  have h : ∀ rest, LoadString (PrintValue.string.loop s.data ++ '"' :: rest) = .ok s rest := by
    intro rest
    unfold LoadString
    rw [json.LoadString.loop_escaped]
    rfl
  refine ⟨h, ?_⟩
  unfold Load
  have e : Print print_double (.string s) = '"' :: (PrintValue.string.loop s.data ++ ['"']) := by
    simp [Print, PrintNode, PrintValue.string]
  rw [e]
  unfold LoadNode
  rw [json.dropWhile_isspace_cons _ _ (by decide)]
  simp only [Char.reduceEq, if_false, if_true, reduceIte]
  rw [h []]

/-! ## The text of a number and its loading -/

/-- The character of a decimal digit: it is a digit, its value is the digit, and it is `0`
for the digit zero only. -/
theorem json.digitChar_spec :
    ∀ d, d < 10 →
      (isdigit (Nat.digitChar d) = true ∧ (Nat.digitChar d).toNat - 48 = d ∧
        (d ≠ 0 → Nat.digitChar d ≠ '0')) := by
  decide

/-- The value of digits and one more digit. -/
theorem json.stoi.value_concat (digits : List Char) (c : Char) :
    stoi.value (digits ++ [c]) = stoi.value digits * 10 + (c.toNat - 48) := by
  simp [stoi.value, List.foldl_append]

/-- The digits that `Nat.toDigitsCore` puts before the ones it is given: there is one at
least, their value is the number, and the first one is `0` for the number zero only. -/
theorem json.toDigitsCore_spec :
    ∀ (fuel n : Nat) (ds : List Char), n < fuel →
      ∃ pre, Nat.toDigitsCore 10 fuel n ds = pre ++ ds ∧ pre ≠ [] ∧
        (∀ c ∈ pre, isdigit c = true) ∧ stoi.value pre = n ∧
        (n ≠ 0 → pre.head? ≠ some '0') := by
  intro fuel
  induction fuel with
  | zero => intro n ds h; omega
  | succ fuel ih =>
    intro n ds h
    have hd := json.digitChar_spec (n % 10) (Nat.mod_lt _ (by decide))
    by_cases h0 : n / 10 = 0
    · refine ⟨[Nat.digitChar (n % 10)], ?_, by simp, ?_, ?_, ?_⟩
      · simp [Nat.toDigitsCore, h0]
      · intro c hc
        simp only [List.mem_singleton] at hc
        rw [hc]
        exact hd.1
      · simp only [stoi.value, List.foldl_cons, List.foldl_nil, hd.2.1]
        omega
      · intro hn
        simp only [List.head?_cons, ne_eq, Option.some.injEq]
        exact hd.2.2 (by omega)
    · obtain ⟨pre, e1, e2, e3, e4, e5⟩ :=
        ih (n / 10) (Nat.digitChar (n % 10) :: ds) (by omega)
      refine ⟨pre ++ [Nat.digitChar (n % 10)], ?_, by simp, ?_, ?_, ?_⟩
      · simp [Nat.toDigitsCore, h0, e1]
      · intro c hc
        rcases List.mem_append.1 hc with hc | hc
        · exact e3 c hc
        · simp only [List.mem_singleton] at hc
          rw [hc]
          exact hd.1
      · rw [json.stoi.value_concat, e4, hd.2.1]
        omega
      · intro _
        cases pre with
        | nil => exact absurd rfl e2
        | cons c pre => exact e5 h0

/-- The digits of `Nat.toDigits`. -/
theorem json.toDigits_spec (n : Nat) :
    Nat.toDigits 10 n ≠ [] ∧ (∀ c ∈ Nat.toDigits 10 n, isdigit c = true) ∧
      stoi.value (Nat.toDigits 10 n) = n ∧
      (n ≠ 0 → (Nat.toDigits 10 n).head? ≠ some '0') := by
  obtain ⟨pre, e1, e2, e3, e4, e5⟩ := json.toDigitsCore_spec (n + 1) n [] (by omega)
  rw [List.append_nil] at e1
  unfold Nat.toDigits
  rw [e1]
  exact ⟨e2, e3, e4, e5⟩

/-- A digit is none of the other characters that the loading functions tell apart. -/
theorem json.isdigit_ne (c : Char) (h : isdigit c = true) :
    c ≠ '-' ∧ c ≠ '.' ∧ c ≠ 'e' ∧ c ≠ 'E' ∧ isspace c = false ∧ isalpha c = false ∧
      c ≠ '[' ∧ c ≠ '{' ∧ c ≠ '"' ∧ c ≠ 't' ∧ c ≠ 'f' ∧ c ≠ 'n' ∧ c ≠ ']' ∧ c ≠ ',' ∧
      c ≠ '}' := by
  have hne : ∀ x : Char, isdigit x = false → c ≠ x := by
    intro x hx e
    rw [e, hx] at h
    cases h
  simp only [isdigit, Bool.and_eq_true, decide_eq_true_eq] at h
  refine ⟨hne _ (by decide), hne _ (by decide), hne _ (by decide), hne _ (by decide), ?_, ?_,
    hne _ (by decide), hne _ (by decide), hne _ (by decide), hne _ (by decide),
    hne _ (by decide), hne _ (by decide), hne _ (by decide), hne _ (by decide),
    hne _ (by decide)⟩
  · simp only [isspace, Bool.or_eq_false_iff, Bool.and_eq_false_iff, decide_eq_false_iff_not]
    omega
  · simp only [isalpha, Bool.or_eq_false_iff, Bool.and_eq_false_iff, decide_eq_false_iff_not]
    omega

/-- The letters at the front of a stream that goes on with a character that is no letter. -/
theorem json.takeWhile_append_stop (p : Char → Bool) (pre rest : List Char)
    (hpre : ∀ c ∈ pre, p c = true) (hrest : ∀ c ∈ rest.head?, p c = false) :
    (pre ++ rest).takeWhile p = pre ∧ (pre ++ rest).dropWhile p = rest := by
  induction pre with
  | nil =>
    cases rest with
    | nil => simp
    | cons c rest =>
      have := hrest c (by simp)
      simp [List.takeWhile, List.dropWhile, this]
  | cons c pre ih =>
    have h1 := hpre c (by simp)
    have h2 := ih (fun c hc => hpre c (by simp [hc]))
    simp [List.takeWhile, List.dropWhile, h1, h2.1, h2.2]

/-- The value that `stoi` gives to the text of an `int`. -/
theorem json.stoi_PrintValue_int (value : Int)
    (h : -2147483648 ≤ value ∧ value ≤ 2147483647) :
    stoi (PrintValue.int value) = some value := by
  obtain ⟨d1, d2, d3, d4⟩ := json.toDigits_spec value.natAbs
  unfold stoi PrintValue.int
  by_cases hneg : value < 0
  · have e : -(stoi.value (Nat.toDigits 10 value.natAbs) : Int) = value := by
      rw [d3]
      omega
    simp [hneg, e, h.1, h.2]
  · have hh : (Nat.toDigits 10 value.natAbs).head? ≠ some '-' := by
      cases hd : Nat.toDigits 10 value.natAbs with
      | nil => simp
      | cons c l =>
        have := (json.isdigit_ne c (d2 c (by simp [hd]))).1
        simpa using this
    have e : (stoi.value (Nat.toDigits 10 value.natAbs) : Int) = value := by
      rw [d3]
      omega
    simp [hneg, hh, e, h.1, h.2]

/-- The integer part of `LoadNumber` takes the digits of a number, when the stream goes on
with a character that is no digit. -/
theorem json.LoadNumber.integer_toDigits (parsed_num rest : List Char) (n : Nat)
    (hrest : ∀ c ∈ rest.head?, isdigit c = false) :
    LoadNumber.integer parsed_num (Nat.toDigits 10 n ++ rest) =
      some (parsed_num ++ Nat.toDigits 10 n, rest) := by
  obtain ⟨d1, d2, d3, d4⟩ := json.toDigits_spec n
  have htd := json.takeWhile_append_stop isdigit _ rest d2 hrest
  by_cases hn : n = 0
  · subst hn
    have e : Nat.toDigits 10 0 = ['0'] := by decide
    rw [e]
    simp [LoadNumber.integer]
  · have d5 := d4 hn
    cases hd : Nat.toDigits 10 n with
    | nil => exact absurd hd d1
    | cons c l =>
      rw [hd] at d5 htd d2
      have hc : isdigit c = true := d2 c (by simp)
      have hc0 : c ≠ '0' := by simpa using d5
      unfold LoadNumber.integer
      rw [if_neg (by simpa using hc0)]
      simp only [LoadNumber.read_digits, List.cons_append, hc, if_true]
      rw [← List.cons_append, htd.1, htd.2]

/-- `LoadNumber` reads the text of an `int` as the `int`, when the stream goes on with a
comma or a new line, or ends. -/
theorem json.LoadNumber_PrintValue_int (stod : List Char → Option ℚ) (value : Int)
    (rest : List Char) (h : -2147483648 ≤ value ∧ value ≤ 2147483647)
    (hrest : ∀ c ∈ rest.head?, c = ',' ∨ c = '\n') :
    LoadNumber stod (PrintValue.int value ++ rest) = .ok (.int value) rest := by
  obtain ⟨d1, d2, d3, d4⟩ := json.toDigits_spec value.natAbs
  have hstoi := json.stoi_PrintValue_int value h
  have hstop : ∀ c ∈ rest.head?, isdigit c = false := by
    intro c hc
    rcases hrest c hc with e | e <;> rw [e] <;> decide
  have hsign : LoadNumber.sign (PrintValue.int value ++ rest) =
      (if value < 0 then ['-'] else [], Nat.toDigits 10 value.natAbs ++ rest) := by
    unfold LoadNumber.sign PrintValue.int
    by_cases hneg : value < 0
    · simp [hneg]
    · cases hd : Nat.toDigits 10 value.natAbs with
      | nil => exact absurd hd d1
      | cons c l =>
        have := (json.isdigit_ne c (d2 c (by simp [hd]))).1
        simp [hneg, this]
  have hpn : (if value < 0 then ['-'] else []) ++ Nat.toDigits 10 value.natAbs =
      PrintValue.int value := by
    unfold PrintValue.int
    by_cases hneg : value < 0 <;> simp [hneg]
  have hfrac : ∀ pn, LoadNumber.fraction pn rest = some ((pn, rest), true) := by
    intro pn
    unfold LoadNumber.fraction
    rw [if_neg]
    intro e
    rcases hrest '.' (by simp [e]) with e | e <;> exact absurd e (by decide)
  have hexp : ∀ pn, LoadNumber.exponent pn rest true = some ((pn, rest), true) := by
    intro pn
    cases rest with
    | nil => rfl
    | cons ch rest =>
      have hch : ¬ (ch = 'e' ∨ ch = 'E') := by
        rcases hrest ch (by simp) with e | e <;> rw [e] <;> decide
      simp only [LoadNumber.exponent, hch, if_false]
  unfold LoadNumber
  rw [hsign]
  simp only [json.LoadNumber.integer_toDigits _ rest _ hstop, hfrac, hexp, hpn,
    LoadNumber.convert, if_true, hstoi]

/-! ## The text of a document and its loading -/

/-- `LoadBool` reads the text of a `bool`, when the stream goes on with a comma or a new
line, or ends. -/
theorem json.LoadBool_PrintValue_bool (value : Bool) (rest : List Char)
    (hrest : ∀ c ∈ rest.head?, c = ',' ∨ c = '\n') :
    LoadBool (PrintValue.bool value ++ rest) = .ok (.bool value) rest := by
  have hstop : ∀ c ∈ rest.head?, isalpha c = false := by
    intro c hc
    rcases hrest c hc with e | e <;> rw [e] <;> decide
  have h := json.takeWhile_append_stop isalpha (PrintValue.bool value) rest
    (by cases value <;> decide) hstop
  unfold LoadBool LoadLiteral
  simp only [h.1, h.2]
  cases value <;> simp [PrintValue.bool]

/-- `LoadNull` reads the text of a null, when the stream goes on with a comma or a new line,
or ends. -/
theorem json.LoadNull_PrintValue_nullptr (rest : List Char)
    (hrest : ∀ c ∈ rest.head?, c = ',' ∨ c = '\n') :
    LoadNull (PrintValue.nullptr ++ rest) = .ok .nullptr rest := by
  have hstop : ∀ c ∈ rest.head?, isalpha c = false := by
    intro c hc
    rcases hrest c hc with e | e <;> rw [e] <;> decide
  have h := json.takeWhile_append_stop isalpha PrintValue.nullptr rest (by decide) hstop
  unfold LoadNull LoadLiteral
  simp only [h.1, h.2]
  simp [PrintValue.nullptr]

/-- The loop of `LoadString` reads a key that is written as it is, when the key has none of
the four characters. -/
theorem json.LoadString.loop_raw :
    ∀ (key s rest : List Char),
      (∀ c ∈ key, c ≠ '"' ∧ c ≠ '\\' ∧ c ≠ '\n' ∧ c ≠ '\r') →
      LoadString.loop (key ++ '"' :: rest) s = .ok (String.mk (s ++ key)) rest := by
  intro key
  induction key with
  | nil =>
    intro s rest _
    simp [json.LoadString.loop_quote]
  | cons c key ih =>
    intro s rest h
    obtain ⟨h1, h2, h3, h4⟩ := h c (by simp)
    have e : s ++ c :: key = (s ++ [c]) ++ key := by simp
    rw [e, ← ih (s ++ [c]) rest (fun c hc => h c (by simp [hc]))]
    exact json.LoadString.loop_plain c _ s h1 h2 h3 h4

/-- The white space of an indented line is skipped by `input >> c`. -/
theorem json.dropWhile_isspace_indent (n : Nat) (input : List Char) :
    ('\n' :: List.replicate n ' ' ++ input).dropWhile isspace = input.dropWhile isspace := by
  have h : ∀ n, (List.replicate n ' ' ++ input).dropWhile isspace =
      input.dropWhile isspace := by
    intro n
    induction n with
    | zero => simp
    | succ n ih =>
      rw [List.replicate_succ, List.cons_append, List.dropWhile_cons_of_pos (by decide), ih]
  rw [List.cons_append, List.dropWhile_cons_of_pos (by decide), h]

/-- `LoadNode` skips the white space before a node. -/
theorem json.LoadNode_skip (stod : List Char → Option ℚ) (fuel : Nat) (ws input : List Char)
    (h : ws.dropWhile isspace = []) :
    LoadNode stod fuel (ws ++ input) = LoadNode stod fuel input := by
  have e : (ws ++ input).dropWhile isspace = input.dropWhile isspace := by
    induction ws with
    | nil => rfl
    | cons c ws ih =>
      by_cases hc : isspace c = true
      · rw [List.dropWhile_cons_of_pos hc] at h
        rw [List.cons_append, List.dropWhile_cons_of_pos hc, ih h]
      · rw [List.dropWhile_cons_of_neg hc] at h
        cases h
  cases fuel with
  | zero => simp [LoadNode]
  | succ fuel => simp only [LoadNode, e]

/-- A key that is greater than the keys of a map goes to the end of the map. -/
theorem json.Dict.emplace_last (dict : List (String × Node)) (key : String) (node : Node)
    (h : ∀ k ∈ dict.map Prod.fst, string_less k key = true) :
    Dict.emplace dict key node = dict ++ [(key, node)] ∧ Dict.find dict key = none := by
  induction dict with
  | nil => simp [Dict.emplace, Dict.find]
  | cons e dict ih =>
    obtain ⟨k, v⟩ := e
    have h1 : string_less k key = true := h k (by simp)
    have h2 := ih (fun k hk => h k (by simp only [List.map_cons, List.mem_cons]; exact Or.inr hk))
    simp only [string_less, decide_eq_true_eq] at h1
    have h3 : k < key := String.lt_iff_toList_lt.2 h1
    have h4 : string_less key k = false := by
      simp only [string_less, decide_eq_false_iff_not]
      exact fun h5 => lt_asymm h3 (String.lt_iff_toList_lt.2 h5)
    have h5 : key ≠ k := fun e => lt_irrefl k (e ▸ h3)
    have hb : (key == k) = false := by simpa using h5
    constructor
    · simp [Dict.emplace, h4, h5, h2.1]
    · have h6 := h2.2
      simp only [Dict.find] at h6 ⊢
      simp only [List.lookup, hb]
      exact h6

/-- The first character of the text of a node: no white space, no comma and no closing
bracket. -/
theorem json.PrintNode_head (print_double : ℚ → List Char) (node : Node) (ctx : PrintContext)
    (hplain : node.plain) :
    ∃ c text, PrintNode print_double node ctx = c :: text ∧ isspace c = false ∧ c ≠ ']' ∧
      c ≠ ',' := by
  cases node with
  | nullptr => exact ⟨'n', ['u', 'l', 'l'], rfl, by decide⟩
  | Array value => exact ⟨'[', _, rfl, by decide⟩
  | Dict value => exact ⟨'{', _, rfl, by decide⟩
  | bool value =>
    cases value
    · exact ⟨'f', ['a', 'l', 's', 'e'], rfl, by decide⟩
    · exact ⟨'t', ['r', 'u', 'e'], rfl, by decide⟩
  | int value =>
    obtain ⟨d1, d2, d3, d4⟩ := json.toDigits_spec value.natAbs
    by_cases hneg : value < 0
    · exact ⟨'-', Nat.toDigits 10 value.natAbs,
        by simp only [PrintNode, PrintValue.int, hneg, if_true], by decide⟩
    · cases hd : Nat.toDigits 10 value.natAbs with
      | nil => exact absurd hd d1
      | cons c l =>
        have hc := json.isdigit_ne c (d2 c (by simp [hd]))
        exact ⟨c, l, by simp only [PrintNode, PrintValue.int, hneg, if_false, hd],
          hc.2.2.2.2.1, hc.2.2.2.2.2.2.2.2.2.2.2.2.1, hc.2.2.2.2.2.2.2.2.2.2.2.2.2.1⟩
  | double value => simp [Node.plain] at hplain
  | string value => exact ⟨'"', _, rfl, by decide⟩

/-- What follows the text of an element in the text of a list of elements: a comma before
the next element, a new line after the last one. -/
theorem json.PrintValue.Array.items_head (print_double : ℚ → List Char) (items : List Node)
    (ctx : PrintContext) (tail : List Char) :
    ∀ c ∈ (PrintValue.Array.loop print_double items false ctx ++ '\n' :: tail).head?,
      c = ',' ∨ c = '\n' := by
  cases items with
  | nil => simp [PrintValue.Array.loop]
  | cons node items => simp [PrintValue.Array.loop]

/-- What follows the text of an entry in the text of a list of entries: a comma before the
next entry, a new line after the last one. -/
theorem json.PrintValue.Dict.entries_head (print_double : ℚ → List Char)
    (entries : List (String × Node)) (ctx : PrintContext) (tail : List Char) :
    ∀ c ∈ (PrintValue.Dict.loop print_double entries false ctx ++ '\n' :: tail).head?,
      c = ',' ∨ c = '\n' := by
  cases entries with
  | nil => simp [PrintValue.Dict.loop]
  | cons entry entries =>
    obtain ⟨key, node⟩ := entry
    simp [PrintValue.Dict.loop]

mutual
/-- `LoadNode` reads the text of a valid plain node as the node, when the stream goes on with
a comma or a new line, or ends, unless the bound on the depth of the calls is used up. -/
theorem json.LoadNode_PrintNode (stod : List Char → Option ℚ) (print_double : ℚ → List Char) :
    ∀ (node : Node) (ctx : PrintContext) (rest : List Char) (fuel : Nat),
      node.valid → node.plain → (∀ c ∈ rest.head?, c = ',' ∨ c = '\n') →
      LoadNode stod fuel (PrintNode print_double node ctx ++ rest) = .ok node rest ∨
        LoadNode stod fuel (PrintNode print_double node ctx ++ rest) = .out_of_fuel
  | _, _, _, 0, _, _, _ => Or.inr rfl
  | .nullptr, ctx, rest, fuel + 1, _, _, hrest => by
    left
    have h := json.LoadNull_PrintValue_nullptr rest hrest
    simp only [PrintNode, PrintValue.nullptr, List.cons_append, List.nil_append] at h ⊢
    simp only [LoadNode, json.dropWhile_isspace_cons 'n' _ (by decide), Char.reduceEq,
      if_false, if_true, false_or, or_self]
    exact h
  | .bool value, ctx, rest, fuel + 1, _, _, hrest => by
    left
    have h := json.LoadBool_PrintValue_bool value rest hrest
    cases value
    · simp only [PrintNode, PrintValue.bool, List.cons_append, List.nil_append,
        Bool.false_eq_true, if_false] at h ⊢
      simp only [LoadNode, json.dropWhile_isspace_cons 'f' _ (by decide), Char.reduceEq,
        if_false, if_true, false_or, or_self, or_true]
      exact h
    · simp only [PrintNode, PrintValue.bool, List.cons_append, List.nil_append,
        if_true] at h ⊢
      simp only [LoadNode, json.dropWhile_isspace_cons 't' _ (by decide), Char.reduceEq,
        if_false, if_true, false_or, or_self, true_or]
      exact h
  | .int value, ctx, rest, fuel + 1, hvalid, hplain, hrest => by
    left
    simp only [Node.valid] at hvalid
    have h := json.LoadNumber_PrintValue_int stod value rest hvalid hrest
    obtain ⟨c, text, e, h1, h2, h3⟩ := json.PrintNode_head print_double (.int value) ctx hplain
    have e1 : PrintValue.int value = c :: text := by simpa only [PrintNode] using e
    have hc : c = '-' ∨ isdigit c = true := by
      obtain ⟨d1, d2, d3, d4⟩ := json.toDigits_spec value.natAbs
      unfold PrintValue.int at e1
      by_cases hneg : value < 0
      · rw [if_pos hneg] at e1
        injection e1 with e1 _
        exact Or.inl e1.symm
      · rw [if_neg hneg] at e1
        exact Or.inr (d2 c (by rw [e1]; simp))
    have hne : c ≠ '[' ∧ c ≠ '{' ∧ c ≠ '"' ∧ c ≠ 't' ∧ c ≠ 'f' ∧ c ≠ 'n' := by
      rcases hc with hc | hc
      · rw [hc]
        decide
      · have := json.isdigit_ne c hc
        exact ⟨this.2.2.2.2.2.2.1, this.2.2.2.2.2.2.2.1, this.2.2.2.2.2.2.2.2.1,
          this.2.2.2.2.2.2.2.2.2.1, this.2.2.2.2.2.2.2.2.2.2.1, this.2.2.2.2.2.2.2.2.2.2.2.1⟩
    simp only [PrintNode]
    rw [e1] at h ⊢
    simp only [List.cons_append] at h ⊢
    simp only [LoadNode, json.dropWhile_isspace_cons c _ h1, hne, if_false, or_self]
    exact h
  | .string value, ctx, rest, fuel + 1, _, _, _ => by
    left
    simp only [PrintNode, PrintValue.string, List.cons_append, List.append_assoc,
      List.nil_append]
    simp only [LoadNode, json.dropWhile_isspace_cons '"' _ (by decide), Char.reduceEq,
      if_false, if_true, LoadString, json.LoadString.loop_escaped, List.nil_append]
  | .double value, _, _, fuel + 1, _, hplain, _ => by
    simp [Node.plain] at hplain
  | .Array value, ctx, rest, fuel + 1, hvalid, hplain, _ => by
    simp only [Node.valid] at hvalid
    simp only [Node.plain] at hplain
    have h := json.LoadArray_PrintValue stod print_double value true ctx.Indented ctx.indent
      [] rest fuel hvalid hplain
    simp only [PrintNode, PrintContext.PrintIndent, List.cons_append, List.append_assoc,
      List.nil_append]
    simp only [LoadNode, json.dropWhile_isspace_cons '[' _ (by decide), if_true]
    simpa only [List.nil_append] using h
  | .Dict value, ctx, rest, fuel + 1, hvalid, hplain, _ => by
    simp only [Node.valid] at hvalid
    simp only [Node.plain] at hplain
    have h := json.LoadDict_PrintValue stod print_double value true ctx.Indented ctx.indent
      [] rest fuel hvalid.2 hplain (by simpa only [List.nil_append] using hvalid.1)
    simp only [PrintNode, PrintContext.PrintIndent, List.cons_append, List.append_assoc,
      List.nil_append]
    simp only [LoadNode, json.dropWhile_isspace_cons '{' _ (by decide), Char.reduceEq,
      if_false, if_true]
    simpa only [List.nil_append] using h
/-- The loop of `LoadArray` reads the text of valid plain elements up to the closing bracket
and adds the elements to the ones it holds, unless the bound is used up. -/
theorem json.LoadArray_PrintValue (stod : List Char → Option ℚ)
    (print_double : ℚ → List Char) :
    ∀ (items : List Node) ( is_first : Bool) (indented : PrintContext) (n : Nat)
      (result : List Node) (rest : List Char) (fuel : Nat),
      Node.valid.items items → Node.plain.items items →
      LoadArray.loop stod fuel result
          (PrintValue.Array.loop print_double items is_first indented ++
            '\n' :: (List.replicate n ' ' ++ ']' :: rest)) =
          .ok (.Array (result ++ items)) rest ∨
        LoadArray.loop stod fuel result
          (PrintValue.Array.loop print_double items is_first indented ++
            '\n' :: (List.replicate n ' ' ++ ']' :: rest)) = .out_of_fuel
  | _, _, _, _, _, _, 0, _, _ => Or.inr rfl
  | [], is_first, indented, n, result, rest, fuel + 1, _, _ => by
    left
    simp only [PrintValue.Array.loop, List.nil_append, LoadArray.loop]
    rw [← List.cons_append, json.dropWhile_isspace_indent,
      json.dropWhile_isspace_cons ']' _ (by decide)]
    simp
  | node :: items, is_first, indented, n, result, rest, fuel + 1, hvalid, hplain => by
    simp only [Node.valid.items] at hvalid
    simp only [Node.plain.items] at hplain
    have hnode := json.LoadNode_PrintNode stod print_double node indented
      (PrintValue.Array.loop print_double items false indented ++
        '\n' :: (List.replicate n ' ' ++ ']' :: rest)) fuel hvalid.1 hplain.1
      (json.PrintValue.Array.items_head print_double items indented _)
    have hitems := json.LoadArray_PrintValue stod print_double items false indented n
      (result ++ [node]) rest fuel hvalid.2 hplain.2
    rw [List.append_assoc, List.singleton_append] at hitems
    obtain ⟨c, text, e, h1, h2, h3⟩ := json.PrintNode_head print_double node indented hplain.1
    have hload : LoadArray.loop stod (fuel + 1) result
        (PrintValue.Array.loop print_double (node :: items) is_first indented ++
          '\n' :: (List.replicate n ' ' ++ ']' :: rest)) =
        match LoadNode stod fuel (PrintNode print_double node indented ++
          (PrintValue.Array.loop print_double items false indented ++
            '\n' :: (List.replicate n ' ' ++ ']' :: rest))) with
        | .ok node input => LoadArray.loop stod fuel (result ++ [node]) input
        | .ParsingError => .ParsingError
        | .out_of_fuel => .out_of_fuel := by
      cases is_first
      · simp only [PrintValue.Array.loop, Bool.false_eq_true, if_false, List.cons_append,
          List.nil_append, List.append_assoc, PrintContext.PrintIndent, LoadArray.loop]
        rw [json.dropWhile_isspace_cons ',' _ (by decide)]
        simp only [Char.reduceEq, if_false, ne_eq, not_true_eq_false]
        rw [← List.cons_append, json.LoadNode_skip stod fuel _ _ (by
          have := json.dropWhile_isspace_indent indented.indent []
          simpa using this)]
      · simp only [PrintValue.Array.loop, if_true, List.cons_append,
          List.nil_append, List.append_assoc, PrintContext.PrintIndent, LoadArray.loop]
        rw [← List.cons_append, json.dropWhile_isspace_indent, e, List.cons_append,
          json.dropWhile_isspace_cons c _ h1]
        simp only [h2, h3, if_false, ne_eq, not_false_eq_true, if_true]
    rw [hload]
    rcases hnode with hnode | hnode
    · rw [hnode]
      exact hitems
    · rw [hnode]
      exact Or.inr rfl
/-- The loop of `LoadDict` reads the text of valid plain entries, with keys that ascend and
are greater than the ones it holds, up to the closing brace and adds the entries to the ones
it holds, unless the bound is used up. -/
theorem json.LoadDict_PrintValue (stod : List Char → Option ℚ)
    (print_double : ℚ → List Char) :
    ∀ (entries : List (String × Node)) ( is_first : Bool) (indented : PrintContext) (n : Nat)
      (dict : List (String × Node)) (rest : List Char) (fuel : Nat),
      Node.valid.entries entries → Node.plain.entries entries →
      ((dict ++ entries).map Prod.fst).Pairwise (fun lhs rhs => string_less lhs rhs = true) →
      LoadDict.loop stod fuel dict
          (PrintValue.Dict.loop print_double entries is_first indented ++
            '\n' :: (List.replicate n ' ' ++ '}' :: rest)) =
          .ok (.Dict (dict ++ entries)) rest ∨
        LoadDict.loop stod fuel dict
          (PrintValue.Dict.loop print_double entries is_first indented ++
            '\n' :: (List.replicate n ' ' ++ '}' :: rest)) = .out_of_fuel
  | _, _, _, _, _, _, 0, _, _, _ => Or.inr rfl
  | [], is_first, indented, n, dict, rest, fuel + 1, _, _, _ => by
    left
    simp only [PrintValue.Dict.loop, List.nil_append, LoadDict.loop]
    rw [← List.cons_append, json.dropWhile_isspace_indent,
      json.dropWhile_isspace_cons '}' _ (by decide)]
    simp
  | (key, node) :: entries, is_first, indented, n, dict, rest, fuel + 1, hvalid, hplain,
      hkeys => by
    simp only [Node.valid.entries] at hvalid
    simp only [Node.plain.entries] at hplain
    have hlast := json.Dict.emplace_last dict key node (by
      intro k hk
      rw [List.map_append, List.map_cons, List.pairwise_append] at hkeys
      exact hkeys.2.2 k hk key (by simp))
    have hkey := json.LoadString.loop_raw key.data [] (':' :: ' ' ::
      (PrintNode print_double node indented ++
        (PrintValue.Dict.loop print_double entries false indented ++
          '\n' :: (List.replicate n ' ' ++ '}' :: rest)))) hplain.1
    have hfirst : ∀ fuel, LoadDict.loop stod fuel dict
          (PrintValue.Dict.loop print_double ((key, node) :: entries) true indented ++
            '\n' :: (List.replicate n ' ' ++ '}' :: rest)) =
          .ok (.Dict (dict ++ (key, node) :: entries)) rest ∨
        LoadDict.loop stod fuel dict
          (PrintValue.Dict.loop print_double ((key, node) :: entries) true indented ++
            '\n' :: (List.replicate n ' ' ++ '}' :: rest)) = .out_of_fuel := by
      intro fuel
      cases fuel with
      | zero => exact Or.inr rfl
      | succ fuel =>
        have hnode := json.LoadNode_PrintNode stod print_double node indented
          (PrintValue.Dict.loop print_double entries false indented ++
            '\n' :: (List.replicate n ' ' ++ '}' :: rest)) fuel hvalid.1 hplain.2.1
          (json.PrintValue.Dict.entries_head print_double entries indented _)
        have hentries := json.LoadDict_PrintValue stod print_double entries false indented n
          (dict ++ [(key, node)]) rest fuel hvalid.2 hplain.2.2 (by
            rw [List.append_assoc, List.singleton_append]
            exact hkeys)
        rw [List.append_assoc, List.singleton_append] at hentries
        have hload : LoadDict.loop stod (fuel + 1) dict
            (PrintValue.Dict.loop print_double ((key, node) :: entries) true indented ++
              '\n' :: (List.replicate n ' ' ++ '}' :: rest)) =
            match LoadNode stod fuel (PrintNode print_double node indented ++
              (PrintValue.Dict.loop print_double entries false indented ++
                '\n' :: (List.replicate n ' ' ++ '}' :: rest))) with
            | .ok node input => LoadDict.loop stod fuel (Dict.emplace dict key node) input
            | .ParsingError => .ParsingError
            | .out_of_fuel => .out_of_fuel := by
          simp only [PrintValue.Dict.loop, if_true, List.cons_append,
            List.nil_append, List.append_assoc, PrintContext.PrintIndent, LoadDict.loop]
          rw [← List.cons_append, json.dropWhile_isspace_indent,
            json.dropWhile_isspace_cons '"' _ (by decide)]
          simp only [Char.reduceEq, if_false, if_true, LoadString]
          rw [hkey]
          simp only [List.nil_append, json.dropWhile_isspace_cons ':' _ (by decide), if_true,
            hlast.2]
          rw [← List.singleton_append, json.LoadNode_skip stod fuel [' '] _ (by decide)]
        rw [hload]
        rcases hnode with hnode | hnode
        · rw [hnode]
          simp only [hlast.1]
          exact hentries
        · rw [hnode]
          exact Or.inr rfl
    cases is_first
    · have hcomma : LoadDict.loop stod (fuel + 1) dict
          (PrintValue.Dict.loop print_double ((key, node) :: entries) false indented ++
            '\n' :: (List.replicate n ' ' ++ '}' :: rest)) =
          LoadDict.loop stod fuel dict
            (PrintValue.Dict.loop print_double ((key, node) :: entries) true indented ++
              '\n' :: (List.replicate n ' ' ++ '}' :: rest)) := by
        simp only [PrintValue.Dict.loop, Bool.false_eq_true, if_false, if_true,
          List.cons_append, List.nil_append, List.append_assoc, LoadDict.loop]
        rw [json.dropWhile_isspace_cons ',' _ (by decide)]
        simp only [Char.reduceEq, if_false, ne_eq, not_true_eq_false]
      rw [hcomma]
      exact hfirst fuel
    · exact hfirst (fuel + 1)
end

/-! ## The bound on the depth of the calls -/

/-- What `input >> c` leaves is shorter than the stream. -/
theorem json.dropWhile_length (p : Char → Bool) (input rest : List Char) (c : Char)
    (h : input.dropWhile p = c :: rest) : rest.length < input.length := by
  have h1 := (List.dropWhile_sublist p (l := input)).length_le
  rw [h, List.length_cons] at h1
  omega

/-- What the loop of `LoadString` leaves is shorter than the stream. -/
theorem json.LoadString.loop_length :
    ∀ (n : Nat) (input s : List Char) (value : String) (rest : List Char),
      input.length ≤ n → LoadString.loop input s = .ok value rest →
      rest.length < input.length := by
  intro n
  induction n with
  | zero =>
    intro input s value rest hn h
    cases input with
    | nil => rw [LoadString.loop.eq_def] at h; cases h
    | cons c input => simp at hn
  | succ n ih =>
    intro input s value rest hn h
    cases input with
    | nil => rw [LoadString.loop.eq_def] at h; cases h
    | cons ch input =>
      rw [LoadString.loop.eq_def] at h
      simp only at h
      by_cases h1 : ch = '"'
      · rw [if_pos h1] at h
        injection h with _ h
        rw [h]
        simp
      rw [if_neg h1] at h
      by_cases h2 : ch = '\\'
      · rw [if_pos h2] at h
        cases input with
        | nil => cases h
        | cons escaped_char input =>
          simp only at h
          have hlen : input.length ≤ n := by
            simp only [List.length_cons] at hn
            omega
          have := ih input
          simp only [List.length_cons]
          split_ifs at h
          · have := ih input _ value rest hlen h; omega
          · have := ih input _ value rest hlen h; omega
          · have := ih input _ value rest hlen h; omega
          · have := ih input _ value rest hlen h; omega
          · have := ih input _ value rest hlen h; omega
      rw [if_neg h2] at h
      split_ifs at h
      have hlen : input.length ≤ n := by
        simp only [List.length_cons] at hn
        omega
      have := ih input _ value rest hlen h
      simp only [List.length_cons]
      omega

/-- What `LoadBool` leaves is shorter than the stream. -/
theorem json.LoadBool_length (input : List Char) (node : Node) (rest : List Char)
    (h : LoadBool input = .ok node rest) : rest.length < input.length := by
  have e := List.takeWhile_append_dropWhile isalpha input
  have e2 : (input.takeWhile isalpha).length + (input.dropWhile isalpha).length =
      input.length := by
    rw [← List.length_append, e]
  unfold LoadBool LoadLiteral at h
  simp only at h
  split_ifs at h with h1 h2
  · injection h with _ h
    rw [h1] at e2
    rw [← h]
    simp only [List.length_cons, List.length_nil] at e2
    omega
  · injection h with _ h
    rw [h2] at e2
    rw [← h]
    simp only [List.length_cons, List.length_nil] at e2
    omega

/-- What `LoadNull` leaves is shorter than the stream. -/
theorem json.LoadNull_length (input : List Char) (node : Node) (rest : List Char)
    (h : LoadNull input = .ok node rest) : rest.length < input.length := by
  have e := List.takeWhile_append_dropWhile isalpha input
  have e2 : (input.takeWhile isalpha).length + (input.dropWhile isalpha).length =
      input.length := by
    rw [← List.length_append, e]
  unfold LoadNull LoadLiteral at h
  simp only at h
  split_ifs at h with h1
  injection h with _ h
  rw [h1] at e2
  rw [← h]
  simp only [List.length_cons, List.length_nil] at e2
  omega

/-- What `read_digits` leaves is shorter than the stream. -/
theorem json.LoadNumber.read_digits_length (parsed_num input : List Char)
    (r : List Char × List Char) (h : LoadNumber.read_digits parsed_num input = some r) :
    r.2.length < input.length := by
  cases input with
  | nil => simp [LoadNumber.read_digits] at h
  | cons c input =>
    simp only [LoadNumber.read_digits] at h
    split_ifs at h with hc
    injection h with h
    rw [← h]
    simp only [List.dropWhile_cons_of_pos hc, List.length_cons]
    have := (List.dropWhile_sublist isdigit (l := input)).length_le
    omega

/-- What `LoadNumber` leaves is shorter than the stream. -/
theorem json.LoadNumber_length (stod : List Char → Option ℚ) (input : List Char)
    (node : Node) (rest : List Char) (h : LoadNumber stod input = .ok node rest) :
    rest.length < input.length := by
  have hsign : (LoadNumber.sign input).2.length ≤ input.length := by
    unfold LoadNumber.sign
    split_ifs
    · cases input <;> simp
    · exact le_refl _
  have hint : ∀ pn i r, LoadNumber.integer pn i = some r → r.2.length < i.length := by
    intro pn i r hr
    unfold LoadNumber.integer at hr
    split_ifs at hr with h0
    · injection hr with hr
      rw [← hr]
      cases i with
      | nil => simp at h0
      | cons c i => simp
    · exact json.LoadNumber.read_digits_length pn i r hr
  have hfrac : ∀ pn i r, LoadNumber.fraction pn i = some r → r.1.2.length ≤ i.length := by
    intro pn i r hr
    unfold LoadNumber.fraction at hr
    split_ifs at hr with h0
    · cases hd : LoadNumber.read_digits (pn ++ ['.']) i.tail with
      | none => rw [hd] at hr; cases hr
      | some r1 =>
        rw [hd] at hr
        injection hr with hr
        rw [← hr]
        have := json.LoadNumber.read_digits_length _ _ r1 hd
        simp only [List.length_tail] at this
        simp only
        omega
    · injection hr with hr
      rw [← hr]
  have hexp : ∀ pn i b r, LoadNumber.exponent pn i b = some r → r.1.2.length ≤ i.length := by
    intro pn i b r hr
    cases i with
    | nil =>
      simp only [LoadNumber.exponent] at hr
      injection hr with hr
      rw [← hr]
    | cons ch i =>
      simp only [LoadNumber.exponent] at hr
      split_ifs at hr with h0
      · cases i with
        | nil => simp [LoadNumber.read_digits] at hr
        | cons sign digits =>
          simp only at hr
          split_ifs at hr with hs
          · cases hd : LoadNumber.read_digits (pn ++ [ch, sign]) digits with
            | none => rw [hd] at hr; cases hr
            | some r1 =>
              rw [hd] at hr
              injection hr with hr
              rw [← hr]
              have := json.LoadNumber.read_digits_length _ _ r1 hd
              simp only [List.length_cons]
              omega
          · cases hd : LoadNumber.read_digits (pn ++ [ch]) (sign :: digits) with
            | none => rw [hd] at hr; cases hr
            | some r1 =>
              rw [hd] at hr
              injection hr with hr
              rw [← hr]
              have := json.LoadNumber.read_digits_length _ _ r1 hd
              simp only [List.length_cons] at this ⊢
              omega
      · injection hr with hr
        rw [← hr]
  unfold LoadNumber at h
  simp only at h
  cases h1 : LoadNumber.integer (LoadNumber.sign input).1 (LoadNumber.sign input).2 with
  | none => rw [h1] at h; cases h
  | some r1 =>
    obtain ⟨pn1, i1⟩ := r1
    rw [h1] at h
    simp only at h
    have l1 := hint _ _ _ h1
    cases h2 : LoadNumber.fraction pn1 i1 with
    | none => rw [h2] at h; cases h
    | some r2 =>
      obtain ⟨⟨pn2, i2⟩, b2⟩ := r2
      rw [h2] at h
      simp only at h
      have l2 := hfrac _ _ _ h2
      cases h3 : LoadNumber.exponent pn2 i2 b2 with
      | none => rw [h3] at h; cases h
      | some r3 =>
        obtain ⟨⟨pn3, i3⟩, b3⟩ := r3
        rw [h3] at h
        simp only at h
        have l3 := hexp _ _ _ _ h3
        cases h4 : LoadNumber.convert stod pn3 b3 with
        | none => rw [h4] at h; cases h
        | some node1 =>
          rw [h4] at h
          injection h with _ h
          rw [← h]
          simp only at l1 l2 l3
          omega

/-- The loop of `LoadString` has no bound to use up. -/
theorem json.LoadString.loop_returns :
    ∀ (n : Nat) (input s : List Char), input.length ≤ n →
      LoadString.loop input s ≠ .out_of_fuel := by
  intro n
  induction n with
  | zero =>
    intro i s hi
    cases i with
    | nil => rw [LoadString.loop.eq_def]; simp
    | cons c i => simp at hi
  | succ n ihs =>
    intro i s hi
    cases i with
    | nil => rw [LoadString.loop.eq_def]; simp
    | cons ch i =>
      have hi1 : i.length ≤ n := by
        simp only [List.length_cons] at hi
        omega
      rw [LoadString.loop.eq_def]
      simp only
      split_ifs
      · simp
      · cases i with
        | nil => simp
        | cons e i =>
          have hi2 : i.length ≤ n := by
            simp only [List.length_cons] at hi1
            omega
          simp only
          split_ifs
          · exact ihs _ _ hi2
          · exact ihs _ _ hi2
          · exact ihs _ _ hi2
          · exact ihs _ _ hi2
          · exact ihs _ _ hi2
          · simp
      · simp
      · exact ihs _ _ hi1

/-- With a bound of more than twice the length of the stream, the loading functions do not
use up the bound, and what they leave is no longer than the stream: shorter, for
`LoadNode`. -/
theorem json.LoadNode_total (stod : List Char → Option ℚ) :
    ∀ fuel : Nat,
      (∀ input, 2 * input.length + 1 ≤ fuel →
        LoadNode stod fuel input ≠ .out_of_fuel ∧
          ∀ node rest, LoadNode stod fuel input = .ok node rest →
            rest.length < input.length) ∧
      (∀ result input, 2 * input.length + 2 ≤ fuel →
        LoadArray.loop stod fuel result input ≠ .out_of_fuel ∧
          ∀ node rest, LoadArray.loop stod fuel result input = .ok node rest →
            rest.length ≤ input.length) ∧
      (∀ dict input, 2 * input.length + 2 ≤ fuel →
        LoadDict.loop stod fuel dict input ≠ .out_of_fuel ∧
          ∀ node rest, LoadDict.loop stod fuel dict input = .ok node rest →
            rest.length ≤ input.length) := by
  intro fuel
  induction fuel with
  | zero =>
    refine ⟨?_, ?_, ?_⟩ <;> intros <;> omega
  | succ fuel ih =>
    obtain ⟨ihn, iha, ihd⟩ := ih
    refine ⟨?_, ?_, ?_⟩
    · intro input hlen
      simp only [LoadNode]
      cases hdw : input.dropWhile isspace with
      | nil => exact ⟨by simp, by intro node rest h; cases h⟩
      | cons c input1 =>
        have l1 := json.dropWhile_length isspace input input1 c hdw
        simp only
        split_ifs with h1 h2 h3 h4 h5
        · have := iha [] input1 (by omega)
          exact ⟨this.1, fun node rest h => by have := this.2 node rest h; omega⟩
        · have := ihd [] input1 (by omega)
          exact ⟨this.1, fun node rest h => by have := this.2 node rest h; omega⟩
        · cases hs : LoadString input1 with
          | ok s input2 =>
            have l2 := json.LoadString.loop_length _ input1 [] s input2 (le_refl _) hs
            refine ⟨by simp, ?_⟩
            intro node rest h
            injection h with _ h
            rw [← h]
            omega
          | ParsingError => exact ⟨by simp, by intro node rest h; cases h⟩
          | out_of_fuel =>
            exact absurd hs (json.LoadString.loop_returns _ input1 [] (le_refl _))
        · refine ⟨?_, ?_⟩
          · intro h
            unfold LoadBool at h
            simp only at h
            split_ifs at h
          · intro node rest h
            have := json.LoadBool_length _ node rest h
            simp only [List.length_cons] at this
            omega
        · refine ⟨?_, ?_⟩
          · intro h
            unfold LoadNull at h
            simp only at h
            split_ifs at h
          · intro node rest h
            have := json.LoadNull_length _ node rest h
            simp only [List.length_cons] at this
            omega
        · refine ⟨?_, ?_⟩
          · intro h
            unfold LoadNumber at h
            simp only at h
            split at h
            · cases h
            · split at h
              · cases h
              · split at h
                · cases h
                · split at h
                  · cases h
                  · cases h
          · intro node rest h
            have := json.LoadNumber_length stod _ node rest h
            simp only [List.length_cons] at this
            omega
    · intro result input hlen
      simp only [LoadArray.loop]
      cases hdw : input.dropWhile isspace with
      | nil => exact ⟨by simp, by intro node rest h; cases h⟩
      | cons c input1 =>
        have l1 := json.dropWhile_length isspace input input1 c hdw
        simp only
        by_cases h1 : c = ']'
        · rw [if_pos h1]
          refine ⟨by simp, ?_⟩
          intro node rest h
          injection h with _ h
          rw [← h]
          omega
        · rw [if_neg h1]
          have hx : (if c ≠ ',' then c :: input1 else input1).length ≤ input.length := by
            by_cases h2 : c ≠ ','
            · rw [if_pos h2, List.length_cons]
              omega
            · rw [if_neg h2]
              omega
          have hn := ihn (if c ≠ ',' then c :: input1 else input1) (by omega)
          cases hs : LoadNode stod fuel (if c ≠ ',' then c :: input1 else input1) with
          | ok node1 input2 =>
            have l2 := hn.2 node1 input2 hs
            have := iha (result ++ [node1]) input2 (by omega)
            exact ⟨this.1, fun node rest h => by have := this.2 node rest h; omega⟩
          | ParsingError => exact ⟨by simp, by intro node rest h; cases h⟩
          | out_of_fuel => exact absurd hs hn.1
    · intro dict input hlen
      simp only [LoadDict.loop]
      cases hdw : input.dropWhile isspace with
      | nil => exact ⟨by simp, by intro node rest h; cases h⟩
      | cons c input1 =>
        have l1 := json.dropWhile_length isspace input input1 c hdw
        simp only
        by_cases h1 : c = '}'
        · rw [if_pos h1]
          refine ⟨by simp, ?_⟩
          intro node rest h
          injection h with _ h
          rw [← h]
          omega
        rw [if_neg h1]
        by_cases h2 : c = '"'
        · rw [if_pos h2]
          cases hs : LoadString input1 with
          | ok key input2 =>
            have l2 := json.LoadString.loop_length _ input1 [] key input2 (le_refl _) hs
            simp only
            cases hdw2 : input2.dropWhile isspace with
            | nil => exact ⟨by simp, by intro node rest h; cases h⟩
            | cons c2 input3 =>
              have l3 := json.dropWhile_length isspace input2 input3 c2 hdw2
              simp only
              by_cases h4 : c2 = ':'
              · rw [if_pos h4]
                cases hf : Dict.find dict key with
                | some _ => exact ⟨by simp, by intro node rest h; cases h⟩
                | none =>
                  simp only
                  have hn := ihn input3 (by omega)
                  cases hv : LoadNode stod fuel input3 with
                  | ok node1 input4 =>
                    have l4 := hn.2 node1 input4 hv
                    have := ihd (Dict.emplace dict key node1) input4 (by omega)
                    exact ⟨this.1, fun node rest h => by have := this.2 node rest h; omega⟩
                  | ParsingError => exact ⟨by simp, by intro node rest h; cases h⟩
                  | out_of_fuel => exact absurd hv hn.1
              · rw [if_neg h4]
                exact ⟨by simp, by intro node rest h; cases h⟩
          | ParsingError => exact ⟨by simp, by intro node rest h; cases h⟩
          | out_of_fuel =>
            exact absurd hs (json.LoadString.loop_returns _ input1 [] (le_refl _))
        rw [if_neg h2]
        by_cases h3 : c ≠ ','
        · rw [if_pos h3]
          exact ⟨by simp, by intro node rest h; cases h⟩
        · rw [if_neg h3]
          have := ihd dict input1 (by omega)
          exact ⟨this.1, fun node rest h => by have := this.2 node rest h; omega⟩

/-- `Load` does not use up its bound. -/
theorem json.Load_total (stod : List Char → Option ℚ) (input : List Char) :
    Load stod input ≠ .out_of_fuel :=
  ((json.LoadNode_total stod (2 * input.length + 1)).1 input (le_refl _)).1

/-- C31: for every node without doubles whose dict keys have no double quote, backslash,
newline or carriage-return character (`plain`), with ints of 32 bits and dict keys in
ascending order as the types of the code have them (`valid`), `Load` applied to the text
that `Print` writes for the node returns the node, with the whole text read. -/
theorem json.print_load_round_trip (stod : List Char → Option ℚ)
    (print_double : ℚ → List Char) (node : Node) (hvalid : node.valid)
    (hplain : node.plain) :
    Load stod (Print print_double node) = .ok node [] := by
  have h := json.LoadNode_PrintNode stod print_double node { indent_step := 4, indent := 0 }
    [] (2 * (Print print_double node).length + 1) hvalid hplain (by simp)
  rw [List.append_nil] at h
  rcases h with h | h
  · exact h
  · exact absurd h (json.Load_total stod (Print print_double node))

/-- Witness of C31: an array with a null, a bool, the least `int`, a string with characters
that are escaped, and a dict with an empty array and a key with a tab; the text of the array
is given with it. -/
theorem json.print_load_round_trip_witness :
    (json.Node.Array [.nullptr, .bool true, .int (-2147483648), .string "a\"b\\c\n",
        .Dict [("a", .Array []), ("b\tc", .int 7)]]).valid ∧
      (json.Node.Array [.nullptr, .bool true, .int (-2147483648), .string "a\"b\\c\n",
        .Dict [("a", .Array []), ("b\tc", .int 7)]]).plain ∧
      json.Print (fun _ => [])
          (.Array [.nullptr, .bool true, .int (-2147483648), .string "a\"b\\c\n",
            .Dict [("a", .Array []), ("b\tc", .int 7)]]) =
        ("[\n    null,\n    true,\n    -2147483648,\n    \"a\\\"b\\\\c\\n\",\n    " ++
          "\x7b\n        \"a\": [\n        ],\n        \"b\tc\": 7\n    \x7d\n]").toList ∧
      json.Load (fun _ => none) (json.Print (fun _ => [])
          (.Array [.nullptr, .bool true, .int (-2147483648), .string "a\"b\\c\n",
            .Dict [("a", .Array []), ("b\tc", .int 7)]])) =
        .ok (.Array [.nullptr, .bool true, .int (-2147483648), .string "a\"b\\c\n",
          .Dict [("a", .Array []), ("b\tc", .int 7)]]) [] :=
  ⟨by simp [json.Node.valid, json.Node.valid.items, json.Node.valid.entries]; decide,
    by simp [json.Node.plain, json.Node.plain.items, json.Node.plain.entries],
    by rfl,
    json.print_load_round_trip _ _ _
      (by simp [json.Node.valid, json.Node.valid.items, json.Node.valid.entries]; decide)
      (by simp [json.Node.plain, json.Node.plain.items, json.Node.plain.entries])⟩

/-! ## An object text with a key that occurs twice -/

/-- White space at the front of the stream is skipped by `input >> c`. -/
theorem json.dropWhile_isspace_append (ws input : List Char)
    (h : ∀ c ∈ ws, isspace c = true) :
    (ws ++ input).dropWhile isspace = input.dropWhile isspace := by
  induction ws with
  | nil => rfl
  | cons c ws ih =>
    rw [List.cons_append, List.dropWhile_cons_of_pos (h c (by simp)),
      ih (fun c hc => h c (by simp [hc]))]

/-- A map has the key of an entry that `emplace` was called with, and keeps its keys. -/
theorem json.Dict.find_emplace (dict : List (String × Node)) (key : String) (node : Node) :
    Dict.find (Dict.emplace dict key node) key ≠ none ∧
      ∀ k, Dict.find dict k ≠ none → Dict.find (Dict.emplace dict key node) k ≠ none := by
  induction dict with
  | nil =>
    refine ⟨by simp [Dict.emplace, Dict.find, List.lookup], ?_⟩
    intro k hk
    simp [Dict.find, List.lookup] at hk
  | cons e dict ih =>
    obtain ⟨k0, v0⟩ := e
    simp only [Dict.emplace]
    by_cases h1 : string_less key k0 = true
    · rw [if_pos h1]
      refine ⟨by simp [Dict.find, List.lookup], ?_⟩
      intro k hk
      simp only [Dict.find] at hk ⊢
      rw [List.lookup_cons]
      cases hb : k == key with
      | true => simp
      | false => exact hk
    · rw [if_neg h1]
      by_cases h2 : key = k0
      · rw [if_pos h2]
        refine ⟨by simp [Dict.find, List.lookup, h2], fun k hk => hk⟩
      · rw [if_neg h2]
        have hb : (key == k0) = false := by simpa using h2
        refine ⟨?_, ?_⟩
        · have := ih.1
          simp only [Dict.find] at this ⊢
          simpa only [List.lookup, hb] using this
        · intro k hk
          simp only [Dict.find] at hk ⊢
          rw [List.lookup_cons] at hk ⊢
          cases hb2 : k == k0 with
          | true => simp
          | false =>
            rw [hb2] at hk
            exact ih.2 k hk

/-- The loop of `LoadDict` at a member: it throws for a key that the map has, and reads the
value and goes on with the entry in the map for a new one. -/
theorem json.LoadDict.loop_member (stod : List Char → Option ℚ) (fuel : Nat)
    (dict : List (String × Node)) (ws₁ key_text ws₂ input : List Char) (key : String)
    (h₁ : ∀ c ∈ ws₁, isspace c = true) (h₂ : ∀ c ∈ ws₂, isspace c = true)
    (hkey : ∀ input, LoadString (key_text ++ '"' :: input) = .ok key input) :
    LoadDict.loop stod (fuel + 1) dict
        (ws₁ ++ '"' :: (key_text ++ '"' :: (ws₂ ++ ':' :: input))) =
      match Dict.find dict key with
      | some _ => .ParsingError
      | none =>
        match LoadNode stod fuel input with
        | .ok node input => LoadDict.loop stod fuel (Dict.emplace dict key node) input
        | .ParsingError => .ParsingError
        | .out_of_fuel => .out_of_fuel := by
  simp only [LoadDict.loop]
  rw [json.dropWhile_isspace_append ws₁ _ h₁, json.dropWhile_isspace_cons '"' _ (by decide)]
  simp only [Char.reduceEq, if_false, if_true, hkey]
  rw [json.dropWhile_isspace_append ws₂ _ h₂, json.dropWhile_isspace_cons ':' _ (by decide)]
  simp only [if_true]

/-- The loop of `LoadDict` at a comma. -/
theorem json.LoadDict.loop_comma (stod : List Char → Option ℚ) (fuel : Nat)
    (dict : List (String × Node)) (ws input : List Char)
    (h : ∀ c ∈ ws, isspace c = true) :
    LoadDict.loop stod (fuel + 1) dict (ws ++ ',' :: input) =
      LoadDict.loop stod fuel dict input := by
  simp only [LoadDict.loop]
  rw [json.dropWhile_isspace_append ws _ h, json.dropWhile_isspace_cons ',' _ (by decide)]
  simp only [Char.reduceEq, if_false, ne_eq, not_true_eq_false]

/-- The loop of `LoadDict` returns no node for members with a key that occurs twice or that
the map has. -/
theorem json.LoadDict.loop_duplicate (stod : List Char → Option ℚ) :
    ∀ (keys : List String) (text : List Char), Members stod keys text →
      ∀ (dict : List (String × Node)) (fuel : Nat),
        (¬ keys.Nodup ∨ ∃ k ∈ keys, Dict.find dict k ≠ none) →
        LoadDict.loop stod fuel dict text = .ParsingError ∨
          LoadDict.loop stod fuel dict text = .out_of_fuel := by
  intro keys text hm
  induction hm with
  | last ws₁ key_text ws₂ value_text ws₃ rest key h₁ h₂ h₃ hkey hvalue =>
    intro dict fuel hdup
    cases fuel with
    | zero => exact Or.inr rfl
    | succ fuel =>
      rw [json.LoadDict.loop_member stod fuel dict ws₁ key_text ws₂ _ key h₁ h₂ hkey]
      cases hf : Dict.find dict key with
      | some _ => exact Or.inl rfl
      | none =>
        exfalso
        rcases hdup with hdup | ⟨k, hk, hfind⟩
        · exact hdup (List.nodup_singleton key)
        · rw [List.mem_singleton] at hk
          rw [hk] at hfind
          exact hfind hf
  | more ws₁ key_text ws₂ value_text ws₃ text key keys h₁ h₂ h₃ hkey hvalue _ ih =>
    intro dict fuel hdup
    cases fuel with
    | zero => exact Or.inr rfl
    | succ fuel =>
      rw [json.LoadDict.loop_member stod fuel dict ws₁ key_text ws₂ _ key h₁ h₂ hkey]
      cases hf : Dict.find dict key with
      | some _ => exact Or.inl rfl
      | none =>
        simp only
        cases hv : LoadNode stod fuel (value_text ++ (ws₃ ++ ',' :: text)) with
        | ParsingError => exact Or.inl rfl
        | out_of_fuel => exact Or.inr rfl
        | ok node input =>
          simp only
          rw [hvalue fuel node input hv]
          cases fuel with
          | zero => exact Or.inr rfl
          | succ fuel =>
            rw [json.LoadDict.loop_comma stod fuel _ ws₃ text h₃]
            apply ih
            have hem := json.Dict.find_emplace dict key node
            rcases hdup with hdup | ⟨k, hk, hfind⟩
            · rw [List.nodup_cons, not_and_or, not_not] at hdup
              rcases hdup with hdup | hdup
              · exact Or.inr ⟨key, hdup, hem.1⟩
              · exact Or.inl hdup
            · rcases List.mem_cons.1 hk with hk | hk
              · rw [hk] at hfind
                exact absurd hf hfind
              · exact Or.inr ⟨k, hk, hem.2 k hfind⟩

/-- C33: `Load` fails with `ParsingError` on every object text, after white space or none,
in which a key occurs twice among the keys of the members, whatever the values of the
members are: it returns no dict. -/
theorem json.duplicate_key_fails (stod : List Char → Option ℚ) (ws text : List Char)
    (keys : List String) (hws : ∀ c ∈ ws, isspace c = true) (hm : Members stod keys text)
    (hdup : ¬ keys.Nodup) :
    Load stod (ws ++ '{' :: text) = .ParsingError := by
  have htotal := json.Load_total stod (ws ++ '{' :: text)
  unfold Load at htotal ⊢
  simp only [LoadNode] at htotal ⊢
  rw [json.dropWhile_isspace_append ws _ hws,
    json.dropWhile_isspace_cons '{' _ (by decide)] at htotal ⊢
  simp only [Char.reduceEq, if_false, if_true] at htotal ⊢
  rcases json.LoadDict.loop_duplicate stod keys text hm [] _ (Or.inl hdup) with h | h
  · exact h
  · exact absurd h htotal

/-- `LoadString` reads a key that is written as it is, when the key has none of the four
characters. -/
theorem json.LoadString_raw (key : String)
    (h : ∀ c ∈ key.data, c ≠ '"' ∧ c ≠ '\\' ∧ c ≠ '\n' ∧ c ≠ '\r') (input : List Char) :
    LoadString (key.data ++ '"' :: input) = .ok key input := by
  unfold LoadString
  rw [json.LoadString.loop_raw key.data [] input h]
  rfl

/-- Witness of C33: the text `{"a": 1, "b": "x", "a": null}`, after a space; the key `a` has
the value `1` at first and the value `null` then. -/
theorem json.duplicate_key_fails_witness :
    json.Load (fun _ => none) " \x7b\"a\": 1, \"b\": \"x\" , \"a\" : null\x7d".toList =
      .ParsingError :=
  json.duplicate_key_fails (fun _ => none) [' ']
    "\"a\": 1, \"b\": \"x\" , \"a\" : null\x7d".toList ["a", "b", "a"] (by decide)
    (json.Members.more [] ['a'] [] [' ', '1'] [] " \"b\": \"x\" , \"a\" : null\x7d".toList
      "a" ["b", "a"] (by decide) (by decide) (by decide) (json.LoadString_raw "a" (by decide))
      (by
        intro fuel node input h
        cases fuel with
        | zero => cases h
        | succ fuel =>
          have e : json.LoadNode (fun _ => none) (fuel + 1)
              ([' ', '1'] ++ ([] ++ ',' :: " \"b\": \"x\" , \"a\" : null\x7d".toList)) =
              .ok (.int 1) (',' :: " \"b\": \"x\" , \"a\" : null\x7d".toList) := rfl
          rw [e] at h
          injection h with _ h
          exact h.symm)
      (json.Members.more [' '] ['b'] [] [' ', '"', 'x', '"'] [' ']
        " \"a\" : null\x7d".toList "b" ["a"] (by decide) (by decide) (by decide)
        (json.LoadString_raw "b" (by decide))
        (by
          intro fuel node input h
          cases fuel with
          | zero => cases h
          | succ fuel =>
            have e : json.LoadNode (fun _ => none) (fuel + 1)
                ([' ', '"', 'x', '"'] ++ ([' '] ++ ',' :: " \"a\" : null\x7d".toList)) =
                .ok (.string "x") (' ' :: ',' :: " \"a\" : null\x7d".toList) := rfl
            rw [e] at h
            injection h with _ h
            exact h.symm)
        (json.Members.last [' '] ['a'] [' '] [' ', 'n', 'u', 'l', 'l'] [] [] "a"
          (by decide) (by decide) (by decide) (json.LoadString_raw "a" (by decide))
          (by
            intro fuel node input h
            cases fuel with
            | zero => cases h
            | succ fuel =>
              have e : json.LoadNode (fun _ => none) (fuel + 1)
                  ([' ', 'n', 'u', 'l', 'l'] ++ ([] ++ ['}'])) = .ok .nullptr ['}'] := rfl
              rw [e] at h
              injection h with _ h
              exact h.symm))))
    (by decide)

/-! ## The buses in the answer to a request about a stop -/

/-- `operator<` of `std::string` is the strict order of the strings. -/
theorem json.string_less_iff (lhs rhs : String) :
    (json.string_less lhs rhs = true ↔ lhs < rhs) ∧
      (json.string_less rhs lhs = false ↔ lhs ≤ rhs) := by
  have h : ∀ a b : String, json.string_less a b = true ↔ a < b := by
    intro a b
    simp only [json.string_less, decide_eq_true_eq]
    exact String.lt_iff_toList_lt.symm
  refine ⟨h lhs rhs, ?_⟩
  rw [← not_lt, ← h rhs lhs]
  simp

/-- The elements of a list that satisfy a condition are the elements at the positions at
which the element satisfies the condition. -/
theorem tc.io.filter_eq_positions {α : Type} (p : α → Bool) (l : List α) :
    l.filter p =
      ((List.range l.length).filter (fun j =>
        match l[j]? with
        | some x => p x
        | none => false)).filterMap (fun j => l[j]?) := by
  induction l using List.reverseRecOn with
  | nil => rfl
  | append_singleton l a ih =>
    rw [List.length_append, List.length_singleton, List.range_succ, List.filter_append,
      List.filter_append, List.filterMap_append]
    have h1 : (List.range l.length).filter (fun j =>
          match (l ++ [a])[j]? with
          | some x => p x
          | none => false) =
        (List.range l.length).filter (fun j =>
          match l[j]? with
          | some x => p x
          | none => false) := by
      apply List.filter_congr
      intro j hj
      rw [List.getElem?_append_left (List.mem_range.1 hj)]
    have h2 : ∀ xs : List Nat, (∀ j ∈ xs, j < l.length) →
        xs.filterMap (fun j => (l ++ [a])[j]?) = xs.filterMap (fun j => l[j]?) := by
      intro xs hxs
      induction xs with
      | nil => rfl
      | cons j xs ihx =>
        have hj := hxs j (by simp)
        rw [List.filterMap_cons, List.filterMap_cons,
          ihx (fun j hj => hxs j (by simp [hj])), List.getElem?_append_left hj]
    rw [h1, h2 _ (fun j hj => List.mem_range.1 (List.mem_filter.1 hj).1), ← ih]
    congr 1
    have h3 : (l ++ [a])[l.length]? = some a := by simp
    by_cases hp : p a = true
    · simp [List.filter, h3, hp]
    · simp [List.filter, h3, hp]

/-- The buses of pointers that are addresses of buses of the catalogue. -/
theorem tc.io.dereference_spec (c : TransportCatalogue) :
    ∀ bus_ptrs : List BusPtr,
      (∀ p ∈ bus_ptrs, ∃ j bus, p = some j ∧ c.buses_[j]? = some bus) →
      dereference c bus_ptrs =
        some (bus_ptrs.filterMap (fun p => p.bind (fun j => c.buses_[j]?))) := by
  intro bus_ptrs
  induction bus_ptrs with
  | nil => intro _; rfl
  | cons p rest ih =>
    intro h
    obtain ⟨j, bus, e1, e2⟩ := h p (by simp)
    have hrest := ih (fun p hp => h p (by simp [hp]))
    subst e1
    simp [dereference, TransportCatalogue.bus_at, e2, hrest]

/-- The set of a stop holds the addresses of the buses that have the stop among their stops:
the buses of its pointers, in any order, are these buses. -/
theorem tc.io.buses_of_set (c : TransportCatalogue) (k : Nat) (buses_set : List BusPtr)
    (hnd : buses_set.Nodup)
    (hmem : ∀ b, b ∈ buses_set ↔
      ∃ j bus, b = some j ∧ c.buses_[j]? = some bus ∧ some k ∈ bus.stops) :
    (buses_set.filterMap (fun p => p.bind (fun j => c.buses_[j]?))).Perm
      (c.buses_.filter (fun bus => decide (some k ∈ bus.stops))) := by
  have hgen : ∀ q : Nat → Bool,
      (∀ j, q j = true ↔ ∃ bus, c.buses_[j]? = some bus ∧ some k ∈ bus.stops) →
      (buses_set.filterMap (fun p => p.bind (fun j => c.buses_[j]?))).Perm
        (((List.range c.buses_.length).filter q).filterMap (fun j => c.buses_[j]?)) := by
    intro q hq
    have hperm : buses_set.Perm (((List.range c.buses_.length).filter q).map some) := by
      rw [List.perm_ext_iff_of_nodup hnd
        (((List.nodup_range _).filter _).map (Option.some_injective _))]
      intro b
      rw [hmem b]
      simp only [List.mem_map, List.mem_filter, List.mem_range]
      constructor
      · rintro ⟨j, bus, e1, e2, e3⟩
        refine ⟨j, ⟨?_, (hq j).2 ⟨bus, e2, e3⟩⟩, e1.symm⟩
        by_contra hlt
        rw [List.getElem?_eq_none (by omega)] at e2
        cases e2
      · rintro ⟨j, ⟨_, e2⟩, e1⟩
        obtain ⟨bus, e3, e4⟩ := (hq j).1 e2
        exact ⟨j, bus, e1.symm, e3, e4⟩
    have h := hperm.filterMap (fun p => p.bind (fun j => c.buses_[j]?))
    rw [List.filterMap_map] at h
    exact h
  rw [tc.io.filter_eq_positions]
  apply hgen
  intro j
  cases hb : c.buses_[j]? with
  | none => simp
  | some bus => simp

/-- The names of sorted buses: none is less than one before it, and they are the names of
the buses. -/
theorem tc.io.sort_names (buses : List Bus) :
    ((std.sort (fun lhs rhs => json.string_less lhs.name rhs.name) buses).map
        Bus.name).Pairwise (fun lhs rhs => json.string_less rhs lhs = false) ∧
      ((std.sort (fun lhs rhs => json.string_less lhs.name rhs.name) buses).map
        Bus.name).Perm (buses.map Bus.name) := by
  unfold std.sort
  haveI : IsTotal Bus (fun lhs rhs => json.string_less rhs.name lhs.name = false) :=
    ⟨fun a b => by
      simp only [(json.string_less_iff _ _).2]
      exact le_total _ _⟩
  haveI : IsTrans Bus (fun lhs rhs => json.string_less rhs.name lhs.name = false) :=
    ⟨fun a b c hab hbc => by
      simp only [(json.string_less_iff _ _).2] at hab hbc ⊢
      exact le_trans hab hbc⟩
  refine ⟨?_, (List.perm_insertionSort _ buses).map _⟩
  rw [List.pairwise_map]
  exact List.sorted_insertionSort _ buses

/-- What `PrintStopStat` passes to the builder for a known stop, with an order of iteration
of the set: its names are in ascending order and are the names of the buses through the
stop. -/
theorem tc.io.PrintStopStat_spec (calls : List Call) (c : TransportCatalogue)
    (h : populate calls {} = .ok c) (iteration : List BusPtr → List BusPtr)
    (hiter : ∀ buses_set, (iteration buses_set).Perm buses_set)
    (request_dict : List (String × json.Node)) (id : Int) (name : String) (k : Nat)
    (htype : json.Dict.at request_dict "type" = some (.string "Stop"))
    (hid : json.Dict.at request_dict "id" = some (.int id))
    (hname : json.Dict.at request_dict "name" = some (.string name))
    (hstop : c.GetStop name = some k) :
    ∃ names : List String,
      PrintStopStat iteration c (.Dict request_dict) =
        some ([.StartDict, .Key "request_id", .Value (.int id), .Key "buses", .StartArray]
          ++ names.map (fun name => .Value (.string name))
          ++ [.EndArray, .EndDict, .Build]) ∧
      names.Pairwise (fun lhs rhs => json.string_less rhs lhs = false) ∧
      names.Perm
        ((c.GetAllBuses.filter (fun bus => decide (some k ∈ bus.stops))).map Bus.name) := by
  have hs := tc.populate_served calls {} c tc.TransportCatalogue.Served.empty_catalogue h
  have hn := (tc.populate_names calls {} c h (tc.NameIndex.empty_index _)
    (tc.NameIndex.empty_index _)).2.2.1
  have hk : k < c.stops_.length := by
    unfold TransportCatalogue.GetStop at hstop
    cases hl : c.stopname_to_stop_.lookup name with
    | none => rw [hl] at hstop; cases hstop
    | some p =>
      rw [hl] at hstop
      simp only at hstop
      subst hstop
      obtain ⟨k', x, e1, e2, _⟩ := hn.found name (some k) hl
      injection e1 with e1
      subst e1
      by_contra hlt
      rw [List.getElem?_eq_none (by omega)] at e2
      cases e2
  obtain ⟨buses_set, hl, hnd, hmem⟩ := hs.lookup_some k hk
  have hget : c.GetBusesAtStop (some k) = .ok buses_set := by
    unfold TransportCatalogue.GetBusesAtStop
    rw [hl]
  have hnd2 : (iteration buses_set).Nodup := (hiter buses_set).nodup_iff.2 hnd
  have hmem2 : ∀ b, b ∈ iteration buses_set ↔
      ∃ j bus, b = some j ∧ c.buses_[j]? = some bus ∧ some k ∈ bus.stops := by
    intro b
    rw [(hiter buses_set).mem_iff]
    exact hmem b
  have hderef := tc.io.dereference_spec c (iteration buses_set) (by
    intro p hp
    obtain ⟨j, bus, e1, e2, _⟩ := (hmem2 p).1 hp
    exact ⟨j, bus, e1, e2⟩)
  have hbuses := tc.io.buses_of_set c k (iteration buses_set) hnd2 hmem2
  have hsort := tc.io.sort_names
    ((iteration buses_set).filterMap (fun p => p.bind (fun j => c.buses_[j]?)))
  refine ⟨_, ?_, hsort.1, hsort.2.trans (hbuses.map _)⟩
  simp [PrintStopStat, json.Node.AsMap, htype, hid, hname, json.Node.AsString,
    json.Node.AsInt, hstop, hget, hderef]

/-- C34: for a catalogue filled by calls that return, a request about a known stop, and any
order in which the iteration goes through the set of the stop, `PrintStopStat` passes to the
builder, between `StartArray` and `EndArray`, names of which none is less than one before it
(the ascending order of `operator<`), and which are the names of the buses of the catalogue
that have the stop among their stops, one entry for every such bus; the chain of calls is
the same for every order of the iteration. -/
theorem tc.io.PrintStopStat_lists_buses (calls : List Call) (c : TransportCatalogue)
    (h : populate calls {} = .ok c) (iteration : List BusPtr → List BusPtr)
    (hiter : ∀ buses_set, (iteration buses_set).Perm buses_set)
    (request_dict : List (String × json.Node)) (id : Int) (name : String) (k : Nat)
    (htype : json.Dict.at request_dict "type" = some (.string "Stop"))
    (hid : json.Dict.at request_dict "id" = some (.int id))
    (hname : json.Dict.at request_dict "name" = some (.string name))
    (hstop : c.GetStop name = some k) :
    ∃ names : List String,
      PrintStopStat iteration c (.Dict request_dict) =
        some ([.StartDict, .Key "request_id", .Value (.int id), .Key "buses", .StartArray]
          ++ names.map (fun name => .Value (.string name))
          ++ [.EndArray, .EndDict, .Build]) ∧
      names.Pairwise (fun lhs rhs => json.string_less rhs lhs = false) ∧
      names.Perm
        ((c.GetAllBuses.filter (fun bus => decide (some k ∈ bus.stops))).map Bus.name) ∧
      ∀ other : List BusPtr → List BusPtr,
        (∀ buses_set, (other buses_set).Perm buses_set) →
        PrintStopStat other c (.Dict request_dict) =
          PrintStopStat iteration c (.Dict request_dict) := by
  obtain ⟨names, e1, e2, e3⟩ := tc.io.PrintStopStat_spec calls c h iteration hiter
    request_dict id name k htype hid hname hstop
  refine ⟨names, e1, e2, e3, ?_⟩
  intro other hother
  obtain ⟨names', e1', e2', e3'⟩ := tc.io.PrintStopStat_spec calls c h other hother
    request_dict id name k htype hid hname hstop
  have hsorted : ∀ l : List String,
      l.Pairwise (fun lhs rhs => json.string_less rhs lhs = false) →
      l.Sorted (fun lhs rhs => lhs ≤ rhs) := by
    intro l hl
    exact hl.imp (fun hab => (json.string_less_iff _ _).2.1 hab)
  have heq : names' = names :=
    List.eq_of_perm_of_sorted (e3'.trans e3.symm) (hsorted _ e2') (hsorted _ e2)
  rw [e1, e1', heq]

/-- Witness of C34: in `demo_catalogue` the buses `297` and `635` go through the first stop;
the set of the stop holds the bus `635` before the bus `297`, and the answer has `297`
before `635` for the iteration in this order and for the one in the reversed order. -/
theorem tc.io.PrintStopStat_lists_buses_witness :
    router.demo_catalogue.GetBusesAtStop (some 0) = .ok [some 1, some 0] ∧
    (∃ names : List String,
      PrintStopStat id router.demo_catalogue
          (.Dict [("id", .int 5), ("name", .string "Tolstopaltsevo"),
            ("type", .string "Stop")]) =
        some ([.StartDict, .Key "request_id", .Value (.int 5), .Key "buses", .StartArray]
          ++ names.map (fun name => .Value (.string name))
          ++ [.EndArray, .EndDict, .Build]) ∧
      names.Pairwise (fun lhs rhs => json.string_less rhs lhs = false) ∧
      names.Perm
        ((router.demo_catalogue.GetAllBuses.filter
          (fun bus => decide (some 0 ∈ bus.stops))).map Bus.name) ∧
      ∀ other : List BusPtr → List BusPtr,
        (∀ buses_set, (other buses_set).Perm buses_set) →
        PrintStopStat other router.demo_catalogue
            (.Dict [("id", .int 5), ("name", .string "Tolstopaltsevo"),
              ("type", .string "Stop")]) =
          PrintStopStat id router.demo_catalogue
            (.Dict [("id", .int 5), ("name", .string "Tolstopaltsevo"),
              ("type", .string "Stop")])) ∧
    PrintStopStat id router.demo_catalogue
        (.Dict [("id", .int 5), ("name", .string "Tolstopaltsevo"),
          ("type", .string "Stop")]) =
      some [.StartDict, .Key "request_id", .Value (.int 5), .Key "buses", .StartArray,
        .Value (.string "297"), .Value (.string "635"), .EndArray, .EndDict, .Build] ∧
    PrintStopStat List.reverse router.demo_catalogue
        (.Dict [("id", .int 5), ("name", .string "Tolstopaltsevo"),
          ("type", .string "Stop")]) =
      some [.StartDict, .Key "request_id", .Value (.int 5), .Key "buses", .StartArray,
        .Value (.string "297"), .Value (.string "635"), .EndArray, .EndDict, .Build] :=
  ⟨rfl,
    tc.io.PrintStopStat_lists_buses
      [.AddStop "Tolstopaltsevo" ⟨55611087 / 1000000, 3720829 / 100000⟩,
        .AddStop "Marushkino" ⟨55595884 / 1000000, 37209755 / 1000000⟩,
        .AddStop "Rasskazovka" ⟨55632761 / 1000000, 37333324 / 1000000⟩,
        .AddBus "297" [some 0, some 1, some 2, some 0] (some 0) true,
        .AddBus "635" [some 0, some 1, some 2, some 1, some 0] (some 2) false,
        .SetDistance (some 0) (some 1) 3900, .SetDistance (some 1) (some 2) 9900,
        .SetDistance (some 1) (some 0) 4100, .SetDistance (some 2) (some 0) 12000]
      router.demo_catalogue rfl id (fun _ => List.Perm.refl _)
      [("id", .int 5), ("name", .string "Tolstopaltsevo"), ("type", .string "Stop")]
      5 "Tolstopaltsevo" 0 rfl rfl rfl rfl,
    rfl, rfl⟩
